import Mathlib

/-!
# LuaParser / LuaTable (rts/Lua/LuaParser.cpp)

A shallow embedding of the Lua configuration loader: the `LuaParser` runtime, the
`LuaTable` views and their typed accessors, over a small model of the Lua 5.1 C API
they are written against.

Scope of the Lua model (the Lua library itself is not part of `LuaParser.cpp`; its
functions are modelled after the Lua 5.1 reference manual and `lauxlib.c`):

* numbers are finite and exact (every finite `double` is a rational, so `lua_Number`
  is `ℚ`); the conversions whose results depend on floating-point rounding or on the
  C library (`(float)x`, `strtod`, `"%.14g"`, `sscanf`) are parameters, see `NumConv`;
* a Lua string may hold NUL characters; where the loader takes the `const char*` of
  `lua_tostring` or `luaL_checkstring` into a `std::string` or formats it with `%s`,
  the text ends before the first NUL, see `cstr`; the texts the host passes in (keys,
  names, modes, the names and contents of files) are C strings and hold none;
* a table may have a metatable, and `lua_gettable` honours its `__index` field as
  `luaV_gettable` does: a stored value is returned as it is, an absent key is looked up
  along the chain of `__index` tables; a handler that is a Lua function would run Lua
  code, which the embedding does not follow (`Fault.metamethod`);
* functions, userdata and coroutines are values without inner structure.
-/

namespace Spring

/-! ## Lua values and the VM state -/

/-- The C type `lua_Number` (a `double`): finite values, kept exact. -/
abbrev lua_Number := ℚ

/-- The C type `float`, as the value a conversion from `lua_Number` produces. -/
abbrev CFloat := ℚ

/-- The Spring type `float3`: three `float` components x, y, z. -/
abbrev float3 := CFloat × CFloat × CFloat

/-- A Lua value; tables live in the heap of the VM and are named by their address. -/
inductive LuaValue where
  | nil
  | boolean (b : Bool)
  | number (n : lua_Number)
  | string (s : String)
  | table (addr : Nat)
  | func (id : Nat)
  | userdata (id : Nat)
  | thread (id : Nat)
  deriving DecidableEq

/-- The content of a table: its entries in the order in which `lua_next` visits them.
A well-formed table has pairwise different non-nil keys and non-nil values. -/
abbrev TableObj := List (LuaValue × LuaValue)

/-- Conversions between numbers and text (and the narrowing to `float`) that the Lua
library and the C library perform and `LuaParser.cpp` relies on:
`str2d` is `luaO_str2d` (the string-to-number coercion behind `lua_isnumber` and
`lua_tonumber`), `number2str` is `lua_number2str` (the `"%.14g"` formatting behind
`lua_tostring`), `toFloat` is the C cast `(float)x`, and `sscanf3` is
`sscanf(s, "%f %f %f", ...)`, giving the three values when it returns 3. -/
structure NumConv where
  str2d : String → Option lua_Number
  number2str : lua_Number → String
  toFloat : lua_Number → CFloat
  sscanf3 : String → Option float3

/-- Things the embedding reports rather than giving them a meaning: what ends the
program instead of returning, and what leaves the modelled part of Lua. -/
inductive Fault where
  /-- a NULL `LuaParser*` or `lua_State*` is dereferenced -/
  | nullPointer
  /-- a `lua_State*` is used after `lua_close` -/
  | danglingPointer
  /-- a Lua error is raised outside a protected call, or the API is misused -/
  | luaError
  /-- a `double` outside the range of `int` is cast to `int` -/
  | undefinedCast
  /-- an `assert` fails -/
  | assertion
  /-- a lookup reaches an `__index` handler that is a Lua function, or the `__index` of
  a string or userdata: Lua code or library state outside the embedding decides -/
  | metamethod
  deriving DecidableEq

/-- A `lua_State`: the evaluation stack (top of the stack first), the tables, the
registry (`LUA_REGISTRYINDEX`) and the globals (`LUA_GLOBALSINDEX`).
`resolved` is a ghost field: the indices passed to `lua_rawgeti` on the registry so
far, latest first. `metatables` pairs the address of a table that has a metatable
with the address of that metatable; a freshly opened VM has none. -/
structure lua_State where
  stack : List LuaValue
  heap : List TableObj
  registry : TableObj
  globals : TableObj
  resolved : List Int
  metatables : List (Nat × Nat) := []
  deriving DecidableEq

/-- The constant `LUA_NOREF` of lauxlib.h. -/
def LUA_NOREF : Int := -2

/-- The constant `LUA_REFNIL` of lauxlib.h. -/
def LUA_REFNIL : Int := -1

/-- The constant `FREELIST_REF` of lauxlib.c. -/
def FREELIST_REF : Int := 0

/-- Raw table read: the value stored under `k`, nil when there is none. -/
def rawget (t : TableObj) (k : LuaValue) : LuaValue :=
  match t.find? (fun e => e.1 = k) with
  | some e => e.2
  | none => LuaValue.nil

/-- Raw table write `t[k] = v`: storing nil removes the entry, an existing entry is
overwritten in place, a new one is added. -/
def rawset (t : TableObj) (k v : LuaValue) : TableObj :=
  if v = LuaValue.nil then t.filter (fun e => e.1 ≠ k)
  else if t.any (fun e => e.1 = k) then t.map (fun e => if e.1 = k then (k, v) else e)
  else t ++ [(k, v)]

/-- The table stored at a heap address. -/
def lua_State.tableAt (L : lua_State) (addr : Nat) : TableObj :=
  (L.heap.get? addr).getD []

/-- The value at a stack index (`index2adr`): positive indices count from the bottom,
negative ones from the top; `none` when the index is not valid. -/
def lua_State.index (L : lua_State) (idx : Int) : Option LuaValue :=
  if 0 < idx then
    if idx.toNat ≤ L.stack.length then L.stack.get? (L.stack.length - idx.toNat) else none
  else if idx < 0 then L.stack.get? ((-idx).toNat - 1)
  else none

def lua_gettop (L : lua_State) : Int := L.stack.length

/-- The call `lua_settop(L, n)` for `n ≥ 0`. -/
def lua_settop (L : lua_State) (n : Nat) : lua_State :=
  { L with stack :=
      if n ≤ L.stack.length then L.stack.drop (L.stack.length - n)
      else List.replicate (n - L.stack.length) LuaValue.nil ++ L.stack }

def lua_pop (L : lua_State) (n : Nat) : lua_State :=
  { L with stack := L.stack.drop n }

def lua_push (L : lua_State) (v : LuaValue) : lua_State :=
  { L with stack := v :: L.stack }

def lua_pushnil (L : lua_State) : lua_State := lua_push L LuaValue.nil

def lua_pushnumber (L : lua_State) (n : lua_Number) : lua_State := lua_push L (LuaValue.number n)

def lua_pushstring (L : lua_State) (s : String) : lua_State := lua_push L (LuaValue.string s)

def lua_pushboolean (L : lua_State) (b : Bool) : lua_State := lua_push L (LuaValue.boolean b)

def lua_pushcfunction (L : lua_State) (f : Nat) : lua_State := lua_push L (LuaValue.func f)

/-- The call `lua_pushvalue(L, idx)`; an invalid index pushes nil. -/
def lua_pushvalue (L : lua_State) (idx : Int) : lua_State :=
  lua_push L ((L.index idx).getD LuaValue.nil)

def lua_istable (L : lua_State) (idx : Int) : Bool :=
  match L.index idx with
  | some (LuaValue.table _) => true
  | _ => false

def lua_isboolean (L : lua_State) (idx : Int) : Bool :=
  match L.index idx with
  | some (LuaValue.boolean _) => true
  | _ => false

def lua_isfunction (L : lua_State) (idx : Int) : Bool :=
  match L.index idx with
  | some (LuaValue.func _) => true
  | _ => false

def lua_isnoneornil (L : lua_State) (idx : Int) : Bool :=
  match L.index idx with
  | none => true
  | some LuaValue.nil => true
  | _ => false

/-- Modelled from the spec: the helper `lua_israwnumber` of the Spring Lua headers,
which are not part of the excerpt; it tests for the raw numeric kind, never coerced
(`lua_type(L, idx) == LUA_TNUMBER`). -/
def lua_israwnumber (L : lua_State) (idx : Int) : Bool :=
  match L.index idx with
  | some (LuaValue.number _) => true
  | _ => false

/-- Modelled from the spec: the helper `lua_israwstring` of the Spring Lua headers,
which are not part of the excerpt; it tests for the raw string kind, never coerced
(`lua_type(L, idx) == LUA_TSTRING`). -/
def lua_israwstring (L : lua_State) (idx : Int) : Bool :=
  match L.index idx with
  | some (LuaValue.string _) => true
  | _ => false

/-- The value-level part of `lua_tonumber` (`luaV_tonumber`): a number is itself, a
string is converted with `luaO_str2d`, nothing else converts. -/
def tonumber (cv : NumConv) : LuaValue → Option lua_Number
  | LuaValue.number n => some n
  | LuaValue.string s => cv.str2d s
  | _ => none

/-- The value-level part of `lua_tostring`: a string is itself, a number is
formatted, nothing else converts. -/
def tostring (cv : NumConv) : LuaValue → Option String
  | LuaValue.string s => some s
  | LuaValue.number n => some (cv.number2str n)
  | _ => none

/-- The call `lua_isnumber`: true for a number and for a string convertible to one. -/
def lua_isnumber (cv : NumConv) (L : lua_State) (idx : Int) : Bool :=
  match L.index idx with
  | some v => (tonumber cv v).isSome
  | none => false

/-- The call `lua_tonumber`: 0 when the value does not convert. -/
def lua_tonumber (cv : NumConv) (L : lua_State) (idx : Int) : lua_Number :=
  match L.index idx with
  | some v => (tonumber cv v).getD 0
  | none => 0

/-- The call `lua_isstring`: true for a string and for a number. -/
def lua_isstring (L : lua_State) (idx : Int) : Bool :=
  match L.index idx with
  | some (LuaValue.string _) => true
  | some (LuaValue.number _) => true
  | _ => false

def lua_toboolean (L : lua_State) (idx : Int) : Bool :=
  match L.index idx with
  | none => false
  | some LuaValue.nil => false
  | some (LuaValue.boolean b) => b
  | _ => true

/-- Overwrites the stack slot at a valid index. -/
def lua_State.setIndex (L : lua_State) (idx : Int) (v : LuaValue) : lua_State :=
  if 0 < idx then { L with stack := L.stack.set (L.stack.length - idx.toNat) v }
  else { L with stack := L.stack.set ((-idx).toNat - 1) v }

/-- The call `lua_tostring`: the text of a string or number (`none` is the NULL
result), and the state, in which a number at that index has been replaced by its
text. -/
def lua_tostring (cv : NumConv) (L : lua_State) (idx : Int) : Option String × lua_State :=
  match L.index idx with
  | some (LuaValue.string s) => (some s, L)
  | some (LuaValue.number n) =>
      (some (cv.number2str n), L.setIndex idx (LuaValue.string (cv.number2str n)))
  | _ => (none, L)

/-- The metatable of the table at an address, when it has one. -/
def lua_State.metatable (L : lua_State) (addr : Nat) : Option Nat :=
  L.metatables.lookup addr

/-- The `__index` metamethod of the table at an address
(`fasttm(L, h->metatable, TM_INDEX)`): nil when the table has no metatable or its
metatable has no such field. -/
def lua_State.indexEvent (L : lua_State) (addr : Nat) : LuaValue :=
  match L.metatable addr with
  | some m => rawget (L.tableAt m) (LuaValue.string "__index")
  | none => LuaValue.nil

/-- The constant `MAXTAGLOOP` of lvm.c. -/
def MAXTAGLOOP : Nat := 100

/-- The function `luaV_gettable` of lvm.c, with the number of rounds of its loop that
are left. For a table the stored value is the result when it is not nil or when the
table has no `__index` metamethod; for a value that is not a table and has no
metatable (nil, a boolean, a number, a function, a coroutine; the debug library is
not opened) indexing is a type error. A metamethod that is a function is called: the
embedding follows neither that call nor the metatables of strings and of userdata,
and reports `Fault.metamethod` there. Any other metamethod is indexed in turn.
Running out of rounds is the error "loop in gettable". -/
def luaV_gettable (L : lua_State) : Nat → LuaValue → LuaValue → Except Fault LuaValue
  | 0, _, _ => Except.error Fault.luaError
  | loop + 1, LuaValue.table a, key =>
      if rawget (L.tableAt a) key ≠ LuaValue.nil then Except.ok (rawget (L.tableAt a) key)
      else
        match L.indexEvent a with
        | LuaValue.nil => Except.ok LuaValue.nil
        | LuaValue.func _ => Except.error Fault.metamethod
        | tm => luaV_gettable L loop tm key
  | _ + 1, LuaValue.string _, _ => Except.error Fault.metamethod
  | _ + 1, LuaValue.userdata _, _ => Except.error Fault.metamethod
  | _ + 1, _, _ => Except.error Fault.luaError

/-- The call `lua_gettable(L, idx)`: pops the key and pushes the value that indexing
the value at `idx` with it gives (`luaV_gettable`); a Lua error raised on the way is
raised outside a protected call. -/
def lua_gettable (L : lua_State) (idx : Int) : Except Fault lua_State :=
  match L.index idx, L.stack with
  | some t, k :: rest => do
      let v ← luaV_gettable L MAXTAGLOOP t k
      pure { L with stack := v :: rest }
  | _, _ => Except.error Fault.luaError

/-- The call `lua_rawgeti(L, LUA_REGISTRYINDEX, n)`. -/
def lua_rawgeti_registry (L : lua_State) (n : Int) : lua_State :=
  { L with stack := rawget L.registry (LuaValue.number n) :: L.stack,
           resolved := n :: L.resolved }

/-- The call `lua_newtable`: a fresh empty table is pushed. -/
def lua_newtable (L : lua_State) : lua_State :=
  { L with stack := LuaValue.table L.heap.length :: L.stack, heap := L.heap ++ [[]] }

/-- Truncation toward zero, the value of a C cast from `double` to an integer type. -/
def truncate (x : lua_Number) : Int := Int.tdiv x.num x.den

/-- The value-level part of `lua_tointeger`: 0 when the value does not convert. -/
def tointeger (cv : NumConv) (v : LuaValue) : Int :=
  match tonumber cv v with
  | some n => truncate n
  | none => 0

/-- The call `lua_objlen` on a table: a border, that is an `n` with `t[n+1]` nil and
`t[n]` not nil or `n = 0`; the least one (Lua may return any border when there are
several). -/
def objlen (t : TableObj) : Nat :=
  let border (n : Nat) : Bool :=
    rawget t (LuaValue.number ((Int.ofNat n + 1 : Int) : lua_Number)) = LuaValue.nil
  ((List.range (t.length + 1)).find? border).getD t.length

/-- The call `luaL_ref(L, LUA_REGISTRYINDEX)` of lauxlib.c: pops the value on top of
the stack and stores it in the registry under a reference taken from the free list
(headed by the entry `FREELIST_REF`) or, when that is empty, one past the length. -/
def luaL_ref (cv : NumConv) (L : lua_State) : Except Fault (Int × lua_State) :=
  match L.stack with
  | [] => Except.error Fault.luaError
  | v :: rest =>
    if v = LuaValue.nil then Except.ok (LUA_REFNIL, { L with stack := rest })
    else
      let ref := tointeger cv (rawget L.registry (LuaValue.number FREELIST_REF))
      if ref ≠ 0 then
        let reg := rawset L.registry (LuaValue.number FREELIST_REF)
          (rawget L.registry (LuaValue.number ref))
        Except.ok (ref, { L with stack := rest, registry := rawset reg (LuaValue.number ref) v })
      else
        let ref : Int := (objlen L.registry : Int) + 1
        Except.ok (ref,
          { L with stack := rest, registry := rawset L.registry (LuaValue.number ref) v })

/-- The call `luaL_unref(L, LUA_REGISTRYINDEX, ref)` of lauxlib.c: a reference
`ref ≥ 0` is put at the head of the free list. -/
def luaL_unref (L : lua_State) (ref : Int) : lua_State :=
  if 0 ≤ ref then
    let reg := rawset L.registry (LuaValue.number ref)
      (rawget L.registry (LuaValue.number FREELIST_REF))
    { L with registry := rawset reg (LuaValue.number FREELIST_REF) (LuaValue.number ref) }
  else L

/-- The call `lua_rawset(L, idx)` on a stack index: `t[k] = v` for the table at `idx`,
the key at -2 and the value at -1, which are popped. A nil key is an error. -/
def lua_rawset (L : lua_State) (idx : Int) : Except Fault lua_State :=
  match L.index idx, L.stack with
  | some (LuaValue.table a), v :: k :: rest =>
      if k = LuaValue.nil then Except.error Fault.luaError
      else Except.ok { L with stack := rest, heap := L.heap.set a (rawset (L.tableAt a) k v) }
  | _, _ => Except.error Fault.luaError

/-- The call `lua_rawset(L, LUA_GLOBALSINDEX)`. -/
def lua_rawset_globals (L : lua_State) : Except Fault lua_State :=
  match L.stack with
  | v :: k :: rest =>
      if k = LuaValue.nil then Except.error Fault.luaError
      else Except.ok { L with stack := rest, globals := rawset L.globals k v }
  | _ => Except.error Fault.luaError

/-- The call `lua_setglobal(L, name)`: pops a value and stores it in the globals. -/
def lua_setglobal (L : lua_State) (name : String) : Except Fault lua_State :=
  match L.stack with
  | v :: rest =>
      Except.ok { L with stack := rest, globals := rawset L.globals (LuaValue.string name) v }
  | [] => Except.error Fault.luaError

/-- The call `lua_getglobal(L, name)`. -/
def lua_getglobal (L : lua_State) (name : String) : lua_State :=
  lua_push L (rawget L.globals (LuaValue.string name))

/-- The results of a call as `lua_pcall` leaves them for `nresults` expected results:
cut or padded with nil to that number, the last one on top. -/
def adjustResults (values : List LuaValue) (nresults : Nat) : List LuaValue :=
  ((values ++ List.replicate (nresults - values.length) LuaValue.nil).take nresults).reverse

/-! ## Utilities of the host -/

/-- Modelled from the spec: `StringToLower` of System/Util.h, which is not part of the
excerpt; it normalizes a string to lower case (`tolower` on every character). -/
def StringToLower (s : String) : String := ⟨s.data.map Char.toLower⟩

/-- The `std::string` constructed from a `const char*` that points to the characters
of `s`, as in `const string value = lua_tostring(L, -1)`: the text before the first
NUL character. -/
def cstr (s : String) : String := ⟨s.data.takeWhile (fun c => c ≠ Char.ofNat 0)⟩

/-- The C cast `(int)x` of a `double`: truncation toward zero, undefined when the
result is not an `int`. -/
def double2int (x : lua_Number) : Except Fault Int :=
  if -2147483648 ≤ truncate x ∧ truncate x ≤ 2147483647 then Except.ok (truncate x)
  else Except.error Fault.undefinedCast

/-- A lookup key of the accessors, which come in two overloads: `int` and
`const string&`. -/
inductive Key where
  | int (i : Int)
  | str (s : String)
  deriving DecidableEq

/-- The key as pushed before `lua_gettable`: `lua_pushnumber(L, key)` for an `int`,
`lua_pushstring(L, StringToLower(mixedKey).c_str())` for a string. -/
def pushKey (L : lua_State) : Key → lua_State
  | Key.int i => lua_pushnumber L i
  | Key.str s => lua_pushstring L (StringToLower s)

/-- The text appended to the diagnostic path by `SubTable`: `"[%i]"` for an `int`,
`"." + key` for a string. -/
def keyPath : Key → String
  | Key.int i => "[" ++ toString i ++ "]"
  | Key.str s => "." ++ StringToLower s

/-! ## LuaParser and LuaTable -/

/-- The class `LuaParser`; `L` is `none` for the NULL handle, and the VM lives and
dies with it (`lua_open` / `lua_close`). `tables` holds the addresses of the
registered `LuaTable` objects. -/
structure LuaParser where
  fileName : String
  fileModes : String
  accessModes : String
  valid : Bool
  initDepth : Int
  rootRef : Int
  currentRef : Int
  L : Option lua_State
  errorLog : String
  tables : List Nat
  accessedFiles : List String
  deriving DecidableEq

/-- The class `LuaTable`; `parser` and `L` are pointers (`none` is NULL), the first to
the parser the operations below are given, the second to that parser's VM. -/
structure LuaTable where
  isValid : Bool
  path : String
  parser : Option Nat
  L : Option Nat
  refnum : Int
  deriving DecidableEq

/-- Dereferences the `parser` pointer of a view. -/
def LuaTable.derefParser (t : LuaTable) : Except Fault Unit :=
  match t.parser with
  | some _ => Except.ok ()
  | none => Except.error Fault.nullPointer

/-- Dereferences the `L` pointer of a view: the VM of the parser, when it is still
open. -/
def LuaTable.vm (t : LuaTable) (p : LuaParser) : Except Fault lua_State :=
  match t.L, p.L with
  | none, _ => Except.error Fault.nullPointer
  | some _, none => Except.error Fault.danglingPointer
  | some _, some L => Except.ok L

def LuaParser.AddTable (p : LuaParser) (tbl : Nat) : LuaParser :=
  { p with tables := if tbl ∈ p.tables then p.tables else tbl :: p.tables }

def LuaParser.RemoveTable (p : LuaParser) (tbl : Nat) : LuaParser :=
  { p with tables := p.tables.filter (fun a => a ≠ tbl) }

/-- The default constructor `LuaTable::LuaTable()`. -/
def LuaTable.new : LuaTable :=
  { isValid := false, path := "", parser := none, L := none, refnum := LUA_NOREF }

/-- The method `LuaTable::PushTable`; the result carries the view (whose `isValid` is
mutable) and the parser. -/
def LuaTable.PushTable (t : LuaTable) (p : LuaParser) :
    Except Fault (Bool × LuaTable × LuaParser) :=
  if t.isValid = false then Except.ok (false, t, p)
  else do
    let hit ← (if t.refnum ≠ LUA_NOREF then do
        t.derefParser
        pure (decide (p.currentRef = t.refnum))
      else pure false)
    let L ← t.vm p
    if hit = true then
      if lua_istable L (-1) = false then do
        t.derefParser
        pure (false, t, { p with currentRef := LUA_NOREF, L := some (lua_settop L 0) })
      else pure (true, t, p)
    else
      let L := lua_rawgeti_registry (lua_settop L 0) t.refnum
      if lua_istable L (-1) = false then do
        t.derefParser
        pure (false, { t with isValid := false },
          { p with currentRef := LUA_NOREF, L := some (lua_settop L 0) })
      else do
        t.derefParser
        pure (true, t, { p with currentRef := t.refnum, L := some L })

/-- The methods `LuaTable::PushValue(int)` and `LuaTable::PushValue(const string&)`. -/
def LuaTable.PushValue (t : LuaTable) (p : LuaParser) (key : Key) :
    Except Fault (Bool × LuaTable × LuaParser) := do
  let r ← t.PushTable p
  if r.1 = false then pure (false, r.2.1, r.2.2)
  else
    let L ← r.2.1.vm r.2.2
    let L ← lua_gettable (pushKey L key) (-2)
    if lua_isnoneornil L (-1) = true then
      pure (false, r.2.1, { r.2.2 with L := some (lua_pop L 1) })
    else pure (true, r.2.1, { r.2.2 with L := some L })

/-- The methods `LuaTable::KeyExists(int)` and `LuaTable::KeyExists(const string&)`. -/
def LuaTable.KeyExists (t : LuaTable) (p : LuaParser) (key : Key) :
    Except Fault (Bool × LuaTable × LuaParser) := do
  let r ← t.PushValue p key
  if r.1 = false then pure (false, r.2.1, r.2.2)
  else
    let L ← r.2.1.vm r.2.2
    pure (true, r.2.1, { r.2.2 with L := some (lua_pop L 1) })

/-- The methods `LuaTable::SubTable(int)` and `LuaTable::SubTable(const string&)`.
`self` is the address of the returned object, under which it is registered with the
parser. The result is the sub-table view, this view and the parser. -/
def LuaTable.SubTable (cv : NumConv) (t : LuaTable) (p : LuaParser) (key : Key) (self : Nat) :
    Except Fault (LuaTable × LuaTable × LuaParser) := do
  let subTable : LuaTable := { LuaTable.new with path := t.path ++ keyPath key }
  let r ← t.PushTable p
  if r.1 = false then pure (subTable, r.2.1, r.2.2)
  else
    let L ← r.2.1.vm r.2.2
    let L ← lua_gettable (pushKey L key) (-2)
    if lua_istable L (-1) = false then
      pure (subTable, r.2.1, { r.2.2 with L := some (lua_pop L 1) })
    else
      let ref ← luaL_ref cv L
      r.2.1.derefParser
      pure ({ subTable with
                parser := r.2.1.parser, L := r.2.1.L, refnum := ref.1,
                isValid := decide (ref.1 ≠ LUA_NOREF) },
            r.2.1, { r.2.2 with L := some ref.2 }.AddTable self)

/-- The loop `for (lua_pushnil(L); lua_next(L, table) != 0; lua_pop(L, 1)) body`:
`lua_next` visits every entry of the table at index `table` once, and the body runs
with the key at index -2 and the value at index -1; what the body leaves on the stack
above the key is popped, so only the accumulated result is kept. Iterating over a
value that is not a table is an error. -/
def forEachEntry {σ : Type} (L : lua_State) (table : Int)
    (body : lua_State → σ → Except Fault σ) (init : σ) : Except Fault σ :=
  match L.index table with
  | some (LuaValue.table a) =>
      (L.tableAt a).foldlM (fun acc e => body { L with stack := e.2 :: e.1 :: L.stack } acc) init
  | _ => Except.error Fault.luaError

/-- The call `std::sort(data.begin(), data.end())` on a `vector<int>`. -/
def sortInts (data : List Int) : List Int := data.insertionSort (fun a b => a ≤ b)

/-- The call `std::sort(data.begin(), data.end())` on a `vector<string>`: the order of
`std::string` is the lexicographic order of the characters. -/
def sortStrings (data : List String) : List String :=
  data.insertionSort (fun a b => a.data ≤ b.data)

/-- The method `LuaTable::GetKeys(vector<int>&)`. -/
def LuaTable.GetKeysInt (cv : NumConv) (t : LuaTable) (p : LuaParser) (data : List Int) :
    Except Fault (Bool × List Int × LuaTable × LuaParser) := do
  let r ← t.PushTable p
  if r.1 = false then pure (false, data, r.2.1, r.2.2)
  else
    let L ← r.2.1.vm r.2.2
    let table := lua_gettop L
    let data ← forEachEntry L table (fun L data =>
      if lua_israwnumber L (-2) = true then do
        let value ← double2int (lua_tonumber cv L (-2))
        pure (data ++ [value])
      else pure data) data
    pure (true, sortInts data, r.2.1, r.2.2)

/-- The method `LuaTable::GetKeys(vector<string>&)`. -/
def LuaTable.GetKeysString (cv : NumConv) (t : LuaTable) (p : LuaParser) (data : List String) :
    Except Fault (Bool × List String × LuaTable × LuaParser) := do
  let r ← t.PushTable p
  if r.1 = false then pure (false, data, r.2.1, r.2.2)
  else
    let L ← r.2.1.vm r.2.2
    let table := lua_gettop L
    let data ← forEachEntry L table (fun L data =>
      if lua_israwstring L (-2) = true then
        match (lua_tostring cv L (-2)).1 with
        | some value => pure (data ++ [cstr value])
        | none => Except.error Fault.nullPointer
      else pure data) data
    pure (true, sortStrings data, r.2.1, r.2.2)

/-- A `std::map<K, V>`, as the partial function from keys to values it represents. -/
abbrev StdMap (K V : Type) := K → Option V

/-- The assignment `data[key] = value` on a `std::map`. -/
def StdMap.assign {K V : Type} [DecidableEq K] (data : StdMap K V) (key : K) (value : V) :
    StdMap K V :=
  fun k => if k = key then some value else data k

/-- The method `LuaTable::GetMap(map<int, float>&)`. -/
def LuaTable.GetMapIntFloat (cv : NumConv) (t : LuaTable) (p : LuaParser)
    (data : StdMap Int CFloat) : Except Fault (Bool × StdMap Int CFloat × LuaTable × LuaParser) := do
  let r ← t.PushTable p
  if r.1 = false then pure (false, data, r.2.1, r.2.2)
  else
    let L ← r.2.1.vm r.2.2
    let table := lua_gettop L
    let data ← forEachEntry L table (fun L data =>
      if (lua_israwnumber L (-2) && lua_isnumber cv L (-1)) = true then do
        let key ← double2int (lua_tonumber cv L (-2))
        let value := cv.toFloat (lua_tonumber cv L (-1))
        pure (data.assign key value)
      else pure data) data
    pure (true, data, r.2.1, r.2.2)

/-- The method `LuaTable::GetMap(map<int, string>&)`. -/
def LuaTable.GetMapIntString (cv : NumConv) (t : LuaTable) (p : LuaParser)
    (data : StdMap Int String) : Except Fault (Bool × StdMap Int String × LuaTable × LuaParser) := do
  let r ← t.PushTable p
  if r.1 = false then pure (false, data, r.2.1, r.2.2)
  else
    let L ← r.2.1.vm r.2.2
    let table := lua_gettop L
    let data ← forEachEntry L table (fun L data =>
      if (lua_israwnumber L (-2) && lua_isstring L (-1)) = true then do
        let key ← double2int (lua_tonumber cv L (-2))
        match (lua_tostring cv L (-1)).1 with
        | some value => pure (data.assign key (cstr value))
        | none => Except.error Fault.nullPointer
      else pure data) data
    pure (true, data, r.2.1, r.2.2)

/-- The method `LuaTable::GetMap(map<string, float>&)`. -/
def LuaTable.GetMapStringFloat (cv : NumConv) (t : LuaTable) (p : LuaParser)
    (data : StdMap String CFloat) :
    Except Fault (Bool × StdMap String CFloat × LuaTable × LuaParser) := do
  let r ← t.PushTable p
  if r.1 = false then pure (false, data, r.2.1, r.2.2)
  else
    let L ← r.2.1.vm r.2.2
    let table := lua_gettop L
    let data ← forEachEntry L table (fun L data =>
      if (lua_israwstring L (-2) && lua_isnumber cv L (-1)) = true then
        match (lua_tostring cv L (-2)).1 with
        | some key => pure (data.assign (cstr key) (cv.toFloat (lua_tonumber cv L (-1))))
        | none => Except.error Fault.nullPointer
      else pure data) data
    pure (true, data, r.2.1, r.2.2)

/-- The method `LuaTable::GetMap(map<string, string>&)`. -/
def LuaTable.GetMapStringString (cv : NumConv) (t : LuaTable) (p : LuaParser)
    (data : StdMap String String) :
    Except Fault (Bool × StdMap String String × LuaTable × LuaParser) := do
  let r ← t.PushTable p
  if r.1 = false then pure (false, data, r.2.1, r.2.2)
  else
    let L ← r.2.1.vm r.2.2
    let table := lua_gettop L
    let data ← forEachEntry L table (fun L data =>
      if (lua_israwstring L (-2) && lua_isstring L (-1)) = true then
        match (lua_tostring cv L (-2)).1, (lua_tostring cv L (-1)).1 with
        | some key, some value => pure (data.assign (cstr key) (cstr value))
        | _, _ => Except.error Fault.nullPointer
      else pure data) data
    pure (true, data, r.2.1, r.2.2)

/-! ### Parsing utilities -/

/-- The function `ParseTableFloat`; the `float& value` is the optional result, present
when the function returns true. -/
def ParseTableFloat (cv : NumConv) (L : lua_State) (tableIndex : Int) (index : Int) :
    Except Fault (Option CFloat × lua_State) := do
  let L ← lua_gettable (lua_pushnumber L index) tableIndex
  if lua_isnumber cv L (-1) = false then pure (none, lua_pop L 1)
  else pure (some (cv.toFloat (lua_tonumber cv L (-1))), lua_pop L 1)

/-- The function `ParseFloat3`; the `float3& value` is the optional result, present
when the function returns true. -/
def ParseFloat3 (cv : NumConv) (L : lua_State) (index : Int) :
    Except Fault (Option float3 × lua_State) :=
  if lua_istable L index = true then do
    let table : Int := if 0 < index then index else lua_gettop L + index + 1
    let x ← ParseTableFloat cv L table 1
    match x.1 with
    | none => pure (none, x.2)
    | some vx =>
      let y ← ParseTableFloat cv x.2 table 2
      match y.1 with
      | none => pure (none, y.2)
      | some vy =>
        let z ← ParseTableFloat cv y.2 table 3
        match z.1 with
        | none => pure (none, z.2)
        | some vz => pure (some (vx, vy, vz), z.2)
  else if lua_isstring L index = true then
    match lua_tostring cv L index with
    | (some s, L) => pure (cv.sscanf3 s, L)
    | (none, _) => Except.error Fault.nullPointer
  else pure (none, L)

/-- The function `ParseBoolean`; the `bool& value` is the optional result, present
when the function returns true. -/
def ParseBoolean (cv : NumConv) (L : lua_State) (index : Int) :
    Except Fault (Option Bool × lua_State) :=
  if lua_isboolean L index = true then pure (some (lua_toboolean L index), L)
  else if lua_isnumber cv L index = true then
    pure (some (decide (cv.toFloat (lua_tonumber cv L index) ≠ 0)), L)
  else if lua_isstring L index = true then
    match lua_tostring cv L index with
    | (some s, L) =>
      let str := StringToLower (cstr s)
      if str = "1" ∨ str = "true" then pure (some true, L)
      else if str = "0" ∨ str = "false" then pure (some false, L)
      else pure (none, L)
    | (none, _) => Except.error Fault.nullPointer
  else pure (none, L)

/-! ### Typed accessors (string key and number key overloads) -/

/-- The methods `LuaTable::GetInt(const string&, int)` and `LuaTable::GetInt(int, int)`. -/
def LuaTable.GetInt (cv : NumConv) (t : LuaTable) (p : LuaParser) (key : Key) (d : Int) :
    Except Fault (Int × LuaTable × LuaParser) := do
  let r ← t.PushValue p key
  if r.1 = false then pure (d, r.2.1, r.2.2)
  else
    let L ← r.2.1.vm r.2.2
    if lua_isnumber cv L (-1) = false then pure (d, r.2.1, { r.2.2 with L := some (lua_pop L 1) })
    else
      let value ← double2int (lua_tonumber cv L (-1))
      pure (value, r.2.1, { r.2.2 with L := some (lua_pop L 1) })

/-- The methods `LuaTable::GetBool(const string&, bool)` and
`LuaTable::GetBool(int, bool)`. -/
def LuaTable.GetBool (cv : NumConv) (t : LuaTable) (p : LuaParser) (key : Key) (d : Bool) :
    Except Fault (Bool × LuaTable × LuaParser) := do
  let r ← t.PushValue p key
  if r.1 = false then pure (d, r.2.1, r.2.2)
  else
    let L ← r.2.1.vm r.2.2
    let value ← ParseBoolean cv L (-1)
    match value.1 with
    | none => pure (d, r.2.1, { r.2.2 with L := some (lua_pop value.2 1) })
    | some b => pure (b, r.2.1, { r.2.2 with L := some (lua_pop value.2 1) })

/-- The methods `LuaTable::GetFloat(const string&, float)` and
`LuaTable::GetFloat(int, float)`. -/
def LuaTable.GetFloat (cv : NumConv) (t : LuaTable) (p : LuaParser) (key : Key) (d : CFloat) :
    Except Fault (CFloat × LuaTable × LuaParser) := do
  let r ← t.PushValue p key
  if r.1 = false then pure (d, r.2.1, r.2.2)
  else
    let L ← r.2.1.vm r.2.2
    if lua_isnumber cv L (-1) = false then pure (d, r.2.1, { r.2.2 with L := some (lua_pop L 1) })
    else
      pure (cv.toFloat (lua_tonumber cv L (-1)), r.2.1, { r.2.2 with L := some (lua_pop L 1) })

/-- The methods `LuaTable::GetFloat3(const string&, const float3&)` and
`LuaTable::GetFloat3(int, const float3&)`. -/
def LuaTable.GetFloat3 (cv : NumConv) (t : LuaTable) (p : LuaParser) (key : Key) (d : float3) :
    Except Fault (float3 × LuaTable × LuaParser) := do
  let r ← t.PushValue p key
  if r.1 = false then pure (d, r.2.1, r.2.2)
  else
    let L ← r.2.1.vm r.2.2
    let value ← ParseFloat3 cv L (-1)
    match value.1 with
    | none => pure (d, r.2.1, { r.2.2 with L := some (lua_pop value.2 1) })
    | some v => pure (v, r.2.1, { r.2.2 with L := some (lua_pop value.2 1) })

/-- The methods `LuaTable::GetString(const string&, const string&)` and
`LuaTable::GetString(int, const string&)`. -/
def LuaTable.GetString (cv : NumConv) (t : LuaTable) (p : LuaParser) (key : Key) (d : String) :
    Except Fault (String × LuaTable × LuaParser) := do
  let r ← t.PushValue p key
  if r.1 = false then pure (d, r.2.1, r.2.2)
  else
    let L ← r.2.1.vm r.2.2
    if lua_isstring L (-1) = false then pure (d, r.2.1, { r.2.2 with L := some (lua_pop L 1) })
    else
      match lua_tostring cv L (-1) with
      | (some value, L) => pure (cstr value, r.2.1, { r.2.2 with L := some (lua_pop L 1) })
      | (none, _) => Except.error Fault.nullPointer

/-! ### The runtime -/

/-- The content the standard libraries install: the globals of `luaopen_base` and the
entries of the tables `math`, `table` and `string`. -/
structure StdLibs where
  base : TableObj
  math : TableObj
  table : TableObj
  string : TableObj

/-- What running a compiled chunk with `lua_pcall` does, as far as the loader can
see it: the error object when the run raised an error, the returned values
otherwise, the tables and globals it leaves, the accessed-file set of the parser
after the callouts it made, and the metatables it leaves (`setmetatable` is among the
base functions; a script that sets none leaves none). -/
structure ScriptOutcome where
  error : Option LuaValue
  values : List LuaValue
  heap : List TableObj
  globals : TableObj
  accessedFiles : List String
  metatables : List (Nat × Nat) := []

/-- The collaborators of `LuaParser::Execute`: the conversions, the file handler
(`CFileHandler::LoadStringData`, by file name and modes), the standard libraries, the
compiler (`luaL_loadbuffer`, by source text and chunk name, giving a function or a
message) and the run of a compiled chunk, given the value of `currentParser` and the
parser at the time of the call. -/
structure Env where
  cv : NumConv
  loadStringData : String → String → Option String
  libs : StdLibs
  loadbuffer : String → String → Except String Nat
  run : Nat → Option Nat → LuaParser → ScriptOutcome

/-- The call `LUA_OPEN_LIB(L, luaopen_base)`: the base functions become globals. -/
def luaopen_base (libs : StdLibs) (L : lua_State) : lua_State :=
  { L with globals := libs.base.foldl (fun g e => rawset g e.1 e.2) L.globals }

/-- The call `LUA_OPEN_LIB(L, lib)` for a library that registers a table of functions
under a global name. -/
def luaopen_table (name : String) (entries : TableObj) (L : lua_State) : lua_State :=
  { L with heap := L.heap ++ [entries],
           globals := rawset L.globals (LuaValue.string name) (LuaValue.table L.heap.length) }

/-- The function `SetupStdLibs`. -/
def SetupStdLibs (libs : StdLibs) (L : lua_State) : Except Fault lua_State := do
  let L := luaopen_base libs L
  let L := luaopen_table "math" libs.math L
  let L := luaopen_table "table" libs.table L
  let L := luaopen_table "string" libs.string L
  let L ← lua_setglobal (lua_pushnil L) "dofile"
  let L ← lua_setglobal (lua_pushnil L) "loadfile"
  let L ← lua_setglobal (lua_pushnil L) "loadlib"
  let L ← lua_setglobal (lua_pushnil L) "require"
  let L ← lua_setglobal (lua_pushnil L) "gcinfo"
  let L ← lua_setglobal (lua_pushnil L) "collectgarbage"
  let L := lua_getglobal L "math"
  let L ← lua_rawset (lua_pushnil (lua_pushstring L "random")) (-3)
  let L ← lua_rawset (lua_pushnil (lua_pushstring L "randomseed")) (-3)
  pure (lua_pop L 1)

/-- The method `LuaParser::PushParam`. -/
def LuaParser.PushParam (p : LuaParser) : Except Fault LuaParser :=
  match p.L with
  | none => pure p
  | some L =>
    if 0 < p.initDepth then do
      let L ← lua_rawset L (-3)
      pure { p with L := some L }
    else do
      let L ← lua_rawset_globals L
      pure { p with L := some L }

/-- The methods `LuaParser::NewTable(const string&)` and `LuaParser::NewTable(int)`. -/
def LuaParser.NewTable (p : LuaParser) (name : Key) : LuaParser :=
  match p.L with
  | none => p
  | some L =>
    let L := match name with
      | Key.str s => lua_pushstring L s
      | Key.int i => lua_pushnumber L i
    { p with L := some (lua_newtable L), initDepth := p.initDepth + 1 }

/-- The method `LuaParser::EndTable`. -/
def LuaParser.EndTable (p : LuaParser) : Except Fault LuaParser :=
  match p.L with
  | none => pure p
  | some _ =>
    if 0 < p.initDepth then { p with initDepth := p.initDepth - 1 }.PushParam
    else Except.error Fault.assertion

/-- The key as pushed by the builder: `lua_pushstring(L, key.c_str())` or
`lua_pushnumber(L, key)`. -/
def pushBuilderKey (L : lua_State) : Key → lua_State
  | Key.str s => lua_pushstring L s
  | Key.int i => lua_pushnumber L i

/-- The methods `LuaParser::AddFunc(const string&, func)` and
`LuaParser::AddFunc(int, func)`; `none` is the NULL function pointer. -/
def LuaParser.AddFunc (p : LuaParser) (key : Key) (func : Option Nat) : Except Fault LuaParser :=
  match p.L, func with
  | none, _ => pure p
  | some _, none => pure p
  | some L, some f =>
      { p with L := some (lua_pushcfunction (pushBuilderKey L key) f) }.PushParam

/-- The methods `LuaParser::AddParam`, for a key of either kind and a value that is a
string, a `float`, an `int` or a `bool`, given as the Lua value that is pushed for
it. -/
def LuaParser.AddParam (p : LuaParser) (key : Key) (value : LuaValue) : Except Fault LuaParser :=
  match p.L with
  | none => pure p
  | some L => { p with L := some (lua_push (pushBuilderKey L key) value) }.PushParam

/-- The C functions bound by `Execute`, as function values. -/
def cfEcho : Nat := 1
def cfTimeCheck : Nat := 2
def cfDirList : Nat := 3
def cfInclude : Nat := 4
def cfLoadFile : Nat := 5
def cfFileExists : Nat := 6

/-- The constructor `LuaParser::LuaParser`; `L` is the result of `lua_open()`. -/
def LuaParser.new (fileName fileModes accessModes : String) (L : Option lua_State) : LuaParser :=
  { fileName := fileName, fileModes := fileModes, accessModes := accessModes,
    valid := false, initDepth := 0, rootRef := LUA_NOREF, currentRef := LUA_NOREF,
    L := L, errorLog := "", tables := [], accessedFiles := [] }

/-- The part of `LuaParser::Execute` from `SetupStdLibs` to the last `EndTable`. -/
def LuaParser.setupCallOuts (libs : StdLibs) (p : LuaParser) (L : lua_State) :
    Except Fault LuaParser := do
  let L ← SetupStdLibs libs L
  let p := { p with L := some L }
  let p := p.NewTable (Key.str "Spring")
  let p ← p.AddFunc (Key.str "Echo") (some cfEcho)
  let p ← p.AddFunc (Key.str "TimeCheck") (some cfTimeCheck)
  let p ← p.EndTable
  let p := p.NewTable (Key.str "VFS")
  let p ← p.AddFunc (Key.str "DirList") (some cfDirList)
  let p ← p.AddFunc (Key.str "Include") (some cfInclude)
  let p ← p.AddFunc (Key.str "LoadFile") (some cfLoadFile)
  let p ← p.AddFunc (Key.str "FileExists") (some cfFileExists)
  p.EndTable

/-- The assignment `errorLog = lua_tostring(L, -1)` followed by `lua_close(L);
L = NULL; return false`. Building a `std::string` from the NULL that `lua_tostring`
gives for a value that is neither string nor number is a fault. -/
def LuaParser.failWithTop (cv : NumConv) (p : LuaParser) (L : lua_State) :
    Except Fault LuaParser :=
  match (lua_tostring cv L (-1)).1 with
  | some msg => pure { p with errorLog := cstr msg, L := none }
  | none => Except.error Fault.nullPointer

/-- The method `LuaParser::Execute`. `this` is the address of the parser and
`currentParser` the static member of that name; the result is the returned flag, the
parser and `currentParser`. -/
def LuaParser.Execute (env : Env) (this : Nat) (p : LuaParser) (currentParser : Option Nat) :
    Except Fault (Bool × LuaParser × Option Nat) :=
  match p.L with
  | none => pure (false, { p with errorLog := "could not initialize LUA library" }, currentParser)
  | some L =>
    if p.initDepth ≠ 0 then Except.error Fault.assertion
    else
      match env.loadStringData p.fileName p.fileModes with
      | none =>
          pure (false, { p with errorLog := "could not open file: " ++ p.fileName, L := none },
            currentParser)
      | some code => do
        let p ← p.setupCallOuts env.libs L
        match p.L, env.loadbuffer code p.fileName with
        | none, _ => Except.error Fault.nullPointer
        | some L, Except.error msg => do
            let p ← p.failWithTop env.cv (lua_pushstring L msg)
            pure (false, p, currentParser)
        | some L, Except.ok chunk =>
            let L := lua_pushcfunction L chunk
            let out := env.run chunk (some this) { p with L := some L }
            let p := { p with accessedFiles := out.accessedFiles }
            let L := { L with heap := out.heap, globals := out.globals,
                              metatables := out.metatables }
            match out.error with
            | some msg => do
                let p ← p.failWithTop env.cv { L with stack := msg :: L.stack.drop 1 }
                pure (false, p, none)
            | none =>
              let L := { L with stack := adjustResults out.values 1 ++ L.stack.drop 1 }
              if lua_istable L 1 = false then
                pure (false,
                  { p with errorLog := "missing return table from " ++ p.fileName ++ "\n",
                           L := none }, none)
              else do
                let ref ← luaL_ref env.cv L
                pure (true, { p with rootRef := ref.1, L := some (lua_settop ref.2 0),
                                     valid := true }, none)

/-- The constructor `LuaTable::LuaTable(LuaParser*)`, for a parser that is not NULL;
`self` is the address of the new object and `this` the address of the parser. -/
def LuaTable.ofParser (cv : NumConv) (self : Nat) (this : Nat) (p : LuaParser) :
    Except Fault (LuaTable × LuaParser) := do
  let t : LuaTable :=
    { isValid := true, path := "ROOT", parser := some this,
      L := p.L.map (fun _ => this), refnum := p.rootRef }
  let r ← t.PushTable p
  if r.1 = true then do
    let L ← r.2.1.vm r.2.2
    let ref ← luaL_ref cv (lua_pushvalue L (-1))
    pure ({ r.2.1 with refnum := ref.1, isValid := decide (ref.1 ≠ LUA_NOREF) },
      { r.2.2 with L := some ref.2 }.AddTable self)
  else
    pure ({ r.2.1 with refnum := LUA_NOREF, isValid := false }, r.2.2.AddTable self)

/-- The method `LuaParser::GetRoot`. -/
def LuaParser.GetRoot (cv : NumConv) (self : Nat) (this : Nat) (p : LuaParser) :
    Except Fault (LuaTable × LuaParser) :=
  LuaTable.ofParser cv self this p


/-! ### The call-outs of the `VFS` table

The four C functions `Execute` binds in the table `VFS`. `CFileHandler`, the compiler
and the run of an included chunk are collaborators (see `CallEnv`); texts are
sequences of `char`, so the characters of a `String` stand for the bytes of a
`std::string` (ASCII). -/

/-- A request to the file system made through `CFileHandler`: constructing a handler
for a file, which looks the file up, reading the content of a file, and listing a
directory. -/
inductive FsOp where
  | handler (name modes : String)
  | read (name modes : String)
  | list (dir pat modes : String)
  deriving DecidableEq

/-- What `lua_pcall(L, 0, LUA_MULTRET, 0)` on an included chunk does, as far as
`Include` can see it: the status (0 without error), the error object, the returned
values, the tables and globals it leaves, the accessed-file set and the requests
to the file system after the call-outs the chunk made, and the metatables it
leaves. -/
structure ChunkOutcome where
  status : Int
  error : LuaValue
  values : List LuaValue
  heap : List TableObj
  globals : TableObj
  accessedFiles : List String
  log : List FsOp
  metatables : List (Nat × Nat) := []

/-- The collaborators of the call-outs: the conversions, the error object of
`luaL_argerror` for an argument number, `CFileHandler::AllowModes`, the file handler
(`FileExists` and `LoadStringData` of a handler constructed for a name and modes),
`CFileHandler::DirList`, the compiler (`luaL_loadbuffer`, by source text and chunk
name, giving a function or a status and a message) and the run of a compiled chunk,
given its environment table (`none` for the environment of the calling function),
the value of `currentParser`, the parser and the requests made so far. -/
structure CallEnv where
  cv : NumConv
  argError : Int → LuaValue
  allowModes : String → String → String
  fileExists : String → String → Bool
  loadStringData : String → String → Option String
  dirList : String → String → String → List String
  loadbuffer : String → String → Except (Int × String) Nat
  run : Nat → Option LuaValue → Option Nat → LuaParser → List FsOp → ChunkOutcome

/-- How a C function called from Lua ends: it returns values (the first result
first), or it raises a Lua error (`lua_error`, `luaL_error`) with an error object. -/
inductive CResult where
  | values (vs : List LuaValue)
  | error (e : LuaValue)
  deriving DecidableEq

/-- The state a call-out leaves: how it ended, the VM, the parser `currentParser`
points to and the requests made to the file system so far (latest first). -/
structure CallOut where
  result : CResult
  L : lua_State
  parser : LuaParser
  log : List FsOp
  deriving DecidableEq

/-- The call `luaL_checkstring(L, narg)`, as the `const string` that every call-out
initialises with its result: the text of a string or number argument up to its first
NUL character; any other argument is an argument error. -/
def luaL_checkstring (ce : CallEnv) (L : lua_State) (narg : Int) :
    Except LuaValue (String × lua_State) :=
  match lua_tostring ce.cv L narg with
  | (some s, L) => Except.ok (cstr s, L)
  | (none, _) => Except.error (ce.argError narg)

/-- The call `luaL_optstring(L, narg, d)`: `d` for an absent or nil argument. -/
def luaL_optstring (ce : CallEnv) (L : lua_State) (narg : Int) (d : String) :
    Except LuaValue (String × lua_State) :=
  if lua_isnoneornil L narg = true then Except.ok (d, L) else luaL_checkstring ce L narg

/-- The result of `SNPRINTF(buf, sizeof(buf), ...)` into `char buf[1024]`: at most
1023 characters of the formatted text. -/
def snprintf1024 (text : String) : String := ⟨text.data.take 1023⟩

/-- The expression `accessedFiles.insert(name)` on the `set<string>`. -/
def StdSet.insert (files : List String) (name : String) : List String :=
  if name ∈ files then files else name :: files

/-- The test of `DirList` on its directory: `(dir[0] == '/') || (dir[0] == '\\') ||
((dir.size() >= 2) && (dir[1] == ':'))`; `dir[0]` of an empty string is the NUL
character. -/
def leavesSpringDir (dir : String) : Bool :=
  dir.data.getD 0 (Char.ofNat 0) = '/' || dir.data.getD 0 (Char.ofNat 0) = Char.ofNat 92 ||
    (decide (2 ≤ dir.data.length) && dir.data.getD 1 (Char.ofNat 0) = ':')

/-- The loop of `DirList` that stores the file names under 1, 2, ... in the table at
index -1; the result is the VM and the count. -/
def storeFiles (L : lua_State) (count : Int) : List String → Except Fault (lua_State × Int)
  | [] => pure (L, count)
  | f :: files => do
      let count := count + 1
      let L ← lua_rawset (lua_pushstring (lua_pushnumber L count) f) (-3)
      storeFiles L count files

/-- The call-out `LuaParser::DirList`, called with its arguments on the stack of
`L`. -/
def LuaParser.DirList (ce : CallEnv) (currentParser : Option Nat) (p : LuaParser)
    (L : lua_State) (log : List FsOp) : Except Fault CallOut :=
  match currentParser with
  | none =>
      pure ⟨CResult.error (LuaValue.string "invalid call to DirList() after execution"),
        L, p, log⟩
  | some _ =>
    match luaL_checkstring ce L 1 with
    | Except.error e => pure ⟨CResult.error e, L, p, log⟩
    | Except.ok (dir, L) =>
      if leavesSpringDir dir = true then pure ⟨CResult.values [], L, p, log⟩
      else
        match luaL_optstring ce L 2 "*" with
        | Except.error e => pure ⟨CResult.error e, L, p, log⟩
        | Except.ok (pat, L) =>
          match luaL_optstring ce L 3 p.accessModes with
          | Except.error e => pure ⟨CResult.error e, L, p, log⟩
          | Except.ok (modes, L) => do
            let modes := ce.allowModes modes p.accessModes
            let files := ce.dirList dir pat modes
            let log := FsOp.list dir pat modes :: log
            let r ← storeFiles (lua_newtable L) 0 files
            let L ← lua_rawset (lua_pushnumber (lua_pushstring r.1 "n") r.2) (-3)
            pure ⟨CResult.values (L.stack.take 1), L, p, log⟩

/-- The call-out `LuaParser::Include`. `lua_setfenv` on the compiled chunk succeeds,
and the chunk runs in the table given as second argument or else in the environment
of the calling function; formatting the NULL that `lua_tostring` gives for an error
object that is neither string nor number is a fault, and `%s` formats the text of a
message up to its first NUL character. -/
def LuaParser.Include (ce : CallEnv) (currentParser : Option Nat) (p : LuaParser)
    (L : lua_State) (log : List FsOp) : Except Fault CallOut :=
  match currentParser with
  | none =>
      pure ⟨CResult.error (LuaValue.string "invalid call to Include() after execution"),
        L, p, log⟩
  | some cur =>
    match luaL_checkstring ce L 1 with
    | Except.error e => pure ⟨CResult.error e, L, p, log⟩
    | Except.ok (filename, L) =>
      match luaL_optstring ce L 3 p.accessModes with
      | Except.error e => pure ⟨CResult.error e, L, p, log⟩
      | Except.ok (modes, L) =>
        let modes := ce.allowModes modes p.accessModes
        let log := FsOp.handler filename modes :: log
        if ce.fileExists filename modes = false then
          pure ⟨CResult.error (LuaValue.string
              (snprintf1024 ("Include() file missing '" ++ filename ++ "'\n"))), L, p, log⟩
        else
          let log := FsOp.read filename modes :: log
          match ce.loadStringData filename modes with
          | none =>
              pure ⟨CResult.error (LuaValue.string
                (snprintf1024 ("Include() could not load '" ++ filename ++ "'\n"))), L, p, log⟩
          | some code =>
            match ce.loadbuffer code filename with
            | Except.error (error, msg) =>
                pure ⟨CResult.error (LuaValue.string (snprintf1024
                  ("error = " ++ toString error ++ ", " ++ filename ++ ", " ++ cstr msg
                    ++ "\n"))),
                  lua_pushstring L msg, p, log⟩
            | Except.ok chunk =>
              let fenv := if lua_istable L 2 = true then L.index 2 else none
              let L := lua_pushcfunction L chunk
              let out := ce.run chunk fenv (some cur) { p with L := some L } log
              let p := { p with accessedFiles := out.accessedFiles }
              let L := { L with heap := out.heap, globals := out.globals,
                                metatables := out.metatables }
              if out.status ≠ 0 then
                match tostring ce.cv out.error with
                | none => Except.error Fault.nullPointer
                | some msg =>
                    pure ⟨CResult.error (LuaValue.string (snprintf1024
                      ("error = " ++ toString out.status ++ ", " ++ filename ++ ", "
                        ++ cstr msg ++ "\n"))),
                      { L with stack := out.error :: L.stack.drop 1 }, p, out.log⟩
              else
                pure ⟨CResult.values out.values,
                  { L with stack := out.values.reverse ++ L.stack.drop 1 },
                  { p with accessedFiles := StdSet.insert p.accessedFiles (StringToLower filename) },
                  out.log⟩

/-- The call-out `LuaParser::LoadFile`. -/
def LuaParser.LoadFile (ce : CallEnv) (currentParser : Option Nat) (p : LuaParser)
    (L : lua_State) (log : List FsOp) : Except Fault CallOut :=
  match currentParser with
  | none =>
      pure ⟨CResult.error (LuaValue.string "invalid call to LoadFile() after execution"),
        L, p, log⟩
  | some _ =>
    match luaL_checkstring ce L 1 with
    | Except.error e => pure ⟨CResult.error e, L, p, log⟩
    | Except.ok (filename, L) =>
      match luaL_optstring ce L 2 p.accessModes with
      | Except.error e => pure ⟨CResult.error e, L, p, log⟩
      | Except.ok (modes, L) =>
        let modes := ce.allowModes modes p.accessModes
        let log := FsOp.handler filename modes :: log
        if ce.fileExists filename modes = false then
          pure ⟨CResult.values [LuaValue.nil, LuaValue.string "missing file"],
            lua_pushstring (lua_pushnil L) "missing file", p, log⟩
        else
          let log := FsOp.read filename modes :: log
          match ce.loadStringData filename modes with
          | none =>
              pure ⟨CResult.values [LuaValue.nil, LuaValue.string "could not load data"],
                lua_pushstring (lua_pushnil L) "could not load data", p, log⟩
          | some data =>
              pure ⟨CResult.values [LuaValue.string data], lua_pushstring L data,
                { p with accessedFiles := StdSet.insert p.accessedFiles (StringToLower filename) },
                log⟩

/-- The call-out `LuaParser::FileExists`. -/
def LuaParser.FileExists (ce : CallEnv) (currentParser : Option Nat) (p : LuaParser)
    (L : lua_State) (log : List FsOp) : Except Fault CallOut :=
  match currentParser with
  | none =>
      pure ⟨CResult.error (LuaValue.string "invalid call to FileExists() after execution"),
        L, p, log⟩
  | some _ =>
    match luaL_checkstring ce L 1 with
    | Except.error e => pure ⟨CResult.error e, L, p, log⟩
    | Except.ok (filename, L) =>
        let log := FsOp.handler filename p.accessModes :: log
        pure ⟨CResult.values [LuaValue.boolean (ce.fileExists filename p.accessModes)],
          lua_pushboolean L (ce.fileExists filename p.accessModes), p, log⟩

/-! ### Copies and destruction of views -/

/-- The copy constructor `LuaTable::LuaTable(const LuaTable& tbl)`; `self` is the
address of the new object. The result is the new view, the source (whose `isValid`
`PushTable` may change) and the parser of the source. -/
def LuaTable.copy (cv : NumConv) (self : Nat) (tbl : LuaTable) (p : LuaParser) :
    Except Fault (LuaTable × LuaTable × LuaParser) := do
  let this : LuaTable := { LuaTable.new with parser := tbl.parser, L := tbl.L, path := tbl.path }
  let r ← tbl.PushTable p
  if r.1 = true then do
    let L ← this.vm r.2.2
    let ref ← luaL_ref cv (lua_pushvalue L (-1))
    let p : LuaParser := { r.2.2 with L := some ref.2 }
    pure ({ this with refnum := ref.1, isValid := decide (ref.1 ≠ LUA_NOREF) }, r.2.1,
      if this.parser.isSome then p.AddTable self else p)
  else
    pure ({ this with refnum := LUA_NOREF, isValid := false }, r.2.1,
      if this.parser.isSome then r.2.2.AddTable self else r.2.2)

/-- The destructor `LuaTable::~LuaTable`; `self` is the address of the object. -/
def LuaTable.destroy (self : Nat) (t : LuaTable) (p : LuaParser) : Except Fault LuaParser := do
  let p ← (if t.L.isSome ∧ t.refnum ≠ LUA_NOREF then do
      let L ← t.vm p
      let L := luaL_unref L t.refnum
      if t.parser.isSome ∧ p.currentRef = t.refnum then
        pure { p with currentRef := LUA_NOREF, L := some (lua_settop L 0) }
      else pure { p with L := some L }
    else pure p)
  pure (if t.parser.isSome then p.RemoveTable self else p)

/-- A read access to a view: a typed getter, `KeyExists`, `GetKeys` or `GetMap`, with
the default or the container it is given. -/
inductive Access where
  | getInt (key : Key) (d : Int)
  | getBool (key : Key) (d : Bool)
  | getFloat (key : Key) (d : CFloat)
  | getFloat3 (key : Key) (d : float3)
  | getString (key : Key) (d : String)
  | keyExists (key : Key)
  | getKeysInt (data : List Int)
  | getKeysString (data : List String)
  | getMapIntFloat (data : StdMap Int CFloat)
  | getMapIntString (data : StdMap Int String)
  | getMapStringFloat (data : StdMap String CFloat)
  | getMapStringString (data : StdMap String String)

/-- What a read access returns: the value of a typed getter or of `KeyExists`, or the
flag and the container of `GetKeys` and `GetMap`. -/
inductive AccessValue where
  | int (value : Int)
  | bool (value : Bool)
  | float (value : CFloat)
  | float3 (value : float3)
  | string (value : String)
  | keysInt (ok : Bool) (data : List Int)
  | keysString (ok : Bool) (data : List String)
  | mapIntFloat (ok : Bool) (data : StdMap Int CFloat)
  | mapIntString (ok : Bool) (data : StdMap Int String)
  | mapStringFloat (ok : Bool) (data : StdMap String CFloat)
  | mapStringString (ok : Bool) (data : StdMap String String)

/-- A read access to a view: what it returns, the view and the parser. -/
def LuaTable.access (cv : NumConv) (t : LuaTable) (p : LuaParser) :
    Access → Except Fault (AccessValue × LuaTable × LuaParser)
  | Access.getInt key d => (t.GetInt cv p key d).map (fun r => (AccessValue.int r.1, r.2))
  | Access.getBool key d => (t.GetBool cv p key d).map (fun r => (AccessValue.bool r.1, r.2))
  | Access.getFloat key d => (t.GetFloat cv p key d).map (fun r => (AccessValue.float r.1, r.2))
  | Access.getFloat3 key d =>
      (t.GetFloat3 cv p key d).map (fun r => (AccessValue.float3 r.1, r.2))
  | Access.getString key d =>
      (t.GetString cv p key d).map (fun r => (AccessValue.string r.1, r.2))
  | Access.keyExists key => (t.KeyExists p key).map (fun r => (AccessValue.bool r.1, r.2))
  | Access.getKeysInt data =>
      (t.GetKeysInt cv p data).map (fun r => (AccessValue.keysInt r.1 r.2.1, r.2.2))
  | Access.getKeysString data =>
      (t.GetKeysString cv p data).map (fun r => (AccessValue.keysString r.1 r.2.1, r.2.2))
  | Access.getMapIntFloat data =>
      (t.GetMapIntFloat cv p data).map (fun r => (AccessValue.mapIntFloat r.1 r.2.1, r.2.2))
  | Access.getMapIntString data =>
      (t.GetMapIntString cv p data).map (fun r => (AccessValue.mapIntString r.1 r.2.1, r.2.2))
  | Access.getMapStringFloat data =>
      (t.GetMapStringFloat cv p data).map (fun r => (AccessValue.mapStringFloat r.1 r.2.1, r.2.2))
  | Access.getMapStringString data =>
      (t.GetMapStringString cv p data).map
        (fun r => (AccessValue.mapStringString r.1 r.2.1, r.2.2))

/-! ### Programs with several parsers and views

The objects of a program by address. A view points to its parser by the address of
the parser, and its `L` pointer is the address of the parser whose VM it points
to. -/

/-- The live `LuaParser` and `LuaTable` objects of a program, by address. -/
structure World where
  parsers : Nat → Option LuaParser
  views : Nat → Option LuaTable

/-- The view at an address; using an address without a live view is a fault. -/
def World.view (w : World) (a : Nat) : Except Fault LuaTable :=
  match w.views a with
  | some t => pure t
  | none => Except.error Fault.danglingPointer

/-- The parser at an address; using an address without a live parser is a fault. -/
def World.parser (w : World) (pid : Nat) : Except Fault LuaParser :=
  match w.parsers pid with
  | some p => pure p
  | none => Except.error Fault.danglingPointer

def World.setParser (w : World) (pid : Nat) (p : LuaParser) : World :=
  { w with parsers := Function.update w.parsers pid (some p) }

def World.setView (w : World) (a : Nat) (t : LuaTable) : World :=
  { w with views := Function.update w.views a (some t) }

/-- The parser the methods of a view work on: the one its `parser` pointer points
to; for a view without parser a parser that no method reads. -/
def World.parserOf (w : World) (t : LuaTable) : Except Fault LuaParser :=
  match t.parser with
  | none => pure (LuaParser.new "" "" "" none)
  | some pid => w.parser pid

/-- Writes back a view and the parser its methods worked on. -/
def World.store (w : World) (a : Nat) (t : LuaTable) (owner : Option Nat) (p : LuaParser) :
    World :=
  match owner with
  | none => w.setView a t
  | some pid => (w.setParser pid p).setView a t

/-- Dereferences an `L` pointer: the address of the parser that owns the VM, the
parser and the VM. -/
def World.vm (w : World) (l : Option Nat) : Except Fault (Nat × LuaParser × lua_State) :=
  match l with
  | none => Except.error Fault.nullPointer
  | some pid => do
    let p ← w.parser pid
    match p.L with
    | none => Except.error Fault.danglingPointer
    | some L => pure (pid, p, L)

/-- A place for a new object: an address without a live view. -/
def World.place (w : World) (self : Nat) : Except Fault Unit :=
  match w.views self with
  | none => pure ()
  | some _ => Except.error Fault.danglingPointer

/-- The first block of `operator=`: a view that holds the active marker of its
parser gives it up and the stack is cleared. -/
def World.releaseMarker (w : World) (t : LuaTable) : Except Fault World :=
  match t.parser with
  | none => pure w
  | some pid => do
    let p ← w.parser pid
    if t.refnum ≠ LUA_NOREF ∧ p.currentRef = t.refnum then do
      let v ← w.vm t.L
      let w := w.setParser v.1 { v.2.1 with L := some (lua_settop v.2.2 0) }
      let p ← w.parser pid
      pure (w.setParser pid { p with currentRef := LUA_NOREF })
    else pure w

/-- The second block of `operator=`, entered when the parser of the view at `self`
differs from the parser of the source: the view leaves its parser, releases its
reference and joins the parser of the source. -/
def World.changeParser (w : World) (self : Nat) (t tbl : LuaTable) : Except Fault World := do
  let w ← (match t.parser with
    | none => pure w
    | some pid => do
      let p ← w.parser pid
      pure (w.setParser pid (p.RemoveTable self)))
  let w ← (if t.L.isSome ∧ t.refnum ≠ LUA_NOREF then do
      let v ← w.vm t.L
      pure (w.setParser v.1 { v.2.1 with L := some (luaL_unref v.2.2 t.refnum) })
    else pure w)
  let w := w.setView self { t with parser := tbl.parser }
  match tbl.parser with
  | none => pure w
  | some pid => do
    let p ← w.parser pid
    pure (w.setParser pid (p.AddTable self))

/-- The last block of `operator=`: the source is pushed and the view at `self` takes
a new reference to its table, or none when the source is not valid. -/
def World.takeReference (cv : NumConv) (w : World) (self src : Nat) : Except Fault World := do
  let tbl ← w.view src
  let p ← w.parserOf tbl
  let r ← tbl.PushTable p
  let w := w.store src r.2.1 tbl.parser r.2.2
  let t ← w.view self
  if r.1 = true then do
    let v ← w.vm t.L
    let ref ← luaL_ref cv (lua_pushvalue v.2.2 (-1))
    let w := w.setParser v.1 { v.2.1 with L := some ref.2 }
    pure (w.setView self { t with refnum := ref.1, isValid := decide (ref.1 ≠ LUA_NOREF) })
  else
    pure (w.setView self { t with refnum := LUA_NOREF, isValid := false })

/-- The assignment `LuaTable::operator=`, of the view at `src` to the view at `self`
(which may be the same object). -/
def World.assign (cv : NumConv) (w : World) (self src : Nat) : Except Fault World := do
  let t ← w.view self
  let tbl ← w.view src
  let w ← w.releaseMarker t
  let w ← (if t.parser ≠ tbl.parser then w.changeParser self t tbl else pure w)
  let t ← w.view self
  let w := w.setView self { t with L := tbl.L, path := tbl.path }
  w.takeReference cv self src

/-- The destructor `LuaParser::~LuaParser` of the parser at `pid`: the VM is closed
and the registered views are cleared. -/
def World.destroyParser (w : World) (pid : Nat) : Except Fault World := do
  let p ← w.parser pid
  let views ← p.tables.foldlM (fun (views : Nat → Option LuaTable) a =>
    match views a with
    | none => Except.error Fault.danglingPointer
    | some t =>
        pure (Function.update views a
          (some { t with parser := none, L := none, isValid := false, refnum := LUA_NOREF })))
    w.views
  pure { parsers := Function.update w.parsers pid none, views := views }

/-- An operation of a program on its views: `GetRoot()` of the parser at `parser`
into a new object at `self`, the default constructor, the copy constructor, the
assignment, `SubTable(key)` of the view at `src` into a new object at `self`, a read
access to the view at `v`, the destructor of a view, and the destructor of a
parser. -/
inductive ViewOp where
  | getRoot (self parser : Nat)
  | construct (self : Nat)
  | copy (self src : Nat)
  | assign (self src : Nat)
  | subTable (self src : Nat) (key : Key)
  | access (v : Nat) (x : Access)
  | destroy (v : Nat)
  | destroyParser (parser : Nat)

/-- The program after an operation. -/
def World.step (cv : NumConv) (w : World) : ViewOp → Except Fault World
  | ViewOp.getRoot self pid => do
      w.place self
      let p ← w.parser pid
      let r ← LuaParser.GetRoot cv self pid p
      pure ((w.setParser pid r.2).setView self r.1)
  | ViewOp.construct self => do
      w.place self
      pure (w.setView self LuaTable.new)
  | ViewOp.copy self src => do
      w.place self
      let tbl ← w.view src
      let p ← w.parserOf tbl
      let r ← LuaTable.copy cv self tbl p
      pure ((w.store src r.2.1 tbl.parser r.2.2).setView self r.1)
  | ViewOp.assign self src => w.assign cv self src
  | ViewOp.subTable self src key => do
      w.place self
      let t ← w.view src
      let p ← w.parserOf t
      let r ← t.SubTable cv p key self
      pure ((w.store src r.2.1 t.parser r.2.2).setView self r.1)
  | ViewOp.access v x => do
      let t ← w.view v
      let p ← w.parserOf t
      let r ← t.access cv p x
      pure (w.store v r.2.1 t.parser r.2.2)
  | ViewOp.destroy v => do
      let t ← w.view v
      let p ← w.parserOf t
      let p ← t.destroy v p
      let w := (match t.parser with
        | none => w
        | some pid => w.setParser pid p)
      pure { w with views := Function.update w.views v none }
  | ViewOp.destroyParser pid => w.destroyParser pid

/-- The program after a sequence of operations. -/
def World.steps (cv : NumConv) (w : World) : List ViewOp → Except Fault World
  | [] => pure w
  | op :: ops => do
      let w ← w.step cv op
      w.steps cv ops

/-! ### Sequences of builder calls -/

/-- The value argument of the `AddParam` overloads: a `const string&`, a `float`, an
`int` or a `bool`. -/
inductive Param where
  | string (value : String)
  | float (value : CFloat)
  | int (value : Int)
  | bool (value : Bool)
  deriving DecidableEq

/-- The Lua value an `AddParam` overload pushes for its value argument:
`lua_pushstring(L, value.c_str())`, `lua_pushnumber(L, value)` or
`lua_pushboolean(L, value)`. -/
def Param.value : Param → LuaValue
  | Param.string s => LuaValue.string s
  | Param.float f => LuaValue.number f
  | Param.int i => LuaValue.number i
  | Param.bool b => LuaValue.boolean b

/-- A call of the declarative builder: `NewTable(name)` or `NewTable(index)`,
`EndTable()`, `AddFunc(key, func)` (`none` is the NULL function pointer) and
`AddParam(key, value)`. -/
inductive BuildOp where
  | newTable (name : Key)
  | endTable
  | addFunc (key : Key) (func : Option Nat)
  | addParam (key : Key) (value : Param)
  deriving DecidableEq

/-- The parser after a call of the builder. -/
def LuaParser.call (p : LuaParser) : BuildOp → Except Fault LuaParser
  | BuildOp.newTable name => pure (p.NewTable name)
  | BuildOp.endTable => p.EndTable
  | BuildOp.addFunc key func => p.AddFunc key func
  | BuildOp.addParam key value => p.AddParam key value.value

/-- The parser after a sequence of calls of the builder. -/
def LuaParser.calls (p : LuaParser) : List BuildOp → Except Fault LuaParser
  | [] => pure p
  | op :: ops => do
      let p ← p.call op
      p.calls ops
/-! ## Notions used to state the properties -/

/-- The value an operation returns, when it returns. -/
def returned {α β : Type} (r : Except Fault (α × β)) : Except Fault α := r.map Prod.fst

/-- The Lua value under which a key is looked up (see `pushKey`). -/
def keyValue : Key → LuaValue
  | Key.int i => LuaValue.number i
  | Key.str s => LuaValue.string (StringToLower s)

def LuaValue.isTable : LuaValue → Bool
  | LuaValue.table _ => true
  | _ => false

/-- What `lua_gettable` finds under the key `k` in the table at address `a`: the
stored value when there is one, otherwise what the `__index` metamethod of the table
leads to (nil when it has none). -/
def lua_State.lookup (L : lua_State) (a : Nat) (k : LuaValue) : Except Fault LuaValue :=
  luaV_gettable L MAXTAGLOOP (LuaValue.table a) k

/-- The view `t`, used with the parser `p` whose VM is `L`, is a valid view of the
table at address `a`: its flag is set, its pointers are set, its reference names the
table in the registry, and when its reference is the active marker of the parser the
table is on top of the stack. -/
structure LuaTable.Names (t : LuaTable) (p : LuaParser) (L : lua_State) (a : Nat) : Prop where
  valid : t.isValid = true
  parser : t.parser ≠ none
  vmPtr : t.L ≠ none
  vm : p.L = some L
  names : rawget L.registry (LuaValue.number t.refnum) = LuaValue.table a
  cache : t.refnum ≠ LUA_NOREF → p.currentRef = t.refnum →
    L.stack.head? = some (LuaValue.table a)

/-- The free list of the registry is in order at its head: the entry `FREELIST_REF`
reads as a reference that is not negative and does not name a table. -/
def RegistryOK (cv : NumConv) (L : lua_State) : Prop :=
  0 ≤ tointeger cv (rawget L.registry (LuaValue.number FREELIST_REF)) ∧
  (rawget L.registry (LuaValue.number
    (tointeger cv (rawget L.registry (LuaValue.number FREELIST_REF))))).isTable = false

/-- The VM as `PushTable` leaves it for a valid view: untouched when the view holds
the active marker, otherwise with the stack reset and the view resolved. -/
def LuaTable.materialize (t : LuaTable) (p : LuaParser) (L : lua_State) : lua_State :=
  if t.refnum ≠ LUA_NOREF ∧ p.currentRef = t.refnum then L
  else lua_rawgeti_registry (lua_settop L 0) t.refnum

/-- The parser as `PushTable` leaves it for a valid view. -/
def LuaParser.pushed (p : LuaParser) (t : LuaTable) (L : lua_State) : LuaParser :=
  { p with currentRef := t.refnum, L := some (t.materialize p L) }

/-- The range of the C type `int`. -/
def InIntRange (i : Int) : Prop := -2147483648 ≤ i ∧ i ≤ 2147483647

/-- The key of a table entry as `GetKeys(vector<int>&)` and the `int`-keyed `GetMap`
read it: the truncation of a number key, nothing for a key of another kind. -/
def intKey (e : LuaValue × LuaValue) : Option Int :=
  match e.1 with
  | LuaValue.number n => some (truncate n)
  | _ => none

/-- The key of a table entry as `GetKeys(vector<string>&)` and the string-keyed
`GetMap` read it: the text of a string key up to its first NUL character, nothing for
a key of another kind. -/
def stringKey (e : LuaValue × LuaValue) : Option String :=
  match e.1 with
  | LuaValue.string s => some (cstr s)
  | _ => none

/-- The text has no NUL character, so that a `std::string` built from its
`const char*` holds all of it. -/
abbrev NulFree (s : String) : Prop := Char.ofNat 0 ∉ s.data

/-- A table entry as a `GetMap` overload reads it: the key by `key`, the value by
`val`; nothing when either does not apply. -/
def mapEntry {K V : Type} (key : LuaValue × LuaValue → Option K) (val : LuaValue → Option V)
    (e : LuaValue × LuaValue) : Option (K × V) :=
  match key e, val e.2 with
  | some k, some v => some (k, v)
  | _, _ => none

/-- The value of a table entry as the `float`-valued `GetMap` overloads read it:
`(float)lua_tonumber` of what `lua_isnumber` accepts. -/
def floatValue (cv : NumConv) (v : LuaValue) : Option CFloat :=
  (tonumber cv v).map cv.toFloat

/-- The value of a table entry as the string-valued `GetMap` overloads read it: the
text of what `lua_isstring` accepts, up to its first NUL character. -/
def stringValue (cv : NumConv) (v : LuaValue) : Option String :=
  (tostring cv v).map cstr

/-- The value a `std::map` filled by `data[key] = value` for the given pairs, in this
order, holds under `k`: the value of the last pair with this key. -/
def lastValue {K V : Type} [DecidableEq K] (pairs : List (K × V)) (k : K) : Option V :=
  (pairs.reverse.find? (fun kv => kv.1 = k)).map Prod.snd

/-- The empty `std::map`. -/
def StdMap.empty {K V : Type} : StdMap K V := fun _ => none

/-- The returned flag and the output argument of `GetKeys` and `GetMap`. -/
def output {α β γ : Type} (r : Except Fault (α × β × γ)) : Except Fault (α × β) :=
  r.map (fun x => (x.1, x.2.1))

/-- The array indices `1, ..., m`, as Lua numbers. -/
def arrayIndices (m : Nat) : List LuaValue :=
  (List.range m).map (fun i => LuaValue.number ((Int.ofNat (i + 1) : Int) : lua_Number))

/-- The array indices `1, ..., m`, as `int`s. -/
def intIndices (m : Nat) : List Int :=
  (List.range m).map (fun i => Int.ofNat (i + 1))

def LuaValue.isNumber : LuaValue → Bool
  | LuaValue.number _ => true
  | _ => false

def LuaValue.isString : LuaValue → Bool
  | LuaValue.string _ => true
  | _ => false

/-- What a read access returns on a view that is not valid: the default of a typed
getter, false for `KeyExists`, and false with the container as it was given for
`GetKeys` and `GetMap`. -/
def Access.default : Access → AccessValue
  | Access.getInt _ d => AccessValue.int d
  | Access.getBool _ d => AccessValue.bool d
  | Access.getFloat _ d => AccessValue.float d
  | Access.getFloat3 _ d => AccessValue.float3 d
  | Access.getString _ d => AccessValue.string d
  | Access.keyExists _ => AccessValue.bool false
  | Access.getKeysInt data => AccessValue.keysInt false data
  | Access.getKeysString data => AccessValue.keysString false data
  | Access.getMapIntFloat data => AccessValue.mapIntFloat false data
  | Access.getMapIntString data => AccessValue.mapIntString false data
  | Access.getMapStringFloat data => AccessValue.mapStringFloat false data
  | Access.getMapStringString data => AccessValue.mapStringString false data

/-! ### Invariants of a program with views -/

/-- The free list of a registry from the entry `k` on: every entry holds the number
of the next free reference, the last one nil. -/
def FreeChain (reg : TableObj) : Int → List Int → Prop
  | k, [] => rawget reg (LuaValue.number k) = LuaValue.nil
  | k, f :: fl => rawget reg (LuaValue.number k) = LuaValue.number f ∧ FreeChain reg f fl

/-- The registry holds the free list `fl` of `luaL_ref`, headed by the entry
`FREELIST_REF`: positive references, each once. -/
structure FreeList (reg : TableObj) (fl : List Int) : Prop where
  chain : FreeChain reg FREELIST_REF fl
  nodup : fl.Nodup
  pos : ∀ f ∈ fl, 0 < f

/-- The cache slot of a parser is in order: when the active marker is not the none
sentinel, the stack is not empty and its top is the table the marker names in the
registry. -/
def CacheOK (p : LuaParser) (L : lua_State) : Prop :=
  p.currentRef ≠ LUA_NOREF → ∃ a rest, L.stack = LuaValue.table a :: rest ∧
    rawget L.registry (LuaValue.number p.currentRef) = LuaValue.table a

/-- A view is well formed: without parser it has no VM pointer and is not valid; a
valid view has a reference, a view that is not valid has none. -/
structure ViewOK (t : LuaTable) : Prop where
  noParser : t.parser = none → t.L = none ∧ t.isValid = false
  vmPtr : ∀ pid, t.parser = some pid → t.L = some pid
  valid : t.isValid = true → t.refnum ≠ LUA_NOREF
  invalid : t.isValid = false → t.refnum = LUA_NOREF

/-- The parser at `pid` is in order with respect to the views of the program: its VM
is open, the free list and the cache slot are in order, the root reference names a
table, the reference of every valid view of the parser names a table and is not the
root reference, and every view of the parser is registered with it. -/
structure ParserOK (views : Nat → Option LuaTable) (pid : Nat) (p : LuaParser) : Prop where
  vm : ∃ L, p.L = some L
  freeList : ∀ L, p.L = some L → ∃ fl, FreeList L.registry fl
  cache : ∀ L, p.L = some L → CacheOK p L
  root : ∀ L, p.L = some L → ∃ b, rawget L.registry (LuaValue.number p.rootRef) = LuaValue.table b
  refs : ∀ L, p.L = some L → ∀ a t, views a = some t → t.parser = some pid →
    t.isValid = true →
      (∃ b, rawget L.registry (LuaValue.number t.refnum) = LuaValue.table b) ∧
      t.refnum ≠ p.rootRef
  registered : ∀ a t, views a = some t → t.parser = some pid → a ∈ p.tables

/-- The invariant of a program: the views are well formed and point to live parsers,
the parsers are in order, and two valid views of one parser hold different
references. -/
structure World.Inv (w : World) : Prop where
  view : ∀ a t, w.views a = some t → ViewOK t
  live : ∀ a t pid, w.views a = some t → t.parser = some pid → (w.parsers pid).isSome
  parser : ∀ pid p, w.parsers pid = some p → ParserOK w.views pid p
  distinct : ∀ a b ta tb, w.views a = some ta → w.views b = some tb → a ≠ b →
    ta.isValid = true → tb.isValid = true → ta.parser = tb.parser → ta.refnum ≠ tb.refnum

/-- A parser right after a successful `Execute()` on a new parser, whose VM had an
empty stack and an empty registry and which had no views. -/
def Executed (cv : NumConv) (pid : Nat) (p : LuaParser) : Prop :=
  ∃ (env : Env) (p0 : LuaParser) (L0 : lua_State) (cur c : Option Nat),
    env.cv = cv ∧ p0.L = some L0 ∧ L0.stack = [] ∧ L0.registry = [] ∧
    p0.currentRef = LUA_NOREF ∧ p0.tables = [] ∧
    LuaParser.Execute env pid p0 cur = Except.ok (true, p, c)

/-- A program in which every parser has just executed its script and no view exists
yet. -/
def World.Initial (cv : NumConv) (w : World) : Prop :=
  (∀ a, w.views a = none) ∧ ∀ pid p, w.parsers pid = some p → Executed cv pid p

/-- The programs reachable after successful `Execute()` calls through operations on
views. -/
inductive World.Reachable (cv : NumConv) : World → Prop where
  | initial (w : World) : w.Initial cv → World.Reachable cv w
  | step (w w' : World) (op : ViewOp) :
      World.Reachable cv w → w.step cv op = Except.ok w' → World.Reachable cv w'

/-- An operation that accesses the view at `v`: a read access to it, or `SubTable`
on it. -/
def ViewOp.accesses (v : Nat) : ViewOp → Prop
  | ViewOp.access u _ => u = v
  | ViewOp.subTable _ src _ => src = v
  | _ => False

/-! ### The builder as the specification describes it -/

/-- Whether a call is `NewTable`. -/
def BuildOp.isNew : BuildOp → Bool
  | BuildOp.newTable _ => true
  | _ => false

/-- Whether a call is `EndTable`. -/
def BuildOp.isEnd : BuildOp → Bool
  | BuildOp.endTable => true
  | _ => false

/-- The Lua value of a name, index or key given to the builder: the string as
written, or the number. -/
def builderKey : Key → LuaValue
  | Key.str s => LuaValue.string s
  | Key.int i => LuaValue.number i

/-- The state of the builder in the words of the specification: the open tables,
innermost first, each with the name or index under which `EndTable` will insert it,
and the tables and the globals of the VM. -/
structure BuilderSpec where
  openTables : List (LuaValue × Nat)
  heap : List TableObj
  globals : TableObj

/-- The builder before the first call: no table is open. -/
def BuilderSpec.init (L : lua_State) : BuilderSpec :=
  { openTables := [], heap := L.heap, globals := L.globals }

/-- A pair is inserted into the innermost open table, or into the globals when no
table is open. -/
def BuilderSpec.insert (s : BuilderSpec) (k v : LuaValue) : BuilderSpec :=
  match s.openTables with
  | [] => { s with globals := rawset s.globals k v }
  | (_, a) :: _ => { s with heap := s.heap.set a (rawset ((s.heap.get? a).getD []) k v) }

/-- A call in the words of the specification: `NewTable` opens a new empty table,
`AddParam` and `AddFunc` with a function insert their pair into the innermost open
table, `AddFunc` without a function does nothing, and `EndTable` closes the
innermost open table and inserts it under its name or index into its parent. -/
def BuilderSpec.step (s : BuilderSpec) : BuildOp → BuilderSpec
  | BuildOp.newTable name =>
      { s with openTables := (builderKey name, s.heap.length) :: s.openTables,
               heap := s.heap ++ [[]] }
  | BuildOp.endTable =>
      match s.openTables with
      | [] => s
      | (name, a) :: rest => BuilderSpec.insert { s with openTables := rest } name (LuaValue.table a)
  | BuildOp.addFunc key (some f) => s.insert (builderKey key) (LuaValue.func f)
  | BuildOp.addFunc _ none => s
  | BuildOp.addParam key value => s.insert (builderKey key) value.value

/-- A sequence of calls in the words of the specification. -/
def BuilderSpec.run (s : BuilderSpec) (ops : List BuildOp) : BuilderSpec :=
  ops.foldl BuilderSpec.step s

/-- The evaluation stack while tables are open: above the stack the builder found,
each open table with its name or index below it, the innermost on top. -/
def BuilderSpec.stack (base : List LuaValue) : List (LuaValue × Nat) → List LuaValue
  | [] => base
  | (name, a) :: rest => LuaValue.table a :: name :: BuilderSpec.stack base rest
/-! ## Example data -/

/-- The value of an unsigned decimal numeral such as `"5"`; `none` for any other
text. -/
def decimalValue (s : String) : Option Nat :=
  if s.data = [] then none
  else if s.data.all Char.isDigit then
    some (s.data.foldl (fun n c => 10 * n + (c.toNat - 48)) 0)
  else none

/-- Conversions for the examples. They agree with the C library on the inputs the
examples use: `str2d` reads unsigned decimal numerals (`"5"` is 5, `"true"` is not a
number), `number2str` writes an integer of at most 14 digits as its decimal numeral,
`toFloat` keeps a number that a `float` represents exactly, and `sscanf3` is not
used. -/
def decimalConv : NumConv :=
  { str2d := fun s => (decimalValue s).map (fun n => ((n : Int) : lua_Number)),
    number2str := fun x => toString (truncate x),
    toFloat := fun x => x,
    sscanf3 := fun _ => none }

/-- A freshly opened VM. -/
def emptyVM : lua_State :=
  { stack := [], heap := [], registry := [], globals := [], resolved := [] }

/-- An environment for the examples: the file exists, the libraries are empty, the
source compiles, and running it creates the given tables (at the addresses from 5
on, after the three library tables and the tables `Spring` and `VFS`) and returns the
given values. -/
def exampleEnv (tables : List TableObj) (values : List LuaValue) : Env :=
  { cv := decimalConv,
    loadStringData := fun _ _ => some "return ...",
    libs := { base := [], math := [], table := [], string := [] },
    loadbuffer := fun _ _ => Except.ok 0,
    run := fun _ _ p =>
      { error := none, values := values,
        heap := (p.L.map (fun L => L.heap)).getD [] ++ tables,
        globals := (p.L.map (fun L => L.globals)).getD [],
        accessedFiles := p.accessedFiles } }

/-- The parser of the examples before `Execute`. -/
def exampleParser0 : LuaParser := LuaParser.new "script.lua" "r" "r" (some emptyVM)

/-- The root view and the parser after `Execute()` and `GetRoot()` on a script that
creates the given tables and returns the first of them. -/
def loaded (tables : List TableObj) : Option (LuaTable × LuaParser) :=
  match LuaParser.Execute (exampleEnv tables [LuaValue.table 5]) 0 exampleParser0 none with
  | Except.ok (true, p, _) =>
    match LuaParser.GetRoot decimalConv 1 0 p with
    | Except.ok r => some r
    | Except.error _ => none
  | _ => none

/-- The root view of the examples. -/
def exampleRoot : LuaTable :=
  { isValid := true, path := "ROOT", parser := some 0, L := some 0, refnum := 2 }

/-- The VM of the examples after `Execute()` and `GetRoot()`: the root table is at
address 5 and is named by the references 1 (the parser's) and 2 (the root view's). -/
def exampleVM (tables : List TableObj) : lua_State :=
  { stack := [LuaValue.table 5],
    heap := [[], [], [],
      [(LuaValue.string "Echo", LuaValue.func cfEcho),
       (LuaValue.string "TimeCheck", LuaValue.func cfTimeCheck)],
      [(LuaValue.string "DirList", LuaValue.func cfDirList),
       (LuaValue.string "Include", LuaValue.func cfInclude),
       (LuaValue.string "LoadFile", LuaValue.func cfLoadFile),
       (LuaValue.string "FileExists", LuaValue.func cfFileExists)]] ++ tables,
    registry := [(LuaValue.number 1, LuaValue.table 5), (LuaValue.number 2, LuaValue.table 5)],
    globals := [(LuaValue.string "math", LuaValue.table 0),
      (LuaValue.string "table", LuaValue.table 1), (LuaValue.string "string", LuaValue.table 2),
      (LuaValue.string "Spring", LuaValue.table 3), (LuaValue.string "VFS", LuaValue.table 4)],
    resolved := [1] }

/-- The parser of the examples after `Execute()` and `GetRoot()`. -/
def exampleParser (tables : List TableObj) : LuaParser :=
  { exampleParser0 with
    valid := true, rootRef := 1, currentRef := 1, L := some (exampleVM tables), tables := [1] }

/-- The table `{ x = 5, name = "unit", nested = {1,2,3}, flag = "true" }`. -/
def specTables : List TableObj :=
  [[(LuaValue.string "x", LuaValue.number 5), (LuaValue.string "name", LuaValue.string "unit"),
    (LuaValue.string "nested", LuaValue.table 6),
    (LuaValue.string "flag", LuaValue.string "true")],
   [(LuaValue.number 1, LuaValue.number 1), (LuaValue.number 2, LuaValue.number 2),
    (LuaValue.number 3, LuaValue.number 3)]]

/-- The table `{ k = "5", n = 7, flag = "2" }`. -/
def coercionTables : List TableObj :=
  [[(LuaValue.string "k", LuaValue.string "5"), (LuaValue.string "n", LuaValue.number 7),
    (LuaValue.string "flag", LuaValue.string "2")]]

/-- The table `{ Foo = 1 }`, with the key stored as written. -/
def mixedCaseTables : List TableObj :=
  [[(LuaValue.string "Foo", LuaValue.number 1)]]

/-- The table `{ [1] = "a", [1.5] = "b" }`. -/
def fractionalKeyTables : List TableObj :=
  [[(LuaValue.number 1, LuaValue.string "a"), (LuaValue.number (mkRat 3 2), LuaValue.string "b")]]

/-- The table `{ a = 5, b = "7" }`. -/
def mixedValueTables : List TableObj :=
  [[(LuaValue.string "a", LuaValue.number 5), (LuaValue.string "b", LuaValue.string "7")]]

/-- The table `{ [2] = "b", [1] = "a", n = 2 }`, iterated in this order. -/
def unorderedTables : List TableObj :=
  [[(LuaValue.number 2, LuaValue.string "b"), (LuaValue.number 1, LuaValue.string "a"),
    (LuaValue.string "n", LuaValue.number 2)]]


/-- An environment like `exampleEnv` whose script creates an empty table and raises
an error with the given error object, as `error(...)` does. -/
def raisingEnv (err : LuaValue) : Env :=
  { cv := decimalConv,
    loadStringData := fun _ _ => some "error(...)",
    libs := { base := [], math := [], table := [], string := [] },
    loadbuffer := fun _ _ => Except.ok 0,
    run := fun _ _ p =>
      { error := some err, values := [],
        heap := (p.L.map (fun L => L.heap)).getD [] ++ [[]],
        globals := (p.L.map (fun L => L.globals)).getD [],
        accessedFiles := p.accessedFiles } }

/-- An environment whose file handler finds no file. -/
def missingFileEnv : Env :=
  { exampleEnv [] [] with loadStringData := fun _ _ => none }

/-- Library content for the examples: some of the functions the Lua libraries
install, among them the ones `SetupStdLibs` removes. -/
def exampleLibs : StdLibs :=
  { base := [(LuaValue.string "print", LuaValue.func 20),
             (LuaValue.string "dofile", LuaValue.func 21),
             (LuaValue.string "loadfile", LuaValue.func 22),
             (LuaValue.string "gcinfo", LuaValue.func 23),
             (LuaValue.string "collectgarbage", LuaValue.func 24)],
    math := [(LuaValue.string "floor", LuaValue.func 30),
             (LuaValue.string "random", LuaValue.func 31),
             (LuaValue.string "randomseed", LuaValue.func 32)],
    table := [(LuaValue.string "insert", LuaValue.func 40)],
    string := [(LuaValue.string "len", LuaValue.func 50)] }

/-- Collaborators of the call-outs for the examples: the files `/etc/passwd`,
`/tmp/x.lua` and `defs.lua` exist and are readable, `locked.lua` exists and is not
readable, `broken.lua` does not compile, `fails.lua` raises an error when run, and
the directory listing yields two files. -/
def exampleCallEnv : CallEnv :=
  { cv := decimalConv,
    argError := fun _ => LuaValue.string "bad argument",
    allowModes := fun modes _ => modes,
    fileExists := fun name _ =>
      name = "/etc/passwd" || name = "/tmp/x.lua" || name = "defs.lua" || name = "Defs.LUA"
        || name = "broken.lua" || name = "fails.lua" || name = "locked.lua",
    loadStringData := fun name _ =>
      if name = "/etc/passwd" then some "root:x:0:0"
      else if name = "/tmp/x.lua" ∨ name = "defs.lua" ∨ name = "Defs.LUA" then some "return 7"
      else if name = "broken.lua" then some "return return"
      else if name = "fails.lua" then some "error('no')"
      else none,
    dirList := fun _ _ _ => ["a.lua", "b.lua"],
    loadbuffer := fun code _ =>
      if code = "return return" then Except.error (3, "unexpected symbol") else Except.ok 9,
    run := fun _ _ _ p log =>
      { status := if (p.L.map (fun L => L.stack.drop 1)).getD [] =
            [LuaValue.string "fails.lua"] then 2 else 0,
        error := LuaValue.string "no",
        values := [LuaValue.number 7],
        heap := (p.L.map (fun L => L.heap)).getD [],
        globals := (p.L.map (fun L => L.globals)).getD [],
        accessedFiles := p.accessedFiles,
        log := log } }

/-- The frame of a call-out called with the given arguments (the first argument
first) on an empty VM. -/
def callFrame (args : List LuaValue) : lua_State := { emptyVM with stack := args.reverse }

/-- The parser the call-outs of the examples work for. -/
def callParser : LuaParser := { exampleParser0 with accessedFiles := ["main.lua"] }

/-- The parser of the examples after `Execute()` on a script that creates the tables
of `specTables` and returns the first of them. -/
def executedParser : LuaParser :=
  match LuaParser.Execute (exampleEnv specTables [LuaValue.table 5]) 0 exampleParser0 none with
  | Except.ok r => r.2.1
  | Except.error _ => exampleParser0

/-- A program with one parser, at address 0, that has executed its script, and no
view. -/
def exampleWorld : World :=
  { parsers := fun pid => if pid = 0 then some executedParser else none,
    views := fun _ => none }

/-- The program of the examples after a sequence of operations (the program before
them when one of them faults). -/
def exampleWorldAfter (ops : List ViewOp) : World :=
  match exampleWorld.steps decimalConv ops with
  | Except.ok w => w
  | Except.error _ => exampleWorld

/-- The parser at address 0 of a program. -/
def World.mainParser (w : World) : LuaParser :=
  match w.parsers 0 with
  | some p => p
  | none => exampleParser0

/-- The VM of the parser at address 0 of a program. -/
def World.mainVM (w : World) : lua_State :=
  match w.mainParser.L with
  | some L => L
  | none => emptyVM

/-- The view at an address of a program. -/
def World.viewAt (w : World) (a : Nat) : LuaTable :=
  match w.views a with
  | some t => t
  | none => LuaTable.new

/-- Operations of the examples: the root view at 1, its sub-table `nested` at 2, and
a read of the root view. -/
def exampleOps : List ViewOp :=
  [ViewOp.getRoot 1 0, ViewOp.subTable 2 1 (Key.str "nested"),
   ViewOp.access 1 (Access.getInt (Key.str "x") 0)]

/-- A read of `x` in the root view of the examples. -/
def readRoot : ViewOp := ViewOp.access 1 (Access.getInt (Key.str "x") 0)

/-- A read of the entry 1 in the view of `nested` of the examples. -/
def readNested : ViewOp := ViewOp.access 2 (Access.getInt (Key.int 1) 0)

/-- The program of the examples after `exampleOps`: the root view (reference 2) is
at 1 and is the active view, the view of `nested` (reference 3) is at 2. -/
def cachedWorld : World := exampleWorldAfter exampleOps

/-- Builder calls of the examples: a table `Defs` with a parameter, a nested table
under the index 1 with a parameter and a function, and a parameter of the globals. -/
def exampleCalls : List BuildOp :=
  [BuildOp.newTable (Key.str "Defs"),
   BuildOp.addParam (Key.str "name") (Param.string "unit"),
   BuildOp.newTable (Key.int 1),
   BuildOp.addParam (Key.int 1) (Param.int 2),
   BuildOp.addFunc (Key.str "f") (some 9),
   BuildOp.endTable,
   BuildOp.addParam (Key.str "on") (Param.bool true),
   BuildOp.endTable,
   BuildOp.addParam (Key.str "g") (Param.int 3)]

/-- Operations of the examples: the root view at 1 and the view of `nested` at 2, the
assignment of the first to the second, and the destruction of both. -/
def assignOps : List ViewOp :=
  [ViewOp.getRoot 1 0, ViewOp.subTable 2 1 (Key.str "nested"), ViewOp.assign 2 1,
   ViewOp.destroy 1, ViewOp.destroy 2]

/-- Operations of the examples: the root view at 1 and the view of `nested` at 2, and
the destruction of both. -/
def destroyOps : List ViewOp :=
  [ViewOp.getRoot 1 0, ViewOp.subTable 2 1 (Key.str "nested"), ViewOp.destroy 2,
   ViewOp.destroy 1]

/-- The entries of a registry that hold a table. -/
def tableEntries (reg : TableObj) : TableObj := reg.filter (fun e => e.2.isTable)

/-- The parser of the examples after an `Execute()` that could not read the script:
the VM is closed. -/
def failedParser : LuaParser :=
  { exampleParser0 with errorLog := "could not open file: script.lua", L := none }

/-- The tables of a script that returns
`setmetatable({}, { __index = { x = 5, sub = {} } })`: the empty root table at
address 5, its metatable at 6, the `__index` table at 7 and the table under `sub` at
8. -/
def inheritingTables : List TableObj :=
  [[], [(LuaValue.string "__index", LuaValue.table 7)],
   [(LuaValue.string "x", LuaValue.number 5), (LuaValue.string "sub", LuaValue.table 8)], []]

/-- The tables of a script that returns `setmetatable({}, { __index = 5 })`: the empty
root table at address 5 and its metatable at 6. -/
def brokenIndexTables : List TableObj :=
  [[], [(LuaValue.string "__index", LuaValue.number 5)]]

/-- An environment like `exampleEnv` whose base library holds `setmetatable` and
whose script gives the first of its tables (at address 5) the second (at address 6)
as metatable and returns the first. -/
def metatableEnv (tables : List TableObj) : Env :=
  { cv := decimalConv,
    loadStringData := fun _ _ => some "return setmetatable(...)",
    libs := { base := [(LuaValue.string "setmetatable", LuaValue.func 25)],
              math := [], table := [], string := [] },
    loadbuffer := fun _ _ => Except.ok 0,
    run := fun _ _ p =>
      { error := none, values := [LuaValue.table 5],
        heap := (p.L.map (fun L => L.heap)).getD [] ++ tables,
        globals := (p.L.map (fun L => L.globals)).getD [],
        accessedFiles := p.accessedFiles,
        metatables := [(5, 6)] } }

/-- The root view and the parser after `Execute()` and `GetRoot()` on the script of
`metatableEnv`. -/
def loadedWithMetatable (tables : List TableObj) : Option (LuaTable × LuaParser) :=
  match LuaParser.Execute (metatableEnv tables) 0 exampleParser0 none with
  | Except.ok (true, p, _) =>
    match LuaParser.GetRoot decimalConv 1 0 p with
    | Except.ok r => some r
    | Except.error _ => none
  | _ => none

/-- The VM of the examples after `Execute()` and `GetRoot()` on the script of
`metatableEnv`: as `exampleVM`, with the global `setmetatable`, and the table at 5
has the table at 6 as metatable. -/
def metatableVM (tables : List TableObj) : lua_State :=
  { exampleVM tables with
    globals := (LuaValue.string "setmetatable", LuaValue.func 25) :: (exampleVM tables).globals,
    metatables := [(5, 6)] }

/-- The parser of the examples after `Execute()` and `GetRoot()` on the script of
`metatableEnv`. -/
def metatableParser (tables : List TableObj) : LuaParser :=
  { exampleParser tables with L := some (metatableVM tables) }

/-- The table `{ name = "x\0y", ["a\0b"] = 1, ["a\0c"] = "v\0w" }`, whose strings hold
NUL characters, iterated in this order. -/
def nulTables : List TableObj :=
  [[(LuaValue.string "name", LuaValue.string "x\x00y"),
    (LuaValue.string "a\x00b", LuaValue.number 1),
    (LuaValue.string "a\x00c", LuaValue.string "v\x00w")]]
/-! ## Lemmas -/

theorem index_neg_one (L : lua_State) : L.index (-1) = L.stack.head? := by
  cases h : L.stack <;> simp [lua_State.index, h]

theorem index_neg_two (L : lua_State) (x y : LuaValue) (r : List LuaValue) (h : L.stack = x :: y :: r) :
    L.index (-2) = some y := by
  simp [lua_State.index, h]

theorem PushTable_invalid (t : LuaTable) (p : LuaParser) (h : t.isValid = false) :
    t.PushTable p = Except.ok (false, t, p) := by
  simp [LuaTable.PushTable, h]

theorem materialize_stack (t : LuaTable) (p : LuaParser) (L : lua_State) (a : Nat)
    (h : t.Names p L a) : ∃ rest, (t.materialize p L).stack = LuaValue.table a :: rest := by
  unfold LuaTable.materialize
  split
  · rename_i hc
    have := h.cache hc.1 hc.2
    cases hs : L.stack with
    | nil => simp [hs] at this
    | cons x r => simp [hs] at this; exact ⟨r, by rw [this]⟩
  · exact ⟨[], by simp [lua_rawgeti_registry, lua_settop, h.names]⟩

theorem PushTable_names_aux (t : LuaTable) (p : LuaParser) (L : lua_State) (a : Nat)
    (h : t.Names p L a) :
    t.PushTable p = Except.ok (true, t,
      { p with currentRef := t.refnum, L := some (t.materialize p L) }) := by
  obtain ⟨rest, hrest⟩ := materialize_stack t p L a h
  have hp : ∃ x, t.parser = some x := Option.ne_none_iff_exists'.mp h.parser
  have hl : ∃ x, t.L = some x := Option.ne_none_iff_exists'.mp h.vmPtr
  obtain ⟨x, hx⟩ := hp
  obtain ⟨y, hy⟩ := hl
  unfold LuaTable.materialize at *
  by_cases hc : t.refnum ≠ LUA_NOREF ∧ p.currentRef = t.refnum
  · simp only [hc, and_self, if_true, ne_eq, not_false_eq_true] at hrest ⊢
    have ht : lua_istable L (-1) = true := by
      simp [lua_istable, index_neg_one, hrest]
    simp [LuaTable.PushTable, h.valid, hc.1, hc.2, LuaTable.derefParser, hx, LuaTable.vm, hy, h.vm, ht,
      bind, Except.bind, pure, Except.pure]
    have hv := h.vm
    have hcr := hc.2
    cases p
    simp only [LuaParser.mk.injEq, true_and, and_true] at hv hcr ⊢
    exact ⟨hcr, hv⟩
  · simp only [hc, if_false] at hrest ⊢
    have ht : lua_istable (lua_rawgeti_registry (lua_settop L 0) t.refnum) (-1) = true := by
      simp [lua_istable, index_neg_one, hrest]
    by_cases hn : t.refnum = LUA_NOREF
    · simp [LuaTable.PushTable, h.valid, hn, LuaTable.derefParser, hx, LuaTable.vm, hy, h.vm,
        bind, Except.bind, pure, Except.pure]
      rw [hn] at ht
      simp [ht]
    · have hc2 : ¬ p.currentRef = t.refnum := fun e => hc ⟨hn, e⟩
      simp [LuaTable.PushTable, h.valid, hn, hc2, LuaTable.derefParser, hx, LuaTable.vm, hy, h.vm, ht,
        bind, Except.bind, pure, Except.pure]

theorem PushTable_names (t : LuaTable) (p : LuaParser) (L : lua_State) (a : Nat)
    (h : t.Names p L a) :
    t.PushTable p = Except.ok (true, t, p.pushed t L) := PushTable_names_aux t p L a h

theorem materialize_heap (t : LuaTable) (p : LuaParser) (L : lua_State) :
    (t.materialize p L).heap = L.heap := by
  unfold LuaTable.materialize
  split <;> simp [lua_rawgeti_registry, lua_settop]

theorem materialize_tableAt (t : LuaTable) (p : LuaParser) (L : lua_State) (a : Nat) :
    (t.materialize p L).tableAt a = L.tableAt a := by
  simp [lua_State.tableAt, materialize_heap]

theorem pushKey_stack (L : lua_State) (key : Key) :
    pushKey L key = { L with stack := keyValue key :: L.stack } := by
  cases key <;> rfl

theorem vm_pushed (t : LuaTable) (p : LuaParser) (L : lua_State) (a : Nat) (h : t.Names p L a)
    (M : lua_State) : t.vm { p.pushed t L with L := some M } = Except.ok M := by
  obtain ⟨y, hy⟩ := Option.ne_none_iff_exists'.mp h.vmPtr
  simp [LuaTable.vm, hy]

theorem pushed_L (t : LuaTable) (p : LuaParser) (L : lua_State) :
    { p.pushed t L with L := some (t.materialize p L) } = p.pushed t L := rfl

theorem materialize_metatables (t : LuaTable) (p : LuaParser) (L : lua_State) :
    (t.materialize p L).metatables = L.metatables := by
  unfold LuaTable.materialize
  split <;> simp [lua_rawgeti_registry, lua_settop]

theorem luaV_gettable_hit (L : lua_State) (n a : Nat) (k : LuaValue)
    (h : rawget (L.tableAt a) k ≠ LuaValue.nil) :
    luaV_gettable L (n + 1) (LuaValue.table a) k = Except.ok (rawget (L.tableAt a) k) := by
  simp [luaV_gettable, h]

theorem luaV_gettable_plain (L : lua_State) (n a : Nat) (k : LuaValue)
    (h : L.indexEvent a = LuaValue.nil) :
    luaV_gettable L (n + 1) (LuaValue.table a) k = Except.ok (rawget (L.tableAt a) k) := by
  by_cases hv : rawget (L.tableAt a) k = LuaValue.nil
  · simp [luaV_gettable, hv, h]
  · exact luaV_gettable_hit L n a k hv

theorem lookup_hit (L : lua_State) (a : Nat) (k : LuaValue)
    (h : rawget (L.tableAt a) k ≠ LuaValue.nil) :
    L.lookup a k = Except.ok (rawget (L.tableAt a) k) :=
  luaV_gettable_hit L _ a k h

theorem lookup_plain (L : lua_State) (a : Nat) (k : LuaValue)
    (h : L.indexEvent a = LuaValue.nil) :
    L.lookup a k = Except.ok (rawget (L.tableAt a) k) :=
  luaV_gettable_plain L _ a k h

theorem indexEvent_congr (L1 L2 : lua_State) (hh : L1.heap = L2.heap)
    (hm : L1.metatables = L2.metatables) (a : Nat) : L1.indexEvent a = L2.indexEvent a := by
  simp [lua_State.indexEvent, lua_State.metatable, lua_State.tableAt, hh, hm]

theorem luaV_gettable_congr (L1 L2 : lua_State) (hh : L1.heap = L2.heap)
    (hm : L1.metatables = L2.metatables) (n : Nat) (t k : LuaValue) :
    luaV_gettable L1 n t k = luaV_gettable L2 n t k := by
  induction n generalizing t with
  | zero => simp [luaV_gettable]
  | succ n ih =>
    cases t with
    | table a =>
      have ht : L1.tableAt a = L2.tableAt a := by simp [lua_State.tableAt, hh]
      simp only [luaV_gettable, ht, indexEvent_congr L1 L2 hh hm a]
      split
      · rfl
      · split
        · rfl
        · rfl
        · exact ih _
    | _ => simp [luaV_gettable]

theorem lookup_congr (L1 L2 : lua_State) (hh : L1.heap = L2.heap)
    (hm : L1.metatables = L2.metatables) (a : Nat) (k : LuaValue) :
    L1.lookup a k = L2.lookup a k :=
  luaV_gettable_congr L1 L2 hh hm _ _ _

theorem lua_gettable_top (M : lua_State) (a : Nat) (rest : List LuaValue) (k : LuaValue)
    (h : M.stack = LuaValue.table a :: rest) :
    lua_gettable { M with stack := k :: M.stack } (-2) =
      (M.lookup a k).map (fun v => { M with stack := v :: M.stack }) := by
  have hl : luaV_gettable { M with stack := k :: M.stack } MAXTAGLOOP (LuaValue.table a) k =
      M.lookup a k :=
    luaV_gettable_congr { M with stack := k :: M.stack } M rfl rfl _ _ _
  have hi : lua_State.index { M with stack := k :: M.stack } (-2) = some (LuaValue.table a) :=
    index_neg_two _ k (LuaValue.table a) rest (by simp [h])
  unfold lua_gettable
  rw [hi]
  simp only [hl, bind, Except.bind, pure, Except.pure]
  cases M.lookup a k <;> rfl

theorem lua_gettable_key (t : LuaTable) (p : LuaParser) (L : lua_State) (a : Nat)
    (h : t.Names p L a) (key : Key) :
    lua_gettable (pushKey (t.materialize p L) key) (-2) =
      (L.lookup a (keyValue key)).map (fun v =>
        { t.materialize p L with stack := v :: (t.materialize p L).stack }) := by
  obtain ⟨rest, hrest⟩ := materialize_stack t p L a h
  rw [pushKey_stack, lua_gettable_top _ a rest _ hrest,
    lookup_congr _ L (materialize_heap t p L) (materialize_metatables t p L)]

/-- the state in which `PushValue` leaves the VM after a successful lookup -/
theorem PushValue_names (t : LuaTable) (p : LuaParser) (L : lua_State) (a : Nat)
    (h : t.Names p L a) (key : Key) :
    t.PushValue p key =
      (L.lookup a (keyValue key)).bind (fun v =>
        if v = LuaValue.nil then
          Except.ok (false, t, p.pushed t L)
        else
          Except.ok (true, t, { p.pushed t L with
            L := some { t.materialize p L with
              stack := v :: (t.materialize p L).stack } })) := by
  have hvm : t.vm (p.pushed t L) = Except.ok (t.materialize p L) := vm_pushed t p L a h _
  simp only [LuaTable.PushValue, PushTable_names t p L a h, bind, Except.bind, hvm,
    lua_gettable_key t p L a h key]
  cases L.lookup a (keyValue key) with
  | error e => rfl
  | ok v =>
    simp only [Except.map]
    by_cases hv : v = LuaValue.nil
    · simp [hv, lua_isnoneornil, index_neg_one, lua_pop, pure, Except.pure, LuaParser.pushed]
    · simp only [hv, if_false]
      have : lua_isnoneornil { t.materialize p L with
          stack := v :: (t.materialize p L).stack } (-1) = false := by
        simp only [lua_isnoneornil, index_neg_one, List.head?_cons]
        split <;> simp_all
      simp [this, pure, Except.pure]

/-- the lookup of a key that is stored, or in a table without `__index` metamethod -/
theorem PushValue_raw (t : LuaTable) (p : LuaParser) (L : lua_State) (a : Nat)
    (h : t.Names p L a) (key : Key)
    (hl : L.lookup a (keyValue key) = Except.ok (rawget (L.tableAt a) (keyValue key))) :
    t.PushValue p key =
      if rawget (L.tableAt a) (keyValue key) = LuaValue.nil then
        Except.ok (false, t, p.pushed t L)
      else
        Except.ok (true, t, { p.pushed t L with
          L := some { t.materialize p L with
            stack := rawget (L.tableAt a) (keyValue key) :: (t.materialize p L).stack } }) := by
  rw [PushValue_names t p L a h key, hl]
  rfl

theorem pop_push (M : lua_State) (v : LuaValue) :
    lua_pop { M with stack := v :: M.stack } 1 = M := by
  simp [lua_pop]

theorem tonumber_nil (cv : NumConv) : tonumber cv LuaValue.nil = none := rfl

theorem tostring_nil (cv : NumConv) : tostring cv LuaValue.nil = none := rfl

theorem lua_isnumber_top (cv : NumConv) (M : lua_State) (v : LuaValue) :
    lua_isnumber cv { M with stack := v :: M.stack } (-1) = (tonumber cv v).isSome := by
  simp [lua_isnumber, index_neg_one]

theorem lua_tonumber_top (cv : NumConv) (M : lua_State) (v : LuaValue) :
    lua_tonumber cv { M with stack := v :: M.stack } (-1) = (tonumber cv v).getD 0 := by
  simp [lua_tonumber, index_neg_one]

theorem lua_isstring_top (cv : NumConv) (M : lua_State) (v : LuaValue) :
    lua_isstring { M with stack := v :: M.stack } (-1) = (tostring cv v).isSome := by
  cases v <;> simp [lua_isstring, index_neg_one, tostring]

theorem lua_tostring_top (cv : NumConv) (M : lua_State) (v : LuaValue) :
    (lua_tostring cv { M with stack := v :: M.stack } (-1)).1 = tostring cv v := by
  cases v <;> simp [lua_tostring, index_neg_one, tostring]

theorem lua_tostring_pop (cv : NumConv) (M : lua_State) (v : LuaValue) :
    lua_pop (lua_tostring cv { M with stack := v :: M.stack } (-1)).2 1 = M := by
  cases v <;> simp [lua_tostring, index_neg_one, lua_pop, lua_State.setIndex]

theorem GetInt_names (cv : NumConv) (t : LuaTable) (p : LuaParser) (L : lua_State) (a : Nat)
    (h : t.Names p L a) (key : Key) (d : Int) :
    t.GetInt cv p key d =
      (L.lookup a (keyValue key)).bind (fun v =>
        match tonumber cv v with
        | none => Except.ok (d, t, p.pushed t L)
        | some n => (double2int n).map (fun i => (i, t, p.pushed t L))) := by
  simp only [LuaTable.GetInt, PushValue_names t p L a h key]
  cases L.lookup a (keyValue key) with
  | error e => rfl
  | ok v =>
    simp only [Except.bind]
    by_cases hv : v = LuaValue.nil
    · simp [hv, tonumber_nil, bind, Except.bind, pure, Except.pure]
    · simp only [hv, if_false, bind, Except.bind, vm_pushed t p L a h, lua_isnumber_top,
        lua_tonumber_top, pop_push, pushed_L]
      cases hn : tonumber cv v with
      | none => simp [pure, Except.pure]
      | some n =>
        simp only [Option.isSome_some, Option.getD_some]
        cases double2int n <;> simp [pure, Except.pure, Except.map]

theorem GetFloat_names (cv : NumConv) (t : LuaTable) (p : LuaParser) (L : lua_State) (a : Nat)
    (h : t.Names p L a) (key : Key) (d : CFloat) :
    t.GetFloat cv p key d =
      (L.lookup a (keyValue key)).bind (fun v =>
        match tonumber cv v with
        | none => Except.ok (d, t, p.pushed t L)
        | some n => Except.ok (cv.toFloat n, t, p.pushed t L)) := by
  simp only [LuaTable.GetFloat, PushValue_names t p L a h key]
  cases L.lookup a (keyValue key) with
  | error e => rfl
  | ok v =>
    simp only [Except.bind]
    by_cases hv : v = LuaValue.nil
    · simp [hv, tonumber_nil, bind, Except.bind, pure, Except.pure]
    · simp only [hv, if_false, bind, Except.bind, vm_pushed t p L a h, lua_isnumber_top,
        lua_tonumber_top, pop_push, pushed_L]
      cases hn : tonumber cv v with
      | none => simp [pure, Except.pure]
      | some n => simp [pure, Except.pure]

theorem GetString_names (cv : NumConv) (t : LuaTable) (p : LuaParser) (L : lua_State) (a : Nat)
    (h : t.Names p L a) (key : Key) (d : String) :
    t.GetString cv p key d =
      (L.lookup a (keyValue key)).bind (fun v =>
        match tostring cv v with
        | none => Except.ok (d, t, p.pushed t L)
        | some s => Except.ok (cstr s, t, p.pushed t L)) := by
  simp only [LuaTable.GetString, PushValue_names t p L a h key]
  cases L.lookup a (keyValue key) with
  | error e => rfl
  | ok v =>
    simp only [Except.bind]
    by_cases hv : v = LuaValue.nil
    · simp [hv, tostring_nil, bind, Except.bind, pure, Except.pure]
    · simp only [hv, if_false, bind, Except.bind, vm_pushed t p L a h, lua_isstring_top cv,
        pop_push, pushed_L]
      have h1 := lua_tostring_top cv (t.materialize p L) v
      have h2 := lua_tostring_pop cv (t.materialize p L) v
      cases hn : tostring cv v with
      | none => simp [pure, Except.pure]
      | some s =>
        rw [hn] at h1
        generalize lua_tostring cv _ (-1) = r at h1 h2
        obtain ⟨r1, r2⟩ := r
        simp only at h1 h2
        subst h1
        simp [pure, Except.pure, h2, pushed_L]

theorem KeyExists_names (t : LuaTable) (p : LuaParser) (L : lua_State) (a : Nat)
    (h : t.Names p L a) (key : Key) :
    t.KeyExists p key =
      (L.lookup a (keyValue key)).bind (fun v =>
        Except.ok (decide (v ≠ LuaValue.nil), t, p.pushed t L)) := by
  simp only [LuaTable.KeyExists, PushValue_names t p L a h key]
  cases L.lookup a (keyValue key) with
  | error e => rfl
  | ok v =>
    simp only [Except.bind]
    by_cases hv : v = LuaValue.nil
    · simp [hv, bind, Except.bind, pure, Except.pure]
    · simp [hv, bind, Except.bind, vm_pushed t p L a h, pop_push, pushed_L, pure, Except.pure]

theorem ParseBoolean_top (cv : NumConv) (M : lua_State) (v : LuaValue) :
    ParseBoolean cv { M with stack := v :: M.stack } (-1) =
      Except.ok
        (match v with
          | LuaValue.boolean b => some b
          | LuaValue.number n => some (decide (cv.toFloat n ≠ 0))
          | LuaValue.string s =>
            match cv.str2d s with
            | some n => some (decide (cv.toFloat n ≠ 0))
            | none =>
              if StringToLower (cstr s) = "1" ∨ StringToLower (cstr s) = "true" then some true
              else if StringToLower (cstr s) = "0" ∨ StringToLower (cstr s) = "false" then
                some false
              else none
          | _ => none, { M with stack := v :: M.stack }) := by
  cases v with
  | string s =>
    cases hs : cv.str2d s with
    | some n =>
      simp [ParseBoolean, lua_isboolean, index_neg_one, lua_isnumber, lua_tonumber, tonumber, hs,
        pure, Except.pure]
    | none =>
      simp only [ParseBoolean, lua_isboolean, index_neg_one, lua_isnumber, tonumber, hs,
        lua_isstring, lua_tostring, List.head?_cons, pure, Except.pure]
      simp only [Bool.false_eq_true, if_false, Option.isSome_none, if_true]
      split_ifs <;> rfl
  | _ =>
    simp [ParseBoolean, lua_isboolean, index_neg_one, lua_isnumber, lua_tonumber, tonumber,
      lua_isstring, lua_toboolean, pure, Except.pure]

/-- The value `GetBool` returns for the value a lookup finds and the default `d`. -/
theorem GetBool_names (cv : NumConv) (t : LuaTable) (p : LuaParser) (L : lua_State) (a : Nat)
    (h : t.Names p L a) (key : Key) (d : Bool) :
    t.GetBool cv p key d =
      (L.lookup a (keyValue key)).bind (fun v =>
        Except.ok
          (match v with
            | LuaValue.boolean b => b
            | LuaValue.number n => decide (cv.toFloat n ≠ 0)
            | LuaValue.string s =>
              match cv.str2d s with
              | some n => decide (cv.toFloat n ≠ 0)
              | none =>
                if StringToLower (cstr s) = "1" ∨ StringToLower (cstr s) = "true" then true
                else if StringToLower (cstr s) = "0" ∨ StringToLower (cstr s) = "false" then
                  false
                else d
            | _ => d, t, p.pushed t L)) := by
  simp only [LuaTable.GetBool, PushValue_names t p L a h key]
  cases L.lookup a (keyValue key) with
  | error e => rfl
  | ok v =>
    simp only [Except.bind]
    by_cases hv : v = LuaValue.nil
    · simp [hv, bind, Except.bind, pure, Except.pure]
    · simp only [hv, if_false, bind, Except.bind, vm_pushed t p L a h]
      rw [ParseBoolean_top cv (t.materialize p L) v]
      simp only [pop_push, pushed_L]
      cases v with
      | string s =>
        simp only
        cases cv.str2d s with
        | some n => simp [pure, Except.pure]
        | none =>
          simp only
          by_cases h1 : StringToLower (cstr s) = "1" ∨ StringToLower (cstr s) = "true"
          · simp [h1, pure, Except.pure]
          · by_cases h2 : StringToLower (cstr s) = "0" ∨ StringToLower (cstr s) = "false"
            · simp [h1, h2, pure, Except.pure]
            · simp [h1, h2, pure, Except.pure]
      | _ => simp [pure, Except.pure]

theorem rawget_cons (e : LuaValue × LuaValue) (t : TableObj) (k : LuaValue) :
    rawget (e :: t) k = if e.1 = k then e.2 else rawget t k := by
  by_cases h : e.1 = k <;> simp [rawget, List.find?, h]

theorem rawget_nil_of_not_mem (t : TableObj) (k : LuaValue) (h : k ∉ t.map Prod.fst) :
    rawget t k = LuaValue.nil := by
  induction t with
  | nil => rfl
  | cons e t ih =>
    simp only [List.map_cons, List.mem_cons, not_or] at h
    rw [rawget_cons, if_neg (fun e' => h.1 e'.symm), ih h.2]

theorem rawget_rawset_self (t : TableObj) (k v : LuaValue) (hv : v ≠ LuaValue.nil) :
    rawget (rawset t k v) k = v := by
  unfold rawset
  rw [if_neg hv]
  split
  · rename_i h
    induction t with
    | nil => simp at h
    | cons e t ih =>
      by_cases he : e.1 = k
      · simp [rawget_cons, he]
      · simp only [List.any_cons, he, decide_False, Bool.false_or] at h
        simp [rawget_cons, he, ih h]
  · rename_i h
    induction t with
    | nil => simp [rawget_cons]
    | cons e t ih =>
      simp only [List.any_cons, Bool.or_eq_true, decide_eq_true_eq, not_or] at h
      simp only [List.cons_append, rawget_cons, if_neg h.1]
      exact ih (by simpa using h.2)

theorem rawget_filter_ne (t : TableObj) (k k' : LuaValue) (hk : k' ≠ k) :
    rawget (t.filter (fun e => e.1 ≠ k)) k' = rawget t k' := by
  induction t with
  | nil => rfl
  | cons e t ih =>
    by_cases he : e.1 = k
    · have : e.1 ≠ k' := fun h => hk (h ▸ he)
      rw [List.filter_cons_of_neg (by simpa using he), ih, rawget_cons, if_neg this]
    · rw [List.filter_cons_of_pos (by simpa using he), rawget_cons, rawget_cons, ih]

theorem rawget_map_ne (t : TableObj) (k v k' : LuaValue) (hk : k' ≠ k) :
    rawget (t.map (fun e => if e.1 = k then (k, v) else e)) k' = rawget t k' := by
  induction t with
  | nil => rfl
  | cons e t ih =>
    rw [List.map_cons, rawget_cons, rawget_cons, ih]
    by_cases he : e.1 = k
    · have : e.1 ≠ k' := fun h => hk (h ▸ he)
      simp [he, Ne.symm hk, this, he ▸ this]
    · simp [he]

theorem rawget_append_ne (t : TableObj) (k v k' : LuaValue) (hk : k' ≠ k) :
    rawget (t ++ [(k, v)]) k' = rawget t k' := by
  induction t with
  | nil => simp [rawget_cons, Ne.symm hk, rawget]
  | cons e t ih => rw [List.cons_append, rawget_cons, rawget_cons, ih]

theorem rawget_rawset_of_ne (t : TableObj) (k v k' : LuaValue) (hk : k' ≠ k) :
    rawget (rawset t k v) k' = rawget t k' := by
  unfold rawset
  split
  · exact rawget_filter_ne t k k' hk
  · split
    · exact rawget_map_ne t k v k' hk
    · exact rawget_append_ne t k v k' hk

theorem mem_keys_of_rawget_ne_nil (t : TableObj) (k : LuaValue) (h : rawget t k ≠ LuaValue.nil) :
    k ∈ t.map Prod.fst := by
  by_contra hc
  exact h (rawget_nil_of_not_mem t k hc)

theorem objlen_border (t : TableObj) :
    rawget t (LuaValue.number ((Int.ofNat (objlen t) + 1 : Int) : lua_Number)) = LuaValue.nil := by
  unfold objlen
  simp only
  cases hf : (List.range (t.length + 1)).find?
      (fun n => decide (rawget t (LuaValue.number ((Int.ofNat n + 1 : Int) : lua_Number)) = LuaValue.nil)) with
  | some n =>
    have := List.find?_some hf
    simpa using this
  | none =>
    exfalso
    rw [List.find?_eq_none] at hf
    have hsub : ∀ n ∈ List.range (t.length + 1),
        LuaValue.number ((Int.ofNat n + 1 : Int) : lua_Number) ∈ t.map Prod.fst := by
      intro n hn
      apply mem_keys_of_rawget_ne_nil
      simpa using hf n hn
    have hnd : ((List.range (t.length + 1)).map
        (fun n => LuaValue.number ((Int.ofNat n + 1 : Int) : lua_Number))).Nodup := by
      apply List.Nodup.map _ (List.nodup_range _)
      intro x y hxy
      simp only [LuaValue.number.injEq] at hxy
      have h1 : (Int.ofNat x + 1 : Int) = Int.ofNat y + 1 := by exact_mod_cast hxy
      simp only [Int.ofNat_eq_coe] at h1
      omega
    have hsubset : ((List.range (t.length + 1)).map
        (fun n => LuaValue.number ((Int.ofNat n + 1 : Int) : lua_Number))) ⊆ t.map Prod.fst := by
      intro x hx
      obtain ⟨n, hn, rfl⟩ := List.mem_map.mp hx
      exact hsub n hn
    have := (List.subperm_of_subset hnd hsubset).length_le
    simp at this

theorem number_inj (i j : Int) : LuaValue.number (i : lua_Number) = LuaValue.number (j : lua_Number) ↔ i = j := by
  simp

theorem luaL_ref_spec (cv : NumConv) (L : lua_State) (v : LuaValue) (rest : List LuaValue)
    (hs : L.stack = v :: rest) (hv : v ≠ LuaValue.nil) (hok : RegistryOK cv L) :
    ∃ ref reg, luaL_ref cv L = Except.ok (ref, { L with stack := rest, registry := reg }) ∧
      0 < ref ∧ rawget reg (LuaValue.number ref) = v ∧
      (rawget L.registry (LuaValue.number ref)).isTable = false ∧
      ∀ k : Int, (rawget L.registry (LuaValue.number k)).isTable = true →
        rawget reg (LuaValue.number k) = rawget L.registry (LuaValue.number k) := by
  obtain ⟨h0, h1⟩ := hok
  unfold luaL_ref
  rw [hs]
  simp only [hv, if_false]
  by_cases hf : tointeger cv (rawget L.registry (LuaValue.number FREELIST_REF)) = 0
  · simp only [hf, ne_eq, not_true_eq_false, if_false]
    refine ⟨_, _, rfl, by omega, rawget_rawset_self _ _ _ hv, ?_, ?_⟩
    · have := objlen_border L.registry
      simp only [Int.ofNat_eq_coe] at this ⊢
      rw [this]; rfl
    · intro k hk
      apply rawget_rawset_of_ne
      intro hkk
      have := objlen_border L.registry
      simp only [Int.ofNat_eq_coe] at this
      rw [hkk, this] at hk
      simp [LuaValue.isTable] at hk
  · simp only [ne_eq, hf, not_false_eq_true, if_true]
    refine ⟨_, _, rfl, by omega, rawget_rawset_self _ _ _ hv, h1, ?_⟩
    intro k hk
    have hk1 : k ≠ tointeger cv (rawget L.registry (LuaValue.number FREELIST_REF)) := by
      intro e
      rw [e, h1] at hk
      simp at hk
    have hk0 : k ≠ FREELIST_REF := by
      intro e
      rw [e] at hk
      apply hf
      generalize rawget L.registry (LuaValue.number FREELIST_REF) = x at hk
      cases x <;> simp [LuaValue.isTable] at hk
      simp [tointeger, tonumber]
    rw [rawget_rawset_of_ne _ _ _ _ (by simpa using hk1), rawget_rawset_of_ne _ _ _ _ (by simpa using hk0)]

theorem materialize_registry (t : LuaTable) (p : LuaParser) (L : lua_State) :
    (t.materialize p L).registry = L.registry := by
  unfold LuaTable.materialize
  split <;> simp [lua_rawgeti_registry, lua_settop]

theorem SubTable_invalid (cv : NumConv) (t : LuaTable) (p : LuaParser) (key : Key) (self : Nat)
    (h : t.isValid = false) :
    t.SubTable cv p key self =
      Except.ok ({ LuaTable.new with path := t.path ++ keyPath key }, t, p) := by
  simp [LuaTable.SubTable, PushTable_invalid t p h, bind, Except.bind, pure, Except.pure]

theorem SubTable_fault (cv : NumConv) (t : LuaTable) (p : LuaParser) (L : lua_State) (a : Nat)
    (h : t.Names p L a) (key : Key) (self : Nat) (e : Fault)
    (hv : L.lookup a (keyValue key) = Except.error e) :
    t.SubTable cv p key self = Except.error e := by
  have hvm : t.vm (p.pushed t L) = Except.ok (t.materialize p L) := vm_pushed t p L a h _
  simp [LuaTable.SubTable, PushTable_names t p L a h, bind, Except.bind, hvm,
    lua_gettable_key t p L a h key, hv, Except.map]

theorem SubTable_not_table (cv : NumConv) (t : LuaTable) (p : LuaParser) (L : lua_State) (a : Nat)
    (h : t.Names p L a) (key : Key) (self : Nat) (v : LuaValue)
    (hl : L.lookup a (keyValue key) = Except.ok v) (hv : v.isTable = false) :
    t.SubTable cv p key self =
      Except.ok ({ LuaTable.new with path := t.path ++ keyPath key }, t, p.pushed t L) := by
  have hvm : t.vm (p.pushed t L) = Except.ok (t.materialize p L) := vm_pushed t p L a h _
  simp only [LuaTable.SubTable, PushTable_names t p L a h, bind, Except.bind, hvm,
    lua_gettable_key t p L a h key, hl, Except.map]
  have : lua_istable { t.materialize p L with
      stack := v :: (t.materialize p L).stack } (-1) = false := by
    simp only [lua_istable, index_neg_one, List.head?_cons]
    cases v <;> simp_all [LuaValue.isTable]
  simp [this, pop_push, pushed_L, pure, Except.pure]

theorem SubTable_table (cv : NumConv) (t : LuaTable) (p : LuaParser) (L : lua_State) (a : Nat)
    (h : t.Names p L a) (key : Key) (self : Nat) (b : Nat)
    (hv : L.lookup a (keyValue key) = Except.ok (LuaValue.table b)) (hok : RegistryOK cv L) :
    ∃ sub p' L', t.SubTable cv p key self = Except.ok (sub, t, p') ∧
      sub.Names p' L' b ∧ t.Names p' L' a ∧ L'.heap = L.heap ∧
      sub.path = t.path ++ keyPath key ∧ sub.refnum ≠ LUA_NOREF ∧
      L'.metatables = L.metatables := by
  have hvm : t.vm (p.pushed t L) = Except.ok (t.materialize p L) := vm_pushed t p L a h _
  obtain ⟨rest, hrest⟩ := materialize_stack t p L a h
  have hokM : RegistryOK cv { t.materialize p L with
      stack := LuaValue.table b :: (t.materialize p L).stack } := by
    simpa [RegistryOK, materialize_registry] using hok
  obtain ⟨ref, reg, href, hpos, hget, hfresh, hkeep⟩ :=
    luaL_ref_spec cv _ (LuaValue.table b) (t.materialize p L).stack rfl (by simp) hokM
  obtain ⟨x, hx⟩ := Option.ne_none_iff_exists'.mp h.parser
  simp only [materialize_registry] at hfresh hkeep
  have hne : ref ≠ t.refnum := by
    intro e
    rw [e, h.names] at hfresh
    simp [LuaValue.isTable] at hfresh
  have hnoref : ref ≠ LUA_NOREF := by
    intro e; rw [e] at hpos; simp [LUA_NOREF] at hpos
  refine ⟨{ isValid := true, path := t.path ++ keyPath key, parser := t.parser,
            L := t.L, refnum := ref },
    LuaParser.AddTable { p.pushed t L with L := some { t.materialize p L with registry := reg } } self,
    { t.materialize p L with registry := reg }, ?_, ?_, ?_, ?_, ?_, ?_, ?_⟩
  · simp only [LuaTable.SubTable, PushTable_names t p L a h, bind, Except.bind, hvm,
      lua_gettable_key t p L a h key, hv, Except.map]
    have : lua_istable { t.materialize p L with
        stack := LuaValue.table b :: (t.materialize p L).stack } (-1) = true := by
      simp [lua_istable, index_neg_one]
    simp only [this, Bool.true_eq_false, if_false, href, LuaTable.derefParser, hx, pure,
      Except.pure]
    simp [hnoref, LuaTable.new, hx]
  · exact {
      valid := by simp [hnoref]
      parser := h.parser
      vmPtr := h.vmPtr
      vm := by simp [LuaParser.AddTable]
      names := by simpa using hget
      cache := by
        intro _ hc
        simp [LuaParser.AddTable, LuaParser.pushed] at hc
        exact absurd hc.symm hne }
  · exact {
      valid := h.valid
      parser := h.parser
      vmPtr := h.vmPtr
      vm := by simp [LuaParser.AddTable]
      names := by
        have := hkeep t.refnum (by rw [h.names]; rfl)
        simpa [h.names] using this
      cache := by
        intro _ _
        simp [hrest] }
  · simp [materialize_heap]
  · simp
  · simpa using hnoref
  · simp [materialize_metatables]

theorem index_gettop (L : lua_State) (x : LuaValue) (rest : List LuaValue)
    (h : L.stack = x :: rest) : L.index (lua_gettop L) = some x := by
  have : (0 : Int) < (rest.length : Int) + 1 := by omega
  simp [lua_State.index, lua_gettop, h, this]

theorem forEachEntry_top {σ : Type} (L : lua_State) (a : Nat) (rest : List LuaValue)
    (h : L.stack = LuaValue.table a :: rest) (body : lua_State → σ → Except Fault σ) (init : σ) :
    forEachEntry L (lua_gettop L) body init =
      (L.tableAt a).foldlM
        (fun acc e => body { L with stack := e.2 :: e.1 :: L.stack } acc) init := by
  simp [forEachEntry, index_gettop L _ rest h]

theorem foldlM_filterMap {σ β : Type} (es : TableObj)
    (f : σ → LuaValue × LuaValue → Except Fault σ) (g : LuaValue × LuaValue → Option β)
    (upd : σ → β → σ)
    (hf : ∀ acc, ∀ e ∈ es, f acc e = Except.ok (match g e with
      | some b => upd acc b
      | none => acc)) (init : σ) :
    es.foldlM f init = Except.ok ((es.filterMap g).foldl upd init) := by
  induction es generalizing init with
  | nil => simp [List.foldlM, pure, Except.pure]
  | cons e es ih =>
    rw [List.foldlM_cons, hf init e (List.mem_cons_self _ _)]
    simp only [bind, Except.bind]
    rw [ih (fun acc e' he' => hf acc e' (List.mem_cons_of_mem _ he'))]
    cases hg : g e <;> simp [List.filterMap_cons, hg]

theorem foldl_append_singleton {β : Type} (l : List β) (init : List β) :
    l.foldl (fun d b => d ++ [b]) init = init ++ l := by
  induction l generalizing init with
  | nil => simp
  | cons x l ih => simp [ih]

theorem mem_filterMap_intKey (es : TableObj) (k v : LuaValue) (n : lua_Number)
    (he : (k, v) ∈ es) (hk : k = LuaValue.number n) : truncate n ∈ es.filterMap intKey := by
  rw [List.mem_filterMap]
  exact ⟨(k, v), he, by simp [intKey, hk]⟩

theorem GetKeysInt_names (cv : NumConv) (t : LuaTable) (p : LuaParser) (L : lua_State) (a : Nat)
    (h : t.Names p L a) (hr : ∀ i ∈ (L.tableAt a).filterMap intKey, InIntRange i)
    (data : List Int) :
    t.GetKeysInt cv p data =
      Except.ok (true, sortInts (data ++ (L.tableAt a).filterMap intKey), t, p.pushed t L) := by
  obtain ⟨rest, hrest⟩ := materialize_stack t p L a h
  have hvm : t.vm (p.pushed t L) = Except.ok (t.materialize p L) := vm_pushed t p L a h _
  simp only [LuaTable.GetKeysInt, PushTable_names t p L a h, bind, Except.bind, hvm,
    forEachEntry_top _ a rest hrest, materialize_tableAt]
  rw [foldlM_filterMap _ _ intKey (fun d b => d ++ [b]), foldl_append_singleton]
  · simp [pure, Except.pure]
  · intro acc e he
    obtain ⟨k, v⟩ := e
    cases k with
    | number n =>
      have hn : InIntRange (truncate n) := hr _ (mem_filterMap_intKey _ _ _ n he rfl)
      have hd : double2int n = Except.ok (truncate n) := by
        simp [double2int, hn.1, hn.2]
      simp [lua_israwnumber, lua_tonumber, lua_State.index, tonumber, hd, intKey, pure,
        Except.pure, bind, Except.bind]
    | _ => simp [lua_israwnumber, lua_State.index, intKey, pure, Except.pure]

theorem GetKeysString_names (cv : NumConv) (t : LuaTable) (p : LuaParser) (L : lua_State)
    (a : Nat) (h : t.Names p L a) (data : List String) :
    t.GetKeysString cv p data =
      Except.ok (true, sortStrings (data ++ (L.tableAt a).filterMap stringKey), t,
        p.pushed t L) := by
  obtain ⟨rest, hrest⟩ := materialize_stack t p L a h
  have hvm : t.vm (p.pushed t L) = Except.ok (t.materialize p L) := vm_pushed t p L a h _
  simp only [LuaTable.GetKeysString, PushTable_names t p L a h, bind, Except.bind, hvm,
    forEachEntry_top _ a rest hrest, materialize_tableAt]
  rw [foldlM_filterMap _ _ stringKey (fun d b => d ++ [b]), foldl_append_singleton]
  · simp [pure, Except.pure]
  · intro acc e _
    obtain ⟨k, v⟩ := e
    cases k <;>
      simp [lua_israwstring, lua_tostring, lua_State.index, stringKey, pure, Except.pure]

theorem sortInts_sorted (l : List Int) : (sortInts l).Sorted (· ≤ ·) :=
  List.sorted_insertionSort (· ≤ ·) l

theorem sortInts_perm (l : List Int) : (sortInts l).Perm l :=
  List.perm_insertionSort _ l

theorem sortStrings_perm (l : List String) : (sortStrings l).Perm l :=
  List.perm_insertionSort _ l

theorem data_le_iff (a b : String) : a.data ≤ b.data ↔ a ≤ b :=
  String.le_iff_toList_le.symm

theorem sortStrings_sorted (l : List String) : (sortStrings l).Sorted (· ≤ ·) := by
  haveI : IsTotal String (fun a b => a.data ≤ b.data) :=
    ⟨fun a b => by simp only [data_le_iff]; exact le_total a b⟩
  haveI : IsTrans String (fun a b => a.data ≤ b.data) :=
    ⟨fun a b c => by simp only [data_le_iff]; exact le_trans⟩
  have := List.sorted_insertionSort (fun a b : String => a.data ≤ b.data) l
  exact List.Pairwise.imp (fun {a b} hab => (data_le_iff a b).mp hab) this

theorem foldl_assign_of_not_mem {K V : Type} [DecidableEq K] (l : List (K × V))
    (m : StdMap K V) (k : K) (hk : k ∉ l.map Prod.fst) :
    (l.foldl (fun m kv => m.assign kv.1 kv.2) m) k = m k := by
  induction l generalizing m with
  | nil => rfl
  | cons e l ih =>
    simp only [List.map_cons, List.mem_cons, not_or] at hk
    rw [List.foldl_cons, ih _ hk.2]
    simp [StdMap.assign, hk.1]

theorem foldl_assign_of_mem {K V : Type} [DecidableEq K] (l : List (K × V))
    (hnd : (l.map Prod.fst).Nodup) (m : StdMap K V) (k : K) (v : V) (h : (k, v) ∈ l) :
    (l.foldl (fun m kv => m.assign kv.1 kv.2) m) k = some v := by
  induction l generalizing m with
  | nil => simp at h
  | cons e l ih =>
    simp only [List.map_cons, List.nodup_cons] at hnd
    rw [List.foldl_cons]
    rcases List.mem_cons.mp h with he | hl
    · subst he
      rw [foldl_assign_of_not_mem _ _ _ hnd.1]
      simp [StdMap.assign]
    · exact ih hnd.2 _ hl

theorem foldl_assign_empty_iff {K V : Type} [DecidableEq K] (l : List (K × V))
    (hnd : (l.map Prod.fst).Nodup) (k : K) (v : V) :
    (l.foldl (fun m kv => m.assign kv.1 kv.2) StdMap.empty) k = some v ↔ (k, v) ∈ l := by
  constructor
  · intro h
    by_cases hk : k ∈ l.map Prod.fst
    · obtain ⟨⟨k', v'⟩, hm, rfl⟩ := List.mem_map.mp hk
      rw [foldl_assign_of_mem l hnd _ _ _ hm] at h
      simp only [Option.some.injEq] at h
      rw [← h]; exact hm
    · rw [foldl_assign_of_not_mem _ _ _ hk] at h
      simp [StdMap.empty] at h
  · exact foldl_assign_of_mem l hnd _ k v

theorem map_fst_mapEntry_sublist {K V : Type} (key : LuaValue × LuaValue → Option K)
    (val : LuaValue → Option V) (es : TableObj) :
    ((es.filterMap (mapEntry key val)).map Prod.fst).Sublist (es.filterMap key) := by
  induction es with
  | nil => simp
  | cons e es ih =>
    simp only [List.filterMap_cons]
    cases hk : key e with
    | none => simpa [mapEntry, hk] using ih
    | some k =>
      cases hv : val e.2 with
      | none => simpa [mapEntry, hk, hv] using ih.cons k
      | some v => simpa [mapEntry, hk, hv] using ih.cons₂ k

theorem cstr_of_nulFree (s : String) (h : NulFree s) : cstr s = s := by
  have : s.data.takeWhile (fun c => decide (c ≠ Char.ofNat 0)) = s.data := by
    rw [List.takeWhile_eq_self_iff]
    intro c hc
    simp only [decide_eq_true_eq]
    rintro rfl
    exact h hc
  unfold cstr
  rw [this]

theorem stringKey_nulFree (es : TableObj)
    (hnul : ∀ e ∈ es, ∀ s, e.1 = LuaValue.string s → NulFree s) (e : LuaValue × LuaValue)
    (he : e ∈ es) (k : String) : stringKey e = some k ↔ e.1 = LuaValue.string k := by
  obtain ⟨x, v⟩ := e
  cases x with
  | string s =>
    have := cstr_of_nulFree s (hnul _ he s rfl)
    simp [stringKey, this]
  | _ => simp [stringKey]

theorem nodup_stringKeys (es : TableObj) (hnd : (es.map Prod.fst).Nodup)
    (hnul : ∀ e ∈ es, ∀ s, e.1 = LuaValue.string s → NulFree s) :
    (es.filterMap stringKey).Nodup := by
  induction es with
  | nil => simp
  | cons e es ih =>
    have hnul' : ∀ e' ∈ es, ∀ s, e'.1 = LuaValue.string s → NulFree s :=
      fun e' he' => hnul e' (List.mem_cons_of_mem _ he')
    simp only [List.map_cons, List.nodup_cons] at hnd
    simp only [List.filterMap_cons]
    obtain ⟨k, v⟩ := e
    cases k with
    | string s =>
      have hs : cstr s = s := cstr_of_nulFree s (hnul _ (List.mem_cons_self _ _) s rfl)
      simp only [stringKey, List.nodup_cons]
      refine ⟨?_, ih hnd.2 hnul'⟩
      intro hm
      obtain ⟨e', he, hk⟩ := List.mem_filterMap.mp hm
      apply hnd.1
      rw [stringKey_nulFree es hnul' e' he, hs] at hk
      exact List.mem_map.mpr ⟨e', he, hk⟩
    | _ => simpa [stringKey] using ih hnd.2 hnul'

theorem mem_filterMap_mapEntry {K V : Type} (key : LuaValue × LuaValue → Option K)
    (val : LuaValue → Option V) (es : TableObj) (k : K) (v : V) :
    (k, v) ∈ es.filterMap (mapEntry key val) ↔
      ∃ e ∈ es, key e = some k ∧ val e.2 = some v := by
  rw [List.mem_filterMap]
  constructor
  · rintro ⟨e, he, h⟩
    refine ⟨e, he, ?_⟩
    unfold mapEntry at h
    cases hk : key e <;> cases hv : val e.2 <;> simp_all
  · rintro ⟨e, he, hk, hv⟩
    exact ⟨e, he, by simp [mapEntry, hk, hv]⟩

theorem double2int_of_range (n : lua_Number) (h : InIntRange (truncate n)) :
    double2int n = Except.ok (truncate n) := by
  simp [double2int, h.1, h.2]

theorem tonumber_number (cv : NumConv) (n : lua_Number) :
    tonumber cv (LuaValue.number n) = some n := rfl

theorem GetMapIntFloat_names (cv : NumConv) (t : LuaTable) (p : LuaParser) (L : lua_State)
    (a : Nat) (h : t.Names p L a) (hr : ∀ i ∈ (L.tableAt a).filterMap intKey, InIntRange i)
    (data : StdMap Int CFloat) :
    t.GetMapIntFloat cv p data =
      Except.ok (true,
        ((L.tableAt a).filterMap (mapEntry intKey (floatValue cv))).foldl
          (fun m kv => m.assign kv.1 kv.2) data, t, p.pushed t L) := by
  obtain ⟨rest, hrest⟩ := materialize_stack t p L a h
  have hvm : t.vm (p.pushed t L) = Except.ok (t.materialize p L) := vm_pushed t p L a h _
  simp only [LuaTable.GetMapIntFloat, PushTable_names t p L a h, bind, Except.bind, hvm,
    forEachEntry_top _ a rest hrest, materialize_tableAt]
  rw [foldlM_filterMap _ _ (mapEntry intKey (floatValue cv)) (fun m kv => m.assign kv.1 kv.2)]
  · simp [pure, Except.pure]
  · intro acc e he
    obtain ⟨k, v⟩ := e
    cases k with
    | number n =>
      have hd := double2int_of_range n (hr _ (mem_filterMap_intKey _ _ _ n he rfl))
      cases hv : tonumber cv v <;>
        simp [lua_israwnumber, lua_isnumber, lua_tonumber, lua_State.index, tonumber_number, hd, hv,
          intKey, mapEntry, floatValue, pure, Except.pure, bind, Except.bind]
    | _ => simp [lua_israwnumber, lua_State.index, intKey, mapEntry, pure, Except.pure]

theorem lua_isstring_eq (L : lua_State) (cv : NumConv) (v : LuaValue) (r : List LuaValue)
    (h : L.stack = v :: r) : lua_isstring L (-1) = (tostring cv v).isSome := by
  cases v <;> simp [lua_isstring, lua_State.index, h, tostring]

theorem lua_tostring_eq (L : lua_State) (cv : NumConv) (v : LuaValue) (r : List LuaValue)
    (h : L.stack = v :: r) : (lua_tostring cv L (-1)).1 = tostring cv v := by
  cases v <;> simp [lua_tostring, lua_State.index, h, tostring]

theorem GetMapIntString_names (cv : NumConv) (t : LuaTable) (p : LuaParser) (L : lua_State)
    (a : Nat) (h : t.Names p L a) (hr : ∀ i ∈ (L.tableAt a).filterMap intKey, InIntRange i)
    (data : StdMap Int String) :
    t.GetMapIntString cv p data =
      Except.ok (true,
        ((L.tableAt a).filterMap (mapEntry intKey (stringValue cv))).foldl
          (fun m kv => m.assign kv.1 kv.2) data, t, p.pushed t L) := by
  obtain ⟨rest, hrest⟩ := materialize_stack t p L a h
  have hvm : t.vm (p.pushed t L) = Except.ok (t.materialize p L) := vm_pushed t p L a h _
  simp only [LuaTable.GetMapIntString, PushTable_names t p L a h, bind, Except.bind, hvm,
    forEachEntry_top _ a rest hrest, materialize_tableAt]
  rw [foldlM_filterMap _ _ (mapEntry intKey (stringValue cv)) (fun m kv => m.assign kv.1 kv.2)]
  · simp [pure, Except.pure]
  · intro acc e he
    obtain ⟨k, v⟩ := e
    cases k with
    | number n =>
      have hd := double2int_of_range n (hr _ (mem_filterMap_intKey _ _ _ n he rfl))
      have h1 := lua_isstring_eq { t.materialize p L with
        stack := v :: LuaValue.number n :: (t.materialize p L).stack } cv v _ rfl
      have h2 := lua_tostring_eq { t.materialize p L with
        stack := v :: LuaValue.number n :: (t.materialize p L).stack } cv v _ rfl
      simp only [h1, h2]
      cases hv : tostring cv v <;>
        simp [lua_israwnumber, lua_tonumber, lua_State.index, tonumber_number, hd, hv,
          intKey, mapEntry, stringValue, pure, Except.pure, bind, Except.bind]
    | _ => simp [lua_israwnumber, lua_State.index, intKey, mapEntry, pure, Except.pure]

theorem GetMapStringFloat_names (cv : NumConv) (t : LuaTable) (p : LuaParser) (L : lua_State)
    (a : Nat) (h : t.Names p L a) (data : StdMap String CFloat) :
    t.GetMapStringFloat cv p data =
      Except.ok (true,
        ((L.tableAt a).filterMap (mapEntry stringKey (floatValue cv))).foldl
          (fun m kv => m.assign kv.1 kv.2) data, t, p.pushed t L) := by
  obtain ⟨rest, hrest⟩ := materialize_stack t p L a h
  have hvm : t.vm (p.pushed t L) = Except.ok (t.materialize p L) := vm_pushed t p L a h _
  simp only [LuaTable.GetMapStringFloat, PushTable_names t p L a h, bind, Except.bind, hvm,
    forEachEntry_top _ a rest hrest, materialize_tableAt]
  rw [foldlM_filterMap _ _ (mapEntry stringKey (floatValue cv))
    (fun m kv => m.assign kv.1 kv.2)]
  · simp [pure, Except.pure]
  · intro acc e _
    obtain ⟨k, v⟩ := e
    cases k with
    | string s =>
      cases hv : tonumber cv v <;>
        simp [lua_israwstring, lua_isnumber, lua_tonumber, lua_tostring, lua_State.index, hv,
          stringKey, mapEntry, floatValue, pure, Except.pure]
    | _ => simp [lua_israwstring, lua_State.index, stringKey, mapEntry, pure, Except.pure]

theorem GetMapStringString_names (cv : NumConv) (t : LuaTable) (p : LuaParser) (L : lua_State)
    (a : Nat) (h : t.Names p L a) (data : StdMap String String) :
    t.GetMapStringString cv p data =
      Except.ok (true,
        ((L.tableAt a).filterMap (mapEntry stringKey (stringValue cv))).foldl
          (fun m kv => m.assign kv.1 kv.2) data, t, p.pushed t L) := by
  obtain ⟨rest, hrest⟩ := materialize_stack t p L a h
  have hvm : t.vm (p.pushed t L) = Except.ok (t.materialize p L) := vm_pushed t p L a h _
  simp only [LuaTable.GetMapStringString, PushTable_names t p L a h, bind, Except.bind, hvm,
    forEachEntry_top _ a rest hrest, materialize_tableAt]
  rw [foldlM_filterMap _ _ (mapEntry stringKey (stringValue cv))
    (fun m kv => m.assign kv.1 kv.2)]
  · simp [pure, Except.pure]
  · intro acc e _
    obtain ⟨k, v⟩ := e
    cases k with
    | string s =>
      have h1 := lua_isstring_eq { t.materialize p L with
        stack := v :: LuaValue.string s :: (t.materialize p L).stack } cv v _ rfl
      have h2 := lua_tostring_eq { t.materialize p L with
        stack := v :: LuaValue.string s :: (t.materialize p L).stack } cv v _ rfl
      simp only [h1, h2]
      cases hv : tostring cv v <;>
        simp [lua_israwstring, lua_tostring, lua_State.index, hv,
          stringKey, mapEntry, stringValue, pure, Except.pure]
    | _ => simp [lua_israwstring, lua_State.index, stringKey, mapEntry, pure, Except.pure]

theorem toNat_ofNat_small (n : Nat) (h : n < 55296) : (Char.ofNat n).toNat = n := by
  have hv : n.isValidChar := Or.inl h
  simp only [Char.ofNat, hv, dite_true, Char.toNat, Char.ofNatAux]
  show (UInt32.ofNat' n _).toNat = n
  simp [UInt32.ofNat', UInt32.toNat]

theorem toLower_toLower (c : Char) : (c.toLower).toLower = c.toLower := by
  by_cases h : c.toNat ≥ 65 ∧ c.toNat ≤ 90
  · have h1 : c.toLower = Char.ofNat (c.toNat + 32) := by simp [Char.toLower, h]
    have h2 : (Char.ofNat (c.toNat + 32)).toNat = c.toNat + 32 :=
      toNat_ofNat_small _ (by omega)
    rw [h1]
    have : ¬ ((Char.ofNat (c.toNat + 32)).toNat ≥ 65 ∧ (Char.ofNat (c.toNat + 32)).toNat ≤ 90) := by
      rw [h2]; omega
    simp only [Char.toLower, this, if_false]
  · have h1 : c.toLower = c := by simp only [Char.toLower, h, if_false]
    rw [h1, h1]

theorem StringToLower_idem (s : String) : StringToLower (StringToLower s) = StringToLower s := by
  have : Char.toLower ∘ Char.toLower = Char.toLower := funext toLower_toLower
  simp [StringToLower, this]

theorem rawget_rawset_string_ne (t : TableObj) (a b : String) (v : LuaValue) (h : b ≠ a) :
    rawget (rawset t (LuaValue.string a) v) (LuaValue.string b) = rawget t (LuaValue.string b) :=
  rawget_rawset_of_ne _ _ _ _ (by simpa using h)

theorem SetupStdLibs_ok (libs : StdLibs) (L : lua_State) :
    ∃ L', SetupStdLibs libs L = Except.ok L' ∧ L'.stack = L.stack ∧ L'.registry = L.registry ∧
      L'.resolved = L.resolved := by
  have hm : rawget (rawset (rawset (rawset (rawset (rawset (rawset
      (rawset (rawset (rawset (luaopen_base libs L).globals
        (LuaValue.string "math") (LuaValue.table L.heap.length))
        (LuaValue.string "table") (LuaValue.table (L.heap.length + 1)))
        (LuaValue.string "string") (LuaValue.table (L.heap.length + 1 + 1)))
        (LuaValue.string "dofile") LuaValue.nil) (LuaValue.string "loadfile") LuaValue.nil)
        (LuaValue.string "loadlib") LuaValue.nil) (LuaValue.string "require") LuaValue.nil)
        (LuaValue.string "gcinfo") LuaValue.nil) (LuaValue.string "collectgarbage") LuaValue.nil)
      (LuaValue.string "math") = LuaValue.table L.heap.length := by
    rw [rawget_rawset_string_ne _ _ _ _ (by decide), rawget_rawset_string_ne _ _ _ _ (by decide),
      rawget_rawset_string_ne _ _ _ _ (by decide), rawget_rawset_string_ne _ _ _ _ (by decide),
      rawget_rawset_string_ne _ _ _ _ (by decide), rawget_rawset_string_ne _ _ _ _ (by decide),
      rawget_rawset_string_ne _ _ _ _ (by decide), rawget_rawset_string_ne _ _ _ _ (by decide),
      rawget_rawset_self _ _ _ (by simp)]
  unfold SetupStdLibs
  simp only [lua_setglobal, lua_pushnil, lua_push, lua_getglobal, lua_pushstring, bind,
    Except.bind, pure, Except.pure, luaopen_table, List.length_append, List.length_singleton]
  simp only [luaopen_base] at hm
  simp only [luaopen_base, hm, lua_rawset, lua_State.index]
  simp [lua_pop, luaopen_base]

theorem setupCallOuts_ok (libs : StdLibs) (p : LuaParser) (L : lua_State) (hs : L.stack = [])
    (hd : p.initDepth = 0) :
    ∃ L', p.setupCallOuts libs L = Except.ok { p with L := some L' } ∧ L'.stack = [] ∧
      L'.registry = L.registry ∧ L'.resolved = L.resolved := by
  obtain ⟨L1, h1, hs1, hr1, hv1⟩ := SetupStdLibs_ok libs L
  rw [hs] at hs1
  obtain ⟨st, hp, rg, gl, rs, mt⟩ := L1
  simp only at hs1 hr1 hv1
  subst hs1
  simp only [LuaParser.setupCallOuts, h1, bind, Except.bind, LuaParser.NewTable,
    LuaParser.AddFunc, LuaParser.EndTable, LuaParser.PushParam, pushBuilderKey, lua_pushstring,
    lua_push, lua_newtable, lua_pushcfunction, hd]
  simp [lua_rawset, lua_rawset_globals, lua_State.index, pure, Except.pure, bind, Except.bind,
    hr1, hv1]

theorem adjustResults_one (values : List LuaValue) :
    adjustResults values 1 = [values.head?.getD LuaValue.nil] := by
  cases values with
  | nil => simp [adjustResults]
  | cons v vs => simp [adjustResults, List.take]

theorem lua_istable_one (L : lua_State) (v : LuaValue) (h : L.stack = [v]) :
    lua_istable L 1 = v.isTable := by
  cases v <;> simp [lua_istable, lua_State.index, h, LuaValue.isTable]

theorem Execute_no_table (env : Env) (this : Nat) (p : LuaParser) (L : lua_State)
    (cur : Option Nat) (code : String) (chunk : Nat)
    (hL : p.L = some L) (hs : L.stack = []) (hd : p.initDepth = 0)
    (hf : env.loadStringData p.fileName p.fileModes = some code)
    (hc : env.loadbuffer code p.fileName = Except.ok chunk)
    (hrun : ∀ q, (env.run chunk (some this) q).error = none)
    (hv : ∀ q, ((env.run chunk (some this) q).values.head?.getD LuaValue.nil).isTable = false) :
    ∃ files, LuaParser.Execute env this p cur =
      Except.ok (false,
        { p with errorLog := "missing return table from " ++ p.fileName ++ "\n", L := none,
                 accessedFiles := files }, none) := by
  obtain ⟨L1, h1, hs1, -, -⟩ := setupCallOuts_ok env.libs p L hs hd
  unfold LuaParser.Execute
  simp only [hL, hd, ne_eq, not_true_eq_false, if_false, hf, h1, bind, Except.bind, hc, hrun,
    adjustResults_one]
  generalize hout : env.run chunk (some this) _ = out
  have hvo : (out.values.head?.getD LuaValue.nil).isTable = false := by rw [← hout]; exact hv _
  rw [lua_istable_one _ (out.values.head?.getD LuaValue.nil)
    (by simp [lua_pushcfunction, lua_push, hs1]), hvo]
  exact ⟨_, rfl⟩

theorem Execute_table (env : Env) (this : Nat) (p : LuaParser) (L : lua_State)
    (cur : Option Nat) (code : String) (chunk : Nat)
    (hL : p.L = some L) (hs : L.stack = []) (hd : p.initDepth = 0)
    (hok : RegistryOK env.cv L)
    (hf : env.loadStringData p.fileName p.fileModes = some code)
    (hc : env.loadbuffer code p.fileName = Except.ok chunk)
    (hrun : ∀ q, (env.run chunk (some this) q).error = none)
    (hv : ∀ q, ((env.run chunk (some this) q).values.head?.getD LuaValue.nil).isTable = true) :
    ∃ p' L' a, LuaParser.Execute env this p cur = Except.ok (true, p', none) ∧
      p'.valid = true ∧ p'.L = some L' ∧ L'.stack = [] ∧
      rawget L'.registry (LuaValue.number p'.rootRef) = LuaValue.table a ∧
      p'.rootRef ≠ LUA_NOREF := by
  obtain ⟨L1, h1, hs1, hr1, -⟩ := setupCallOuts_ok env.libs p L hs hd
  unfold LuaParser.Execute
  simp only [hL, hd, ne_eq, not_true_eq_false, if_false, hf, h1, bind, Except.bind, hc, hrun,
    adjustResults_one]
  generalize hout : env.run chunk (some this) _ = out
  have hvo : (out.values.head?.getD LuaValue.nil).isTable = true := by rw [← hout]; exact hv _
  rw [lua_istable_one _ (out.values.head?.getD LuaValue.nil)
    (by simp [lua_pushcfunction, lua_push, hs1]), hvo]
  simp only [Bool.true_eq_false, if_false]
  generalize out.values.head?.getD LuaValue.nil = v at hvo ⊢
  cases v <;> simp [LuaValue.isTable] at hvo
  rename_i a
  obtain ⟨ref, reg, href, hpos, hget, -, -⟩ := luaL_ref_spec env.cv
    { stack := [LuaValue.table a] ++ (lua_pushcfunction L1 chunk).stack.drop 1,
      heap := out.heap, registry := (lua_pushcfunction L1 chunk).registry,
      globals := out.globals, resolved := (lua_pushcfunction L1 chunk).resolved,
      metatables := out.metatables }
    (LuaValue.table a) [] (by simp [lua_pushcfunction, lua_push, hs1]) (by simp)
    (by simpa [RegistryOK, lua_pushcfunction, lua_push, hr1] using hok)
  rw [href]
  refine ⟨_, _, a, rfl, rfl, rfl, by simp [lua_settop], by simpa using hget, ?_⟩
  intro e
  simp only at e
  rw [e] at hpos
  simp [LUA_NOREF] at hpos

theorem loaded_spec : loaded specTables = some (exampleRoot, exampleParser specTables) := by
  rfl

theorem exampleRoot_names (tables : List TableObj) :
    exampleRoot.Names (exampleParser tables) (exampleVM tables) 5 :=
  { valid := rfl
    parser := by decide
    vmPtr := by decide
    vm := rfl
    names := rfl
    cache := fun _ _ => rfl }

theorem metatableRoot_names (tables : List TableObj) :
    exampleRoot.Names (metatableParser tables) (metatableVM tables) 5 :=
  { valid := rfl
    parser := by decide
    vmPtr := by decide
    vm := rfl
    names := rfl
    cache := fun _ _ => rfl }

theorem metatableVM_registryOK (cv : NumConv) (tables : List TableObj) :
    RegistryOK cv (metatableVM tables) := by
  constructor
  · show (0 : Int) ≤ tointeger cv LuaValue.nil
    simp [tointeger, tonumber]
  · rfl

theorem exampleVM_registryOK (cv : NumConv) (tables : List TableObj) :
    RegistryOK cv (exampleVM tables) := by
  constructor
  · show (0 : Int) ≤ tointeger cv LuaValue.nil
    simp [tointeger, tonumber]
  · rfl


theorem PushValue_invalid (t : LuaTable) (p : LuaParser) (key : Key) (h : t.isValid = false) :
    t.PushValue p key = Except.ok (false, t, p) := by
  simp [LuaTable.PushValue, PushTable_invalid t p h, bind, Except.bind, pure, Except.pure]

theorem PushValue_miss (t : LuaTable) (p : LuaParser) (L : lua_State) (a : Nat) (key : Key)
    (h : t.isValid = false ∨
      (t.Names p L a ∧ L.lookup a (keyValue key) = Except.ok LuaValue.nil)) :
    ∃ p', t.PushValue p key = Except.ok (false, t, p') := by
  rcases h with h | ⟨h, hv⟩
  · exact ⟨p, PushValue_invalid t p key h⟩
  · exact ⟨_, by rw [PushValue_names t p L a h key, hv]; rfl⟩


theorem truncate_intCast (n : Int) : truncate ((n : Int) : lua_Number) = n := by
  simp [truncate]

theorem intIndices_sorted (m : Nat) : (intIndices m).Sorted (· ≤ ·) := by
  unfold intIndices
  rw [List.Sorted, List.pairwise_map]
  exact (List.pairwise_lt_range m).imp (fun {a b} hab => by
    simp only [Int.ofNat_eq_coe]; omega)

theorem filterMap_intKey_eq (es : TableObj) :
    es.filterMap intKey = (es.map Prod.fst).filterMap (fun k => intKey (k, LuaValue.nil)) := by
  rw [List.filterMap_map]
  rfl

theorem intKeys_arrayIndices (m : Nat) :
    (arrayIndices m).filterMap (fun k => intKey (k, LuaValue.nil)) = intIndices m := by
  unfold arrayIndices intIndices
  rw [List.filterMap_map]
  have : ((fun k => intKey (k, LuaValue.nil)) ∘
      fun i => LuaValue.number ((Int.ofNat (i + 1) : Int) : lua_Number)) =
      some ∘ fun i => Int.ofNat (i + 1) := by
    funext i
    simp only [Function.comp, intKey]
    rw [truncate_intCast]
  rw [this, List.filterMap_eq_map]

theorem intKeys_of_array (es : TableObj) (m : Nat) (h : (es.map Prod.fst).Perm (arrayIndices m)) :
    (es.filterMap intKey).Perm (intIndices m) := by
  rw [filterMap_intKey_eq, ← intKeys_arrayIndices]
  exact h.filterMap _

theorem sortInts_of_array (es : TableObj) (m : Nat)
    (h : (es.map Prod.fst).Perm (arrayIndices m)) :
    sortInts (es.filterMap intKey) = intIndices m :=
  List.eq_of_perm_of_sorted ((sortInts_perm _).trans (intKeys_of_array es m h))
    (sortInts_sorted _) (intIndices_sorted m)

theorem mem_intIndices (m : Nat) (i : Int) (h : i ∈ intIndices m) : 1 ≤ i ∧ i ≤ m := by
  unfold intIndices at h
  obtain ⟨j, hj, rfl⟩ := List.mem_map.mp h
  have := List.mem_range.mp hj
  simp only [Int.ofNat_eq_coe]
  omega

theorem GetKeysInt_invalid (cv : NumConv) (t : LuaTable) (p : LuaParser) (data : List Int)
    (h : t.isValid = false) : t.GetKeysInt cv p data = Except.ok (false, data, t, p) := by
  simp [LuaTable.GetKeysInt, PushTable_invalid t p h, bind, Except.bind, pure, Except.pure]

theorem GetKeysString_invalid (cv : NumConv) (t : LuaTable) (p : LuaParser)
    (data : List String) (h : t.isValid = false) :
    t.GetKeysString cv p data = Except.ok (false, data, t, p) := by
  simp [LuaTable.GetKeysString, PushTable_invalid t p h, bind, Except.bind, pure, Except.pure]

theorem GetMapIntFloat_invalid (cv : NumConv) (t : LuaTable) (p : LuaParser)
    (data : StdMap Int CFloat) (h : t.isValid = false) :
    t.GetMapIntFloat cv p data = Except.ok (false, data, t, p) := by
  simp [LuaTable.GetMapIntFloat, PushTable_invalid t p h, bind, Except.bind, pure, Except.pure]

theorem GetMapIntString_invalid (cv : NumConv) (t : LuaTable) (p : LuaParser)
    (data : StdMap Int String) (h : t.isValid = false) :
    t.GetMapIntString cv p data = Except.ok (false, data, t, p) := by
  simp [LuaTable.GetMapIntString, PushTable_invalid t p h, bind, Except.bind, pure, Except.pure]

theorem GetMapStringFloat_invalid (cv : NumConv) (t : LuaTable) (p : LuaParser)
    (data : StdMap String CFloat) (h : t.isValid = false) :
    t.GetMapStringFloat cv p data = Except.ok (false, data, t, p) := by
  simp [LuaTable.GetMapStringFloat, PushTable_invalid t p h, bind, Except.bind, pure,
    Except.pure]

theorem GetMapStringString_invalid (cv : NumConv) (t : LuaTable) (p : LuaParser)
    (data : StdMap String String) (h : t.isValid = false) :
    t.GetMapStringString cv p data = Except.ok (false, data, t, p) := by
  simp [LuaTable.GetMapStringString, PushTable_invalid t p h, bind, Except.bind, pure,
    Except.pure]

theorem getters_invalid (cv : NumConv) (t : LuaTable) (p : LuaParser) (key : Key)
    (dI : Int) (dB : Bool) (dF : CFloat) (dF3 : float3) (dS : String) (h : t.isValid = false) :
    t.GetInt cv p key dI = Except.ok (dI, t, p) ∧
    t.GetBool cv p key dB = Except.ok (dB, t, p) ∧
    t.GetFloat cv p key dF = Except.ok (dF, t, p) ∧
    t.GetFloat3 cv p key dF3 = Except.ok (dF3, t, p) ∧
    t.GetString cv p key dS = Except.ok (dS, t, p) ∧
    t.KeyExists p key = Except.ok (false, t, p) := by
  simp [LuaTable.GetInt, LuaTable.GetBool, LuaTable.GetFloat, LuaTable.GetFloat3,
    LuaTable.GetString, LuaTable.KeyExists, PushValue_invalid t p key h, bind, Except.bind, pure,
    Except.pure]


theorem pushKey_lower (L : lua_State) (k : String) :
    pushKey L (Key.str k) = pushKey L (Key.str (StringToLower k)) := by
  simp [pushKey, StringToLower_idem]

theorem keyPath_lower (k : String) : keyPath (Key.str k) = keyPath (Key.str (StringToLower k)) := by
  simp [keyPath, StringToLower_idem]

theorem PushValue_lower (t : LuaTable) (p : LuaParser) (k : String) :
    t.PushValue p (Key.str k) = t.PushValue p (Key.str (StringToLower k)) := by
  simp only [LuaTable.PushValue, pushKey_lower _ k]


theorem stringKey_lower (cv : NumConv) (t : LuaTable) (p : LuaParser) (k : String)
    (self : Nat) (dI : Int) (dB : Bool) (dF : CFloat) (dF3 : float3) (dS : String) :
    t.SubTable cv p (Key.str k) self = t.SubTable cv p (Key.str (StringToLower k)) self ∧
    t.KeyExists p (Key.str k) = t.KeyExists p (Key.str (StringToLower k)) ∧
    t.GetInt cv p (Key.str k) dI = t.GetInt cv p (Key.str (StringToLower k)) dI ∧
    t.GetBool cv p (Key.str k) dB = t.GetBool cv p (Key.str (StringToLower k)) dB ∧
    t.GetFloat cv p (Key.str k) dF = t.GetFloat cv p (Key.str (StringToLower k)) dF ∧
    t.GetFloat3 cv p (Key.str k) dF3 = t.GetFloat3 cv p (Key.str (StringToLower k)) dF3 ∧
    t.GetString cv p (Key.str k) dS = t.GetString cv p (Key.str (StringToLower k)) dS := by
  refine ⟨?_, ?_, ?_, ?_, ?_, ?_, ?_⟩
  · simp only [LuaTable.SubTable, pushKey_lower _ k, keyPath_lower k]
  · simp only [LuaTable.KeyExists, PushValue_lower t p k]
  · simp only [LuaTable.GetInt, PushValue_lower t p k]
  · simp only [LuaTable.GetBool, PushValue_lower t p k]
  · simp only [LuaTable.GetFloat, PushValue_lower t p k]
  · simp only [LuaTable.GetFloat3, PushValue_lower t p k]
  · simp only [LuaTable.GetString, PushValue_lower t p k]


theorem map_number_intKeys (es : TableObj)
    (hint : ∀ e ∈ es, ∀ n, e.1 = LuaValue.number n → ((truncate n : Int) : lua_Number) = n) :
    (es.filterMap intKey).map (fun i => LuaValue.number ((i : Int) : lua_Number)) =
      (es.map Prod.fst).filter LuaValue.isNumber := by
  induction es with
  | nil => rfl
  | cons e es ih =>
    have ih' := ih (fun e' he' => hint e' (List.mem_cons_of_mem _ he'))
    obtain ⟨k, v⟩ := e
    cases k with
    | number n =>
      have := hint (LuaValue.number n, v) (List.mem_cons_self _ _) n rfl
      simp [intKey, LuaValue.isNumber, this, ih']
    | _ => simpa [intKey, LuaValue.isNumber] using ih'

theorem map_string_stringKeys (es : TableObj)
    (hnul : ∀ e ∈ es, ∀ s, e.1 = LuaValue.string s → NulFree s) :
    (es.filterMap stringKey).map LuaValue.string = (es.map Prod.fst).filter LuaValue.isString := by
  induction es with
  | nil => rfl
  | cons e es ih =>
    have ih' := ih (fun e' he' => hnul e' (List.mem_cons_of_mem _ he'))
    obtain ⟨k, v⟩ := e
    cases k with
    | string s =>
      have := cstr_of_nulFree s (hnul _ (List.mem_cons_self _ _) s rfl)
      simp [stringKey, LuaValue.isString, ih', this]
    | _ => simpa [stringKey, LuaValue.isString] using ih'

theorem sortInts_congr (l l' : List Int) (h : l'.Perm l) : sortInts l' = sortInts l :=
  List.eq_of_perm_of_sorted ((sortInts_perm l').trans (h.trans (sortInts_perm l).symm))
    (sortInts_sorted l') (sortInts_sorted l)

theorem sortStrings_congr (l l' : List String) (h : l'.Perm l) :
    sortStrings l' = sortStrings l :=
  List.eq_of_perm_of_sorted ((sortStrings_perm l').trans (h.trans (sortStrings_perm l).symm))
    (sortStrings_sorted l') (sortStrings_sorted l)


theorem stringKey_eq_some (e : LuaValue × LuaValue) (k : String) :
    stringKey e = some k ↔ ∃ s, e.1 = LuaValue.string s ∧ cstr s = k := by
  obtain ⟨x, v⟩ := e
  cases x <;> simp [stringKey]

theorem intKey_eq_some (e : LuaValue × LuaValue) (i : Int) :
    intKey e = some i ↔ ∃ n, e.1 = LuaValue.number n ∧ truncate n = i := by
  obtain ⟨x, v⟩ := e
  cases x <;> simp [intKey]

theorem foldl_assign_lastValue {K V : Type} [DecidableEq K] (l : List (K × V)) (k : K) :
    (l.foldl (fun m kv => m.assign kv.1 kv.2) StdMap.empty) k = lastValue l k := by
  induction l using List.reverseRecOn with
  | nil => rfl
  | append_singleton l e ih =>
    rw [List.foldl_append, List.foldl_cons, List.foldl_nil]
    unfold lastValue at ih ⊢
    rw [List.reverse_append, List.reverse_singleton, List.singleton_append, List.find?_cons]
    by_cases he : e.1 = k
    · simp [StdMap.assign, he]
    · have he' : ¬ k = e.1 := fun h => he h.symm
      simp only [StdMap.assign, he', if_false, he, decide_False]
      exact ih

theorem lastValue_of_nodup {K V : Type} [DecidableEq K] (l : List (K × V))
    (hnd : (l.map Prod.fst).Nodup) (k : K) (v : V) :
    lastValue l k = some v ↔ (k, v) ∈ l := by
  rw [← foldl_assign_lastValue]
  exact foldl_assign_empty_iff l hnd k v

theorem assign_stringKeyed {V : Type} (val : LuaValue → Option V) (es : TableObj)
    (hnd : (es.map Prod.fst).Nodup)
    (hnul : ∀ e ∈ es, ∀ s, e.1 = LuaValue.string s → NulFree s) (k : String) (x : V) :
    ((es.filterMap (mapEntry stringKey val)).foldl (fun m kv => m.assign kv.1 kv.2)
      StdMap.empty) k = some x ↔ ∃ v, (LuaValue.string k, v) ∈ es ∧ val v = some x := by
  rw [foldl_assign_empty_iff _
    ((nodup_stringKeys es hnd hnul).sublist (map_fst_mapEntry_sublist stringKey val es)),
    mem_filterMap_mapEntry]
  constructor
  · rintro ⟨⟨k', v⟩, he, hk, hv⟩
    rw [stringKey_nulFree es hnul _ he] at hk
    simp only at hk hv
    subst hk
    exact ⟨v, he, hv⟩
  · rintro ⟨v, he, hv⟩
    exact ⟨(LuaValue.string k, v), he, (stringKey_nulFree es hnul _ he k).mpr rfl, hv⟩

theorem assign_intKeyed {V : Type} (val : LuaValue → Option V) (es : TableObj)
    (hnd : (es.filterMap intKey).Nodup) (i : Int) (x : V) :
    ((es.filterMap (mapEntry intKey val)).foldl (fun m kv => m.assign kv.1 kv.2)
      StdMap.empty) i = some x ↔
      ∃ n v, (LuaValue.number n, v) ∈ es ∧ truncate n = i ∧ val v = some x := by
  rw [foldl_assign_empty_iff _ (hnd.sublist (map_fst_mapEntry_sublist intKey val es)),
    mem_filterMap_mapEntry]
  constructor
  · rintro ⟨⟨k', v⟩, he, hk, hv⟩
    rw [intKey_eq_some] at hk
    obtain ⟨n, hn, ht⟩ := hk
    simp only at hn hv
    subst hn
    exact ⟨n, v, he, ht, hv⟩
  · rintro ⟨n, v, he, ht, hv⟩
    exact ⟨(LuaValue.number n, v), he, by simp [intKey, ht], hv⟩


theorem emptyVM_registryOK (cv : NumConv) : RegistryOK cv emptyVM := by
  constructor
  · show (0 : Int) ≤ tointeger cv LuaValue.nil
    simp [tointeger, tonumber]
  · rfl

theorem lastValue_mapEntry_iff {K V : Type} [DecidableEq K]
    (key : LuaValue × LuaValue → Option K) (val : LuaValue → Option V) (es : TableObj)
    (hnd : (es.filterMap key).Nodup) (k : K) (x : V) :
    lastValue (es.filterMap (mapEntry key val)) k = some x ↔
      ∃ e ∈ es, key e = some k ∧ val e.2 = some x := by
  rw [lastValue_of_nodup _ (hnd.sublist (map_fst_mapEntry_sublist key val es)),
    mem_filterMap_mapEntry]

theorem nodup_intKeys (es : TableObj) (hnd : (es.map Prod.fst).Nodup)
    (hint : ∀ e ∈ es, ∀ n, e.1 = LuaValue.number n → ((truncate n : Int) : lua_Number) = n) :
    (es.filterMap intKey).Nodup := by
  have h := map_number_intKeys es hint
  have hf : (((es.map Prod.fst).filter LuaValue.isNumber)).Nodup := hnd.filter _
  rw [← h] at hf
  exact List.Nodup.of_map _ hf

theorem intKey_whole (es : TableObj)
    (hint : ∀ e ∈ es, ∀ n, e.1 = LuaValue.number n → ((truncate n : Int) : lua_Number) = n)
    (e : LuaValue × LuaValue) (he : e ∈ es) (i : Int) :
    intKey e = some i ↔ e.1 = LuaValue.number ((i : Int) : lua_Number) := by
  rw [intKey_eq_some]
  constructor
  · rintro ⟨n, hn, ht⟩
    rw [hn, ← hint e he n hn, ht]
  · intro h
    exact ⟨_, h, truncate_intCast i⟩

theorem luaL_ref_names (cv : NumConv) (L : lua_State) (v : LuaValue) (rest : List LuaValue)
    (hs : L.stack = v :: rest) (hv : v ≠ LuaValue.nil) :
    ∃ ref reg, luaL_ref cv L = Except.ok (ref, { L with stack := rest, registry := reg }) ∧
      rawget reg (LuaValue.number ref) = v := by
  unfold luaL_ref
  rw [hs]
  simp only [hv, if_false]
  by_cases hf : tointeger cv (rawget L.registry (LuaValue.number FREELIST_REF)) = 0
  · simp only [hf, ne_eq, not_true_eq_false, if_false]
    exact ⟨_, _, rfl, rawget_rawset_self _ _ _ hv⟩
  · simp only [hf, ne_eq, not_false_eq_true, if_true]
    exact ⟨_, _, rfl, rawget_rawset_self _ _ _ hv⟩

theorem failWithTop_ok (cv : NumConv) (p q : LuaParser) (L : lua_State)
    (h : p.failWithTop cv L = Except.ok q) :
    ∃ msg, (lua_tostring cv L (-1)).1 = some msg ∧
      q = { p with errorLog := cstr msg, L := none } := by
  unfold LuaParser.failWithTop at h
  split at h
  · rename_i msg hm
    simp only [pure, Except.pure, Except.ok.injEq] at h
    exact ⟨msg, hm, h.symm⟩
  · simp at h

/-- What `Execute` leaves when it returns, for a parser that is not valid yet and
whose stack is empty: after `false` the VM is closed, the parser is not valid and
`errorLog` holds the message of the failure; after `true` the parser is valid, the
stack is empty and `rootRef` names a table. -/
theorem Execute_atomic (env : Env) (this : Nat) (p : LuaParser) (cur : Option Nat)
    (hv : p.valid = false) (hs : ∀ L, p.L = some L → L.stack = [])
    (b : Bool) (p' : LuaParser) (cur' : Option Nat)
    (h : LuaParser.Execute env this p cur = Except.ok (b, p', cur')) :
    (b = false → p'.L = none ∧ p'.valid = false ∧
      (p'.errorLog = "could not initialize LUA library" ∨
       p'.errorLog = "could not open file: " ++ p.fileName ∨
       (∃ code msg, env.loadbuffer code p.fileName = Except.error msg ∧
         p'.errorLog = cstr msg) ∨
       (∃ v msg, tostring env.cv v = some msg ∧ p'.errorLog = cstr msg) ∨
       p'.errorLog = "missing return table from " ++ p.fileName ++ "\n")) ∧
    (b = true → p'.valid = true ∧ ∃ L a, p'.L = some L ∧ L.stack = [] ∧
      rawget L.registry (LuaValue.number p'.rootRef) = LuaValue.table a) := by
  unfold LuaParser.Execute at h
  cases hL : p.L with
  | none =>
    simp only [hL, pure, Except.pure, Except.ok.injEq, Prod.mk.injEq] at h
    obtain ⟨rfl, rfl, -⟩ := h
    simp [hL, hv]
  | some L =>
    have hs0 := hs L hL
    simp only [hL] at h
    by_cases hd : p.initDepth = 0
    · simp only [hd, ne_eq, not_true_eq_false, if_false] at h
      cases hf : env.loadStringData p.fileName p.fileModes with
      | none =>
        simp only [hf, pure, Except.pure, Except.ok.injEq, Prod.mk.injEq] at h
        obtain ⟨rfl, rfl, -⟩ := h
        simp [hv]
      | some code =>
        obtain ⟨L1, h1, hs1, -, -⟩ := setupCallOuts_ok env.libs p L hs0 hd
        simp only [hf, h1, bind, Except.bind] at h
        cases hc : env.loadbuffer code p.fileName with
        | error msg =>
          simp only [hc] at h
          cases hw : LuaParser.failWithTop env.cv { p with L := some L1 } (lua_pushstring L1 msg) with
          | error e => simp [hw] at h
          | ok q =>
            simp only [hw, pure, Except.pure, Except.ok.injEq, Prod.mk.injEq] at h
            obtain ⟨rfl, rfl, -⟩ := h
            obtain ⟨m, hm, rfl⟩ := failWithTop_ok _ _ _ _ hw
            have : m = msg := by
              simp [lua_tostring, lua_pushstring, lua_push, lua_State.index, tostring] at hm
              exact hm.symm
            subst this
            simp [hv]
            right; right; left; exact ⟨code, _, hc, rfl⟩
        | ok chunk =>
          simp only [hc, adjustResults_one] at h
          generalize hout : env.run chunk (some this) _ = out at h
          cases he : out.error with
          | some err =>
            simp only [he] at h
            cases hw : LuaParser.failWithTop env.cv
                { p with L := some L1, accessedFiles := out.accessedFiles }
                { stack := err :: List.drop 1 (lua_pushcfunction L1 chunk).stack, heap := out.heap,
                  registry := (lua_pushcfunction L1 chunk).registry, globals := out.globals,
                  resolved := (lua_pushcfunction L1 chunk).resolved,
                  metatables := out.metatables } with
            | error e => rw [hw] at h; simp at h
            | ok q =>
              simp only [hw, pure, Except.pure, Except.ok.injEq, Prod.mk.injEq] at h
              obtain ⟨rfl, rfl, -⟩ := h
              obtain ⟨m, hm, rfl⟩ := failWithTop_ok _ _ _ _ hw
              have hm2 : tostring env.cv err = some m := by
                rw [← hm]; exact (lua_tostring_eq _ _ _ _ rfl).symm
              simp [hv]
              right; right; right; left; exact ⟨err, _, hm2, rfl⟩
          | none =>
            simp only [he] at h
            rw [lua_istable_one _ (out.values.head?.getD LuaValue.nil)
              (by simp [lua_pushcfunction, lua_push, hs1])] at h
            cases ht : (out.values.head?.getD LuaValue.nil).isTable with
            | false =>
              simp only [ht, if_true, pure, Except.pure, Except.ok.injEq, Prod.mk.injEq] at h
              obtain ⟨rfl, rfl, -⟩ := h
              simp [hv]
            | true =>
              have hnil : out.values.head?.getD LuaValue.nil ≠ LuaValue.nil := by
                intro hn; rw [hn] at ht; simp [LuaValue.isTable] at ht
              obtain ⟨a, ha⟩ : ∃ a, out.values.head?.getD LuaValue.nil = LuaValue.table a := by
                cases hx : out.values.head?.getD LuaValue.nil <;> simp [hx, LuaValue.isTable] at ht
                exact ⟨_, rfl⟩
              obtain ⟨ref, reg, hr, hn⟩ := luaL_ref_names env.cv
                { stack := [out.values.head?.getD LuaValue.nil] ++
                    List.drop 1 (lua_pushcfunction L1 chunk).stack,
                  heap := out.heap, registry := (lua_pushcfunction L1 chunk).registry,
                  globals := out.globals, resolved := (lua_pushcfunction L1 chunk).resolved,
                  metatables := out.metatables }
                (out.values.head?.getD LuaValue.nil) [] (by simp [lua_pushcfunction, lua_push, hs1])
                hnil
              simp only [ht, Bool.true_eq_false, if_false, hr, pure, Except.pure, Except.ok.injEq,
                Prod.mk.injEq] at h
              obtain ⟨rfl, rfl, -⟩ := h
              simp [lua_settop, hn, ha]
    · simp [hd] at h


theorem rawget_rawset_nil (t : TableObj) (k : LuaValue) :
    rawget (rawset t k LuaValue.nil) k = LuaValue.nil := by
  unfold rawset
  rw [if_pos rfl]
  apply rawget_nil_of_not_mem
  simp [List.mem_map, List.mem_filter]

theorem lua_rawset_neg_three (L : lua_State) (v k : LuaValue) (a : Nat) (rest : List LuaValue)
    (hs : L.stack = v :: k :: LuaValue.table a :: rest) (hk : k ≠ LuaValue.nil) :
    lua_rawset L (-3) = Except.ok
      { L with stack := LuaValue.table a :: rest,
               heap := L.heap.set a (rawset (L.tableAt a) k v) } := by
  simp [lua_rawset, lua_State.index, hs, hk]

/-- The globals after `SetupStdLibs`. -/
theorem SetupStdLibs_eq (libs : StdLibs) (L : lua_State) :
    SetupStdLibs libs L = Except.ok
      { L with
        heap := L.heap ++ [rawset (rawset libs.math (LuaValue.string "random") LuaValue.nil)
                  (LuaValue.string "randomseed") LuaValue.nil, libs.table, libs.string],
        globals := rawset (rawset (rawset (rawset (rawset (rawset
          (rawset (rawset (rawset (luaopen_base libs L).globals
            (LuaValue.string "math") (LuaValue.table L.heap.length))
            (LuaValue.string "table") (LuaValue.table (L.heap.length + 1)))
            (LuaValue.string "string") (LuaValue.table (L.heap.length + 1 + 1)))
            (LuaValue.string "dofile") LuaValue.nil) (LuaValue.string "loadfile") LuaValue.nil)
            (LuaValue.string "loadlib") LuaValue.nil) (LuaValue.string "require") LuaValue.nil)
            (LuaValue.string "gcinfo") LuaValue.nil)
            (LuaValue.string "collectgarbage") LuaValue.nil } := by
  have hm : rawget (rawset (rawset (rawset (rawset (rawset (rawset
      (rawset (rawset (rawset (luaopen_base libs L).globals
        (LuaValue.string "math") (LuaValue.table L.heap.length))
        (LuaValue.string "table") (LuaValue.table (L.heap.length + 1)))
        (LuaValue.string "string") (LuaValue.table (L.heap.length + 1 + 1)))
        (LuaValue.string "dofile") LuaValue.nil) (LuaValue.string "loadfile") LuaValue.nil)
        (LuaValue.string "loadlib") LuaValue.nil) (LuaValue.string "require") LuaValue.nil)
        (LuaValue.string "gcinfo") LuaValue.nil) (LuaValue.string "collectgarbage") LuaValue.nil)
      (LuaValue.string "math") = LuaValue.table L.heap.length := by
    rw [rawget_rawset_string_ne _ _ _ _ (by decide), rawget_rawset_string_ne _ _ _ _ (by decide),
      rawget_rawset_string_ne _ _ _ _ (by decide), rawget_rawset_string_ne _ _ _ _ (by decide),
      rawget_rawset_string_ne _ _ _ _ (by decide), rawget_rawset_string_ne _ _ _ _ (by decide),
      rawget_rawset_string_ne _ _ _ _ (by decide), rawget_rawset_string_ne _ _ _ _ (by decide),
      rawget_rawset_self _ _ _ (by simp)]
  unfold SetupStdLibs
  simp only [lua_setglobal, lua_pushnil, lua_push, lua_getglobal, lua_pushstring, bind,
    Except.bind, pure, Except.pure, luaopen_table, List.length_append, List.length_singleton]
  simp only [luaopen_base] at hm
  simp only [luaopen_base, hm]
  rw [lua_rawset_neg_three _ _ _ _ _ rfl (by simp)]
  simp only []
  rw [lua_rawset_neg_three _ _ _ _ _ rfl (by simp)]
  simp [lua_pop, lua_State.tableAt, List.getElem_append_right]

theorem setupCallOuts_state (libs : StdLibs) (p : LuaParser) (L S : lua_State)
    (hS : SetupStdLibs libs L = Except.ok S) (hs : S.stack = []) (hd : p.initDepth = 0) :
    ∃ L', p.setupCallOuts libs L = Except.ok { p with L := some L' } ∧
      L'.globals = rawset (rawset S.globals (LuaValue.string "Spring")
        (LuaValue.table S.heap.length)) (LuaValue.string "VFS")
        (LuaValue.table (S.heap.length + 1)) ∧
      (∀ a, a < S.heap.length → L'.tableAt a = S.tableAt a) ∧
      L'.heap.length = S.heap.length + 2 := by
  obtain ⟨st, hp, rg, gl, rs, mt⟩ := S
  simp only at hs
  subst hs
  simp only [LuaParser.setupCallOuts, hS, bind, Except.bind, LuaParser.NewTable,
    LuaParser.AddFunc, LuaParser.EndTable, LuaParser.PushParam, pushBuilderKey, lua_pushstring,
    lua_push, lua_newtable, lua_pushcfunction, hd]
  simp [lua_rawset, lua_rawset_globals, lua_State.index, pure, Except.pure, bind, Except.bind]
  intro a ha
  unfold lua_State.tableAt
  simp only [List.get?_eq_getElem?]
  rw [List.getElem?_append_left ha]

/-- `DirList` returns nothing, and asks the file system for nothing, when the
directory leaves the Spring directory. -/
theorem DirList_leavesSpringDir (ce : CallEnv) (c : Nat) (p : LuaParser) (L L1 : lua_State)
    (log : List FsOp) (dir : String) (hd : luaL_checkstring ce L 1 = Except.ok (dir, L1))
    (h : leavesSpringDir dir = true) :
    LuaParser.DirList ce (some c) p L log = Except.ok ⟨CResult.values [], L1, p, log⟩ := by
  simp [LuaParser.DirList, hd, h, pure, Except.pure]

theorem guard_clear (ce : CallEnv) (p : LuaParser) (L : lua_State) (log : List FsOp) :
    LuaParser.DirList ce none p L log = Except.ok
      ⟨CResult.error (LuaValue.string "invalid call to DirList() after execution"),
        L, p, log⟩ ∧
    LuaParser.Include ce none p L log = Except.ok
      ⟨CResult.error (LuaValue.string "invalid call to Include() after execution"),
        L, p, log⟩ ∧
    LuaParser.LoadFile ce none p L log = Except.ok
      ⟨CResult.error (LuaValue.string "invalid call to LoadFile() after execution"),
        L, p, log⟩ ∧
    LuaParser.FileExists ce none p L log = Except.ok
      ⟨CResult.error (LuaValue.string "invalid call to FileExists() after execution"),
        L, p, log⟩ := ⟨rfl, rfl, rfl, rfl⟩

theorem Execute_guard (env : Env) (this : Nat) (p : LuaParser) (cur : Option Nat)
    (r : Bool × LuaParser × Option Nat) (h : LuaParser.Execute env this p cur = Except.ok r) :
    r.2.2 = none ∨ r.2.2 = cur := by
  unfold LuaParser.Execute at h
  cases hL : p.L with
  | none =>
    simp only [hL, pure, Except.pure, Except.ok.injEq] at h
    subst h; right; rfl
  | some L =>
    simp only [hL] at h
    by_cases hd : p.initDepth = 0
    · simp only [hd, ne_eq, not_true_eq_false, if_false] at h
      cases hf : env.loadStringData p.fileName p.fileModes with
      | none =>
        simp only [hf, pure, Except.pure, Except.ok.injEq] at h
        subst h; right; rfl
      | some code =>
        simp only [hf, bind, Except.bind] at h
        cases hsc : LuaParser.setupCallOuts env.libs p L with
        | error e => simp [hsc] at h
        | ok p1 =>
          simp only [hsc] at h
          cases hL1 : p1.L with
          | none => simp [hL1] at h
          | some L1 =>
            simp only [hL1] at h
            cases hc : env.loadbuffer code p1.fileName with
            | error msg =>
              simp only [hc] at h
              cases hw : LuaParser.failWithTop env.cv p1 (lua_pushstring L1 msg) with
              | error e => rw [hw] at h; simp at h
              | ok q =>
                simp only [hw, pure, Except.pure, Except.ok.injEq] at h
                subst h; right; rfl
            | ok chunk =>
              simp only [hc] at h
              split at h
              · split at h
                · simp at h
                · simp only [pure, Except.pure, Except.ok.injEq] at h
                  subst h; left; rfl
              · split at h
                · simp only [pure, Except.pure, Except.ok.injEq] at h
                  subst h; left; rfl
                · split at h
                  · simp at h
                  · simp only [pure, Except.pure, Except.ok.injEq] at h
                    subst h; left; rfl
    · simp [hd] at h

theorem Execute_run_guard (env : Env) (this : Nat) (p : LuaParser) (cur : Option Nat)
    (run : Nat → Option Nat → LuaParser → ScriptOutcome)
    (h : ∀ chunk q, run chunk (some this) q = env.run chunk (some this) q) :
    LuaParser.Execute { env with run := run } this p cur = LuaParser.Execute env this p cur := by
  unfold LuaParser.Execute
  simp only [h]

theorem FreeChain_congr (reg reg' : TableObj) (k : Int) (fl : List Int)
    (h : FreeChain reg k fl)
    (hk : rawget reg' (LuaValue.number k) = rawget reg (LuaValue.number k))
    (hfl : ∀ f ∈ fl, rawget reg' (LuaValue.number f) = rawget reg (LuaValue.number f)) :
    FreeChain reg' k fl := by
  induction fl generalizing k with
  | nil => simpa [FreeChain, hk] using h
  | cons f fl ih =>
    obtain ⟨h1, h2⟩ := h
    refine ⟨by rw [hk, h1], ih f h2 (hfl f (List.mem_cons_self _ _)) ?_⟩
    intro g hg
    exact hfl g (List.mem_cons_of_mem _ hg)

theorem FreeChain_not_table (reg : TableObj) (k : Int) (fl : List Int) (h : FreeChain reg k fl) :
    (rawget reg (LuaValue.number k)).isTable = false ∧
    ∀ f ∈ fl, (rawget reg (LuaValue.number f)).isTable = false := by
  induction fl generalizing k with
  | nil =>
    simp only [FreeChain] at h
    simp [h, LuaValue.isTable]
  | cons f fl ih =>
    obtain ⟨h1, h2⟩ := h
    refine ⟨by simp [h1, LuaValue.isTable], ?_⟩
    intro g hg
    rcases List.mem_cons.1 hg with rfl | hg
    · exact (ih _ h2).1
    · exact (ih _ h2).2 g hg

theorem number_int_inj (a b : Int) :
    LuaValue.number (a : lua_Number) = LuaValue.number (b : lua_Number) ↔ a = b := by
  constructor
  · intro h
    have := LuaValue.number.inj h
    exact_mod_cast this
  · rintro rfl; rfl

theorem rawget_rawset_same (t : TableObj) (k v : LuaValue) : rawget (rawset t k v) k = v := by
  by_cases hv : v = LuaValue.nil
  · subst hv; exact rawget_rawset_nil t k
  · exact rawget_rawset_self t k v hv

theorem rawget_rawset_int_ne (t : TableObj) (k k' : Int) (v : LuaValue) (h : k' ≠ k) :
    rawget (rawset t (LuaValue.number (k : lua_Number)) v) (LuaValue.number (k' : lua_Number)) =
      rawget t (LuaValue.number (k' : lua_Number)) :=
  rawget_rawset_of_ne _ _ _ _ (fun hkk => h ((number_int_inj _ _).1 hkk))

theorem tointeger_intCast (cv : NumConv) (f : Int) :
    tointeger cv (LuaValue.number (f : lua_Number)) = f := by
  simp [tointeger, tonumber, truncate_intCast]

/-- `luaL_ref` on a registry whose free list is in order: the reference is positive
and new (its entry did not hold a table), the value is stored under it, every other
entry but the head of the free list is kept, and the free list is in order again. -/
theorem luaL_ref_freeList (cv : NumConv) (L : lua_State) (v : LuaValue) (rest : List LuaValue)
    (fl : List Int) (hs : L.stack = v :: rest) (hv : v ≠ LuaValue.nil)
    (hfl : FreeList L.registry fl) :
    ∃ ref reg, luaL_ref cv L = Except.ok (ref, { L with stack := rest, registry := reg }) ∧
      0 < ref ∧ rawget reg (LuaValue.number ref) = v ∧
      (rawget L.registry (LuaValue.number ref)).isTable = false ∧
      (∀ k : Int, k ≠ ref → k ≠ 0 →
        rawget reg (LuaValue.number k) = rawget L.registry (LuaValue.number k)) ∧
      FreeList reg fl.tail := by
  obtain ⟨hc, hn, hp⟩ := hfl
  unfold luaL_ref
  rw [hs]
  simp only [hv, if_false]
  cases fl with
  | nil =>
    simp only [FreeChain] at hc
    have h0 : tointeger cv (rawget L.registry (LuaValue.number FREELIST_REF)) = 0 := by
      rw [show (LuaValue.number FREELIST_REF) = LuaValue.number ((FREELIST_REF : Int) : lua_Number)
        from rfl, hc]
      simp [tointeger, tonumber]
    simp only [h0, ne_eq, not_true_eq_false, if_false]
    have hb := objlen_border L.registry
    simp only [Int.ofNat_eq_coe] at hb
    have hne : ((objlen L.registry : Int) + 1) ≠ FREELIST_REF := by
      simp only [FREELIST_REF]; omega
    refine ⟨_, _, rfl, by omega, rawget_rawset_self _ _ _ hv, ?_, ?_, ?_, List.nodup_nil, ?_⟩
    · rw [hb]; rfl
    · intro k hk _
      exact rawget_rawset_int_ne _ _ _ _ hk
    · simp only [List.tail_nil, FreeChain]
      rw [rawget_rawset_int_ne _ _ _ _ hne.symm]
      exact hc
    · simp
  | cons f fl =>
    obtain ⟨hc1, hc2⟩ := hc
    have hf0 : 0 < f := hp f (List.mem_cons_self _ _)
    have h0 : tointeger cv (rawget L.registry (LuaValue.number FREELIST_REF)) = f := by
      rw [show (LuaValue.number FREELIST_REF) = LuaValue.number ((FREELIST_REF : Int) : lua_Number)
        from rfl, hc1]
      exact tointeger_intCast cv f
    have hfne : f ≠ 0 := by omega
    simp only [h0, ne_eq, hfne, not_false_eq_true, if_true]
    have hnt := FreeChain_not_table _ _ _ hc2
    have hnd := List.nodup_cons.1 hn
    refine ⟨_, _, rfl, hf0, rawget_rawset_self _ _ _ hv, hnt.1, ?_, ?_, hnd.2, ?_⟩
    · intro k hk hk0
      rw [rawget_rawset_int_ne _ _ _ _ hk, rawget_rawset_int_ne _ FREELIST_REF _ _ hk0]
    · simp only [List.tail_cons]
      have hhead : rawget (rawset (rawset L.registry (LuaValue.number (FREELIST_REF : Int))
          (rawget L.registry (LuaValue.number (f : lua_Number)))) (LuaValue.number (f : lua_Number)) v)
          (LuaValue.number (FREELIST_REF : Int)) = rawget L.registry (LuaValue.number (f : lua_Number)) := by
        rw [rawget_rawset_int_ne _ _ _ _ (by simp only [FREELIST_REF]; omega), rawget_rawset_same]
      cases fl with
      | nil =>
        simp only [FreeChain] at hc2 ⊢
        rw [hhead, hc2]
      | cons g fl' =>
        obtain ⟨hg1, hg2⟩ := hc2
        refine ⟨by rw [hhead, hg1], ?_⟩
        have hmem : ∀ x ∈ g :: fl', x ≠ f ∧ x ≠ 0 := by
          intro x hx
          refine ⟨fun hxf => hnd.1 (hxf ▸ hx), ?_⟩
          have := hp x (List.mem_cons_of_mem _ hx)
          omega
        apply FreeChain_congr _ _ _ _ hg2
        · rw [rawget_rawset_int_ne _ _ _ _ (hmem g (List.mem_cons_self _ _)).1,
            rawget_rawset_int_ne _ FREELIST_REF _ _ (hmem g (List.mem_cons_self _ _)).2]
        · intro x hx
          rw [rawget_rawset_int_ne _ _ _ _ (hmem x (List.mem_cons_of_mem _ hx)).1,
            rawget_rawset_int_ne _ FREELIST_REF _ _ (hmem x (List.mem_cons_of_mem _ hx)).2]
    · intro g hg
      exact hp g (List.mem_cons_of_mem _ hg)

theorem FreeList_zero_not_table (reg : TableObj) (fl : List Int) (h : FreeList reg fl) :
    (rawget reg (LuaValue.number (0 : Int))).isTable = false :=
  (FreeChain_not_table reg FREELIST_REF fl h.chain).1

theorem FreeList_not_mem (reg : TableObj) (fl : List Int) (h : FreeList reg fl) (r : Int)
    (hr : (rawget reg (LuaValue.number r)).isTable = true) : r ∉ fl ∧ r ≠ 0 := by
  constructor
  · intro hm
    have := (FreeChain_not_table reg FREELIST_REF fl h.chain).2 r hm
    rw [this] at hr; exact absurd hr (by decide)
  · rintro rfl
    have := FreeList_zero_not_table reg fl h
    rw [this] at hr; exact absurd hr (by decide)

/-- `luaL_unref` of a reference that names a table, on a registry whose free list is
in order: only the entry of the reference and the head of the free list change, the
entry does not hold a table any more, and the free list is in order again. -/
theorem luaL_unref_freeList (L : lua_State) (ref : Int) (fl : List Int)
    (hfl : FreeList L.registry fl)
    (hr : (rawget L.registry (LuaValue.number ref)).isTable = true) :
    ∃ reg fl', luaL_unref L ref = { L with registry := reg } ∧ FreeList reg fl' ∧
      (∀ k : Int, k ≠ ref → k ≠ 0 →
        rawget reg (LuaValue.number k) = rawget L.registry (LuaValue.number k)) ∧
      (0 ≤ ref → (rawget reg (LuaValue.number ref)).isTable = false) := by
  obtain ⟨hnm, hr0⟩ := FreeList_not_mem _ _ hfl ref hr
  unfold luaL_unref
  by_cases hneg : 0 ≤ ref
  · have hpos : 0 < ref := by omega
    simp only [hneg, if_true]
    have hnum : LuaValue.number (ref : lua_Number) ≠ LuaValue.nil := by simp
    have hself : rawget (rawset (rawset L.registry (LuaValue.number (ref : lua_Number))
        (rawget L.registry (LuaValue.number (FREELIST_REF : Int))))
        (LuaValue.number (FREELIST_REF : Int)) (LuaValue.number (ref : lua_Number)))
        (LuaValue.number (ref : lua_Number)) =
        rawget L.registry (LuaValue.number (FREELIST_REF : Int)) := by
      rw [rawget_rawset_int_ne _ FREELIST_REF _ _ hr0, rawget_rawset_same]
    refine ⟨_, ref :: fl, rfl, ⟨⟨rawget_rawset_self _ _ _ hnum, ?_⟩, ?_, ?_⟩, ?_, ?_⟩
    · obtain ⟨hc, hn, hp⟩ := hfl
      cases fl with
      | nil =>
        simp only [FreeChain] at hc ⊢
        rw [hself]; exact hc
      | cons g fl' =>
        obtain ⟨hg1, hg2⟩ := hc
        refine ⟨by rw [hself]; exact hg1, ?_⟩
        have hmem : ∀ x ∈ g :: fl', x ≠ ref ∧ x ≠ 0 := by
          intro x hx
          refine ⟨fun hxf => hnm (hxf ▸ hx), ?_⟩
          have := hp x hx
          omega
        apply FreeChain_congr _ _ _ _ hg2
        · rw [rawget_rawset_int_ne _ FREELIST_REF _ _ (hmem g (List.mem_cons_self _ _)).2,
            rawget_rawset_int_ne _ _ _ _ (hmem g (List.mem_cons_self _ _)).1]
        · intro x hx
          rw [rawget_rawset_int_ne _ FREELIST_REF _ _ (hmem x (List.mem_cons_of_mem _ hx)).2,
            rawget_rawset_int_ne _ _ _ _ (hmem x (List.mem_cons_of_mem _ hx)).1]
    · exact List.nodup_cons.2 ⟨hnm, hfl.nodup⟩
    · intro g hg
      rcases List.mem_cons.1 hg with rfl | hg
      · exact hpos
      · exact hfl.pos g hg
    · intro k hk hk0
      rw [rawget_rawset_int_ne _ FREELIST_REF _ _ hk0, rawget_rawset_int_ne _ _ _ _ hk]
    · intro _
      rw [hself]
      exact FreeList_zero_not_table _ _ hfl
  · rw [if_neg hneg]
    exact ⟨L.registry, fl, rfl, hfl, fun _ _ _ => rfl, fun h => absurd h hneg⟩


theorem rawget_sandbox_removed (g : TableObj) (n1 n2 : Nat) (name : String)
    (h : name ∈ ["dofile", "loadfile", "loadlib", "require", "gcinfo", "collectgarbage"]) :
    rawget (rawset (rawset (rawset (rawset (rawset (rawset (rawset (rawset g
        (LuaValue.string "dofile") LuaValue.nil) (LuaValue.string "loadfile") LuaValue.nil)
        (LuaValue.string "loadlib") LuaValue.nil) (LuaValue.string "require") LuaValue.nil)
        (LuaValue.string "gcinfo") LuaValue.nil) (LuaValue.string "collectgarbage") LuaValue.nil)
        (LuaValue.string "Spring") (LuaValue.table n1)) (LuaValue.string "VFS") (LuaValue.table n2))
      (LuaValue.string name) = LuaValue.nil := by
  simp only [List.mem_cons, List.mem_singleton, List.not_mem_nil, or_false] at h
  rcases h with rfl | rfl | rfl | rfl | rfl | rfl
  · rw [rawget_rawset_string_ne _ _ _ _ (by decide), rawget_rawset_string_ne _ _ _ _ (by decide),
      rawget_rawset_string_ne _ _ _ _ (by decide), rawget_rawset_string_ne _ _ _ _ (by decide),
      rawget_rawset_string_ne _ _ _ _ (by decide), rawget_rawset_string_ne _ _ _ _ (by decide),
      rawget_rawset_string_ne _ _ _ _ (by decide), rawget_rawset_nil]
  · rw [rawget_rawset_string_ne _ _ _ _ (by decide), rawget_rawset_string_ne _ _ _ _ (by decide),
      rawget_rawset_string_ne _ _ _ _ (by decide), rawget_rawset_string_ne _ _ _ _ (by decide),
      rawget_rawset_string_ne _ _ _ _ (by decide), rawget_rawset_string_ne _ _ _ _ (by decide),
      rawget_rawset_nil]
  · rw [rawget_rawset_string_ne _ _ _ _ (by decide), rawget_rawset_string_ne _ _ _ _ (by decide),
      rawget_rawset_string_ne _ _ _ _ (by decide), rawget_rawset_string_ne _ _ _ _ (by decide),
      rawget_rawset_string_ne _ _ _ _ (by decide), rawget_rawset_nil]
  · rw [rawget_rawset_string_ne _ _ _ _ (by decide), rawget_rawset_string_ne _ _ _ _ (by decide),
      rawget_rawset_string_ne _ _ _ _ (by decide), rawget_rawset_string_ne _ _ _ _ (by decide),
      rawget_rawset_nil]
  · rw [rawget_rawset_string_ne _ _ _ _ (by decide), rawget_rawset_string_ne _ _ _ _ (by decide),
      rawget_rawset_string_ne _ _ _ _ (by decide), rawget_rawset_nil]
  · rw [rawget_rawset_string_ne _ _ _ _ (by decide), rawget_rawset_string_ne _ _ _ _ (by decide),
      rawget_rawset_nil]

theorem rawget_sandbox_other (g : TableObj) (n0 n1 n2 n3 n4 : Nat) (name : String)
    (h : name ∈ ["io", "os", "package", "debug"]) :
    rawget (rawset (rawset (rawset (rawset (rawset (rawset (rawset (rawset
        (rawset (rawset (rawset g
        (LuaValue.string "math") (LuaValue.table n0))
        (LuaValue.string "table") (LuaValue.table n1))
        (LuaValue.string "string") (LuaValue.table n2))
        (LuaValue.string "dofile") LuaValue.nil) (LuaValue.string "loadfile") LuaValue.nil)
        (LuaValue.string "loadlib") LuaValue.nil) (LuaValue.string "require") LuaValue.nil)
        (LuaValue.string "gcinfo") LuaValue.nil) (LuaValue.string "collectgarbage") LuaValue.nil)
        (LuaValue.string "Spring") (LuaValue.table n3)) (LuaValue.string "VFS") (LuaValue.table n4))
      (LuaValue.string name) = rawget g (LuaValue.string name) := by
  simp only [List.mem_cons, List.mem_singleton, List.not_mem_nil, or_false] at h
  rcases h with rfl | rfl | rfl | rfl <;>
  rw [rawget_rawset_string_ne _ _ _ _ (by decide), rawget_rawset_string_ne _ _ _ _ (by decide),
    rawget_rawset_string_ne _ _ _ _ (by decide), rawget_rawset_string_ne _ _ _ _ (by decide),
    rawget_rawset_string_ne _ _ _ _ (by decide), rawget_rawset_string_ne _ _ _ _ (by decide),
    rawget_rawset_string_ne _ _ _ _ (by decide), rawget_rawset_string_ne _ _ _ _ (by decide),
    rawget_rawset_string_ne _ _ _ _ (by decide), rawget_rawset_string_ne _ _ _ _ (by decide),
    rawget_rawset_string_ne _ _ _ _ (by decide)]


theorem acquire_spec (cv : NumConv) (M : lua_State) (a : Nat) (rest : List LuaValue)
    (fl : List Int) (hs : M.stack = LuaValue.table a :: rest) (hfl : FreeList M.registry fl) :
    ∃ ref reg, luaL_ref cv (lua_pushvalue M (-1)) = Except.ok (ref, { M with registry := reg }) ∧
      0 < ref ∧ rawget reg (LuaValue.number ref) = LuaValue.table a ∧
      (rawget M.registry (LuaValue.number ref)).isTable = false ∧
      (∀ k : Int, k ≠ ref → k ≠ 0 →
        rawget reg (LuaValue.number k) = rawget M.registry (LuaValue.number k)) ∧
      FreeList reg fl.tail := by
  have hp : lua_pushvalue M (-1) = { M with stack := LuaValue.table a :: M.stack } := by
    simp [lua_pushvalue, lua_push, index_neg_one, hs]
  obtain ⟨ref, reg, h1, h2, h3, h4, h5, h6⟩ := luaL_ref_freeList cv (lua_pushvalue M (-1))
    (LuaValue.table a) M.stack fl (by rw [hp]) (by simp) (by rw [hp]; exact hfl)
  refine ⟨ref, reg, ?_, h2, h3, ?_, ?_, h6⟩
  · rw [h1, hp]
  · rw [hp] at h4; exact h4
  · intro k hk hk0
    have := h5 k hk hk0
    rw [hp] at this; exact this

/-- Table entries of a registry are kept by `luaL_ref`. -/
theorem acquire_keeps (reg reg' : TableObj) (ref : Int) (fl : List Int) (hfl : FreeList reg fl)
    (hfresh : (rawget reg (LuaValue.number ref)).isTable = false)
    (hframe : ∀ k : Int, k ≠ ref → k ≠ 0 →
      rawget reg' (LuaValue.number k) = rawget reg (LuaValue.number k))
    (k : Int) (b : Nat) (hk : rawget reg (LuaValue.number k) = LuaValue.table b) :
    rawget reg' (LuaValue.number k) = LuaValue.table b ∧ k ≠ ref := by
  have hkt : (rawget reg (LuaValue.number k)).isTable = true := by rw [hk]; rfl
  have hne : k ≠ ref := by
    rintro rfl
    rw [hkt] at hfresh; exact absurd hfresh (by decide)
  exact ⟨by rw [hframe k hne (FreeList_not_mem reg fl hfl k hkt).2, hk], hne⟩

theorem Names_of_cache (t : LuaTable) (p : LuaParser) (L : lua_State) (a : Nat)
    (hv : t.isValid = true) (hp : t.parser ≠ none) (hl : t.L ≠ none) (hL : p.L = some L)
    (hn : rawget L.registry (LuaValue.number t.refnum) = LuaValue.table a)
    (hc : CacheOK p L) : t.Names p L a :=
  { valid := hv, parser := hp, vmPtr := hl, vm := hL, names := hn,
    cache := by
      intro _ hcr
      have hne : p.currentRef ≠ LUA_NOREF := by rw [hcr]; assumption
      obtain ⟨b, rest, hs, hr⟩ := hc hne
      rw [hcr, hn] at hr
      rw [hs, hr]; rfl }

theorem materialize_globals (t : LuaTable) (p : LuaParser) (L : lua_State) :
    (t.materialize p L).globals = L.globals := by
  unfold LuaTable.materialize
  split <;> simp [lua_rawgeti_registry, lua_settop]

/-- The cache slot after `PushTable` on a view that names a table. -/
theorem CacheOK_pushed (t : LuaTable) (p : LuaParser) (L : lua_State) (a : Nat)
    (h : t.Names p L a) : CacheOK (p.pushed t L) (t.materialize p L) := by
  intro _
  obtain ⟨rest, hrest⟩ := materialize_stack t p L a h
  exact ⟨a, rest, hrest, by simp [LuaParser.pushed, materialize_registry, h.names]⟩

theorem GetRoot_names (cv : NumConv) (self pid : Nat) (p : LuaParser) (L : lua_State)
    (fl : List Int) (b : Nat) (hL : p.L = some L) (hfl : FreeList L.registry fl)
    (hc : CacheOK p L) (hroot : rawget L.registry (LuaValue.number p.rootRef) = LuaValue.table b) :
    ∃ (ref : Int) (reg : TableObj) (M : lua_State) (rest : List LuaValue), M.stack = LuaValue.table b :: rest ∧ M.registry = L.registry ∧
      LuaParser.GetRoot cv self pid p = Except.ok
        ({ isValid := true, path := "ROOT", parser := some pid, L := some pid, refnum := ref },
         LuaParser.AddTable
           { p with currentRef := p.rootRef, L := some { M with registry := reg } } self) ∧
      0 < ref ∧ rawget reg (LuaValue.number ref) = LuaValue.table b ∧
      (rawget L.registry (LuaValue.number ref)).isTable = false ∧
      (∀ k : Int, k ≠ ref → k ≠ 0 →
        rawget reg (LuaValue.number k) = rawget L.registry (LuaValue.number k)) ∧
      FreeList reg fl.tail := by
  have hn : LuaTable.Names (LuaTable.mk true "ROOT" (some pid) (some pid) p.rootRef) p L b :=
    Names_of_cache _ p L b rfl (by simp) (by simp) hL hroot hc
  obtain ⟨rest, hrest⟩ := materialize_stack _ p L b hn
  obtain ⟨ref, reg, h1, h2, h3, h4, h5, h6⟩ := acquire_spec cv _ b rest fl hrest
    (by rw [materialize_registry]; exact hfl)
  rw [materialize_registry] at h4 h5
  refine ⟨ref, reg, _, rest, hrest, materialize_registry _ _ _, ?_, h2, h3, h4, h5, h6⟩
  have hnoref : ref ≠ LUA_NOREF := by
    intro e; rw [e] at h2; simp [LUA_NOREF] at h2
  simp only [LuaParser.GetRoot, LuaTable.ofParser, hL, Option.map_some', PushTable_names _ p L b hn,
    bind, Except.bind, if_true, pure, Except.pure]
  simp only [LuaTable.vm, LuaParser.pushed, h1]
  simp [hnoref]

theorem copy_names (cv : NumConv) (self : Nat) (tbl : LuaTable) (p : LuaParser) (L : lua_State)
    (fl : List Int) (a : Nat) (h : tbl.Names p L a) (hfl : FreeList L.registry fl) :
    ∃ ref reg rest, (tbl.materialize p L).stack = LuaValue.table a :: rest ∧
      LuaTable.copy cv self tbl p = Except.ok
        ({ isValid := true, path := tbl.path, parser := tbl.parser, L := tbl.L, refnum := ref },
         tbl,
         LuaParser.AddTable
           { p with currentRef := tbl.refnum,
                    L := some { tbl.materialize p L with registry := reg } } self) ∧
      0 < ref ∧ rawget reg (LuaValue.number ref) = LuaValue.table a ∧
      (rawget L.registry (LuaValue.number ref)).isTable = false ∧
      (∀ k : Int, k ≠ ref → k ≠ 0 →
        rawget reg (LuaValue.number k) = rawget L.registry (LuaValue.number k)) ∧
      FreeList reg fl.tail := by
  obtain ⟨rest, hrest⟩ := materialize_stack _ p L a h
  obtain ⟨ref, reg, h1, h2, h3, h4, h5, h6⟩ := acquire_spec cv _ a rest fl hrest
    (by rw [materialize_registry]; exact hfl)
  rw [materialize_registry] at h4 h5
  refine ⟨ref, reg, rest, hrest, ?_, h2, h3, h4, h5, h6⟩
  have hnoref : ref ≠ LUA_NOREF := by
    intro e; rw [e] at h2; simp [LUA_NOREF] at h2
  obtain ⟨x, hx⟩ := Option.ne_none_iff_exists'.mp h.parser
  obtain ⟨y, hy⟩ := Option.ne_none_iff_exists'.mp h.vmPtr
  have hvm : LuaTable.vm { LuaTable.new with parser := tbl.parser, L := tbl.L, path := tbl.path }
      (p.pushed tbl L) = Except.ok (tbl.materialize p L) := by
    simp [LuaTable.vm, hy, LuaParser.pushed]
  simp only [LuaTable.copy, PushTable_names _ p L a h, bind, Except.bind, if_true, hvm, h1, pure,
    Except.pure]
  simp [hnoref, LuaParser.pushed, hx, LuaTable.new]

theorem copy_invalid (cv : NumConv) (self : Nat) (tbl : LuaTable) (p : LuaParser)
    (h : tbl.isValid = false) :
    LuaTable.copy cv self tbl p = Except.ok
      ({ isValid := false, path := tbl.path, parser := tbl.parser, L := tbl.L,
         refnum := LUA_NOREF }, tbl,
       if tbl.parser.isSome then p.AddTable self else p) := by
  simp [LuaTable.copy, PushTable_invalid tbl p h, bind, Except.bind, pure, Except.pure,
    LuaTable.new]

/-- `SubTable` on a view that names a table, for a key under which a table is
stored. -/
theorem SubTable_names (cv : NumConv) (t : LuaTable) (p : LuaParser) (L : lua_State) (a : Nat)
    (h : t.Names p L a) (key : Key) (self : Nat) (b : Nat) (fl : List Int)
    (hv : L.lookup a (keyValue key) = Except.ok (LuaValue.table b))
    (hfl : FreeList L.registry fl) :
    ∃ ref reg, t.SubTable cv p key self = Except.ok
        ({ isValid := true, path := t.path ++ keyPath key, parser := t.parser, L := t.L,
           refnum := ref }, t,
         LuaParser.AddTable
           { p with currentRef := t.refnum,
                    L := some { t.materialize p L with registry := reg } } self) ∧
      0 < ref ∧ rawget reg (LuaValue.number ref) = LuaValue.table b ∧
      (rawget L.registry (LuaValue.number ref)).isTable = false ∧
      (∀ k : Int, k ≠ ref → k ≠ 0 →
        rawget reg (LuaValue.number k) = rawget L.registry (LuaValue.number k)) ∧
      FreeList reg fl.tail := by
  have hvm : t.vm (p.pushed t L) = Except.ok (t.materialize p L) := vm_pushed t p L a h _
  obtain ⟨ref, reg, h1, h2, h3, h4, h5, h6⟩ := luaL_ref_freeList cv
    { t.materialize p L with stack := LuaValue.table b :: (t.materialize p L).stack }
    (LuaValue.table b) (t.materialize p L).stack fl rfl (by simp)
    (by simp only [materialize_registry]; exact hfl)
  simp only [materialize_registry] at h4 h5
  refine ⟨ref, reg, ?_, h2, h3, h4, h5, h6⟩
  have hnoref : ref ≠ LUA_NOREF := by
    intro e; rw [e] at h2; simp [LUA_NOREF] at h2
  obtain ⟨x, hx⟩ := Option.ne_none_iff_exists'.mp h.parser
  simp only [LuaTable.SubTable, PushTable_names t p L a h, bind, Except.bind, hvm,
    lua_gettable_key t p L a h key, hv, Except.map]
  have : lua_istable { t.materialize p L with
      stack := LuaValue.table b :: (t.materialize p L).stack } (-1) = true := by
    simp [lua_istable, index_neg_one]
  simp only [this, Bool.true_eq_false, if_false, h1, LuaTable.derefParser, hx, pure,
    Except.pure]
  simp [hnoref, LuaTable.new, hx, LuaParser.pushed]

theorem lua_gettable_at (L : lua_State) (b : Nat) (rest : List LuaValue) (i : Int)
    (hs : L.stack = LuaValue.table b :: rest) :
    lua_gettable (lua_pushnumber L i) (lua_gettop L + -1 + 1) =
      (L.lookup b (LuaValue.number i)).map (fun v => { L with stack := v :: L.stack }) := by
  have hidx : (lua_pushnumber L i).index (lua_gettop L + -1 + 1) = some (LuaValue.table b) := by
    simp only [lua_State.index, lua_gettop, lua_pushnumber, lua_push, hs, List.length_cons]
    have h1 : (0 : Int) < ((rest.length + 1 : Nat) : Int) + -1 + 1 := by omega
    have h2 : (((rest.length + 1 : Nat) : Int) + -1 + 1).toNat = rest.length + 1 := by omega
    simp only [h1, if_true, h2]
    simp
  have hl : luaV_gettable (lua_pushnumber L i) MAXTAGLOOP (LuaValue.table b)
      (LuaValue.number i) = L.lookup b (LuaValue.number i) :=
    luaV_gettable_congr (lua_pushnumber L i) L rfl rfl _ _ _
  unfold lua_gettable
  rw [hidx]
  simp only [lua_pushnumber, lua_push] at hl ⊢
  simp only [hl, bind, Except.bind, pure, Except.pure]
  cases L.lookup b (LuaValue.number i) <;> rfl

theorem ParseTableFloat_top_eq (cv : NumConv) (L : lua_State) (b : Nat) (rest : List LuaValue)
    (i : Int) (hs : L.stack = LuaValue.table b :: rest) :
    ParseTableFloat cv L (lua_gettop L + -1 + 1) i =
      (L.lookup b (LuaValue.number i)).map (fun v => (floatValue cv v, L)) := by
  unfold ParseTableFloat
  simp only [lua_gettable_at L b rest i hs, bind, Except.bind]
  cases L.lookup b (LuaValue.number i) with
  | error e => rfl
  | ok x =>
    have hpop : lua_pop { L with stack := x :: L.stack } 1 = L := by
      cases L; simp [lua_pop]
    simp only [Except.map]
    cases hx : tonumber cv x with
    | none => simp [lua_isnumber, lua_State.index, hx, floatValue, pure, Except.pure, hpop]
    | some n =>
      simp [lua_isnumber, lua_tonumber, lua_State.index, hx, floatValue, pure, Except.pure, hpop]

/-- The value of `ParseFloat3` on a table: the lookups of 1, 2 and 3 in turn, stopping
at the first that does not give a number. -/
theorem ParseFloat3_table_eq (cv : NumConv) (M : lua_State) (b : Nat) :
    ParseFloat3 cv { M with stack := LuaValue.table b :: M.stack } (-1) =
      (M.lookup b (LuaValue.number 1)).bind (fun v1 =>
        match floatValue cv v1 with
        | none => Except.ok (none, { M with stack := LuaValue.table b :: M.stack })
        | some x =>
          (M.lookup b (LuaValue.number 2)).bind (fun v2 =>
            match floatValue cv v2 with
            | none => Except.ok (none, { M with stack := LuaValue.table b :: M.stack })
            | some y =>
              (M.lookup b (LuaValue.number 3)).bind (fun v3 =>
                match floatValue cv v3 with
                | none => Except.ok (none, { M with stack := LuaValue.table b :: M.stack })
                | some z =>
                  Except.ok (some (x, y, z),
                    { M with stack := LuaValue.table b :: M.stack })))) := by
  have e := fun i => ParseTableFloat_top_eq cv { M with stack := LuaValue.table b :: M.stack }
    b M.stack i rfl
  have hl : ∀ k, lua_State.lookup { M with stack := LuaValue.table b :: M.stack } b k =
      M.lookup b k :=
    fun k => lookup_congr { M with stack := LuaValue.table b :: M.stack } M rfl rfl b k
  have hi : lua_istable { M with stack := LuaValue.table b :: M.stack } (-1) = true := by
    simp [lua_istable, lua_State.index]
  unfold ParseFloat3
  simp only [hi, if_true, show ¬ ((0 : Int) < -1) by decide, if_false, bind, Except.bind]
  rw [e 1]
  simp only [hl]
  have c1 : ((1 : Int) : lua_Number) = 1 := by norm_num
  have c2 : ((2 : Int) : lua_Number) = 2 := by norm_num
  have c3 : ((3 : Int) : lua_Number) = 3 := by norm_num
  rw [c1]
  cases M.lookup b (LuaValue.number 1) with
  | error x => rfl
  | ok v1 =>
    simp only [Except.map]
    cases h1 : floatValue cv v1 with
    | none => simp [pure, Except.pure]
    | some x =>
      simp only
      rw [e 2]
      simp only [hl]
      rw [c2]
      cases M.lookup b (LuaValue.number 2) with
      | error x => rfl
      | ok v2 =>
        simp only [Except.map]
        cases h2 : floatValue cv v2 with
        | none => simp [pure, Except.pure]
        | some y =>
          simp only
          rw [e 3]
          simp only [hl]
          rw [c3]
          cases M.lookup b (LuaValue.number 3) with
          | error x => rfl
          | ok v3 =>
            simp only [Except.map]
            cases h3 : floatValue cv v3 with
            | none => simp [pure, Except.pure]
            | some z => simp [pure, Except.pure]

theorem ParseFloat3_top (cv : NumConv) (M : lua_State) (v : LuaValue) (res : Option float3)
    (M' : lua_State)
    (h : ParseFloat3 cv { M with stack := v :: M.stack } (-1) = Except.ok (res, M')) :
    lua_pop M' 1 = M := by
  have hM : lua_pop { M with stack := v :: M.stack } 1 = M := by cases M; simp [lua_pop]
  by_cases ht : lua_istable { M with stack := v :: M.stack } (-1) = true
  · obtain ⟨b, rfl⟩ : ∃ b, v = LuaValue.table b := by
      cases v <;> simp [lua_istable, index_neg_one] at ht
      exact ⟨_, rfl⟩
    rw [ParseFloat3_table_eq] at h
    generalize M.lookup b (LuaValue.number 1) = l1 at h
    generalize M.lookup b (LuaValue.number 2) = l2 at h
    generalize M.lookup b (LuaValue.number 3) = l3 at h
    cases l1 with
    | error x => simp [Except.bind] at h
    | ok v1 =>
      simp only [Except.bind] at h
      generalize floatValue cv v1 = f1 at h
      cases f1 with
      | none =>
        simp only [Except.ok.injEq, Prod.mk.injEq] at h
        rw [← h.2]; exact hM
      | some x =>
        simp only at h
        cases l2 with
        | error x => simp [Except.bind] at h
        | ok v2 =>
          simp only [Except.bind] at h
          generalize floatValue cv v2 = f2 at h
          cases f2 with
          | none =>
            simp only [Except.ok.injEq, Prod.mk.injEq] at h
            rw [← h.2]; exact hM
          | some y =>
            simp only at h
            cases l3 with
            | error x => simp [Except.bind] at h
            | ok v3 =>
              simp only [Except.bind] at h
              generalize floatValue cv v3 = f3 at h
              cases f3 with
              | none =>
                simp only [Except.ok.injEq, Prod.mk.injEq] at h
                rw [← h.2]; exact hM
              | some z =>
                simp only [Except.ok.injEq, Prod.mk.injEq] at h
                rw [← h.2]; exact hM
  · unfold ParseFloat3 at h
    simp only [ht, Bool.false_eq_true, if_false] at h
    split at h
    · have h2 := lua_tostring_pop cv M v
      split at h
      · rename_i s L2 heq
        simp only [pure, Except.pure, Except.ok.injEq, Prod.mk.injEq] at h
        rw [← h.2]
        rw [heq] at h2
        exact h2
      · simp at h
    · simp only [pure, Except.pure, Except.ok.injEq, Prod.mk.injEq] at h
      rw [← h.2]; exact hM

theorem GetFloat3_post (cv : NumConv) (t : LuaTable) (p : LuaParser) (L : lua_State) (a : Nat)
    (h : t.Names p L a) (key : Key) (d : float3) (r : float3 × LuaTable × LuaParser)
    (hr : t.GetFloat3 cv p key d = Except.ok r) : r.2 = (t, p.pushed t L) := by
  have hvm : ∀ M, t.vm { p.pushed t L with L := some M } = Except.ok M := by
    intro M
    obtain ⟨y, hy⟩ := Option.ne_none_iff_exists'.mp h.vmPtr
    simp [LuaTable.vm, hy]
  unfold LuaTable.GetFloat3 at hr
  rw [PushValue_names t p L a h key] at hr
  cases hl : L.lookup a (keyValue key) with
  | error e => rw [hl] at hr; simp [bind, Except.bind] at hr
  | ok w =>
    rw [hl] at hr
    simp only [Except.bind] at hr
    split at hr
    · simp only [bind, Except.bind, if_true, pure, Except.pure, Except.ok.injEq] at hr
      rw [← hr]
    · simp only [bind, Except.bind, Bool.true_eq_false, if_false, hvm] at hr
      cases hp : ParseFloat3 cv { t.materialize p L with
          stack := w :: (t.materialize p L).stack } (-1) with
      | error e => rw [hp] at hr; simp at hr
      | ok v =>
        obtain ⟨res, M'⟩ := v
        have hpop := ParseFloat3_top cv _ _ res M' hp
        rw [hp] at hr
        simp only at hr
        cases res with
        | none =>
          simp only [pure, Except.pure, Except.ok.injEq] at hr
          rw [← hr, hpop]; rfl
        | some x =>
          simp only [pure, Except.pure, Except.ok.injEq] at hr
          rw [← hr, hpop]; rfl

theorem GetKeysInt_post (cv : NumConv) (t : LuaTable) (p : LuaParser) (L : lua_State) (a : Nat)
    (h : t.Names p L a) (data : List Int) (r : Bool × List Int × LuaTable × LuaParser)
    (hr : t.GetKeysInt cv p data = Except.ok r) : r.2.2 = (t, p.pushed t L) := by
  unfold LuaTable.GetKeysInt at hr
  simp only [PushTable_names t p L a h, bind, Except.bind, Bool.true_eq_false, if_false,
    vm_pushed t p L a h] at hr
  split at hr
  · simp at hr
  · split at hr
    · simp at hr
    · simp only [pure, Except.pure, Except.ok.injEq] at hr
      rw [← hr]

theorem GetMapIntFloat_post (cv : NumConv) (t : LuaTable) (p : LuaParser) (L : lua_State) (a : Nat)
    (h : t.Names p L a) (data : StdMap Int CFloat)
    (r : Bool × StdMap Int CFloat × LuaTable × LuaParser)
    (hr : t.GetMapIntFloat cv p data = Except.ok r) : r.2.2 = (t, p.pushed t L) := by
  unfold LuaTable.GetMapIntFloat at hr
  simp only [PushTable_names t p L a h, bind, Except.bind, Bool.true_eq_false, if_false,
    vm_pushed t p L a h] at hr
  split at hr
  · simp at hr
  · split at hr
    · simp at hr
    · simp only [pure, Except.pure, Except.ok.injEq] at hr
      rw [← hr]

theorem GetMapIntString_post (cv : NumConv) (t : LuaTable) (p : LuaParser) (L : lua_State)
    (a : Nat) (h : t.Names p L a) (data : StdMap Int String)
    (r : Bool × StdMap Int String × LuaTable × LuaParser)
    (hr : t.GetMapIntString cv p data = Except.ok r) : r.2.2 = (t, p.pushed t L) := by
  unfold LuaTable.GetMapIntString at hr
  simp only [PushTable_names t p L a h, bind, Except.bind, Bool.true_eq_false, if_false,
    vm_pushed t p L a h] at hr
  split at hr
  · simp at hr
  · split at hr
    · simp at hr
    · simp only [pure, Except.pure, Except.ok.injEq] at hr
      rw [← hr]

/-- A read access to a view that names a table leaves the view as it was and the
parser as `PushTable` leaves it, when it returns. -/
theorem access_post (cv : NumConv) (t : LuaTable) (p : LuaParser) (L : lua_State) (a : Nat)
    (h : t.Names p L a) (x : Access)
    (r : AccessValue × LuaTable × LuaParser) (hr : t.access cv p x = Except.ok r) :
    r.2 = (t, p.pushed t L) := by
  cases x with
  | getInt key d =>
    simp only [LuaTable.access, GetInt_names cv t p L a h] at hr
    cases hl : L.lookup a (keyValue key) with
    | error e => rw [hl] at hr; simp [Except.bind, Except.map] at hr
    | ok w =>
      rw [hl] at hr
      simp only [Except.bind] at hr
      split at hr
      · simp only [Except.map, Except.ok.injEq] at hr; rw [← hr]
      · rename_i n _
        cases hd : double2int n with
        | error e => simp [hd, Except.map] at hr
        | ok i => simp only [hd, Except.map, Except.ok.injEq] at hr; rw [← hr]
  | getBool key d =>
    simp only [LuaTable.access, GetBool_names cv t p L a h] at hr
    cases hl : L.lookup a (keyValue key) with
    | error e => rw [hl] at hr; simp [Except.bind, Except.map] at hr
    | ok w =>
      rw [hl] at hr
      simp only [Except.bind, Except.map, Except.ok.injEq] at hr
      rw [← hr]
  | getFloat key d =>
    simp only [LuaTable.access, GetFloat_names cv t p L a h] at hr
    cases hl : L.lookup a (keyValue key) with
    | error e => rw [hl] at hr; simp [Except.bind, Except.map] at hr
    | ok w =>
      rw [hl] at hr
      simp only [Except.bind] at hr
      split at hr <;> (simp only [Except.map, Except.ok.injEq] at hr; rw [← hr])
  | getFloat3 key d =>
    simp only [LuaTable.access] at hr
    cases hg : t.GetFloat3 cv p key d with
    | error e => simp [hg, Except.map] at hr
    | ok v =>
      simp only [hg, Except.map, Except.ok.injEq] at hr
      rw [← hr]; exact GetFloat3_post cv t p L a h key d v hg
  | getString key d =>
    simp only [LuaTable.access, GetString_names cv t p L a h] at hr
    cases hl : L.lookup a (keyValue key) with
    | error e => rw [hl] at hr; simp [Except.bind, Except.map] at hr
    | ok w =>
      rw [hl] at hr
      simp only [Except.bind] at hr
      split at hr <;> (simp only [Except.map, Except.ok.injEq] at hr; rw [← hr])
  | keyExists key =>
    simp only [LuaTable.access, KeyExists_names t p L a h] at hr
    cases hl : L.lookup a (keyValue key) with
    | error e => rw [hl] at hr; simp [Except.bind, Except.map] at hr
    | ok w =>
      rw [hl] at hr
      simp only [Except.bind, Except.map, Except.ok.injEq] at hr
      rw [← hr]
  | getKeysInt data =>
    simp only [LuaTable.access] at hr
    cases hg : t.GetKeysInt cv p data with
    | error e => simp [hg, Except.map] at hr
    | ok v =>
      simp only [hg, Except.map, Except.ok.injEq] at hr
      rw [← hr]; exact GetKeysInt_post cv t p L a h data v hg
  | getKeysString data =>
    simp only [LuaTable.access, GetKeysString_names cv t p L a h, Except.map,
      Except.ok.injEq] at hr
    rw [← hr]
  | getMapIntFloat data =>
    simp only [LuaTable.access] at hr
    cases hg : t.GetMapIntFloat cv p data with
    | error e => simp [hg, Except.map] at hr
    | ok v =>
      simp only [hg, Except.map, Except.ok.injEq] at hr
      rw [← hr]; exact GetMapIntFloat_post cv t p L a h data v hg
  | getMapIntString data =>
    simp only [LuaTable.access] at hr
    cases hg : t.GetMapIntString cv p data with
    | error e => simp [hg, Except.map] at hr
    | ok v =>
      simp only [hg, Except.map, Except.ok.injEq] at hr
      rw [← hr]; exact GetMapIntString_post cv t p L a h data v hg
  | getMapStringFloat data =>
    simp only [LuaTable.access, GetMapStringFloat_names cv t p L a h, Except.map,
      Except.ok.injEq] at hr
    rw [← hr]
  | getMapStringString data =>
    simp only [LuaTable.access, GetMapStringString_names cv t p L a h, Except.map,
      Except.ok.injEq] at hr
    rw [← hr]

/-- A read access to a view that is not valid returns the default and changes
nothing. -/
theorem access_invalid (cv : NumConv) (t : LuaTable) (p : LuaParser) (x : Access)
    (h : t.isValid = false) : t.access cv p x = Except.ok (x.default, t, p) := by
  cases x with
  | getInt key d =>
    simp [LuaTable.access, (getters_invalid cv t p key d false 0 (0, 0, 0) "" h).1, Except.map,
      Access.default]
  | getBool key d =>
    simp [LuaTable.access, (getters_invalid cv t p key 0 d 0 (0, 0, 0) "" h).2.1, Except.map,
      Access.default]
  | getFloat key d =>
    simp [LuaTable.access, (getters_invalid cv t p key 0 false d (0, 0, 0) "" h).2.2.1,
      Except.map, Access.default]
  | getFloat3 key d =>
    simp [LuaTable.access, (getters_invalid cv t p key 0 false 0 d "" h).2.2.2.1, Except.map,
      Access.default]
  | getString key d =>
    simp [LuaTable.access, (getters_invalid cv t p key 0 false 0 (0, 0, 0) d h).2.2.2.2.1,
      Except.map, Access.default]
  | keyExists key =>
    simp [LuaTable.access, (getters_invalid cv t p key 0 false 0 (0, 0, 0) "" h).2.2.2.2.2,
      Except.map, Access.default]
  | getKeysInt data =>
    simp [LuaTable.access, GetKeysInt_invalid cv t p data h, Except.map, Access.default]
  | getKeysString data =>
    simp [LuaTable.access, GetKeysString_invalid cv t p data h, Except.map, Access.default]
  | getMapIntFloat data =>
    simp [LuaTable.access, GetMapIntFloat_invalid cv t p data h, Except.map, Access.default]
  | getMapIntString data =>
    simp [LuaTable.access, GetMapIntString_invalid cv t p data h, Except.map, Access.default]
  | getMapStringFloat data =>
    simp [LuaTable.access, GetMapStringFloat_invalid cv t p data h, Except.map, Access.default]
  | getMapStringString data =>
    simp [LuaTable.access, GetMapStringString_invalid cv t p data h, Except.map,
      Access.default]

theorem ParserOK_frame (views views' : Nat → Option LuaTable) (pid : Nat) (p p' : LuaParser)
    (L L' : lua_State) (fl' : List Int) (h : ParserOK views pid p) (hL : p.L = some L)
    (hL' : p'.L = some L') (hroot : p'.rootRef = p.rootRef) (hfl : FreeList L'.registry fl')
    (hc : CacheOK p' L')
    (hkeep : ∀ (k : Int) (b : Nat), rawget L.registry (LuaValue.number k) = LuaValue.table b →
      rawget L'.registry (LuaValue.number k) = LuaValue.table b)
    (htables : ∀ a, a ∈ p.tables → a ∈ p'.tables)
    (hviews : ∀ a t, views' a = some t → t.parser = some pid →
      views a = some t ∨ (a ∈ p'.tables ∧ (t.isValid = true →
        (∃ b, rawget L'.registry (LuaValue.number t.refnum) = LuaValue.table b) ∧
        t.refnum ≠ p.rootRef))) :
    ParserOK views' pid p' := by
  have hLL : ∀ M, p'.L = some M → M = L' := by
    intro M hM; rw [hL'] at hM; exact (Option.some.inj hM).symm
  refine ⟨⟨L', hL'⟩, ?_, ?_, ?_, ?_, ?_⟩
  · intro M hM; rw [hLL M hM]; exact ⟨fl', hfl⟩
  · intro M hM; rw [hLL M hM]; exact hc
  · intro M hM
    rw [hLL M hM, hroot]
    obtain ⟨b, hb⟩ := h.root L hL
    exact ⟨b, hkeep _ b hb⟩
  · intro M hM a t ha hp hv
    rw [hLL M hM, hroot]
    rcases hviews a t ha hp with h1 | ⟨_, h2⟩
    · obtain ⟨⟨b, hb⟩, hne⟩ := h.refs L hL a t h1 hp hv
      exact ⟨⟨b, hkeep _ b hb⟩, hne⟩
    · exact h2 hv
  · intro a t ha hp
    rcases hviews a t ha hp with h1 | ⟨h2, _⟩
    · exact htables a (h.registered a t h1 hp)
    · exact h2

theorem CacheOK_unref (p : LuaParser) (L : lua_State) (r : Int) (fl : List Int)
    (reg : TableObj) (hfl : FreeList L.registry fl) (hc : CacheOK p L)
    (hframe : ∀ k : Int, k ≠ r → k ≠ 0 →
      rawget reg (LuaValue.number k) = rawget L.registry (LuaValue.number k))
    (hne : p.currentRef ≠ r) :
    CacheOK p { L with registry := reg } := by
  intro hn
  obtain ⟨a, rest, hs, hr⟩ := hc hn
  refine ⟨a, rest, hs, ?_⟩
  simp only
  rw [hframe _ hne (FreeList_not_mem _ _ hfl _ (by rw [hr]; rfl)).2, hr]

theorem ParserOK_unref (views views' : Nat → Option LuaTable) (pid self : Nat) (p p' : LuaParser)
    (L L' : lua_State) (r : Int) (fl' : List Int) (fl : List Int)
    (h : ParserOK views pid p) (hL : p.L = some L)
    (hL' : p'.L = some L') (hroot : p'.rootRef = p.rootRef) (hr : r ≠ p.rootRef)
    (hfl0 : FreeList L.registry fl) (hfl : FreeList L'.registry fl') (hc : CacheOK p' L')
    (hframe : ∀ k : Int, k ≠ r → k ≠ 0 →
      rawget L'.registry (LuaValue.number k) = rawget L.registry (LuaValue.number k))
    (htables : ∀ a, a ∈ p.tables → a ≠ self → a ∈ p'.tables)
    (hviews : ∀ a t, views' a = some t → t.parser = some pid →
      views a = some t ∧ a ≠ self ∧ (t.isValid = true → t.refnum ≠ r)) :
    ParserOK views' pid p' := by
  have hLL : ∀ M, p'.L = some M → M = L' := by
    intro M hM; rw [hL'] at hM; exact (Option.some.inj hM).symm
  have hkeep : ∀ (k : Int) (b : Nat), k ≠ r →
      rawget L.registry (LuaValue.number k) = LuaValue.table b →
      rawget L'.registry (LuaValue.number k) = LuaValue.table b := by
    intro k b hk hb
    rw [hframe k hk (FreeList_not_mem _ _ hfl0 _ (by rw [hb]; rfl)).2, hb]
  refine ⟨⟨L', hL'⟩, ?_, ?_, ?_, ?_, ?_⟩
  · intro M hM; rw [hLL M hM]; exact ⟨fl', hfl⟩
  · intro M hM; rw [hLL M hM]; exact hc
  · intro M hM
    rw [hLL M hM, hroot]
    obtain ⟨b, hb⟩ := h.root L hL
    exact ⟨b, hkeep _ b hr.symm hb⟩
  · intro M hM a t ha hp hv
    rw [hLL M hM, hroot]
    obtain ⟨h1, _, h3⟩ := hviews a t ha hp
    obtain ⟨⟨b, hb⟩, hne⟩ := h.refs L hL a t h1 hp hv
    exact ⟨⟨b, hkeep _ b (h3 hv) hb⟩, hne⟩
  · intro a t ha hp
    obtain ⟨h1, h2, _⟩ := hviews a t ha hp
    exact htables a (h.registered a t h1 hp) h2

theorem Inv_setParser (w : World) (pid : Nat) (p' : LuaParser) (h : w.Inv)
    (hp : ParserOK w.views pid p') : (w.setParser pid p').Inv := by
  refine ⟨h.view, ?_, ?_, h.distinct⟩
  · intro a t q ha hq
    simp only [World.setParser]
    by_cases hqp : q = pid
    · subst hqp; simp
    · rw [Function.update_noteq hqp]; exact h.live a t q ha hq
  · intro q pq hq
    simp only [World.setParser] at hq ⊢
    by_cases hqp : q = pid
    · subst hqp
      simp only [Function.update_same, Option.some.injEq] at hq
      subst hq; exact hp
    · rw [Function.update_noteq hqp] at hq; exact h.parser q pq hq

theorem Inv_removeView (w : World) (a : Nat) (h : w.Inv) :
    World.Inv { w with views := Function.update w.views a none } := by
  have hsub : ∀ c t, Function.update w.views a none c = some t → w.views c = some t := by
    intro c t hc
    by_cases hca : c = a
    · subst hca; simp at hc
    · rwa [Function.update_noteq hca] at hc
  refine ⟨fun c t hc => h.view c t (hsub c t hc), fun c t q hc => h.live c t q (hsub c t hc), ?_,
    fun c d tc td hc hd => h.distinct c d tc td (hsub c tc hc) (hsub d td hd)⟩
  intro q pq hq
  have hq' := h.parser q pq hq
  exact ⟨hq'.vm, hq'.freeList, hq'.cache, hq'.root,
    fun L hL c t hc => hq'.refs L hL c t (hsub c t hc),
    fun c t hc => hq'.registered c t (hsub c t hc)⟩

theorem Inv_setView (w : World) (a : Nat) (t' : LuaTable) (h : w.Inv) (hv : ViewOK t')
    (hp : ∀ pid, t'.parser = some pid → ∃ p, w.parsers pid = some p ∧ a ∈ p.tables ∧
      (t'.isValid = true → ∀ L, p.L = some L →
        (∃ b, rawget L.registry (LuaValue.number t'.refnum) = LuaValue.table b) ∧
        t'.refnum ≠ p.rootRef))
    (hd : ∀ b tb, b ≠ a → w.views b = some tb → tb.isValid = true → t'.isValid = true →
      tb.parser = t'.parser → tb.refnum ≠ t'.refnum) :
    (w.setView a t').Inv := by
  have hcases : ∀ c t, (w.setView a t').views c = some t →
      (c = a ∧ t = t') ∨ (c ≠ a ∧ w.views c = some t) := by
    intro c t hc
    simp only [World.setView] at hc
    by_cases hca : c = a
    · subst hca
      simp only [Function.update_same, Option.some.injEq] at hc
      exact Or.inl ⟨rfl, hc.symm⟩
    · rw [Function.update_noteq hca] at hc; exact Or.inr ⟨hca, hc⟩
  refine ⟨?_, ?_, ?_, ?_⟩
  · intro c t hc
    rcases hcases c t hc with ⟨_, rfl⟩ | ⟨_, h2⟩
    · exact hv
    · exact h.view c t h2
  · intro c t q hc hq
    rcases hcases c t hc with ⟨_, rfl⟩ | ⟨_, h2⟩
    · obtain ⟨p, hpq, _⟩ := hp q hq
      simp [World.setView, hpq]
    · exact h.live c t q h2 hq
  · intro q pq hq
    have hq' := h.parser q pq hq
    refine ⟨hq'.vm, hq'.freeList, hq'.cache, hq'.root, ?_, ?_⟩
    · intro L hL c t hc hpar hval
      rcases hcases c t hc with ⟨_, rfl⟩ | ⟨_, h2⟩
      · obtain ⟨p, hpq, _, hn⟩ := hp q hpar
        have : p = pq := by
          simp only [World.setView] at hq
          rw [hpq] at hq; exact Option.some.inj hq
        subst this
        exact hn hval L hL
      · exact hq'.refs L hL c t h2 hpar hval
    · intro c t hc hpar
      rcases hcases c t hc with ⟨rfl, rfl⟩ | ⟨_, h2⟩
      · obtain ⟨p, hpq, hm, _⟩ := hp q hpar
        have : p = pq := by
          simp only [World.setView] at hq
          rw [hpq] at hq; exact Option.some.inj hq
        subst this
        exact hm
      · exact hq'.registered c t h2 hpar
  · intro c d tc td hc hd' hcd hvc hvd hpar
    rcases hcases c tc hc with ⟨rfl, rfl⟩ | ⟨hca, h2⟩
    · rcases hcases d td hd' with ⟨rfl, _⟩ | ⟨hda, h3⟩
      · exact absurd rfl hcd
      · exact (hd d td hda h3 hvd hvc hpar.symm).symm
    · rcases hcases d td hd' with ⟨rfl, rfl⟩ | ⟨hda, h3⟩
      · exact hd c tc hca h2 hvc hvd hpar
      · exact h.distinct c d tc td h2 h3 hcd hvc hvd hpar

theorem World.ext_iff' (w w' : World) (hp : w.parsers = w'.parsers) (hv : w.views = w'.views) :
    w = w' := by
  cases w; cases w'; simp only at hp hv; subst hp; subst hv; rfl

theorem setView_same (w : World) (a : Nat) (t : LuaTable) (h : w.views a = some t) :
    w.setView a t = w := by
  apply World.ext_iff'
  · rfl
  · simp only [World.setView]
    rw [← h]; exact Function.update_eq_self a w.views

theorem setParser_same (w : World) (pid : Nat) (p : LuaParser) (h : w.parsers pid = some p) :
    w.setParser pid p = w := by
  apply World.ext_iff'
  · simp only [World.setParser]
    rw [← h]; exact Function.update_eq_self pid w.parsers
  · rfl

/-- What the invariant says of the view at an address: it has no parser and is not
valid; or its parser is live and it is not valid; or its parser is live and the view
names a table in it. -/
theorem Inv_view (w : World) (h : w.Inv) (v : Nat) (t : LuaTable) (hv : w.views v = some t) :
    (t.parser = none ∧ t.L = none ∧ t.isValid = false ∧ t.refnum = LUA_NOREF) ∨
    (∃ pid p L, t.parser = some pid ∧ t.L = some pid ∧ w.parsers pid = some p ∧ p.L = some L ∧
      ParserOK w.views pid p ∧
      ((t.isValid = false ∧ t.refnum = LUA_NOREF) ∨
       (t.isValid = true ∧ t.refnum ≠ LUA_NOREF ∧ t.refnum ≠ p.rootRef ∧ ∃ a, t.Names p L a))) := by
  have hok := h.view v t hv
  cases hpar : t.parser with
  | none =>
    obtain ⟨h1, h2⟩ := hok.noParser hpar
    exact Or.inl ⟨rfl, h1, h2, hok.invalid h2⟩
  | some pid =>
    right
    have hlive := h.live v t pid hv hpar
    obtain ⟨p, hp⟩ := Option.isSome_iff_exists.1 hlive
    have hpok := h.parser pid p hp
    obtain ⟨L, hL⟩ := hpok.vm
    refine ⟨pid, p, L, rfl, hok.vmPtr pid hpar, hp, hL, hpok, ?_⟩
    cases hval : t.isValid with
    | false => exact Or.inl ⟨rfl, hok.invalid hval⟩
    | true =>
      right
      obtain ⟨⟨a, ha⟩, hne⟩ := hpok.refs L hL v t hv hpar hval
      refine ⟨rfl, hok.valid hval, hne, a, ?_⟩
      exact Names_of_cache t p L a hval (by simp [hpar]) (by simp [hok.vmPtr pid hpar]) hL ha
        (hpok.cache L hL)

theorem ParserOK_pushed (views : Nat → Option LuaTable) (pid : Nat) (p : LuaParser)
    (L : lua_State) (t : LuaTable) (a : Nat) (h : ParserOK views pid p) (hL : p.L = some L)
    (hn : t.Names p L a) : ParserOK views pid (p.pushed t L) := by
  obtain ⟨fl, hfl⟩ := h.freeList L hL
  exact ParserOK_frame views views pid p (p.pushed t L) L (t.materialize p L) fl h hL rfl rfl
    (by rw [materialize_registry]; exact hfl) (CacheOK_pushed t p L a hn)
    (fun k b hk => by rw [materialize_registry]; exact hk) (fun a ha => ha)
    (fun a t ha _ => Or.inl ha)

/-- The invariant after a parser took a new reference `ref` to a table for the view
at `self`. -/
theorem Inv_acquire (w : World) (pid self : Nat) (p p' : LuaParser) (L M : lua_State)
    (fl fl' : List Int) (reg : TableObj) (ref : Int) (a b : Nat) (rest : List LuaValue)
    (path : String)
    (h : w.Inv) (hp : w.parsers pid = some p) (hL : p.L = some L)
    (hfl : FreeList L.registry fl)
    (hM : M.stack = LuaValue.table a :: rest)
    (hm : rawget L.registry (LuaValue.number p'.currentRef) = LuaValue.table a)
    (hL' : p'.L = some { M with registry := reg }) (hroot : p'.rootRef = p.rootRef)
    (htables : ∀ c, c ∈ p.tables → c ∈ p'.tables) (hself : self ∈ p'.tables)
    (hpos : 0 < ref) (hget : rawget reg (LuaValue.number ref) = LuaValue.table b)
    (hfresh : (rawget L.registry (LuaValue.number ref)).isTable = false)
    (hframe : ∀ k : Int, k ≠ ref → k ≠ 0 →
      rawget reg (LuaValue.number k) = rawget L.registry (LuaValue.number k))
    (hfl' : FreeList reg fl') :
    ((w.setParser pid p').setView self
      { isValid := true, path := path, parser := some pid, L := some pid, refnum := ref }).Inv := by
  have hpok := h.parser pid p hp
  have hkeep := acquire_keeps L.registry reg ref fl hfl hfresh hframe
  have hp' : ParserOK w.views pid p' := by
    refine ParserOK_frame w.views w.views pid p p' L { M with registry := reg } fl' hpok hL hL'
      hroot hfl' ?_ (fun k b hk => (hkeep k b hk).1) htables (fun c t hc _ => Or.inl hc)
    intro _
    exact ⟨a, rest, hM, (hkeep _ a hm).1⟩
  have h1 := Inv_setParser w pid p' h hp'
  refine Inv_setView _ self _ h1 ?_ ?_ ?_
  · refine ⟨by simp, by simp, ?_, by simp⟩
    intro _ e
    simp only at e
    rw [e] at hpos; simp [LUA_NOREF] at hpos
  · intro q hq
    simp only [Option.some.injEq] at hq
    subst hq
    refine ⟨p', by simp [World.setParser], hself, ?_⟩
    intro _ M' hM'
    rw [hL'] at hM'
    have := Option.some.inj hM'
    subst this
    refine ⟨⟨b, hget⟩, ?_⟩
    intro e
    simp only at e
    obtain ⟨r, hr⟩ := hpok.root L hL
    rw [hroot] at e
    rw [e, hr] at hfresh
    simp [LuaValue.isTable] at hfresh
  · intro c tc hca hc hvc _ hpar
    simp only [World.setParser] at hc
    obtain ⟨⟨x, hx⟩, _⟩ := hpok.refs L hL c tc hc hpar hvc
    intro e
    rw [e] at hx
    rw [hx] at hfresh
    simp [LuaValue.isTable] at hfresh

theorem store_same (w : World) (v : Nat) (t : LuaTable) (p : LuaParser)
    (hv : w.views v = some t) (hp : ∀ pid, t.parser = some pid → w.parsers pid = some p) :
    w.store v t t.parser p = w := by
  unfold World.store
  cases hpar : t.parser with
  | none => exact setView_same w v t hv
  | some pid =>
    simp only
    rw [setParser_same w pid p (hp pid hpar)]
    exact setView_same w v t hv

/-- The world after an operation on a view that names a table in its parser, which
leaves the view as it is and the parser as `PushTable` leaves it. -/
theorem Inv_pushed (w : World) (v pid : Nat) (t : LuaTable) (p : LuaParser) (L : lua_State)
    (a : Nat) (h : w.Inv) (hv : w.views v = some t) (hpar : t.parser = some pid)
    (hp : w.parsers pid = some p) (hL : p.L = some L) (hn : t.Names p L a) :
    (w.store v t t.parser (p.pushed t L)).Inv := by
  have h1 := Inv_setParser w pid (p.pushed t L) h
    (ParserOK_pushed w.views pid p L t a (h.parser pid p hp) hL hn)
  simp only [World.store, hpar]
  rw [setView_same _ v t (by simpa [World.setParser] using hv)]
  exact h1

theorem parserOf_eq (w : World) (t : LuaTable) (pid : Nat) (p : LuaParser)
    (hpar : t.parser = some pid) (hp : w.parsers pid = some p) :
    w.parserOf t = Except.ok p := by
  simp [World.parserOf, hpar, World.parser, hp, pure, Except.pure]

theorem parserOf_none (w : World) (t : LuaTable) (hpar : t.parser = none) :
    w.parserOf t = Except.ok (LuaParser.new "" "" "" none) := by
  simp [World.parserOf, hpar, pure, Except.pure]

theorem view_eq (w : World) (v : Nat) (t : LuaTable) (hv : w.views v = some t) :
    w.view v = Except.ok t := by
  simp [World.view, hv, pure, Except.pure]

theorem Inv_step_access (cv : NumConv) (w w' : World) (v : Nat) (x : Access) (h : w.Inv)
    (hs : w.step cv (ViewOp.access v x) = Except.ok w') : w'.Inv := by
  simp only [World.step, bind, Except.bind] at hs
  cases hv : w.views v with
  | none => simp [World.view, hv] at hs
  | some t =>
    rw [view_eq w v t hv] at hs
    simp only at hs
    rcases Inv_view w h v t hv with ⟨hpar, hl, hval, href⟩ |
      ⟨pid, p, L, hpar, hl, hp, hL, hpok, hcase⟩
    · simp only [parserOf_none w t hpar, access_invalid cv t (LuaParser.new "" "" "" none) x hval,
        pure, Except.pure, Except.ok.injEq] at hs
      rw [← hs]
      simp only [World.store, hpar]
      rw [setView_same w v t hv]; exact h
    · rw [parserOf_eq w t pid p hpar hp] at hs
      simp only at hs
      rcases hcase with ⟨hval, href⟩ | ⟨hval, href, hroot, a, hn⟩
      · simp only [access_invalid cv t p x hval, pure, Except.pure, Except.ok.injEq] at hs
        rw [← hs, store_same w v t p hv (fun q hq => by rw [hpar] at hq; cases hq; exact hp)]
        exact h
      · cases hacc : t.access cv p x with
        | error e => rw [hacc] at hs; simp at hs
        | ok r =>
          rw [hacc] at hs
          simp only [pure, Except.pure, Except.ok.injEq] at hs
          have hr := access_post cv t p L a hn x r hacc
          rw [← hs, show r.2.1 = t from congrArg Prod.fst hr,
            show r.2.2 = p.pushed t L from congrArg Prod.snd hr]
          exact Inv_pushed w v pid t p L a h hv hpar hp hL hn

theorem Inv_new_invalid (w : World) (self : Nat) (nv : LuaTable) (h : w.Inv)
    (h1 : nv.isValid = false) (h2 : nv.refnum = LUA_NOREF) (h3 : nv.parser = none)
    (h4 : nv.L = none) : (w.setView self nv).Inv := by
  refine Inv_setView w self nv h ⟨fun _ => ⟨h4, h1⟩, ?_, ?_, fun _ => h2⟩ ?_ ?_
  · intro pid hp; rw [h3] at hp; cases hp
  · intro hv; rw [h1] at hv; cases hv
  · intro pid hp; rw [h3] at hp; cases hp
  · intro b tb _ _ _ hv; rw [h1] at hv; cases hv

theorem place_ok (w : World) (self : Nat) (r : Unit) (h : w.place self = Except.ok r) :
    w.views self = none := by
  unfold World.place at h
  split at h
  · assumption
  · simp at h

theorem Inv_step_construct (cv : NumConv) (w w' : World) (self : Nat) (h : w.Inv)
    (hs : w.step cv (ViewOp.construct self) = Except.ok w') : w'.Inv := by
  simp only [World.step, bind, Except.bind] at hs
  cases hpl : w.place self with
  | error e => rw [hpl] at hs; simp at hs
  | ok u =>
    rw [hpl] at hs
    simp only [pure, Except.pure, Except.ok.injEq] at hs
    rw [← hs]
    exact Inv_new_invalid w self LuaTable.new h rfl rfl rfl rfl

theorem Inv_step_subTable (cv : NumConv) (w w' : World) (self src : Nat) (key : Key)
    (h : w.Inv) (hs : w.step cv (ViewOp.subTable self src key) = Except.ok w') : w'.Inv := by
  simp only [World.step, bind, Except.bind] at hs
  cases hpl : w.place self with
  | error e => rw [hpl] at hs; simp at hs
  | ok u =>
    rw [hpl] at hs
    simp only at hs
    cases hv : w.views src with
    | none => simp [World.view, hv] at hs
    | some t =>
      rw [view_eq w src t hv] at hs
      simp only at hs
      rcases Inv_view w h src t hv with ⟨hpar, hl, hval, href⟩ |
        ⟨pid, p, L, hpar, hl, hp, hL, hpok, hcase⟩
      · simp only [parserOf_none w t hpar,
          SubTable_invalid cv t (LuaParser.new "" "" "" none) key self hval,
          pure, Except.pure, Except.ok.injEq] at hs
        rw [← hs]
        simp only [World.store, hpar]
        rw [setView_same w src t hv]
        exact Inv_new_invalid w self _ h rfl rfl rfl rfl
      · rw [parserOf_eq w t pid p hpar hp] at hs
        simp only at hs
        rcases hcase with ⟨hval, href⟩ | ⟨hval, href, hroot, a, hn⟩
        · simp only [SubTable_invalid cv t p key self hval, pure, Except.pure,
            Except.ok.injEq] at hs
          rw [← hs, store_same w src t p hv (fun q hq => by rw [hpar] at hq; cases hq; exact hp)]
          exact Inv_new_invalid w self _ h rfl rfl rfl rfl
        · cases hlk : L.lookup a (keyValue key) with
          | error e => rw [SubTable_fault cv t p L a hn key self e hlk] at hs; simp at hs
          | ok val =>
            cases hval2 : val.isTable with
            | false =>
              simp only [SubTable_not_table cv t p L a hn key self val hlk hval2, pure, Except.pure,
                Except.ok.injEq] at hs
              rw [← hs]
              exact Inv_new_invalid _ self _ (Inv_pushed w src pid t p L a h hv hpar hp hL hn)
                rfl rfl rfl rfl
            | true =>
              obtain ⟨b, hb⟩ : ∃ b, val = LuaValue.table b := by
                cases val <;> simp [LuaValue.isTable] at hval2
                exact ⟨_, rfl⟩
              rw [hb] at hlk
              obtain ⟨fl, hfl⟩ := hpok.freeList L hL
              obtain ⟨ref, reg, heq, hpos, hget, hfresh, hframe, hfl'⟩ :=
                SubTable_names cv t p L a hn key self b fl hlk hfl
              obtain ⟨rest, hrest⟩ := materialize_stack t p L a hn
              simp only [heq, pure, Except.pure, Except.ok.injEq] at hs
              rw [← hs]
              simp only [World.store, hpar, hl]
              rw [setView_same _ src t (by simpa [World.setParser] using hv)]
              exact Inv_acquire w pid self p _ L (t.materialize p L) fl fl.tail reg ref a b rest _
                h hp hL hfl hrest (by simpa [LuaParser.AddTable] using hn.names)
                (by simp [LuaParser.AddTable]) (by simp [LuaParser.AddTable])
                (fun c hc => by
                  simp only [LuaParser.AddTable]
                  split
                  · exact hc
                  · exact List.mem_cons_of_mem _ hc)
                (by
                  simp only [LuaParser.AddTable]
                  split
                  · assumption
                  · exact List.mem_cons_self _ _)
                hpos hget hfresh hframe hfl'

theorem mem_AddTable_self (p : LuaParser) (self : Nat) : self ∈ (p.AddTable self).tables := by
  simp only [LuaParser.AddTable]
  split
  · assumption
  · exact List.mem_cons_self _ _

theorem mem_AddTable_of_mem (p : LuaParser) (self c : Nat) (hc : c ∈ p.tables) :
    c ∈ (p.AddTable self).tables := by
  simp only [LuaParser.AddTable]
  split
  · exact hc
  · exact List.mem_cons_of_mem _ hc

theorem ParserOK_AddTable (views : Nat → Option LuaTable) (pid self : Nat) (p : LuaParser)
    (h : ParserOK views pid p) : ParserOK views pid (p.AddTable self) := by
  obtain ⟨L, hL⟩ := h.vm
  obtain ⟨fl, hfl⟩ := h.freeList L hL
  exact ParserOK_frame views views pid p (p.AddTable self) L L fl h hL
    (by simpa [LuaParser.AddTable] using hL) rfl hfl
    (by have := h.cache L hL; exact this)
    (fun k b hk => hk) (fun c hc => mem_AddTable_of_mem p self c hc)
    (fun a t ha _ => Or.inl ha)

theorem Inv_step_getRoot (cv : NumConv) (w w' : World) (self pid : Nat) (h : w.Inv)
    (hs : w.step cv (ViewOp.getRoot self pid) = Except.ok w') : w'.Inv := by
  simp only [World.step, bind, Except.bind] at hs
  cases hpl : w.place self with
  | error e => rw [hpl] at hs; simp at hs
  | ok u =>
    rw [hpl] at hs
    simp only at hs
    cases hp : w.parsers pid with
    | none => simp [World.parser, hp] at hs
    | some p =>
      simp only [World.parser, hp, pure, Except.pure] at hs
      have hpok := h.parser pid p hp
      obtain ⟨L, hL⟩ := hpok.vm
      obtain ⟨fl, hfl⟩ := hpok.freeList L hL
      obtain ⟨b, hb⟩ := hpok.root L hL
      obtain ⟨ref, reg, M, rest, hM, hMr, heq, hpos, hget, hfresh, hframe, hfl'⟩ :=
        GetRoot_names cv self pid p L fl b hL hfl (hpok.cache L hL) hb
      simp only [heq, Except.ok.injEq] at hs
      rw [← hs]
      exact Inv_acquire w pid self p _ L M fl fl.tail reg ref b b rest _
        h hp hL hfl hM (by simpa [LuaParser.AddTable] using hb)
        (by simp [LuaParser.AddTable]) (by simp [LuaParser.AddTable])
        (fun c hc => mem_AddTable_of_mem _ self c hc) (mem_AddTable_self _ self)
        hpos hget hfresh hframe hfl'

theorem Inv_step_copy (cv : NumConv) (w w' : World) (self src : Nat) (h : w.Inv)
    (hs : w.step cv (ViewOp.copy self src) = Except.ok w') : w'.Inv := by
  simp only [World.step, bind, Except.bind] at hs
  cases hpl : w.place self with
  | error e => rw [hpl] at hs; simp at hs
  | ok u =>
    rw [hpl] at hs
    simp only at hs
    cases hv : w.views src with
    | none => simp [World.view, hv] at hs
    | some t =>
      rw [view_eq w src t hv] at hs
      simp only at hs
      rcases Inv_view w h src t hv with ⟨hpar, hl, hval, href⟩ |
        ⟨pid, p, L, hpar, hl, hp, hL, hpok, hcase⟩
      · simp only [parserOf_none w t hpar,
          copy_invalid cv self t (LuaParser.new "" "" "" none) hval,
          pure, Except.pure, Except.ok.injEq] at hs
        rw [← hs]
        simp only [World.store, hpar]
        rw [setView_same w src t hv]
        exact Inv_new_invalid w self _ h rfl rfl rfl hl
      · rw [parserOf_eq w t pid p hpar hp] at hs
        simp only at hs
        rcases hcase with ⟨hval, href⟩ | ⟨hval, href, hroot, a, hn⟩
        · simp only [copy_invalid cv self t p hval, pure, Except.pure, Except.ok.injEq] at hs
          rw [← hs]
          simp only [World.store, hpar, Option.isSome_some, if_true]
          rw [setView_same _ src t (by simpa [World.setParser] using hv)]
          have h1 := Inv_setParser w pid (p.AddTable self) h (ParserOK_AddTable _ pid self p hpok)
          refine Inv_setView _ self _ h1 ⟨?_, ?_, ?_, fun _ => rfl⟩ ?_ ?_
          · intro e; simp at e
          · intro q hq; simp only [Option.some.injEq] at hq; subst hq; exact hl
          · intro e; simp at e
          · intro q hq
            simp only [Option.some.injEq] at hq
            subst hq
            exact ⟨p.AddTable self, by simp [World.setParser], mem_AddTable_self p self,
              fun e => by simp at e⟩
          · intro b tb _ _ _ e; simp at e
        · obtain ⟨fl, hfl⟩ := hpok.freeList L hL
          obtain ⟨ref, reg, rest, hrest, heq, hpos, hget, hfresh, hframe, hfl'⟩ :=
            copy_names cv self t p L fl a hn hfl
          simp only [heq, pure, Except.pure, Except.ok.injEq] at hs
          rw [← hs]
          simp only [World.store, hpar, hl]
          rw [setView_same _ src t (by simpa [World.setParser] using hv)]
          exact Inv_acquire w pid self p _ L (t.materialize p L) fl fl.tail reg ref a a rest _
            h hp hL hfl hrest (by simpa [LuaParser.AddTable] using hn.names)
            (by simp [LuaParser.AddTable]) (by simp [LuaParser.AddTable])
            (fun c hc => mem_AddTable_of_mem _ self c hc) (mem_AddTable_self _ self)
            hpos hget hfresh hframe hfl'

theorem mem_RemoveTable (p : LuaParser) (self c : Nat) (hc : c ∈ p.tables) (hne : c ≠ self) :
    c ∈ (p.RemoveTable self).tables := by
  simp only [LuaParser.RemoveTable, List.mem_filter]
  exact ⟨hc, by simpa using hne⟩

theorem update_none_some (views : Nat → Option LuaTable) (v a : Nat) (t : LuaTable)
    (h : Function.update views v none a = some t) : a ≠ v ∧ views a = some t := by
  by_cases hav : a = v
  · subst hav; simp at h
  · rw [Function.update_noteq hav] at h; exact ⟨hav, h⟩

theorem ParserOK_RemoveTable (views : Nat → Option LuaTable) (pid v : Nat) (p : LuaParser)
    (h : ParserOK views pid p) :
    ParserOK (Function.update views v none) pid (p.RemoveTable v) := by
  obtain ⟨L, hL⟩ := h.vm
  have hL' : (p.RemoveTable v).L = some L := by simpa [LuaParser.RemoveTable] using hL
  have hLL : ∀ M, (p.RemoveTable v).L = some M → M = L := by
    intro M hM; rw [hL'] at hM; exact (Option.some.inj hM).symm
  refine ⟨⟨L, hL'⟩, ?_, ?_, ?_, ?_, ?_⟩
  · intro M hM; rw [hLL M hM]; exact h.freeList L hL
  · intro M hM; rw [hLL M hM]; exact h.cache L hL
  · intro M hM; rw [hLL M hM]; exact h.root L hL
  · intro M hM a t ha hp hv
    rw [hLL M hM]
    exact h.refs L hL a t (update_none_some views v a t ha).2 hp hv
  · intro a t ha hp
    obtain ⟨hne, ha'⟩ := update_none_some views v a t ha
    exact mem_RemoveTable p v a (h.registered a t ha' hp) hne

theorem Inv_step_destroy (cv : NumConv) (w w' : World) (v : Nat) (h : w.Inv)
    (hs : w.step cv (ViewOp.destroy v) = Except.ok w') : w'.Inv := by
  simp only [World.step, bind, Except.bind] at hs
  cases hv : w.views v with
  | none => simp [World.view, hv] at hs
  | some t =>
    rw [view_eq w v t hv] at hs
    simp only at hs
    rcases Inv_view w h v t hv with ⟨hpar, hl, hval, href⟩ |
      ⟨pid, p, L, hpar, hl, hp, hL, hpok, hcase⟩
    · simp only [parserOf_none w t hpar, LuaTable.destroy, hl, hpar, Option.isSome_none,
        Bool.false_eq_true, false_and, if_false, bind, Except.bind, pure, Except.pure,
        Except.ok.injEq] at hs
      rw [← hs]
      exact Inv_removeView w v h
    · rw [parserOf_eq w t pid p hpar hp] at hs
      simp only at hs
      have h0 := Inv_removeView w v h
      rcases hcase with ⟨hval, href⟩ | ⟨hval, href, hroot, a, hn⟩
      · simp only [LuaTable.destroy, href, hpar, ne_eq, not_true_eq_false, and_false, if_false,
          bind, Except.bind, pure, Except.pure, Option.isSome_some, if_true,
          Except.ok.injEq] at hs
        rw [← hs]
        exact Inv_setParser _ pid _ h0 (ParserOK_RemoveTable w.views pid v p hpok)
      · obtain ⟨fl, hfl⟩ := hpok.freeList L hL
        obtain ⟨reg, fl', hun, hfl', hframe, _⟩ := luaL_unref_freeList L t.refnum fl hfl
          (by rw [hn.names]; rfl)
        have hvm : t.vm p = Except.ok L := by simp [LuaTable.vm, hl, hL]
        have hviews : ∀ c tc, Function.update w.views v none c = some tc →
            tc.parser = some pid →
            w.views c = some tc ∧ c ≠ v ∧ (tc.isValid = true → tc.refnum ≠ t.refnum) := by
          intro c tc hc hpc
          obtain ⟨hne, hc'⟩ := update_none_some w.views v c tc hc
          exact ⟨hc', hne, fun hvc => h.distinct c v tc t hc' hv hne hvc hval (by rw [hpc, hpar])⟩
        by_cases hcur : p.currentRef = t.refnum
        · simp only [LuaTable.destroy, hl, href, hpar, hvm, hcur, hun, ne_eq, not_false_eq_true,
            and_self, if_true, bind, Except.bind, pure, Except.pure, Option.isSome_some,
            Except.ok.injEq] at hs
          rw [← hs]
          refine Inv_setParser _ pid _ h0 ?_
          refine ParserOK_unref w.views _ pid v p _ L _ t.refnum fl' fl hpok hL rfl rfl hroot
            hfl ?_ ?_ ?_ (fun c hc hne => mem_RemoveTable _ v c hc hne) hviews
          · simpa [lua_settop] using hfl'
          · intro hne; simp [LuaParser.RemoveTable] at hne
          · intro k hk hk0; simpa [lua_settop] using hframe k hk hk0
        · simp only [LuaTable.destroy, hl, href, hpar, hvm, hcur, hun, ne_eq, not_false_eq_true,
            and_self, and_false, if_true, if_false, bind, Except.bind, pure, Except.pure,
            Option.isSome_some, Except.ok.injEq] at hs
          rw [← hs]
          refine Inv_setParser _ pid _ h0 ?_
          refine ParserOK_unref w.views _ pid v p _ L _ t.refnum fl' fl hpok hL rfl rfl hroot
            hfl hfl' ?_ hframe (fun c hc hne => mem_RemoveTable _ v c hc hne) hviews
          have := CacheOK_unref p L t.refnum fl reg hfl (hpok.cache L hL) hframe hcur
          simpa [CacheOK, LuaParser.RemoveTable] using this

theorem clearViews_spec (tables : List Nat) (views views' : Nat → Option LuaTable)
    (h : tables.foldlM (fun (views : Nat → Option LuaTable) a =>
      match views a with
      | none => Except.error Fault.danglingPointer
      | some t =>
          (pure (Function.update views a
            (some { t with parser := none, L := none, isValid := false, refnum := LUA_NOREF })) :
            Except Fault (Nat → Option LuaTable))) views = Except.ok views') (a : Nat) :
    views' a = if a ∈ tables then (views a).map (fun t =>
        { t with parser := none, L := none, isValid := false, refnum := LUA_NOREF })
      else views a := by
  induction tables generalizing views with
  | nil =>
    simp only [List.foldlM, pure, Except.pure, Except.ok.injEq] at h
    subst h; simp
  | cons c cs ih =>
    simp only [List.foldlM, bind, Except.bind] at h
    cases hc : views c with
    | none => simp [hc] at h
    | some t =>
      simp only [hc, pure, Except.pure] at h
      have := ih _ h
      rw [this]
      by_cases hac : a = c
      · subst hac
        simp only [Function.update_same, Option.map_some', List.mem_cons, true_or, if_true, hc]
        split <;> rfl
      · simp only [Function.update_noteq hac, List.mem_cons, hac, false_or]

theorem Inv_step_destroyParser (cv : NumConv) (w w' : World) (pid : Nat) (h : w.Inv)
    (hs : w.step cv (ViewOp.destroyParser pid) = Except.ok w') : w'.Inv := by
  simp only [World.step, World.destroyParser, bind, Except.bind] at hs
  cases hp : w.parsers pid with
  | none => simp [World.parser, hp] at hs
  | some p =>
    simp only [World.parser, hp, pure, Except.pure] at hs
    split at hs
    · simp at hs
    · rename_i views' hfold
      simp only [Except.ok.injEq] at hs
      have hspec := clearViews_spec p.tables w.views views' hfold
      have hpok := h.parser pid p hp
      have hkept : ∀ a t q, views' a = some t → t.parser = some q →
          w.views a = some t ∧ q ≠ pid := by
        intro a t q ha hq
        rw [hspec a] at ha
        by_cases hmem : a ∈ p.tables
        · simp only [hmem, if_true] at ha
          cases hva : w.views a with
          | none => simp [hva] at ha
          | some t0 =>
            simp only [hva, Option.map_some', Option.some.injEq] at ha
            rw [← ha] at hq; simp at hq
        · simp only [hmem, if_false] at ha
          refine ⟨ha, ?_⟩
          rintro rfl
          exact hmem (hpok.registered a t ha hq)
      have hvalid : ∀ a t, views' a = some t → t.isValid = true → w.views a = some t := by
        intro a t ha hv
        rw [hspec a] at ha
        by_cases hmem : a ∈ p.tables
        · simp only [hmem, if_true] at ha
          cases hva : w.views a with
          | none => simp [hva] at ha
          | some t0 =>
            simp only [hva, Option.map_some', Option.some.injEq] at ha
            rw [← ha] at hv; simp at hv
        · simpa [hmem] using ha
      rw [← hs]
      refine ⟨?_, ?_, ?_, ?_⟩
      · intro a t ha
        simp only at ha
        have ha' := ha
        rw [hspec a] at ha'
        by_cases hmem : a ∈ p.tables
        · simp only [hmem, if_true] at ha'
          cases hva : w.views a with
          | none => simp [hva] at ha'
          | some t0 =>
            simp only [hva, Option.map_some', Option.some.injEq] at ha'
            rw [← ha']
            exact ⟨fun _ => ⟨rfl, rfl⟩, fun q hq => by simp at hq, fun hv => by simp at hv,
              fun _ => rfl⟩
        · simp only [hmem, if_false] at ha'
          exact h.view a t ha'
      · intro a t q ha hq
        obtain ⟨ha', hne⟩ := hkept a t q ha hq
        simp only [Function.update_noteq hne]
        exact h.live a t q ha' hq
      · intro q pq hq
        simp only at hq
        have hne : q ≠ pid := by
          rintro rfl; simp at hq
        rw [Function.update_noteq hne] at hq
        have hq' := h.parser q pq hq
        exact ⟨hq'.vm, hq'.freeList, hq'.cache, hq'.root,
          fun L hL a t ha hpar => hq'.refs L hL a t (hkept a t q ha hpar).1 hpar,
          fun a t ha hpar => hq'.registered a t (hkept a t q ha hpar).1 hpar⟩
      · intro a b ta tb ha hb hab hva hvb hpar
        exact h.distinct a b ta tb (hvalid a ta ha hva) (hvalid b tb hb hvb) hab hva hvb hpar

theorem vm_eq (w : World) (pid : Nat) (p : LuaParser) (L : lua_State)
    (hp : w.parsers pid = some p) (hL : p.L = some L) :
    w.vm (some pid) = Except.ok (pid, p, L) := by
  simp [World.vm, World.parser, hp, hL, bind, Except.bind, pure, Except.pure]

theorem parser_eq (w : World) (pid : Nat) (p : LuaParser) (hp : w.parsers pid = some p) :
    w.parser pid = Except.ok p := by
  simp [World.parser, hp, pure, Except.pure]

theorem setParser_setParser (w : World) (pid : Nat) (p p' : LuaParser) :
    (w.setParser pid p).setParser pid p' = w.setParser pid p' := by
  simp [World.setParser]

theorem setView_setView (w : World) (a : Nat) (t t' : LuaTable) :
    (w.setView a t).setView a t' = w.setView a t' := by
  simp [World.setView]

/-- The first block of `operator=` keeps the invariant and the views, and leaves a
parser whose active marker is not the reference of the view. -/
theorem releaseMarker_inv (w wA : World) (self : Nat) (t : LuaTable) (h : w.Inv)
    (hv : w.views self = some t) (hs : w.releaseMarker t = Except.ok wA) :
    wA.Inv ∧ wA.views = w.views ∧
    (∀ pid p, t.parser = some pid → wA.parsers pid = some p → t.refnum ≠ LUA_NOREF →
      p.currentRef ≠ t.refnum) := by
  unfold World.releaseMarker at hs
  rcases Inv_view w h self t hv with ⟨hpar, hl, hval, href⟩ |
    ⟨pid, p, L, hpar, hl, hp, hL, hpok, hcase⟩
  · simp only [hpar, pure, Except.pure, Except.ok.injEq] at hs
    subst hs
    exact ⟨h, rfl, fun pid p hq => by rw [hpar] at hq; cases hq⟩
  · simp only [hpar, parser_eq w pid p hp, bind, Except.bind] at hs
    by_cases hc : t.refnum ≠ LUA_NOREF ∧ p.currentRef = t.refnum
    · simp only [hc, ne_eq, not_false_eq_true, and_self, if_true, hl, vm_eq w pid p L hp hL] at hs
      simp only [World.parser, World.setParser, Function.update_same, pure, Except.pure,
        Function.update_idem, Except.ok.injEq] at hs
      subst hs
      obtain ⟨fl, hfl⟩ := hpok.freeList L hL
      refine ⟨Inv_setParser w pid _ h ?_, rfl, ?_⟩
      · refine ParserOK_frame w.views w.views pid p _ L (lua_settop L 0) fl hpok hL rfl rfl
          (by simpa [lua_settop] using hfl) ?_ (fun k b hk => by simpa [lua_settop] using hk)
          (fun c hc => hc) (fun c tc hc _ => Or.inl hc)
        intro hne; simp at hne
      · intro q pq hq hpq hne
        rw [hpar] at hq; cases hq
        simp only [Function.update_same, Option.some.injEq] at hpq
        subst hpq
        simp only
        exact fun e => hne e.symm
    · simp only [hc, if_false, pure, Except.pure, Except.ok.injEq] at hs
      subst hs
      refine ⟨h, rfl, ?_⟩
      intro q pq hq hpq hne
      rw [hpar] at hq; cases hq
      rw [hp] at hpq; cases hpq
      exact fun e => hc ⟨hne, e⟩

theorem removeView_setParser (w : World) (self pid : Nat) (p : LuaParser) :
    ({ w.setParser pid p with views := Function.update (w.setParser pid p).views self none } : World) =
      World.setParser { w with views := Function.update w.views self none } pid p := rfl

theorem removeView_setView (w : World) (self : Nat) (t : LuaTable) :
    ({ w.setView self t with views := Function.update (w.setView self t).views self none } : World) =
      { w with views := Function.update w.views self none } := by
  simp [World.setView]

/-- The last step of the second block of `operator=`: the view at `self` joins the
parser of the source. -/
theorem joinParser_inv (W wB : World) (self : Nat) (t' : LuaTable) (owner : Option Nat)
    (hX : World.Inv { W with views := Function.update W.views self none })
    (hlive : ∀ q, owner = some q → (W.parsers q).isSome)
    (hs : (match owner with
      | none => (pure (W.setView self t') : Except Fault World)
      | some pid => do
        let p ← (W.setView self t').parser pid
        pure ((W.setView self t').setParser pid (p.AddTable self))) = Except.ok wB) :
    World.Inv { wB with views := Function.update wB.views self none } ∧
    wB.views = Function.update W.views self (some t') ∧
    (∀ q, owner = some q → ∃ pq, wB.parsers q = some pq ∧ self ∈ pq.tables) ∧
    (∀ q, owner ≠ some q → wB.parsers q = W.parsers q) := by
  cases owner with
  | none =>
    simp only [pure, Except.pure, Except.ok.injEq] at hs
    subst hs
    rw [removeView_setView]
    exact ⟨hX, rfl, fun q hq => absurd hq (by simp), fun q _ => rfl⟩
  | some q =>
    obtain ⟨pq, hpq⟩ := Option.isSome_iff_exists.1 (hlive q rfl)
    have hpq' : (W.setView self t').parsers q = some pq := hpq
    simp only [parser_eq _ q pq hpq', bind, Except.bind, pure, Except.pure,
      Except.ok.injEq] at hs
    subst hs
    refine ⟨?_, rfl, ?_, ?_⟩
    · rw [removeView_setParser, removeView_setView]
      exact Inv_setParser _ q _ hX (ParserOK_AddTable _ q self pq (hX.parser q pq hpq))
    · intro q' hq'
      cases hq'
      exact ⟨pq.AddTable self, by simp [World.setParser], mem_AddTable_self pq self⟩
    · intro q' hq'
      have : q' ≠ q := fun e => hq' (by rw [e])
      simp [World.setParser, World.setView, Function.update_noteq this]

/-- The second block of `operator=`: the program without the view at `self` keeps
the invariant, and the view is registered with the parser of the source. -/
theorem changeParser_inv (w wB : World) (self : Nat) (t tbl : LuaTable) (h : w.Inv)
    (hv : w.views self = some t)
    (hlive : ∀ q, tbl.parser = some q → (w.parsers q).isSome)
    (hmark : ∀ pid p, t.parser = some pid → w.parsers pid = some p → t.refnum ≠ LUA_NOREF →
      p.currentRef ≠ t.refnum)
    (hs : w.changeParser self t tbl = Except.ok wB) :
    World.Inv { wB with views := Function.update wB.views self none } ∧
    wB.views = Function.update w.views self (some { t with parser := tbl.parser }) ∧
    (∀ q, tbl.parser = some q → ∃ pq, wB.parsers q = some pq ∧ self ∈ pq.tables) := by
  have h0 := Inv_removeView w self h
  unfold World.changeParser at hs
  rcases Inv_view w h self t hv with ⟨hpar, hl, hval, href⟩ |
    ⟨pid, p, L, hpar, hl, hp, hL, hpok, hcase⟩
  · simp only [hpar, hl, Option.isSome_none, Bool.false_eq_true, false_and, if_false, bind,
      Except.bind, pure, Except.pure] at hs
    obtain ⟨h1, h2, h3, _⟩ := joinParser_inv w wB self _ tbl.parser h0 hlive hs
    exact ⟨h1, by rw [h2, hl], h3⟩
  · simp only [hpar, parser_eq w pid p hp, bind, Except.bind, pure, Except.pure, hl,
      Option.isSome_some, true_and] at hs
    rcases hcase with ⟨hval, href⟩ | ⟨hval, href, hroot, a, hn⟩
    · simp only [href, ne_eq, not_true_eq_false, if_false] at hs
      have hX : World.Inv { w.setParser pid (p.RemoveTable self) with
          views := Function.update (w.setParser pid (p.RemoveTable self)).views self none } := by
        rw [removeView_setParser]
        exact Inv_setParser _ pid _ h0 (ParserOK_RemoveTable w.views pid self p hpok)
      have hlive' : ∀ q, tbl.parser = some q →
          ((w.setParser pid (p.RemoveTable self)).parsers q).isSome := by
        intro q hq
        simp only [World.setParser]
        by_cases hqp : q = pid
        · subst hqp; simp
        · rw [Function.update_noteq hqp]; exact hlive q hq
      obtain ⟨h1, h2, h3, _⟩ := joinParser_inv _ wB self _ tbl.parser hX hlive' hs
      exact ⟨h1, by rw [h2]; simp [World.setParser, hl, href], h3⟩
    · obtain ⟨fl, hfl⟩ := hpok.freeList L hL
      obtain ⟨reg, fl', hun, hfl', hframe, _⟩ := luaL_unref_freeList L t.refnum fl hfl
        (by rw [hn.names]; rfl)
      have hvm : (w.setParser pid (p.RemoveTable self)).vm (some pid) =
          Except.ok (pid, p.RemoveTable self, L) :=
        vm_eq _ pid _ L (by simp [World.setParser]) (by simpa [LuaParser.RemoveTable] using hL)
      simp only [href, ne_eq, not_false_eq_true, if_true, hvm, setParser_setParser, hun] at hs
      have hviews : ∀ c tc, Function.update w.views self none c = some tc →
          tc.parser = some pid →
          w.views c = some tc ∧ c ≠ self ∧ (tc.isValid = true → tc.refnum ≠ t.refnum) := by
        intro c tc hc hpc
        obtain ⟨hne, hc'⟩ := update_none_some w.views self c tc hc
        exact ⟨hc', hne,
          fun hvc => h.distinct c self tc t hc' hv hne hvc hval (by rw [hpc, hpar])⟩
      have hX : World.Inv { w.setParser pid
            { p.RemoveTable self with L := some { L with registry := reg } } with
          views := Function.update (w.setParser pid
            { p.RemoveTable self with L := some { L with registry := reg } }).views self none } := by
        rw [removeView_setParser]
        refine Inv_setParser _ pid _ h0 ?_
        refine ParserOK_unref w.views _ pid self p _ L _ t.refnum fl' fl hpok hL rfl rfl hroot
          hfl hfl' ?_ hframe (fun c hc hne => mem_RemoveTable _ self c hc hne) hviews
        have := CacheOK_unref p L t.refnum fl reg hfl (hpok.cache L hL) hframe
          (hmark pid p hpar hp href)
        simpa [CacheOK, LuaParser.RemoveTable] using this
      have hlive' : ∀ q, tbl.parser = some q → ((w.setParser pid
            { p.RemoveTable self with L := some { L with registry := reg } }).parsers q).isSome := by
        intro q hq
        simp only [World.setParser]
        by_cases hqp : q = pid
        · subst hqp; simp
        · rw [Function.update_noteq hqp]; exact hlive q hq
      obtain ⟨h1, h2, h3, _⟩ := joinParser_inv _ wB self _ tbl.parser hX hlive' hs
      exact ⟨h1, by rw [h2]; simp [World.setParser, hl], h3⟩

theorem setView_removeView (w : World) (self : Nat) (t : LuaTable) :
    World.setView { w with views := Function.update w.views self none } self t =
      w.setView self t := by
  simp [World.setView]

theorem setParser_removeView (w : World) (self pid : Nat) (p : LuaParser) (t : LuaTable) :
    (World.setParser { w with views := Function.update w.views self none } pid p).setView self t =
      (w.setParser pid p).setView self t := by
  simp [World.setView, World.setParser]

/-- The last block of `operator=`: when the program without the view at `self` keeps
the invariant and the view at `self` is registered with the parser of the source,
the program after the block keeps the invariant. -/
theorem takeReference_inv (cv : NumConv) (w wF : World) (self src : Nat) (t1 tbl : LuaTable)
    (hX : World.Inv { w with views := Function.update w.views self none })
    (hv : w.views self = some t1) (hsrc : w.views src = some tbl)
    (hpar : t1.parser = tbl.parser) (hl : t1.L = tbl.L)
    (htbl : (tbl.parser = none ∧ tbl.L = none ∧ tbl.isValid = false) ∨
      (∃ pid p L, tbl.parser = some pid ∧ tbl.L = some pid ∧ w.parsers pid = some p ∧
        p.L = some L ∧ self ∈ p.tables ∧ (tbl.isValid = false ∨ ∃ a, tbl.Names p L a)))
    (hs : w.takeReference cv self src = Except.ok wF) : wF.Inv := by
  unfold World.takeReference at hs
  simp only [view_eq w src tbl hsrc, bind, Except.bind] at hs
  rcases htbl with ⟨hp0, hl0, hval⟩ | ⟨pid, p, L, hp0, hl0, hp, hL, hreg, hcase⟩
  · simp only [parserOf_none w tbl hp0, PushTable_invalid tbl _ hval, World.store, hp0,
      setView_same w src tbl hsrc, view_eq w self t1 hv, Bool.false_eq_true, if_false, pure,
      Except.pure, Except.ok.injEq] at hs
    rw [← hs, ← setView_removeView]
    exact Inv_new_invalid _ self _ hX rfl rfl (by simp [hpar, hp0]) (by simp [hl, hl0])
  · simp only [parserOf_eq w tbl pid p hp0 hp] at hs
    have hnv : ∀ (b : Bool) (r : Int), ({ t1 with refnum := r, isValid := b } : LuaTable) =
        { isValid := b, path := t1.path, parser := some pid, L := some pid, refnum := r } := by
      intro b r
      rw [hp0] at hpar; rw [hl0] at hl
      cases t1; simp only at hpar hl; subst hpar; subst hl; rfl
    rcases hcase with hval | ⟨a, hn⟩
    · simp only [PushTable_invalid tbl _ hval,
        store_same w src tbl p hsrc (fun q hq => by rw [hp0] at hq; cases hq; exact hp),
        view_eq w self t1 hv, Bool.false_eq_true, if_false, pure, Except.pure,
        Except.ok.injEq] at hs
      rw [← hs, ← setView_removeView, hnv]
      refine Inv_setView _ self _ hX ⟨?_, ?_, ?_, fun _ => rfl⟩ ?_ ?_
      · intro e; simp at e
      · intro q hq; simp only [Option.some.injEq] at hq; subst hq; rfl
      · intro e; simp at e
      · intro q hq
        simp only [Option.some.injEq] at hq
        subst hq
        exact ⟨p, hp, hreg, fun e => by simp at e⟩
      · intro b tb _ _ _ e; simp at e
    · obtain ⟨fl, hfl⟩ := (hX.parser pid p hp).freeList L hL
      obtain ⟨rest, hrest⟩ := materialize_stack tbl p L a hn
      obtain ⟨ref, reg, h1, h2, h3, h4, h5, h6⟩ := acquire_spec cv _ a rest fl hrest
        (by rw [materialize_registry]; exact hfl)
      rw [materialize_registry] at h4 h5
      have hnoref : ref ≠ LUA_NOREF := by
        intro e; rw [e] at h2; simp [LUA_NOREF] at h2
      have hview : ((w.setParser pid (p.pushed tbl L)).setView src tbl).views self = some t1 := by
        simp only [World.setView, World.setParser]
        by_cases hss : self = src
        · subst hss
          rw [hv] at hsrc; cases hsrc
          simp
        · rw [Function.update_noteq hss]; exact hv
      have hvm : ((w.setParser pid (p.pushed tbl L)).setView src tbl).vm t1.L =
          Except.ok (pid, p.pushed tbl L, tbl.materialize p L) := by
        rw [hl, hl0]
        exact vm_eq _ pid _ _ (by simp [World.setView, World.setParser]) rfl
      simp only [PushTable_names tbl p L a hn, World.store, hp0, view_eq _ self t1 hview, if_true,
        hvm, h1, pure, Except.pure, Except.ok.injEq] at hs
      rw [← hs]
      have hset : (w.setParser pid (p.pushed tbl L)).setView src tbl =
          w.setParser pid (p.pushed tbl L) :=
        setView_same _ src tbl (by simpa [World.setParser] using hsrc)
      rw [hset, setParser_setParser, ← setParser_removeView, hnv]
      simp only [hnoref, ne_eq, not_false_eq_true, decide_True]
      exact Inv_acquire _ pid self p _ L (tbl.materialize p L) fl fl.tail reg ref a a rest _
        hX hp hL hfl hrest (by simpa [LuaParser.pushed] using hn.names)
        (by simp [LuaParser.pushed]) (by simp [LuaParser.pushed])
        (fun c hc => by simpa [LuaParser.pushed] using hc)
        (by simpa [LuaParser.pushed] using hreg)
        h2 h3 h4 h5 h6

theorem ViewOK_L_eq (t tbl : LuaTable) (ht : ViewOK t) (htbl : ViewOK tbl)
    (h : t.parser = tbl.parser) : t.L = tbl.L := by
  cases hp : tbl.parser with
  | none =>
    rw [hp] at h
    rw [(ht.noParser h).1, (htbl.noParser hp).1]
  | some pid =>
    rw [hp] at h
    rw [ht.vmPtr pid h, htbl.vmPtr pid hp]

theorem Inv_step_assign (cv : NumConv) (w w' : World) (self src : Nat) (h : w.Inv)
    (hs : w.step cv (ViewOp.assign self src) = Except.ok w') : w'.Inv := by
  simp only [World.step, World.assign, bind, Except.bind] at hs
  cases hv : w.views self with
  | none => simp [World.view, hv] at hs
  | some t =>
    cases hsrc : w.views src with
    | none => simp [World.view, hv, hsrc, pure, Except.pure] at hs
    | some tbl =>
      simp only [view_eq w self t hv, view_eq w src tbl hsrc] at hs
      cases hA : w.releaseMarker t with
      | error e => rw [hA] at hs; simp at hs
      | ok wA =>
        rw [hA] at hs
        simp only at hs
        obtain ⟨hIA, hvA, hmark⟩ := releaseMarker_inv w wA self t h hv hA
        have hvA_self : wA.views self = some t := by rw [hvA]; exact hv
        have hvA_src : wA.views src = some tbl := by rw [hvA]; exact hsrc
        by_cases hne : t.parser ≠ tbl.parser
        · simp only [hne, ne_eq, not_false_eq_true, if_true] at hs
          cases hB : wA.changeParser self t tbl with
          | error e => rw [hB] at hs; simp at hs
          | ok wB =>
            rw [hB] at hs
            simp only at hs
            have hss : src ≠ self := by
              rintro rfl
              rw [hv] at hsrc; cases hsrc
              exact hne rfl
            obtain ⟨hXB, hvB, hregB⟩ := changeParser_inv wA wB self t tbl hIA hvA_self
              (fun q hq => hIA.live src tbl q hvA_src hq) hmark hB
            have hvB_self : wB.views self = some { t with parser := tbl.parser } := by
              rw [hvB]; simp
            simp only [view_eq wB self _ hvB_self] at hs
            refine takeReference_inv cv _ w' self src
              (LuaTable.mk t.isValid tbl.path tbl.parser tbl.L t.refnum) tbl ?_
              (by simp [World.setView]) ?_ rfl rfl ?_ hs
            · rw [removeView_setView]; exact hXB
            · simp only [World.setView, Function.update_noteq hss, hvB]
              exact hvA_src
            · have hsrcX : ({ wB with views := Function.update wB.views self none } : World).views
                  src = some tbl := by
                simp only [Function.update_noteq hss, hvB]
                exact hvA_src
              rcases Inv_view _ hXB src tbl hsrcX with ⟨hp0, hl0, hval, _⟩ |
                ⟨pid, p, L, hp0, hl0, hp, hL, _, hcase⟩
              · exact Or.inl ⟨hp0, hl0, hval⟩
              · obtain ⟨pq, hpq, hmem⟩ := hregB pid hp0
                have hpp : wB.parsers pid = some p := hp
                rw [hpp] at hpq; cases hpq
                refine Or.inr ⟨pid, p, L, hp0, hl0, hp, hL, hmem, ?_⟩
                rcases hcase with ⟨hval, _⟩ | ⟨_, _, _, a, hn⟩
                · exact Or.inl hval
                · exact Or.inr ⟨a, hn⟩
        · simp only [hne, if_false, pure, Except.pure, view_eq wA self t hvA_self] at hs
          have hpeq : t.parser = tbl.parser := by
            by_contra hc; exact hne hc
          have hleq : t.L = tbl.L :=
            ViewOK_L_eq t tbl (h.view self t hv) (h.view src tbl hsrc) hpeq
          have hsrcC : (wA.setView self { t with L := tbl.L, path := tbl.path }).views src =
              some tbl := by
            simp only [World.setView]
            by_cases hss : src = self
            · subst hss
              rw [hv] at hsrc; cases hsrc
              simp
            · rw [Function.update_noteq hss]; exact hvA_src
          refine takeReference_inv cv _ w' self src
            (LuaTable.mk t.isValid tbl.path t.parser tbl.L t.refnum) tbl ?_
            (by simp [World.setView]) hsrcC hpeq rfl ?_ hs
          · rw [removeView_setView]; exact Inv_removeView wA self hIA
          · rcases Inv_view wA hIA src tbl hvA_src with ⟨hp0, hl0, hval, _⟩ |
              ⟨pid, p, L, hp0, hl0, hp, hL, hpok, hcase⟩
            · exact Or.inl ⟨hp0, hl0, hval⟩
            · have hmem : self ∈ p.tables :=
                hpok.registered self t hvA_self (by rw [hpeq, hp0])
              refine Or.inr ⟨pid, p, L, hp0, hl0, hp, hL, hmem, ?_⟩
              rcases hcase with ⟨hval, _⟩ | ⟨_, _, _, a, hn⟩
              · exact Or.inl hval
              · exact Or.inr ⟨a, hn⟩

/-- A successful `Execute()` on a parser whose stack is empty and whose free list is
in order: the stack is empty, the free list is in order, the root reference names a
table, and the active marker and the registered views are as before. -/
theorem Execute_true_state (env : Env) (this : Nat) (p0 p : LuaParser) (L0 : lua_State)
    (cur c : Option Nat) (fl : List Int)
    (hL0 : p0.L = some L0) (hs0 : L0.stack = []) (hfl : FreeList L0.registry fl)
    (h : LuaParser.Execute env this p0 cur = Except.ok (true, p, c)) :
    ∃ L fl' b, p.L = some L ∧ L.stack = [] ∧ FreeList L.registry fl' ∧
      rawget L.registry (LuaValue.number p.rootRef) = LuaValue.table b ∧
      p.currentRef = p0.currentRef ∧ p.tables = p0.tables := by
  unfold LuaParser.Execute at h
  simp only [hL0] at h
  by_cases hd : p0.initDepth = 0
  · simp only [hd, ne_eq, not_true_eq_false, if_false] at h
    cases hf : env.loadStringData p0.fileName p0.fileModes with
    | none => simp [hf, pure, Except.pure] at h
    | some code =>
      obtain ⟨L1, h1, hs1, hr1, -⟩ := setupCallOuts_ok env.libs p0 L0 hs0 hd
      simp only [hf, h1, bind, Except.bind] at h
      cases hc : env.loadbuffer code p0.fileName with
      | error msg =>
        simp only [hc] at h
        cases hw : LuaParser.failWithTop env.cv { p0 with L := some L1 } (lua_pushstring L1 msg) with
        | error e => rw [hw] at h; simp at h
        | ok q => simp [hw, pure, Except.pure] at h
      | ok chunk =>
        simp only [hc, adjustResults_one] at h
        generalize hout : env.run chunk (some this) _ = out at h
        cases he : out.error with
        | some err =>
          simp only [he] at h
          split at h
          · simp at h
          · simp [pure, Except.pure] at h
        | none =>
          simp only [he] at h
          rw [lua_istable_one _ (out.values.head?.getD LuaValue.nil)
            (by simp [lua_pushcfunction, lua_push, hs1])] at h
          cases ht : (out.values.head?.getD LuaValue.nil).isTable with
          | false => simp [ht, pure, Except.pure] at h
          | true =>
            obtain ⟨b, hb⟩ : ∃ b, out.values.head?.getD LuaValue.nil = LuaValue.table b := by
              cases hx : out.values.head?.getD LuaValue.nil <;> simp [hx, LuaValue.isTable] at ht
              exact ⟨_, rfl⟩
            obtain ⟨ref, reg, hr, hpos, hget, -, -, hfl'⟩ := luaL_ref_freeList env.cv
              { stack := [out.values.head?.getD LuaValue.nil] ++
                  List.drop 1 (lua_pushcfunction L1 chunk).stack,
                heap := out.heap, registry := (lua_pushcfunction L1 chunk).registry,
                globals := out.globals, resolved := (lua_pushcfunction L1 chunk).resolved,
                metatables := out.metatables }
              (out.values.head?.getD LuaValue.nil) [] fl
              (by simp [lua_pushcfunction, lua_push, hs1]) (by rw [hb]; simp)
              (by simpa [lua_pushcfunction, lua_push, hr1] using hfl)
            simp only [ht, Bool.true_eq_false, if_false, hr, pure, Except.pure, Except.ok.injEq,
              Prod.mk.injEq, true_and] at h
            obtain ⟨rfl, -⟩ := h
            refine ⟨_, fl.tail, b, rfl, by simp [lua_settop], by simpa [lua_settop] using hfl', ?_,
              rfl, rfl⟩
            simpa [lua_settop, hb] using hget
  · simp [hd] at h

theorem Initial_inv (cv : NumConv) (w : World) (h : w.Initial cv) : w.Inv := by
  obtain ⟨hviews, hparsers⟩ := h
  refine ⟨fun a t ha => (by rw [hviews a] at ha; cases ha),
    fun a t q ha => (by rw [hviews a] at ha; cases ha), ?_,
    fun a b ta tb ha => (by rw [hviews a] at ha; cases ha)⟩
  intro pid p hp
  obtain ⟨env, p0, L0, cur, c, -, hL0, hs0, hr0, hc0, ht0, hex⟩ := hparsers pid p hp
  obtain ⟨L, fl', b, hL, hs, hfl, hroot, hcur, -⟩ := Execute_true_state env pid p0 p L0 cur c []
    hL0 hs0 ⟨by simp [FreeChain, hr0, rawget], List.nodup_nil, by simp⟩ hex
  have hLL : ∀ M, p.L = some M → M = L := by
    intro M hM; rw [hL] at hM; exact (Option.some.inj hM).symm
  refine ⟨⟨L, hL⟩, ?_, ?_, ?_, ?_, ?_⟩
  · intro M hM; rw [hLL M hM]; exact ⟨fl', hfl⟩
  · intro M hM hne; exact absurd (hcur.trans hc0) hne
  · intro M hM; rw [hLL M hM]; exact ⟨b, hroot⟩
  · intro M hM a t ha; rw [hviews a] at ha; cases ha
  · intro a t ha; rw [hviews a] at ha; cases ha

theorem Inv_step (cv : NumConv) (w w' : World) (op : ViewOp) (h : w.Inv)
    (hs : w.step cv op = Except.ok w') : w'.Inv := by
  cases op with
  | getRoot self pid => exact Inv_step_getRoot cv w w' self pid h hs
  | construct self => exact Inv_step_construct cv w w' self h hs
  | copy self src => exact Inv_step_copy cv w w' self src h hs
  | assign self src => exact Inv_step_assign cv w w' self src h hs
  | subTable self src key => exact Inv_step_subTable cv w w' self src key h hs
  | access v x => exact Inv_step_access cv w w' v x h hs
  | destroy v => exact Inv_step_destroy cv w w' v h hs
  | destroyParser pid => exact Inv_step_destroyParser cv w w' pid h hs

theorem Reachable_inv (cv : NumConv) (w : World) (h : World.Reachable cv w) : w.Inv := by
  induction h with
  | initial w hi => exact Initial_inv cv w hi
  | step w w' op _ hs ih => exact Inv_step cv w w' op ih hs

theorem Reachable_steps (cv : NumConv) (ops : List ViewOp) :
    ∀ (w w' : World), World.Reachable cv w → w.steps cv ops = Except.ok w' →
      World.Reachable cv w' := by
  induction ops with
  | nil =>
    intro w w' h hs
    simp only [World.steps, pure, Except.pure, Except.ok.injEq] at hs
    rw [← hs]; exact h
  | cons op ops ih =>
    intro w w' h hs
    simp only [World.steps, bind, Except.bind] at hs
    cases h1 : w.step cv op with
    | error e => simp [h1] at hs
    | ok w1 =>
      simp only [h1] at hs
      exact ih w1 w' (World.Reachable.step w w1 op h h1) hs

theorem exampleWorld_initial : exampleWorld.Initial decimalConv := by
  refine ⟨fun a => rfl, fun pid p hp => ?_⟩
  simp only [exampleWorld] at hp
  split at hp
  · simp only [Option.some.injEq] at hp
    rename_i h0
    subst h0
    refine ⟨exampleEnv specTables [LuaValue.table 5], exampleParser0, emptyVM, none, none,
      rfl, rfl, rfl, rfl, rfl, rfl, ?_⟩
    rw [← hp]; rfl
  · cases hp

theorem exampleWorldAfter_reachable (ops : List ViewOp) (w : World)
    (h : exampleWorld.steps decimalConv ops = Except.ok w) :
    World.Reachable decimalConv (exampleWorldAfter ops) := by
  have : exampleWorldAfter ops = w := by simp [exampleWorldAfter, h]
  rw [this]
  exact Reachable_steps decimalConv ops exampleWorld w
    (World.Reachable.initial exampleWorld exampleWorld_initial) h

theorem pushed_hit (t : LuaTable) (p : LuaParser) (L : lua_State) (hL : p.L = some L)
    (hv : t.refnum ≠ LUA_NOREF) (hc : p.currentRef = t.refnum) : p.pushed t L = p := by
  cases p
  simp only [LuaParser.pushed, LuaTable.materialize] at *
  simp [hv, hc, hL]


theorem clearViews_live (tables : List Nat) (views views' : Nat → Option LuaTable)
    (h : tables.foldlM (fun (views : Nat → Option LuaTable) a =>
      match views a with
      | none => Except.error Fault.danglingPointer
      | some t =>
          (pure (Function.update views a
            (some { t with parser := none, L := none, isValid := false, refnum := LUA_NOREF })) :
            Except Fault (Nat → Option LuaTable))) views = Except.ok views') (a : Nat)
    (ha : a ∈ tables) : ∃ t, views a = some t := by
  induction tables generalizing views with
  | nil => cases ha
  | cons c cs ih =>
    simp only [List.foldlM, bind, Except.bind] at h
    cases hc : views c with
    | none => simp [hc] at h
    | some t =>
      simp only [hc, pure, Except.pure] at h
      by_cases hac : a = c
      · subst hac; exact ⟨t, hc⟩
      · have hmem : a ∈ cs := by
          cases ha with
          | head => exact absurd rfl hac
          | tail _ hm => exact hm
        obtain ⟨t1, ht1⟩ := ih _ h hmem
        rw [Function.update_noteq hac] at ht1
        exact ⟨t1, ht1⟩

theorem destroy_cleared (self : Nat) (path : String) (q : LuaParser) :
    LuaTable.destroy self (LuaTable.mk false path none none LUA_NOREF) q = Except.ok q := by
  simp [LuaTable.destroy, bind, Except.bind, pure, Except.pure]


theorem Inv_view_valid (w : World) (h : w.Inv) (v pid : Nat) (t : LuaTable) (p : LuaParser)
    (L : lua_State) (hv : w.views v = some t) (hpar : t.parser = some pid)
    (hval : t.isValid = true) (hp : w.parsers pid = some p) (hL : p.L = some L) :
    t.L = some pid ∧ t.refnum ≠ LUA_NOREF ∧ ParserOK w.views pid p ∧ ∃ a, t.Names p L a := by
  rcases Inv_view w h v t hv with ⟨hpar', _, _, _⟩ |
    ⟨pid', p', L', hpar', hl, hp', hL', hpok, hcase⟩
  · rw [hpar] at hpar'; cases hpar'
  · rw [hpar] at hpar'; cases hpar'
    rw [hp] at hp'; cases hp'
    rw [hL] at hL'; cases hL'
    rcases hcase with ⟨hval', _⟩ | ⟨_, href, _, a, hn⟩
    · rw [hval] at hval'; cases hval'
    · exact ⟨hl, href, hpok, a, hn⟩

theorem materialize_resolved (t : LuaTable) (p : LuaParser) (L : lua_State) :
    (t.materialize p L).resolved =
      if t.refnum ≠ LUA_NOREF ∧ p.currentRef = t.refnum then L.resolved
      else t.refnum :: L.resolved := by
  unfold LuaTable.materialize
  split <;> simp [lua_rawgeti_registry, lua_settop]

/-- A read access to a valid view, when it returns, leaves the program with the
parser as `PushTable` leaves it. -/
theorem step_access_valid (cv : NumConv) (w w' : World) (v pid : Nat) (t : LuaTable)
    (p : LuaParser) (L : lua_State) (x : Access) (h : w.Inv) (hv : w.views v = some t)
    (hpar : t.parser = some pid) (hval : t.isValid = true) (hp : w.parsers pid = some p)
    (hL : p.L = some L) (hs : w.step cv (ViewOp.access v x) = Except.ok w') :
    w' = w.setParser pid (p.pushed t L) := by
  obtain ⟨hl, href, hpok, a, hn⟩ := Inv_view_valid w h v pid t p L hv hpar hval hp hL
  simp only [World.step, bind, Except.bind] at hs
  rw [view_eq w v t hv] at hs
  simp only at hs
  rw [parserOf_eq w t pid p hpar hp] at hs
  simp only at hs
  cases hacc : t.access cv p x with
  | error e => rw [hacc] at hs; simp at hs
  | ok r =>
    rw [hacc] at hs
    simp only [pure, Except.pure, Except.ok.injEq] at hs
    have hr := access_post cv t p L a hn x r hacc
    rw [← hs, show r.2.1 = t from congrArg Prod.fst hr,
      show r.2.2 = p.pushed t L from congrArg Prod.snd hr]
    simp only [World.store, hpar]
    exact setView_same _ v t (by simpa [World.setParser] using hv)

/-- `SubTable` on a valid view, when it returns, leaves the program with a new view
at `self` and the parser with the view's table on the stack, resolved as by
`PushTable`. -/
theorem step_subTable_valid (cv : NumConv) (w w' : World) (self v pid : Nat) (t : LuaTable)
    (p : LuaParser) (L : lua_State) (key : Key) (h : w.Inv) (hv : w.views v = some t)
    (hpar : t.parser = some pid) (hval : t.isValid = true) (hp : w.parsers pid = some p)
    (hL : p.L = some L) (hs : w.step cv (ViewOp.subTable self v key) = Except.ok w') :
    w.views self = none ∧
    ∃ (nv : LuaTable) (p' : LuaParser) (L' : lua_State),
      w' = (w.setParser pid p').setView self nv ∧ p'.L = some L' ∧
      p'.currentRef = t.refnum ∧ L'.resolved = (t.materialize p L).resolved ∧
      L'.heap = L.heap := by
  obtain ⟨hl, href, hpok, a, hn⟩ := Inv_view_valid w h v pid t p L hv hpar hval hp hL
  simp only [World.step, bind, Except.bind] at hs
  cases hpl : w.place self with
  | error e => rw [hpl] at hs; simp at hs
  | ok u =>
    rw [hpl] at hs
    simp only at hs
    refine ⟨place_ok w self u hpl, ?_⟩
    rw [view_eq w v t hv] at hs
    simp only at hs
    rw [parserOf_eq w t pid p hpar hp] at hs
    simp only at hs
    cases hlk : L.lookup a (keyValue key) with
    | error e => rw [SubTable_fault cv t p L a hn key self e hlk] at hs; simp at hs
    | ok val =>
      cases hval2 : val.isTable with
      | false =>
        simp only [SubTable_not_table cv t p L a hn key self val hlk hval2, pure, Except.pure,
          Except.ok.injEq] at hs
        refine ⟨{ LuaTable.new with path := t.path ++ keyPath key }, p.pushed t L,
          t.materialize p L, ?_, rfl, rfl, rfl, materialize_heap t p L⟩
        rw [← hs]
        simp only [World.store, hpar]
        rw [setView_same _ v t (by simpa [World.setParser] using hv)]
      | true =>
        obtain ⟨b, hb⟩ : ∃ b, val = LuaValue.table b := by
          cases val <;> simp [LuaValue.isTable] at hval2
          exact ⟨_, rfl⟩
        rw [hb] at hlk
        obtain ⟨fl, hfl⟩ := hpok.freeList L hL
        obtain ⟨ref, reg, heq, hpos, hget, hfresh, hframe, hfl'⟩ :=
          SubTable_names cv t p L a hn key self b fl hlk hfl
        simp only [heq, pure, Except.pure, Except.ok.injEq] at hs
        refine ⟨LuaTable.mk true (t.path ++ keyPath key) t.parser t.L ref,
          LuaParser.AddTable { p with currentRef := t.refnum,
                                      L := some { t.materialize p L with registry := reg } } self,
          { t.materialize p L with registry := reg }, ?_, ?_, ?_, rfl, materialize_heap t p L⟩
        · rw [← hs]
          simp only [World.store, hpar]
          rw [setView_same _ v t (by simpa [World.setParser] using hv)]
        · simp [LuaParser.AddTable]
        · simp [LuaParser.AddTable]

/-- An operation that accesses a valid view of a program, when it returns, keeps the
views there are, makes the view the active one and resolves its reference unless it
was the active one already. -/
theorem step_accesses (cv : NumConv) (w w' : World) (v pid : Nat) (t : LuaTable)
    (p : LuaParser) (L : lua_State) (op : ViewOp) (h : w.Inv) (hv : w.views v = some t)
    (hpar : t.parser = some pid) (hval : t.isValid = true) (hp : w.parsers pid = some p)
    (hL : p.L = some L) (hop : op.accesses v) (hs : w.step cv op = Except.ok w') :
    ∃ (p' : LuaParser) (L' : lua_State), w'.parsers pid = some p' ∧ p'.L = some L' ∧
      p'.currentRef = t.refnum ∧
      L'.resolved = (if p.currentRef = t.refnum then L.resolved else t.refnum :: L.resolved) ∧
      L'.heap = L.heap ∧
      ∀ b tb, w.views b = some tb → w'.views b = some tb := by
  have href : t.refnum ≠ LUA_NOREF := (h.view v t hv).valid hval
  have hres : (t.materialize p L).resolved =
      (if p.currentRef = t.refnum then L.resolved else t.refnum :: L.resolved) := by
    rw [materialize_resolved]; simp [href]
  cases op with
  | access u x =>
    simp only [ViewOp.accesses] at hop
    subst hop
    have := step_access_valid cv w w' u pid t p L x h hv hpar hval hp hL hs
    subst this
    exact ⟨p.pushed t L, t.materialize p L, by simp [World.setParser], rfl, rfl, hres,
      materialize_heap t p L, fun b tb hb => hb⟩
  | subTable self src key =>
    simp only [ViewOp.accesses] at hop
    subst hop
    obtain ⟨hself, nv, p', L', hw, hL', hcur, hr, hheap⟩ :=
      step_subTable_valid cv w w' self src pid t p L key h hv hpar hval hp hL hs
    subst hw
    refine ⟨p', L', by simp [World.setParser, World.setView], hL', hcur, by rw [hr, hres],
      hheap, ?_⟩
    intro b tb hb
    have hne : b ≠ self := by
      rintro rfl
      rw [hself] at hb; cases hb
    simp [World.setParser, World.setView, Function.update_noteq hne, hb]
  | getRoot _ _ => exact absurd hop (by simp [ViewOp.accesses])
  | construct _ => exact absurd hop (by simp [ViewOp.accesses])
  | copy _ _ => exact absurd hop (by simp [ViewOp.accesses])
  | assign _ _ => exact absurd hop (by simp [ViewOp.accesses])
  | destroy _ => exact absurd hop (by simp [ViewOp.accesses])
  | destroyParser _ => exact absurd hop (by simp [ViewOp.accesses])

theorem steps_same_view (cv : NumConv) (ops : List ViewOp) :
    ∀ (w w' : World) (v pid : Nat) (t : LuaTable) (p : LuaParser) (L : lua_State),
      w.Inv → w.views v = some t → t.parser = some pid → t.isValid = true →
      w.parsers pid = some p → p.L = some L → (∀ o ∈ ops, ViewOp.accesses v o) →
      w.steps cv ops = Except.ok w' →
      ∃ (p' : LuaParser) (L' : lua_State), w'.parsers pid = some p' ∧ p'.L = some L' ∧
        L'.resolved = (if ops.isEmpty = true ∨ p.currentRef = t.refnum then L.resolved
          else t.refnum :: L.resolved) := by
  induction ops with
  | nil =>
    intro w w' v pid t p L h hv hpar hval hp hL _ hs
    simp only [World.steps, pure, Except.pure, Except.ok.injEq] at hs
    subst hs
    exact ⟨p, L, hp, hL, by simp⟩
  | cons o os ih =>
    intro w w' v pid t p L h hv hpar hval hp hL hall hs
    simp only [World.steps, bind, Except.bind] at hs
    cases h1 : w.step cv o with
    | error e => simp [h1] at hs
    | ok w1 =>
      simp only [h1] at hs
      obtain ⟨p1, L1, hp1, hL1, hcur1, hres1, _, hkeep⟩ :=
        step_accesses cv w w1 v pid t p L o h hv hpar hval hp hL
          (hall o (List.mem_cons_self _ _)) h1
      obtain ⟨p', L', hp', hL', hres'⟩ :=
        ih w1 w' v pid t p1 L1 (Inv_step cv w w1 o h h1) (hkeep v t hv) hpar hval hp1 hL1
          (fun o' ho' => hall o' (List.mem_cons_of_mem _ ho')) hs
      refine ⟨p', L', hp', hL', ?_⟩
      rw [hres', hres1]
      simp [hcur1]


theorem tableAt_congr (L1 L2 : lua_State) (h : L1.heap = L2.heap) (a : Nat) :
    L1.tableAt a = L2.tableAt a := by
  simp [lua_State.tableAt, h]

theorem foldlM_congr_mem {σ β : Type} (es : List β) (f g : σ → β → Except Fault σ)
    (h : ∀ acc, ∀ e ∈ es, f acc e = g acc e) (init : σ) :
    es.foldlM f init = es.foldlM g init := by
  induction es generalizing init with
  | nil => rfl
  | cons e es ih =>
    rw [List.foldlM_cons, List.foldlM_cons, h init e (List.mem_cons_self _ _)]
    cases g init e with
    | error x => rfl
    | ok s =>
      simp only [bind, Except.bind]
      exact ih (fun acc e' he' => h acc e' (List.mem_cons_of_mem _ he')) s

theorem ParseFloat3_congr (cv : NumConv) (M1 M2 : lua_State) (v : LuaValue)
    (h : M1.heap = M2.heap) (hm : M1.metatables = M2.metatables) :
    (ParseFloat3 cv { M1 with stack := v :: M1.stack } (-1)).map Prod.fst =
      (ParseFloat3 cv { M2 with stack := v :: M2.stack } (-1)).map Prod.fst := by
  cases v with
  | table b =>
    rw [ParseFloat3_table_eq, ParseFloat3_table_eq]
    simp only [lookup_congr M1 M2 h hm b]
    generalize M2.lookup b (LuaValue.number 1) = l1
    generalize M2.lookup b (LuaValue.number 2) = l2
    generalize M2.lookup b (LuaValue.number 3) = l3
    cases l1 with
    | error e => rfl
    | ok v1 =>
      simp only [Except.bind]
      cases floatValue cv v1 with
      | none => rfl
      | some x =>
        simp only
        cases l2 with
        | error e => rfl
        | ok v2 =>
          simp only [Except.bind]
          cases floatValue cv v2 with
          | none => rfl
          | some y =>
            simp only
            cases l3 with
            | error e => rfl
            | ok v3 =>
              simp only [Except.bind]
              cases floatValue cv v3 <;> rfl
  | string s =>
    simp [ParseFloat3, lua_istable, lua_isstring, lua_tostring, lua_State.index, pure,
      Except.pure, Except.map]
  | number n =>
    simp [ParseFloat3, lua_istable, lua_isstring, lua_tostring, lua_State.index, pure,
      Except.pure, Except.map]
  | _ =>
    simp [ParseFloat3, lua_istable, lua_isstring, lua_State.index, pure, Except.pure, Except.map]

theorem GetFloat3_congr (cv : NumConv) (t1 t2 : LuaTable) (p1 p2 : LuaParser)
    (L1 L2 : lua_State) (a : Nat) (h1 : t1.Names p1 L1 a) (h2 : t2.Names p2 L2 a)
    (hheap : L1.heap = L2.heap) (hmeta : L1.metatables = L2.metatables) (key : Key)
    (d : float3) :
    returned (t1.GetFloat3 cv p1 key d) = returned (t2.GetFloat3 cv p2 key d) := by
  have hvm1 : ∀ M, t1.vm { p1.pushed t1 L1 with L := some M } = Except.ok M :=
    fun M => vm_pushed t1 p1 L1 a h1 M
  have hvm2 : ∀ M, t2.vm { p2.pushed t2 L2 with L := some M } = Except.ok M :=
    fun M => vm_pushed t2 p2 L2 a h2 M
  unfold LuaTable.GetFloat3
  rw [PushValue_names t1 p1 L1 a h1 key, PushValue_names t2 p2 L2 a h2 key,
    lookup_congr L1 L2 hheap hmeta a]
  cases L2.lookup a (keyValue key) with
  | error e => rfl
  | ok w =>
    have hc := ParseFloat3_congr cv (t1.materialize p1 L1) (t2.materialize p2 L2) w
      (by rw [materialize_heap, materialize_heap, hheap])
      (by rw [materialize_metatables, materialize_metatables, hmeta])
    simp only [Except.bind]
    split
    · simp [returned, bind, Except.bind, pure, Except.pure, Except.map]
    · simp only [bind, Except.bind, Bool.true_eq_false, if_false, hvm1, hvm2]
      cases hp1 : ParseFloat3 cv { t1.materialize p1 L1 with
          stack := w :: (t1.materialize p1 L1).stack } (-1) with
      | error e =>
        cases hp2 : ParseFloat3 cv { t2.materialize p2 L2 with
            stack := w :: (t2.materialize p2 L2).stack } (-1) with
        | error e2 =>
          rw [hp1, hp2] at hc
          simp only [Except.map, Except.error.injEq] at hc
          simp [returned, Except.map, hc]
        | ok v2 => rw [hp1, hp2] at hc; simp [Except.map] at hc
      | ok v1 =>
        cases hp2 : ParseFloat3 cv { t2.materialize p2 L2 with
            stack := w :: (t2.materialize p2 L2).stack } (-1) with
        | error e2 => rw [hp1, hp2] at hc; simp [Except.map] at hc
        | ok v2 =>
          rw [hp1, hp2] at hc
          simp only [Except.map, Except.ok.injEq] at hc
          simp only [hc]
          cases v2.1 <;> simp [returned, Except.map, pure, Except.pure]

theorem forEachEntry_congr {σ : Type} (M1 M2 : lua_State) (a : Nat) (rest1 rest2 : List LuaValue)
    (h1 : M1.stack = LuaValue.table a :: rest1) (h2 : M2.stack = LuaValue.table a :: rest2)
    (hheap : M1.heap = M2.heap) (body : lua_State → σ → Except Fault σ) (init : σ)
    (hb : ∀ (e : LuaValue × LuaValue) (acc : σ),
      body { M1 with stack := e.2 :: e.1 :: M1.stack } acc =
        body { M2 with stack := e.2 :: e.1 :: M2.stack } acc) :
    forEachEntry M1 (lua_gettop M1) body init = forEachEntry M2 (lua_gettop M2) body init := by
  rw [forEachEntry_top M1 a rest1 h1, forEachEntry_top M2 a rest2 h2, tableAt_congr M1 M2 hheap a]
  exact foldlM_congr_mem _ _ _ (fun acc e _ => hb e acc) init

theorem GetKeysInt_congr (cv : NumConv) (t1 t2 : LuaTable) (p1 p2 : LuaParser)
    (L1 L2 : lua_State) (a : Nat) (h1 : t1.Names p1 L1 a) (h2 : t2.Names p2 L2 a)
    (hheap : L1.heap = L2.heap) (data : List Int) :
    (t1.GetKeysInt cv p1 data).map (fun r => (r.1, r.2.1)) =
      (t2.GetKeysInt cv p2 data).map (fun r => (r.1, r.2.1)) := by
  obtain ⟨rest1, hrest1⟩ := materialize_stack t1 p1 L1 a h1
  obtain ⟨rest2, hrest2⟩ := materialize_stack t2 p2 L2 a h2
  have hvm1 : t1.vm (p1.pushed t1 L1) = Except.ok (t1.materialize p1 L1) :=
    vm_pushed t1 p1 L1 a h1 _
  have hvm2 : t2.vm (p2.pushed t2 L2) = Except.ok (t2.materialize p2 L2) :=
    vm_pushed t2 p2 L2 a h2 _
  have hh : (t1.materialize p1 L1).heap = (t2.materialize p2 L2).heap := by
    rw [materialize_heap, materialize_heap, hheap]
  simp only [LuaTable.GetKeysInt, PushTable_names t1 p1 L1 a h1, PushTable_names t2 p2 L2 a h2,
    bind, Except.bind, hvm1, hvm2, Bool.true_eq_false, if_false]
  rw [forEachEntry_congr (t1.materialize p1 L1) (t2.materialize p2 L2) a rest1 rest2 hrest1
    hrest2 hh]
  · cases forEachEntry (t2.materialize p2 L2) (lua_gettop (t2.materialize p2 L2)) _ data <;>
      simp [Except.map, pure, Except.pure]
  · intro e acc
    simp [lua_israwnumber, lua_tonumber, lua_State.index]

theorem GetMapIntFloat_congr (cv : NumConv) (t1 t2 : LuaTable) (p1 p2 : LuaParser)
    (L1 L2 : lua_State) (a : Nat) (h1 : t1.Names p1 L1 a) (h2 : t2.Names p2 L2 a)
    (hheap : L1.heap = L2.heap) (data : StdMap Int CFloat) :
    (t1.GetMapIntFloat cv p1 data).map (fun r => (r.1, r.2.1)) =
      (t2.GetMapIntFloat cv p2 data).map (fun r => (r.1, r.2.1)) := by
  obtain ⟨rest1, hrest1⟩ := materialize_stack t1 p1 L1 a h1
  obtain ⟨rest2, hrest2⟩ := materialize_stack t2 p2 L2 a h2
  have hvm1 : t1.vm (p1.pushed t1 L1) = Except.ok (t1.materialize p1 L1) :=
    vm_pushed t1 p1 L1 a h1 _
  have hvm2 : t2.vm (p2.pushed t2 L2) = Except.ok (t2.materialize p2 L2) :=
    vm_pushed t2 p2 L2 a h2 _
  have hh : (t1.materialize p1 L1).heap = (t2.materialize p2 L2).heap := by
    rw [materialize_heap, materialize_heap, hheap]
  simp only [LuaTable.GetMapIntFloat, PushTable_names t1 p1 L1 a h1,
    PushTable_names t2 p2 L2 a h2, bind, Except.bind, hvm1, hvm2, Bool.true_eq_false, if_false]
  rw [forEachEntry_congr (t1.materialize p1 L1) (t2.materialize p2 L2) a rest1 rest2 hrest1
    hrest2 hh]
  · cases forEachEntry (t2.materialize p2 L2) (lua_gettop (t2.materialize p2 L2)) _ data <;>
      simp [Except.map, pure, Except.pure]
  · intro e acc
    simp [lua_israwnumber, lua_isnumber, lua_tonumber, lua_State.index]

theorem GetMapIntString_congr (cv : NumConv) (t1 t2 : LuaTable) (p1 p2 : LuaParser)
    (L1 L2 : lua_State) (a : Nat) (h1 : t1.Names p1 L1 a) (h2 : t2.Names p2 L2 a)
    (hheap : L1.heap = L2.heap) (data : StdMap Int String) :
    (t1.GetMapIntString cv p1 data).map (fun r => (r.1, r.2.1)) =
      (t2.GetMapIntString cv p2 data).map (fun r => (r.1, r.2.1)) := by
  obtain ⟨rest1, hrest1⟩ := materialize_stack t1 p1 L1 a h1
  obtain ⟨rest2, hrest2⟩ := materialize_stack t2 p2 L2 a h2
  have hvm1 : t1.vm (p1.pushed t1 L1) = Except.ok (t1.materialize p1 L1) :=
    vm_pushed t1 p1 L1 a h1 _
  have hvm2 : t2.vm (p2.pushed t2 L2) = Except.ok (t2.materialize p2 L2) :=
    vm_pushed t2 p2 L2 a h2 _
  have hh : (t1.materialize p1 L1).heap = (t2.materialize p2 L2).heap := by
    rw [materialize_heap, materialize_heap, hheap]
  simp only [LuaTable.GetMapIntString, PushTable_names t1 p1 L1 a h1,
    PushTable_names t2 p2 L2 a h2, bind, Except.bind, hvm1, hvm2, Bool.true_eq_false, if_false]
  rw [forEachEntry_congr (t1.materialize p1 L1) (t2.materialize p2 L2) a rest1 rest2 hrest1
    hrest2 hh]
  · cases forEachEntry (t2.materialize p2 L2) (lua_gettop (t2.materialize p2 L2)) _ data <;>
      simp [Except.map, pure, Except.pure]
  · intro e acc
    rw [lua_isstring_eq { t1.materialize p1 L1 with
        stack := e.2 :: e.1 :: (t1.materialize p1 L1).stack } cv e.2 _ rfl,
      lua_isstring_eq { t2.materialize p2 L2 with
        stack := e.2 :: e.1 :: (t2.materialize p2 L2).stack } cv e.2 _ rfl,
      lua_tostring_eq { t1.materialize p1 L1 with
        stack := e.2 :: e.1 :: (t1.materialize p1 L1).stack } cv e.2 _ rfl,
      lua_tostring_eq { t2.materialize p2 L2 with
        stack := e.2 :: e.1 :: (t2.materialize p2 L2).stack } cv e.2 _ rfl]
    simp [lua_israwnumber, lua_tonumber, lua_State.index]

/-- Two views that name the same table, in VMs with the same tables, return the same
on every read access. -/
theorem access_value_eq (cv : NumConv) (t1 t2 : LuaTable) (p1 p2 : LuaParser)
    (L1 L2 : lua_State) (a : Nat) (h1 : t1.Names p1 L1 a) (h2 : t2.Names p2 L2 a)
    (hheap : L1.heap = L2.heap) (hmeta : L1.metatables = L2.metatables) (x : Access) :
    returned (t1.access cv p1 x) = returned (t2.access cv p2 x) := by
  have ht := tableAt_congr L1 L2 hheap a
  have hl := lookup_congr L1 L2 hheap hmeta a
  cases x with
  | getInt key d =>
    simp only [LuaTable.access, GetInt_names cv t1 p1 L1 a h1, GetInt_names cv t2 p2 L2 a h2, hl]
    cases L2.lookup a (keyValue key) with
    | error e => rfl
    | ok w =>
      simp only [Except.bind]
      split
      · rfl
      · rename_i n _
        cases double2int n <;> rfl
  | getBool key d =>
    simp only [LuaTable.access, GetBool_names cv t1 p1 L1 a h1, GetBool_names cv t2 p2 L2 a h2,
      hl]
    cases L2.lookup a (keyValue key) <;> rfl
  | getFloat key d =>
    simp only [LuaTable.access, GetFloat_names cv t1 p1 L1 a h1,
      GetFloat_names cv t2 p2 L2 a h2, hl]
    cases L2.lookup a (keyValue key) with
    | error e => rfl
    | ok w =>
      simp only [Except.bind]
      split <;> rfl
  | getFloat3 key d =>
    have e : ∀ r : Except Fault (float3 × LuaTable × LuaParser),
        returned (r.map (fun r => (AccessValue.float3 r.1, r.2))) =
          (returned r).map AccessValue.float3 := by
      intro r; cases r <;> rfl
    simp only [LuaTable.access]
    rw [e, e, GetFloat3_congr cv t1 t2 p1 p2 L1 L2 a h1 h2 hheap hmeta key d]
  | getString key d =>
    simp only [LuaTable.access, GetString_names cv t1 p1 L1 a h1,
      GetString_names cv t2 p2 L2 a h2, hl]
    cases L2.lookup a (keyValue key) with
    | error e => rfl
    | ok w =>
      simp only [Except.bind]
      split <;> rfl
  | keyExists key =>
    simp only [LuaTable.access, KeyExists_names t1 p1 L1 a h1, KeyExists_names t2 p2 L2 a h2, hl]
    cases L2.lookup a (keyValue key) <;> rfl
  | getKeysInt data =>
    have e : ∀ r : Except Fault (Bool × List Int × LuaTable × LuaParser),
        returned (r.map (fun r => (AccessValue.keysInt r.1 r.2.1, r.2.2))) =
          (r.map (fun r => (r.1, r.2.1))).map (fun q => AccessValue.keysInt q.1 q.2) := by
      intro r; cases r <;> rfl
    simp only [LuaTable.access]
    rw [e, e, GetKeysInt_congr cv t1 t2 p1 p2 L1 L2 a h1 h2 hheap data]
  | getKeysString data =>
    simp only [LuaTable.access, GetKeysString_names cv t1 p1 L1 a h1,
      GetKeysString_names cv t2 p2 L2 a h2, ht]
    rfl
  | getMapIntFloat data =>
    have e : ∀ r : Except Fault (Bool × StdMap Int CFloat × LuaTable × LuaParser),
        returned (r.map (fun r => (AccessValue.mapIntFloat r.1 r.2.1, r.2.2))) =
          (r.map (fun r => (r.1, r.2.1))).map (fun q => AccessValue.mapIntFloat q.1 q.2) := by
      intro r; cases r <;> rfl
    simp only [LuaTable.access]
    rw [e, e, GetMapIntFloat_congr cv t1 t2 p1 p2 L1 L2 a h1 h2 hheap data]
  | getMapIntString data =>
    have e : ∀ r : Except Fault (Bool × StdMap Int String × LuaTable × LuaParser),
        returned (r.map (fun r => (AccessValue.mapIntString r.1 r.2.1, r.2.2))) =
          (r.map (fun r => (r.1, r.2.1))).map (fun q => AccessValue.mapIntString q.1 q.2) := by
      intro r; cases r <;> rfl
    simp only [LuaTable.access]
    rw [e, e, GetMapIntString_congr cv t1 t2 p1 p2 L1 L2 a h1 h2 hheap data]
  | getMapStringFloat data =>
    simp only [LuaTable.access, GetMapStringFloat_names cv t1 p1 L1 a h1,
      GetMapStringFloat_names cv t2 p2 L2 a h2, ht]
    rfl
  | getMapStringString data =>
    simp only [LuaTable.access, GetMapStringString_names cv t1 p1 L1 a h1,
      GetMapStringString_names cv t2 p2 L2 a h2, ht]
    rfl

/-- The destructor of a view, in a program that keeps the invariant, returns and
leaves every other view in place, naming the table it named, in a VM with the same
tables. -/
theorem destroy_step_spec (cv : NumConv) (w : World) (h : w.Inv) (v u pid : Nat)
    (t tu : LuaTable) (p : LuaParser) (L : lua_State) (a : Nat)
    (hv : w.views v = some t) (hu : w.views u = some tu) (huv : u ≠ v)
    (hpar : tu.parser = some pid) (hp : w.parsers pid = some p) (hL : p.L = some L)
    (hn : tu.Names p L a) :
    ∃ (w' : World) (p' : LuaParser) (L' : lua_State),
      w.step cv (ViewOp.destroy v) = Except.ok w' ∧ w'.views u = some tu ∧
      w'.parsers pid = some p' ∧ p'.L = some L' ∧
      (L'.heap = L.heap ∧ L'.metatables = L.metatables) ∧ tu.Names p' L' a := by
  have key : ∀ (w' : World) (p' : LuaParser) (L' : lua_State),
      w.step cv (ViewOp.destroy v) = Except.ok w' → w'.views u = some tu →
      w'.parsers pid = some p' → p'.L = some L' →
      (L'.heap = L.heap ∧ L'.metatables = L.metatables) →
      rawget L'.registry (LuaValue.number tu.refnum) = LuaValue.table a →
      ∃ (w' : World) (p' : LuaParser) (L' : lua_State),
        w.step cv (ViewOp.destroy v) = Except.ok w' ∧ w'.views u = some tu ∧
        w'.parsers pid = some p' ∧ p'.L = some L' ∧
      (L'.heap = L.heap ∧ L'.metatables = L.metatables) ∧ tu.Names p' L' a := by
    intro w' p' L' hs hu' hp' hL' hheap hreg
    have hinv' := Inv_step cv w w' _ h hs
    exact ⟨w', p', L', hs, hu', hp', hL', hheap,
      Names_of_cache tu p' L' a hn.valid hn.parser hn.vmPtr hL' hreg
        ((hinv'.parser pid p' hp').cache L' hL')⟩
  have hstep : w.step cv (ViewOp.destroy v) = (do
      let p ← w.parserOf t
      let p ← t.destroy v p
      let w1 := (match t.parser with
        | none => w
        | some pid => w.setParser pid p)
      (pure { w1 with views := Function.update w1.views v none } : Except Fault World)) := by
    simp only [World.step, view_eq w v t hv, bind, Except.bind]
    try rfl
  rcases Inv_view w h v t hv with ⟨hpar0, hl0, hval0, href0⟩ |
    ⟨pid0, p0, L0, hpar0, hl0, hp0, hL0, hpok0, hcase⟩
  · refine key { w with views := Function.update w.views v none } p L ?_ ?_ hp hL ⟨rfl, rfl⟩ hn.names
    · rw [hstep]
      simp only [parserOf_none w t hpar0, LuaTable.destroy, hl0, hpar0, Option.isSome_none,
        Bool.false_eq_true, false_and, if_false, bind, Except.bind, pure, Except.pure]
    · simp [Function.update_noteq huv, hu]
  · rw [parserOf_eq w t pid0 p0 hpar0 hp0] at hstep
    rcases hcase with ⟨hval0, href0⟩ | ⟨hval0, href0, hroot0, a0, hn0⟩
    · have hs : w.step cv (ViewOp.destroy v) = Except.ok
          { w.setParser pid0 (p0.RemoveTable v) with
            views := Function.update (w.setParser pid0 (p0.RemoveTable v)).views v none } := by
        rw [hstep]
        simp only [LuaTable.destroy, href0, hpar0, ne_eq, not_true_eq_false, and_false, if_false,
          bind, Except.bind, pure, Except.pure, Option.isSome_some, if_true]
      by_cases hpp : pid = pid0
      · subst hpp
        rw [hp] at hp0; cases hp0
        exact key _ (p.RemoveTable v) L hs (by simp [World.setParser, Function.update_noteq huv, hu])
          (by simp [World.setParser]) (by simpa [LuaParser.RemoveTable] using hL) ⟨rfl, rfl⟩ hn.names
      · exact key _ p L hs (by simp [World.setParser, Function.update_noteq huv, hu])
          (by simp [World.setParser, Function.update_noteq hpp, hp]) hL ⟨rfl, rfl⟩ hn.names
    · obtain ⟨fl, hfl⟩ := hpok0.freeList L0 hL0
      obtain ⟨reg, fl', hun, hfl', hframe, _⟩ := luaL_unref_freeList L0 t.refnum fl hfl
        (by rw [hn0.names]; rfl)
      have hvm : t.vm p0 = Except.ok L0 := by simp [LuaTable.vm, hl0, hL0]
      by_cases hpp : pid = pid0
      · subst hpp
        rw [hp] at hp0; cases hp0
        rw [hL] at hL0; cases hL0
        have hne : tu.refnum ≠ t.refnum :=
          h.distinct u v tu t hu hv huv hn.valid hval0 (by rw [hpar, hpar0])
        have hne0 : tu.refnum ≠ 0 := by
          intro e
          have := FreeList_zero_not_table L.registry fl hfl
          rw [← e, hn.names] at this
          simp [LuaValue.isTable] at this
        have hreg : rawget reg (LuaValue.number tu.refnum) = LuaValue.table a := by
          rw [hframe tu.refnum hne hne0]; exact hn.names
        by_cases hcur : p.currentRef = t.refnum
        · refine key
            { w.setParser pid (LuaParser.RemoveTable
                { p with currentRef := LUA_NOREF,
                         L := some (lua_settop { L with registry := reg } 0) } v) with
              views := Function.update w.views v none }
            (LuaParser.RemoveTable
                { p with currentRef := LUA_NOREF,
                         L := some (lua_settop { L with registry := reg } 0) } v)
            (lua_settop { L with registry := reg } 0) ?_ ?_ ?_ ?_ ?_ ?_
          · rw [hstep]
            simp only [LuaTable.destroy, hl0, href0, hpar0, hvm, hcur, hun, ne_eq,
              not_false_eq_true, and_self, if_true, bind, Except.bind, pure, Except.pure,
              Option.isSome_some]
            try rfl
          · simp [World.setParser, Function.update_noteq huv, hu]
          · simp [World.setParser]
          · simp [LuaParser.RemoveTable]
          · simp [lua_settop]
          · simpa [lua_settop] using hreg
        · refine key
            { w.setParser pid (LuaParser.RemoveTable
                { p with L := some { L with registry := reg } } v) with
              views := Function.update w.views v none }
            (LuaParser.RemoveTable { p with L := some { L with registry := reg } } v)
            { L with registry := reg } ?_ ?_ ?_ ?_ ?_ ?_
          · rw [hstep]
            simp only [LuaTable.destroy, hl0, href0, hpar0, hvm, hcur, hun, ne_eq,
              not_false_eq_true, and_self, and_false, if_true, if_false, bind, Except.bind, pure,
              Except.pure, Option.isSome_some]
            try rfl
          · simp [World.setParser, Function.update_noteq huv, hu]
          · simp [World.setParser]
          · simp [LuaParser.RemoveTable]
          · exact ⟨rfl, rfl⟩
          · exact hreg
      · have hex : ∃ q, w.step cv (ViewOp.destroy v) = Except.ok
            { w.setParser pid0 q with
              views := Function.update (w.setParser pid0 q).views v none } := by
          rw [hstep]
          by_cases hcur : p0.currentRef = t.refnum
          · simp only [LuaTable.destroy, hl0, href0, hpar0, hvm, hcur, hun, ne_eq,
              not_false_eq_true, and_self, if_true, bind, Except.bind, pure, Except.pure,
              Option.isSome_some]
            exact ⟨_, rfl⟩
          · simp only [LuaTable.destroy, hl0, href0, hpar0, hvm, hcur, hun, ne_eq,
              not_false_eq_true, and_self, and_false, if_true, if_false, bind, Except.bind,
              pure, Except.pure, Option.isSome_some]
            exact ⟨_, rfl⟩
        obtain ⟨q, hs⟩ := hex
        exact key _ p L hs (by simp [World.setParser, Function.update_noteq huv, hu])
          (by simp [World.setParser, Function.update_noteq hpp, hp]) hL ⟨rfl, rfl⟩ hn.names

theorem place_free (w : World) (self : Nat) (h : w.views self = none) :
    w.place self = Except.ok () := by
  simp [World.place, h, pure, Except.pure]

/-- The copy constructor, in a program that keeps the invariant, returns; the new
view is valid exactly when the source is, and then it holds a reference of its own
that names the table the source names. -/
theorem copy_step_spec (cv : NumConv) (w : World) (self src : Nat) (tbl : LuaTable)
    (h : w.Inv) (hsrc : w.views src = some tbl) (hself : w.views self = none) :
    ∃ (w' : World) (nv : LuaTable), w.step cv (ViewOp.copy self src) = Except.ok w' ∧
      w'.views self = some nv ∧ w'.views src = some tbl ∧
      (tbl.isValid = false → nv.isValid = false) ∧
      (tbl.isValid = true → nv.isValid = true ∧ nv.refnum ≠ tbl.refnum ∧
        ∃ (pid : Nat) (p' : LuaParser) (L' : lua_State) (a : Nat),
          nv.parser = some pid ∧ tbl.parser = some pid ∧ w'.parsers pid = some p' ∧
          p'.L = some L' ∧
          rawget L'.registry (LuaValue.number nv.refnum) = LuaValue.table a ∧
          rawget L'.registry (LuaValue.number tbl.refnum) = LuaValue.table a) := by
  have hss : src ≠ self := by
    rintro rfl
    rw [hself] at hsrc; cases hsrc
  have hstep : w.step cv (ViewOp.copy self src) = (do
      let p ← w.parserOf tbl
      let r ← LuaTable.copy cv self tbl p
      (pure ((w.store src r.2.1 tbl.parser r.2.2).setView self r.1) : Except Fault World)) := by
    simp only [World.step, place_free w self hself, view_eq w src tbl hsrc, bind, Except.bind]
  rcases Inv_view w h src tbl hsrc with ⟨hpar, hl, hval, href⟩ |
    ⟨pid, p, L, hpar, hl, hp, hL, hpok, hcase⟩
  · have hs : w.step cv (ViewOp.copy self src) = Except.ok
        ((w.store src tbl tbl.parser (LuaParser.new "" "" "" none)).setView self
          (LuaTable.mk false tbl.path tbl.parser tbl.L LUA_NOREF)) := by
      rw [hstep]
      simp only [parserOf_none w tbl hpar,
        copy_invalid cv self tbl (LuaParser.new "" "" "" none) hval, bind, Except.bind, pure,
        Except.pure, hpar, Option.isSome_none, Bool.false_eq_true, if_false]
    refine ⟨_, LuaTable.mk false tbl.path tbl.parser tbl.L LUA_NOREF, hs, ?_, ?_, fun _ => rfl,
        fun hv => ?_⟩
    · simp [World.setView]
    · simp [World.store, hpar, World.setView, Function.update_noteq hss]
    · rw [hval] at hv; cases hv
  · rw [parserOf_eq w tbl pid p hpar hp] at hstep
    rcases hcase with ⟨hval, href⟩ | ⟨hval, href, hroot, a, hn⟩
    · have hs : w.step cv (ViewOp.copy self src) = Except.ok
          ((w.store src tbl tbl.parser (p.AddTable self)).setView self
            (LuaTable.mk false tbl.path tbl.parser tbl.L LUA_NOREF)) := by
        rw [hstep]
        simp only [copy_invalid cv self tbl p hval, bind, Except.bind, pure, Except.pure, hpar,
          Option.isSome_some, if_true]
      refine ⟨_, LuaTable.mk false tbl.path tbl.parser tbl.L LUA_NOREF, hs, ?_, ?_, fun _ => rfl,
        fun hv => ?_⟩
      · simp [World.setView]
      · simp [World.store, hpar, World.setView, World.setParser, Function.update_noteq hss]
      · rw [hval] at hv; cases hv
    · obtain ⟨fl, hfl⟩ := hpok.freeList L hL
      obtain ⟨ref, reg, rest, hrest, heq, hpos, hget, hfresh, hframe, hfl'⟩ :=
        copy_names cv self tbl p L fl a hn hfl
      obtain ⟨hkeep, hne⟩ := acquire_keeps L.registry reg ref fl hfl hfresh hframe tbl.refnum a
        hn.names
      obtain ⟨P, hP⟩ : ∃ P : LuaParser, P = LuaParser.AddTable
          { p with currentRef := tbl.refnum,
                   L := some { tbl.materialize p L with registry := reg } } self := ⟨_, rfl⟩
      have hs : w.step cv (ViewOp.copy self src) = Except.ok
          ((w.store src tbl tbl.parser P).setView self
            (LuaTable.mk true tbl.path tbl.parser tbl.L ref)) := by
        rw [hstep, hP]
        simp only [heq, bind, Except.bind, pure, Except.pure]
      refine ⟨_, LuaTable.mk true tbl.path tbl.parser tbl.L ref, hs, ?_, ?_, fun hv => ?_,
        fun _ => ⟨rfl, fun e => hne e.symm, pid, P,
          { tbl.materialize p L with registry := reg }, a, hpar, hpar, ?_, ?_, hget, hkeep⟩⟩
      · simp [World.setView]
      · simp [World.store, hpar, World.setView, World.setParser, Function.update_noteq hss]
      · rw [hval] at hv; cases hv
      · simp [World.store, hpar, World.setView, World.setParser]
      · rw [hP]; simp [LuaParser.AddTable]

theorem releaseMarker_total (w : World) (self : Nat) (t : LuaTable) (h : w.Inv)
    (hv : w.views self = some t) : ∃ wA, w.releaseMarker t = Except.ok wA := by
  unfold World.releaseMarker
  rcases Inv_view w h self t hv with ⟨hpar, hl, hval, href⟩ |
    ⟨pid, p, L, hpar, hl, hp, hL, hpok, hcase⟩
  · simp only [hpar]
    exact ⟨_, rfl⟩
  · simp only [hpar, parser_eq w pid p hp, bind, Except.bind]
    by_cases hc : t.refnum ≠ LUA_NOREF ∧ p.currentRef = t.refnum
    · simp only [hc, ne_eq, not_false_eq_true, and_self, if_true, hl, vm_eq w pid p L hp hL]
      simp only [World.parser, World.setParser, Function.update_same, pure, Except.pure]
      exact ⟨_, rfl⟩
    · simp only [hc, if_false]
      exact ⟨_, rfl⟩

theorem joinParser_total (W : World) (self : Nat) (t' : LuaTable) (owner : Option Nat)
    (hlive : ∀ q, owner = some q → (W.parsers q).isSome) :
    ∃ wB, (match owner with
      | none => (pure (W.setView self t') : Except Fault World)
      | some pid => do
        let p ← (W.setView self t').parser pid
        pure ((W.setView self t').setParser pid (p.AddTable self))) = Except.ok wB := by
  cases owner with
  | none => exact ⟨_, rfl⟩
  | some q =>
    obtain ⟨pq, hpq⟩ := Option.isSome_iff_exists.1 (hlive q rfl)
    have hpq' : (W.setView self t').parsers q = some pq := hpq
    simp only [parser_eq _ q pq hpq', bind, Except.bind, pure, Except.pure]
    exact ⟨_, rfl⟩

theorem changeParser_total (w : World) (self : Nat) (t tbl : LuaTable) (h : w.Inv)
    (hv : w.views self = some t)
    (hlive : ∀ q, tbl.parser = some q → (w.parsers q).isSome) :
    ∃ wB, w.changeParser self t tbl = Except.ok wB := by
  unfold World.changeParser
  rcases Inv_view w h self t hv with ⟨hpar, hl, hval, href⟩ |
    ⟨pid, p, L, hpar, hl, hp, hL, hpok, hcase⟩
  · simp only [hpar, hl, Option.isSome_none, Bool.false_eq_true, false_and, if_false, bind,
      Except.bind, pure, Except.pure]
    exact joinParser_total w self _ tbl.parser hlive
  · simp only [hpar, parser_eq w pid p hp, bind, Except.bind, pure, Except.pure, hl,
      Option.isSome_some, true_and]
    have hlive' : ∀ (P : LuaParser) q, tbl.parser = some q →
        ((w.setParser pid P).parsers q).isSome := by
      intro P q hq
      simp only [World.setParser]
      by_cases hqp : q = pid
      · subst hqp; simp
      · rw [Function.update_noteq hqp]; exact hlive q hq
    by_cases href : t.refnum ≠ LUA_NOREF
    · have hvm : (w.setParser pid (p.RemoveTable self)).vm (some pid) =
          Except.ok (pid, p.RemoveTable self, L) :=
        vm_eq _ pid _ L (by simp [World.setParser]) (by simpa [LuaParser.RemoveTable] using hL)
      simp only [href, ne_eq, not_false_eq_true, if_true, hvm, setParser_setParser]
      exact joinParser_total _ self _ tbl.parser (hlive' _)
    · simp only [href, if_false]
      exact joinParser_total _ self _ tbl.parser (hlive' _)

/-- The last block of `operator=` returns; the view at `self` becomes valid exactly
when the source is, and then it holds a reference of its own that names the table
the source names. -/
theorem takeReference_spec (cv : NumConv) (w : World) (self src : Nat) (t1 tbl : LuaTable)
    (hX : World.Inv { w with views := Function.update w.views self none })
    (hv : w.views self = some t1) (hsrc : w.views src = some tbl) (hss : src ≠ self)
    (hpar : t1.parser = tbl.parser) (hl : t1.L = tbl.L)
    (htbl : (tbl.parser = none ∧ tbl.L = none ∧ tbl.isValid = false) ∨
      (∃ pid p L, tbl.parser = some pid ∧ tbl.L = some pid ∧ w.parsers pid = some p ∧
        p.L = some L ∧ self ∈ p.tables ∧ (tbl.isValid = false ∨ ∃ a, tbl.Names p L a))) :
    ∃ (wF : World) (nv : LuaTable), w.takeReference cv self src = Except.ok wF ∧
      wF.views self = some nv ∧ wF.views src = some tbl ∧
      (tbl.isValid = false → nv.isValid = false) ∧
      (tbl.isValid = true → nv.isValid = true ∧ nv.refnum ≠ tbl.refnum ∧
        ∃ (pid : Nat) (p' : LuaParser) (L' : lua_State) (a : Nat),
          nv.parser = some pid ∧ tbl.parser = some pid ∧ wF.parsers pid = some p' ∧
          p'.L = some L' ∧
          rawget L'.registry (LuaValue.number nv.refnum) = LuaValue.table a ∧
          rawget L'.registry (LuaValue.number tbl.refnum) = LuaValue.table a) := by
  have hself : self ≠ src := fun e => hss e.symm
  rcases htbl with ⟨hp0, hl0, hval⟩ | ⟨pid, p, L, hp0, hl0, hp, hL, hreg, hcase⟩
  · have hs : w.takeReference cv self src = Except.ok
        (w.setView self (LuaTable.mk false t1.path t1.parser t1.L LUA_NOREF)) := by
      unfold World.takeReference
      simp only [view_eq w src tbl hsrc, bind, Except.bind, parserOf_none w tbl hp0,
        PushTable_invalid tbl _ hval, World.store, hp0,
        setView_same w src tbl hsrc, view_eq w self t1 hv, Bool.false_eq_true, if_false, pure,
        Except.pure]
    refine ⟨_, LuaTable.mk false t1.path t1.parser t1.L LUA_NOREF, hs, ?_, ?_, fun _ => rfl,
      fun hvv => ?_⟩
    · simp [World.setView]
    · simp [World.setView, Function.update_noteq hss, hsrc]
    · rw [hval] at hvv; cases hvv
  · rcases hcase with hval | ⟨a, hn⟩
    · have hs : w.takeReference cv self src = Except.ok
          (w.setView self (LuaTable.mk false t1.path t1.parser t1.L LUA_NOREF)) := by
        unfold World.takeReference
        simp only [view_eq w src tbl hsrc, bind, Except.bind, parserOf_eq w tbl pid p hp0 hp,
          PushTable_invalid tbl _ hval,
          store_same w src tbl p hsrc (fun q hq => by rw [hp0] at hq; cases hq; exact hp),
          view_eq w self t1 hv, Bool.false_eq_true, if_false, pure, Except.pure]
      refine ⟨_, LuaTable.mk false t1.path t1.parser t1.L LUA_NOREF, hs, ?_, ?_, fun _ => rfl,
        fun hvv => ?_⟩
      · simp [World.setView]
      · simp [World.setView, Function.update_noteq hss, hsrc]
      · rw [hval] at hvv; cases hvv
    · obtain ⟨fl, hfl⟩ := (hX.parser pid p hp).freeList L hL
      obtain ⟨rest, hrest⟩ := materialize_stack tbl p L a hn
      obtain ⟨ref, reg, h1, h2, h3, h4, h5, h6⟩ := acquire_spec cv _ a rest fl hrest
        (by rw [materialize_registry]; exact hfl)
      rw [materialize_registry] at h4 h5
      obtain ⟨hkeep, hne⟩ := acquire_keeps L.registry reg ref fl hfl h4 h5 tbl.refnum a hn.names
      have hnoref : ref ≠ LUA_NOREF := by
        intro e; rw [e] at h2; simp [LUA_NOREF] at h2
      have hview : ((w.setParser pid (p.pushed tbl L)).setView src tbl).views self = some t1 := by
        simp only [World.setView, World.setParser]
        rw [Function.update_noteq hself]; exact hv
      have hvm : ((w.setParser pid (p.pushed tbl L)).setView src tbl).vm t1.L =
          Except.ok (pid, p.pushed tbl L, tbl.materialize p L) := by
        rw [hl, hl0]
        exact vm_eq _ pid _ _ (by simp [World.setView, World.setParser]) rfl
      obtain ⟨P, hP⟩ : ∃ P : LuaParser, P =
          { p.pushed tbl L with L := some { tbl.materialize p L with registry := reg } } :=
        ⟨_, rfl⟩
      have hs : w.takeReference cv self src = Except.ok
          ((((w.setParser pid (p.pushed tbl L)).setView src tbl).setParser pid P).setView self
            (LuaTable.mk true t1.path t1.parser t1.L ref)) := by
        rw [hP]
        unfold World.takeReference
        simp only [view_eq w src tbl hsrc, bind, Except.bind, parserOf_eq w tbl pid p hp0 hp,
          PushTable_names tbl p L a hn, World.store, hp0, view_eq _ self t1 hview, if_true,
          hvm, h1, pure, Except.pure]
        simp only [hnoref, ne_eq, not_false_eq_true, decide_True]
      refine ⟨_, LuaTable.mk true t1.path t1.parser t1.L ref, hs, ?_, ?_, fun hvv => ?_,
        fun _ => ⟨rfl, fun e => hne e.symm, pid, P, { tbl.materialize p L with registry := reg },
          a, by rw [hpar, hp0], hp0, ?_, by rw [hP], h3, hkeep⟩⟩
      · simp [World.setView]
      · simp [World.setView, World.setParser, Function.update_noteq hss]
      · rw [hn.valid] at hvv; cases hvv
      · simp [World.setView, World.setParser]

/-- The assignment of the view at `src` to another view at `self`, in a program that
keeps the invariant, returns; the view at `self` becomes valid exactly when the
source is, and then it holds a reference of its own that names the table the source
names. -/
theorem assign_step_spec (cv : NumConv) (w : World) (self src : Nat) (t tbl : LuaTable)
    (h : w.Inv) (hv : w.views self = some t) (hsrc : w.views src = some tbl) (hss : src ≠ self) :
    ∃ (w' : World) (nv : LuaTable), w.step cv (ViewOp.assign self src) = Except.ok w' ∧
      w'.views self = some nv ∧ w'.views src = some tbl ∧
      (tbl.isValid = false → nv.isValid = false) ∧
      (tbl.isValid = true → nv.isValid = true ∧ nv.refnum ≠ tbl.refnum ∧
        ∃ (pid : Nat) (p' : LuaParser) (L' : lua_State) (a : Nat),
          nv.parser = some pid ∧ tbl.parser = some pid ∧ w'.parsers pid = some p' ∧
          p'.L = some L' ∧
          rawget L'.registry (LuaValue.number nv.refnum) = LuaValue.table a ∧
          rawget L'.registry (LuaValue.number tbl.refnum) = LuaValue.table a) := by
  obtain ⟨wA, hA⟩ := releaseMarker_total w self t h hv
  obtain ⟨hIA, hvA, hmark⟩ := releaseMarker_inv w wA self t h hv hA
  have hvA_self : wA.views self = some t := by rw [hvA]; exact hv
  have hvA_src : wA.views src = some tbl := by rw [hvA]; exact hsrc
  by_cases hne : t.parser ≠ tbl.parser
  · obtain ⟨wB, hB⟩ := changeParser_total wA self t tbl hIA hvA_self
      (fun q hq => hIA.live src tbl q hvA_src hq)
    obtain ⟨hXB, hvB, hregB⟩ := changeParser_inv wA wB self t tbl hIA hvA_self
      (fun q hq => hIA.live src tbl q hvA_src hq) hmark hB
    have hvB_self : wB.views self = some { t with parser := tbl.parser } := by
      rw [hvB]; simp
    have hstep : w.step cv (ViewOp.assign self src) =
        World.takeReference cv
          (wB.setView self (LuaTable.mk t.isValid tbl.path tbl.parser tbl.L t.refnum)) self src := by
      simp only [World.step, World.assign, view_eq w self t hv, view_eq w src tbl hsrc, bind,
        Except.bind, hA, hne, ne_eq, not_false_eq_true, if_true, hB, view_eq wB self _ hvB_self]
    rw [hstep]
    refine takeReference_spec cv _ self src
      (LuaTable.mk t.isValid tbl.path tbl.parser tbl.L t.refnum) tbl ?_
      (by simp [World.setView]) ?_ hss rfl rfl ?_
    · rw [removeView_setView]; exact hXB
    · simp only [World.setView, Function.update_noteq hss, hvB]
      exact hvA_src
    · have hsrcX : ({ wB with views := Function.update wB.views self none } : World).views
          src = some tbl := by
        simp only [Function.update_noteq hss, hvB]
        exact hvA_src
      rcases Inv_view _ hXB src tbl hsrcX with ⟨hp0, hl0, hval, _⟩ |
        ⟨pid, p, L, hp0, hl0, hp, hL, _, hcase⟩
      · exact Or.inl ⟨hp0, hl0, hval⟩
      · obtain ⟨pq, hpq, hmem⟩ := hregB pid hp0
        have hpp : wB.parsers pid = some p := hp
        rw [hpp] at hpq; cases hpq
        refine Or.inr ⟨pid, p, L, hp0, hl0, hp, hL, hmem, ?_⟩
        rcases hcase with ⟨hval, _⟩ | ⟨_, _, _, a, hn⟩
        · exact Or.inl hval
        · exact Or.inr ⟨a, hn⟩
  · have hpeq : t.parser = tbl.parser := by
      by_contra hc; exact hne hc
    have hleq : t.L = tbl.L :=
      ViewOK_L_eq t tbl (h.view self t hv) (h.view src tbl hsrc) hpeq
    have hstep : w.step cv (ViewOp.assign self src) =
        World.takeReference cv
          (wA.setView self (LuaTable.mk t.isValid tbl.path t.parser tbl.L t.refnum)) self src := by
      simp only [World.step, World.assign, view_eq w self t hv, view_eq w src tbl hsrc, bind,
        Except.bind, hA, hne, if_false, pure, Except.pure, view_eq wA self t hvA_self]
    rw [hstep]
    have hsrcC : (wA.setView self (LuaTable.mk t.isValid tbl.path t.parser tbl.L t.refnum)).views
        src = some tbl := by
      simp only [World.setView]
      rw [Function.update_noteq hss]; exact hvA_src
    refine takeReference_spec cv _ self src
      (LuaTable.mk t.isValid tbl.path t.parser tbl.L t.refnum) tbl ?_
      (by simp [World.setView]) hsrcC hss hpeq rfl ?_
    · rw [removeView_setView]; exact Inv_removeView wA self hIA
    · rcases Inv_view wA hIA src tbl hvA_src with ⟨hp0, hl0, hval, _⟩ |
        ⟨pid, p, L, hp0, hl0, hp, hL, hpok, hcase⟩
      · exact Or.inl ⟨hp0, hl0, hval⟩
      · have hmem : self ∈ p.tables :=
          hpok.registered self t hvA_self (by rw [hpeq, hp0])
        refine Or.inr ⟨pid, p, L, hp0, hl0, hp, hL, hmem, ?_⟩
        rcases hcase with ⟨hval, _⟩ | ⟨_, _, _, a, hn⟩
        · exact Or.inl hval
        · exact Or.inr ⟨a, hn⟩

/-- Two valid views of one parser whose references name the same table: both name
it, they return the same on every read access, and the destructor of either one
returns and leaves the other in place, naming the table, with the same results. -/
theorem shared_table_spec (cv : NumConv) (w' : World) (hinv : w'.Inv) (self src pid : Nat)
    (nv tbl : LuaTable) (p' : LuaParser) (L' : lua_State) (a : Nat) (hne : self ≠ src)
    (h1 : w'.views self = some nv) (h2 : w'.views src = some tbl)
    (hv1 : nv.isValid = true) (hv2 : tbl.isValid = true)
    (hp1 : nv.parser = some pid) (hp2 : tbl.parser = some pid)
    (hp' : w'.parsers pid = some p') (hL' : p'.L = some L')
    (hr1 : rawget L'.registry (LuaValue.number nv.refnum) = LuaValue.table a)
    (hr2 : rawget L'.registry (LuaValue.number tbl.refnum) = LuaValue.table a) :
    nv.Names p' L' a ∧ tbl.Names p' L' a ∧
    (∀ x, returned (nv.access cv p' x) = returned (tbl.access cv p' x)) ∧
    (∃ (w'' : World) (p'' : LuaParser) (L'' : lua_State),
      w'.step cv (ViewOp.destroy self) = Except.ok w'' ∧ w''.views src = some tbl ∧
      w''.parsers pid = some p'' ∧ p''.L = some L'' ∧ tbl.Names p'' L'' a ∧
      ∀ x, returned (tbl.access cv p'' x) = returned (tbl.access cv p' x)) ∧
    (∃ (w'' : World) (p'' : LuaParser) (L'' : lua_State),
      w'.step cv (ViewOp.destroy src) = Except.ok w'' ∧ w''.views self = some nv ∧
      w''.parsers pid = some p'' ∧ p''.L = some L'' ∧ nv.Names p'' L'' a ∧
      ∀ x, returned (nv.access cv p'' x) = returned (nv.access cv p' x)) := by
  have hc := (hinv.parser pid p' hp').cache L' hL'
  have hn1 : nv.Names p' L' a :=
    Names_of_cache nv p' L' a hv1 (by rw [hp1]; simp)
      (by rw [(hinv.view self nv h1).vmPtr pid hp1]; simp) hL' hr1 hc
  have hn2 : tbl.Names p' L' a :=
    Names_of_cache tbl p' L' a hv2 (by rw [hp2]; simp)
      (by rw [(hinv.view src tbl h2).vmPtr pid hp2]; simp) hL' hr2 hc
  refine ⟨hn1, hn2, fun x => access_value_eq cv nv tbl p' p' L' L' a hn1 hn2 rfl rfl x, ?_, ?_⟩
  · obtain ⟨w'', p'', L'', hs, hu, hp'', hL'', hheap, hn''⟩ :=
      destroy_step_spec cv w' hinv self src pid nv tbl p' L' a h1 h2 (fun e => hne e.symm) hp2
        hp' hL' hn2
    exact ⟨w'', p'', L'', hs, hu, hp'', hL'', hn'',
      fun x => access_value_eq cv tbl tbl p'' p' L'' L' a hn'' hn2 hheap.1 hheap.2 x⟩
  · obtain ⟨w'', p'', L'', hs, hu, hp'', hL'', hheap, hn''⟩ :=
      destroy_step_spec cv w' hinv src self pid tbl nv p' L' a h2 h1 hne hp1 hp' hL' hn1
    exact ⟨w'', p'', L'', hs, hu, hp'', hL'', hn'',
      fun x => access_value_eq cv nv nv p'' p' L'' L' a hn'' hn1 hheap.1 hheap.2 x⟩


/-! ### Lemmas on the builder and on accumulated output -/

theorem builderKey_ne_nil (key : Key) : builderKey key ≠ LuaValue.nil := by
  cases key <;> simp [builderKey]

theorem pushBuilderKey_eq (L : lua_State) (key : Key) :
    pushBuilderKey L key = { L with stack := builderKey key :: L.stack } := by
  cases key <;> rfl

theorem insert_openTables (s : BuilderSpec) (k v : LuaValue) :
    (s.insert k v).openTables = s.openTables := by
  unfold BuilderSpec.insert
  split <;> rfl

/-- `PushParam` with a key and a value on top of the stack of the builder inserts the
pair as the specification says and pops it. -/
theorem PushParam_refines (p : LuaParser) (M : lua_State) (s : BuilderSpec)
    (base : List LuaValue) (k v : LuaValue) (hk : k ≠ LuaValue.nil) (hL : p.L = some M)
    (hh : M.heap = s.heap) (hg : M.globals = s.globals)
    (hs : M.stack = v :: k :: BuilderSpec.stack base s.openTables)
    (hd : p.initDepth = s.openTables.length) :
    p.PushParam = Except.ok
      { p with L := some { M with stack := BuilderSpec.stack base s.openTables,
                                  heap := (s.insert k v).heap,
                                  globals := (s.insert k v).globals } } := by
  unfold LuaParser.PushParam
  cases ho : s.openTables with
  | nil =>
    have h0 : ¬ (0 < p.initDepth) := by rw [hd, ho]; simp
    rw [ho] at hs
    simp only [hL, h0, if_false, bind, Except.bind, lua_rawset_globals, hs, hk, pure, Except.pure,
      BuilderSpec.insert, ho, BuilderSpec.stack, hh, hg]
  | cons e rest =>
    obtain ⟨n, a⟩ := e
    have h0 : 0 < p.initDepth := by rw [hd, ho]; simp
    rw [ho] at hs
    simp only [BuilderSpec.stack] at hs
    simp only [hL, h0, if_true, bind, Except.bind,
      lua_rawset_neg_three M v k a _ hs hk, pure, Except.pure, BuilderSpec.insert, ho,
      BuilderSpec.stack, hh, hg, lua_State.tableAt]

/-- A call of the builder does what the specification says, as long as the parser and
the specification agree on the open tables, the stack, the tables and the globals. -/
theorem call_refines (p : LuaParser) (L : lua_State) (s : BuilderSpec) (base : List LuaValue)
    (op : BuildOp) (hL : p.L = some L) (hh : L.heap = s.heap) (hg : L.globals = s.globals)
    (hs : L.stack = BuilderSpec.stack base s.openTables)
    (hd : p.initDepth = s.openTables.length)
    (hn : ∀ e ∈ s.openTables, e.1 ≠ LuaValue.nil)
    (hend : op.isEnd = true → s.openTables ≠ []) :
    p.call op = Except.ok
      { p with initDepth := ((s.step op).openTables.length : Int),
               L := some { L with stack := BuilderSpec.stack base (s.step op).openTables,
                                  heap := (s.step op).heap,
                                  globals := (s.step op).globals } } ∧
    (∀ e ∈ (s.step op).openTables, e.1 ≠ LuaValue.nil) ∧
    (s.step op).openTables.length + (if op.isEnd = true then 1 else 0) =
      s.openTables.length + (if op.isNew = true then 1 else 0) := by
  rcases p with ⟨f1, f2, f3, f4, d, f6, f7, pL, f9, f10, f11⟩
  rcases L with ⟨st, hp, rg, gl, rs, mt⟩
  simp only at hL hd hh hg hs
  subst hL hd hh hg hs
  cases op with
  | newTable name =>
    refine ⟨?_, ?_, ?_⟩
    · cases name <;>
        simp [LuaParser.call, LuaParser.NewTable, pure, Except.pure, BuilderSpec.step,
          lua_newtable, lua_pushstring, lua_pushnumber, lua_push, BuilderSpec.stack, builderKey]
    · intro e he
      simp only [BuilderSpec.step, List.mem_cons] at he
      rcases he with rfl | he
      · exact builderKey_ne_nil name
      · exact hn e he
    · simp [BuilderSpec.step, BuildOp.isEnd, BuildOp.isNew]
  | endTable =>
    cases ho : s.openTables with
    | nil => exact absurd ho (hend rfl)
    | cons e rest =>
      obtain ⟨n, a⟩ := e
      have hnn : n ≠ LuaValue.nil := hn (n, a) (by rw [ho]; exact List.mem_cons_self _ _)
      have hpp := PushParam_refines
        (LuaParser.mk f1 f2 f3 f4 ((s.openTables.length : Int) - 1) f6 f7
          (some (lua_State.mk (BuilderSpec.stack base s.openTables) s.heap rg s.globals rs mt))
          f9 f10 f11)
        (lua_State.mk (BuilderSpec.stack base s.openTables) s.heap rg s.globals rs mt)
        { s with openTables := rest } base n (LuaValue.table a) hnn rfl rfl rfl
        (by rw [ho]; rfl) (by simp [ho])
      refine ⟨?_, ?_, ?_⟩
      · have h0 : (0 : Int) < (s.openTables.length : Int) := by rw [ho]; simp
        rw [ho] at hpp h0
        simp only [LuaParser.call, LuaParser.EndTable, h0, if_true]
        rw [hpp]
        simp [BuilderSpec.step, ho, insert_openTables]
      · intro e he
        simp only [BuilderSpec.step, ho, insert_openTables] at he
        exact hn e (by rw [ho]; exact List.mem_cons_of_mem _ he)
      · simp [BuilderSpec.step, ho, insert_openTables, BuildOp.isEnd, BuildOp.isNew]
  | addFunc key func =>
    cases func with
    | none =>
      exact ⟨by simp [LuaParser.call, LuaParser.AddFunc, pure, Except.pure, BuilderSpec.step], hn,
        by simp [BuilderSpec.step, BuildOp.isEnd, BuildOp.isNew]⟩
    | some f =>
      have hpp := PushParam_refines
        (LuaParser.mk f1 f2 f3 f4 (s.openTables.length : Int) f6 f7
          (some (lua_State.mk (LuaValue.func f :: builderKey key ::
            BuilderSpec.stack base s.openTables) s.heap rg s.globals rs mt)) f9 f10 f11)
        (lua_State.mk (LuaValue.func f :: builderKey key ::
            BuilderSpec.stack base s.openTables) s.heap rg s.globals rs mt)
        s base (builderKey key) (LuaValue.func f)
        (builderKey_ne_nil key) rfl rfl rfl rfl rfl
      refine ⟨?_, ?_, ?_⟩
      · simp only [LuaParser.call, LuaParser.AddFunc, pushBuilderKey_eq, lua_pushcfunction,
          lua_push, hpp, BuilderSpec.step, insert_openTables]
      · intro e he
        simp only [BuilderSpec.step, insert_openTables] at he
        exact hn e he
      · simp [BuilderSpec.step, insert_openTables, BuildOp.isEnd, BuildOp.isNew]
  | addParam key value =>
    have hpp := PushParam_refines
      (LuaParser.mk f1 f2 f3 f4 (s.openTables.length : Int) f6 f7
        (some (lua_State.mk (value.value :: builderKey key ::
          BuilderSpec.stack base s.openTables) s.heap rg s.globals rs mt)) f9 f10 f11)
      (lua_State.mk (value.value :: builderKey key ::
          BuilderSpec.stack base s.openTables) s.heap rg s.globals rs mt)
      s base (builderKey key) value.value
      (builderKey_ne_nil key) rfl rfl rfl rfl rfl
    refine ⟨?_, ?_, ?_⟩
    · simp only [LuaParser.call, LuaParser.AddParam, pushBuilderKey_eq, lua_push, hpp,
        BuilderSpec.step, insert_openTables]
    · intro e he
      simp only [BuilderSpec.step, insert_openTables] at he
      exact hn e he
    · simp [BuilderSpec.step, insert_openTables, BuildOp.isEnd, BuildOp.isNew]

theorem calls_refines (ops : List BuildOp) :
    ∀ (p : LuaParser) (L : lua_State) (s : BuilderSpec) (base : List LuaValue),
      p.L = some L → L.heap = s.heap → L.globals = s.globals →
      L.stack = BuilderSpec.stack base s.openTables →
      p.initDepth = s.openTables.length →
      (∀ e ∈ s.openTables, e.1 ≠ LuaValue.nil) →
      (∀ pre, pre <+: ops →
        pre.countP BuildOp.isEnd ≤ s.openTables.length + pre.countP BuildOp.isNew) →
      p.calls ops = Except.ok
        { p with initDepth := ((s.run ops).openTables.length : Int),
                 L := some { L with stack := BuilderSpec.stack base (s.run ops).openTables,
                                    heap := (s.run ops).heap,
                                    globals := (s.run ops).globals } } ∧
      (s.run ops).openTables.length + ops.countP BuildOp.isEnd =
        s.openTables.length + ops.countP BuildOp.isNew := by
  induction ops with
  | nil =>
    intro p L s base hL hh hg hs hd _ _
    refine ⟨?_, by simp [BuilderSpec.run]⟩
    rcases p with ⟨f1, f2, f3, f4, d, f6, f7, pL, f9, f10, f11⟩
    rcases L with ⟨st, hp, rg, gl, rs, mt⟩
    simp only at hL hd hh hg hs
    subst hL hd hh hg hs
    simp [LuaParser.calls, BuilderSpec.run, pure, Except.pure]
  | cons op rest ih =>
    intro p L s base hL hh hg hs hd hn hpre
    have hop := hpre [op] (by simp)
    have hend : op.isEnd = true → s.openTables ≠ [] := by
      intro he hnil
      have hnew : op.isNew = false := by cases op <;> simp_all [BuildOp.isEnd, BuildOp.isNew]
      simp [List.countP_cons, he, hnew, hnil] at hop
    obtain ⟨hcall, hn1, hlen⟩ := call_refines p L s base op hL hh hg hs hd hn hend
    have hpre1 : ∀ pre, pre <+: rest →
        pre.countP BuildOp.isEnd ≤ (s.step op).openTables.length + pre.countP BuildOp.isNew := by
      intro pre hp
      have := hpre (op :: pre) (by simpa using hp)
      simp only [List.countP_cons] at this
      omega
    obtain ⟨L1, hL1⟩ : ∃ L1 : lua_State, L1 =
        { L with stack := BuilderSpec.stack base (s.step op).openTables,
                 heap := (s.step op).heap,
                 globals := (s.step op).globals } := ⟨_, rfl⟩
    obtain ⟨p1, hp1⟩ : ∃ p1 : LuaParser, p1 =
        { p with initDepth := ((s.step op).openTables.length : Int), L := some L1 } := ⟨_, rfl⟩
    have hcall' : p.call op = Except.ok p1 := by rw [hcall, hp1, hL1]
    obtain ⟨hrest, hlen'⟩ := ih p1 L1 (s.step op) base (by rw [hp1]) (by rw [hL1])
      (by rw [hL1]) (by rw [hL1]) (by rw [hp1]) hn1 hpre1
    refine ⟨?_, ?_⟩
    · simp only [LuaParser.calls, hcall', bind, Except.bind]
      rw [hrest, hp1, hL1]
      rfl
    · simp only [List.countP_cons]
      have : (s.run (op :: rest)) = (s.step op).run rest := rfl
      rw [this]
      omega

theorem calls_null (ops : List BuildOp) (q : LuaParser) (h : q.L = none) :
    q.calls ops = Except.ok q := by
  induction ops with
  | nil => rfl
  | cons op rest ih =>
    have : q.call op = Except.ok q := by
      cases op with
      | newTable name => simp [LuaParser.call, LuaParser.NewTable, h, pure, Except.pure]
      | endTable => simp [LuaParser.call, LuaParser.EndTable, h, pure, Except.pure]
      | addFunc key func => simp [LuaParser.call, LuaParser.AddFunc, h, pure, Except.pure]
      | addParam key value => simp [LuaParser.call, LuaParser.AddParam, h, pure, Except.pure]
    simp only [LuaParser.calls, this, bind, Except.bind, ih]

theorem prefix_of_take {α : Type} (ops : List α) (P : List α → Prop)
    (h : ∀ n, n < ops.length + 1 → P (ops.take n)) : ∀ pre, pre <+: ops → P pre := by
  intro pre hp
  have hlen := hp.length_le
  rw [List.prefix_iff_eq_take] at hp
  rw [hp]
  exact h _ (by omega)

/-! ## Properties of the specification -/

/-- C1 (counterexample): a script that returns
`setmetatable({}, { __index = { x = 5, sub = {} } })` leaves a root table from which
the key `x` is absent, yet `GetInt("x", 0)` returns 5 and not the default and
`KeyExists("x")` is true: the lookup is `lua_gettable`, which goes on to the
`__index` table. With `setmetatable({}, { __index = 5 })` the lookup of the absent
key indexes a number, which raises a Lua error outside a protected call. -/
theorem lookupMiss_counterexample :
    loadedWithMetatable inheritingTables =
      some (exampleRoot, metatableParser inheritingTables) ∧
    rawget ((metatableVM inheritingTables).tableAt 5) (keyValue (Key.str "x")) =
      LuaValue.nil ∧
    returned (exampleRoot.GetInt decimalConv (metatableParser inheritingTables) (Key.str "x") 0)
      = Except.ok 5 ∧
    returned (exampleRoot.KeyExists (metatableParser inheritingTables) (Key.str "x")) =
      Except.ok true ∧
    loadedWithMetatable brokenIndexTables =
      some (exampleRoot, metatableParser brokenIndexTables) ∧
    rawget ((metatableVM brokenIndexTables).tableAt 5) (keyValue (Key.str "x")) =
      LuaValue.nil ∧
    exampleRoot.GetInt decimalConv (metatableParser brokenIndexTables) (Key.str "x") 0 =
      Except.error Fault.luaError :=
  ⟨by rfl, by decide, by rfl, by rfl, by rfl, by decide, by rfl⟩

/-- C1 (as amended): a lookup that finds nothing is never fatal. On an invalid view,
and on a valid view whose lookup of the key ends without a value, in particular when
the table holds no value (or nil) under the key and has no `__index` metamethod, for
an integer or string key and any default, `GetInt`, `GetBool`, `GetFloat`,
`GetFloat3` and `GetString` return exactly the default and `KeyExists` returns false;
none of them raises. -/
theorem lookupMiss_returns_default (cv : NumConv) (t : LuaTable) (p : LuaParser)
    (L : lua_State) (a : Nat) (key : Key)
    (dI : Int) (dB : Bool) (dF : CFloat) (dF3 : float3) (dS : String)
    (h : t.isValid = false ∨
      (t.Names p L a ∧
        (L.lookup a (keyValue key) = Except.ok LuaValue.nil ∨
          (rawget (L.tableAt a) (keyValue key) = LuaValue.nil ∧
            L.indexEvent a = LuaValue.nil)))) :
    returned (t.GetInt cv p key dI) = Except.ok dI ∧
    returned (t.GetBool cv p key dB) = Except.ok dB ∧
    returned (t.GetFloat cv p key dF) = Except.ok dF ∧
    returned (t.GetFloat3 cv p key dF3) = Except.ok dF3 ∧
    returned (t.GetString cv p key dS) = Except.ok dS ∧
    returned (t.KeyExists p key) = Except.ok false := by
  have h' : t.isValid = false ∨
      (t.Names p L a ∧ L.lookup a (keyValue key) = Except.ok LuaValue.nil) := by
    rcases h with h | ⟨hn, h | ⟨hr, hi⟩⟩
    · exact Or.inl h
    · exact Or.inr ⟨hn, h⟩
    · exact Or.inr ⟨hn, by rw [lookup_plain L a _ hi, hr]⟩
  obtain ⟨p', hp⟩ := PushValue_miss t p L a key h'
  simp [returned, LuaTable.GetInt, LuaTable.GetBool, LuaTable.GetFloat, LuaTable.GetFloat3,
    LuaTable.GetString, LuaTable.KeyExists, hp, bind, Except.bind, pure, Except.pure, Except.map]

theorem lookupMiss_returns_default_witness :
    (exampleRoot.isValid = false ∨
      (exampleRoot.Names (exampleParser specTables) (exampleVM specTables) 5 ∧
        ((exampleVM specTables).lookup 5 (keyValue (Key.str "Missing")) =
            Except.ok LuaValue.nil ∨
          (rawget ((exampleVM specTables).tableAt 5) (keyValue (Key.str "Missing")) =
              LuaValue.nil ∧
            (exampleVM specTables).indexEvent 5 = LuaValue.nil)))) ∧
    (returned (exampleRoot.GetInt decimalConv (exampleParser specTables) (Key.str "Missing") 7)
        = Except.ok 7 ∧
      returned (exampleRoot.GetBool decimalConv (exampleParser specTables) (Key.str "Missing") true)
        = Except.ok true ∧
      returned (exampleRoot.GetFloat decimalConv (exampleParser specTables) (Key.str "Missing") 2)
        = Except.ok 2 ∧
      returned (exampleRoot.GetFloat3 decimalConv (exampleParser specTables) (Key.str "Missing")
        (1, 2, 3)) = Except.ok (1, 2, 3) ∧
      returned (exampleRoot.GetString decimalConv (exampleParser specTables) (Key.str "Missing")
        "none") = Except.ok "none" ∧
      returned (exampleRoot.KeyExists (exampleParser specTables) (Key.str "Missing"))
        = Except.ok false) :=
  ⟨Or.inr ⟨exampleRoot_names specTables, Or.inr ⟨by decide, by decide⟩⟩,
   lookupMiss_returns_default decimalConv exampleRoot (exampleParser specTables)
     (exampleVM specTables) 5 (Key.str "Missing") 7 true 2 (1, 2, 3) "none"
     (Or.inr ⟨exampleRoot_names specTables, Or.inr ⟨by decide, by decide⟩⟩)⟩

/-- C2 (counterexample): after loading `{ k = "5", n = 7, flag = "2" }`, the string
`"5"` stored under `k` is not a native number, yet `GetInt("k", 0)` and
`GetFloat("k", 0)` return 5 and not the default 0; the number 7 stored under `n` is
not a native string, yet `GetString("n", "")` returns `"7"` and not the default. -/
theorem nativeKind_counterexample :
    loaded coercionTables = some (exampleRoot, exampleParser coercionTables) ∧
    rawget ((exampleVM coercionTables).tableAt 5) (keyValue (Key.str "k")) =
      LuaValue.string "5" ∧
    returned (exampleRoot.GetInt decimalConv (exampleParser coercionTables) (Key.str "k") 0) =
      Except.ok 5 ∧
    returned (exampleRoot.GetFloat decimalConv (exampleParser coercionTables) (Key.str "k") 0) =
      Except.ok 5 ∧
    rawget ((exampleVM coercionTables).tableAt 5) (keyValue (Key.str "n")) =
      LuaValue.number 7 ∧
    returned (exampleRoot.GetString decimalConv (exampleParser coercionTables) (Key.str "n") "") =
      Except.ok "7" :=
  ⟨by rfl, by decide, by rfl, by rfl, by decide, by rfl⟩

/-- C2 (as amended): the numeric and string getters accept what the Lua library
coerces. On a valid view, for the value the lookup of the key finds (the stored value
when there is one), `GetInt` and `GetFloat` return the default whenever that value is
neither a number nor a string that converts to a number, and `GetString` returns the
default whenever it is neither a string nor a number; a number or a string that
converts to the number `n` is read as `n` (cast to `float`, or to `int` when in
range), and a string or a number with text `s` is returned as `s`, up to its first
NUL character. -/
theorem getters_default_unless_coercible (cv : NumConv) (t : LuaTable) (p : LuaParser)
    (L : lua_State) (a : Nat) (key : Key) (dI : Int) (dF : CFloat) (dS : String)
    (v : LuaValue) (h : t.Names p L a) (hv : L.lookup a (keyValue key) = Except.ok v) :
    (tonumber cv v = none →
      returned (t.GetInt cv p key dI) = Except.ok dI ∧
      returned (t.GetFloat cv p key dF) = Except.ok dF) ∧
    (tostring cv v = none →
      returned (t.GetString cv p key dS) = Except.ok dS) ∧
    (∀ n, tonumber cv v = some n →
      returned (t.GetFloat cv p key dF) = Except.ok (cv.toFloat n) ∧
      (InIntRange (truncate n) → returned (t.GetInt cv p key dI) = Except.ok (truncate n))) ∧
    (∀ s, tostring cv v = some s →
      returned (t.GetString cv p key dS) = Except.ok (cstr s)) ∧
    ((rawget (L.tableAt a) (keyValue key) ≠ LuaValue.nil ∨ L.indexEvent a = LuaValue.nil) →
      v = rawget (L.tableAt a) (keyValue key)) := by
  refine ⟨fun hn => ?_, fun hs => ?_, fun n hn => ⟨?_, fun hr => ?_⟩, fun s hs => ?_,
    fun hraw => ?_⟩
  · simp [returned, GetInt_names cv t p L a h, GetFloat_names cv t p L a h, hv, Except.bind, hn,
      Except.map]
  · simp [returned, GetString_names cv t p L a h, hv, Except.bind, hs, Except.map]
  · simp [returned, GetFloat_names cv t p L a h, hv, Except.bind, hn, Except.map]
  · simp [returned, GetInt_names cv t p L a h, hv, Except.bind, hn, double2int_of_range n hr,
      Except.map]
  · simp [returned, GetString_names cv t p L a h, hv, Except.bind, hs, Except.map]
  · rcases hraw with hr | hi
    · rw [lookup_hit L a _ hr] at hv; exact (Except.ok.inj hv).symm
    · rw [lookup_plain L a _ hi] at hv; exact (Except.ok.inj hv).symm

theorem getters_default_unless_coercible_witness :
    exampleRoot.Names (exampleParser specTables) (exampleVM specTables) 5 ∧
    (exampleVM specTables).lookup 5 (keyValue (Key.str "flag")) =
      Except.ok (LuaValue.string "true") ∧
    (exampleVM specTables).lookup 5 (keyValue (Key.str "nested")) =
      Except.ok (LuaValue.table 6) ∧
    returned (exampleRoot.GetInt decimalConv (exampleParser specTables) (Key.str "flag") 3) =
      Except.ok 3 ∧
    returned (exampleRoot.GetFloat decimalConv (exampleParser specTables) (Key.str "flag") 4) =
      Except.ok 4 ∧
    returned (exampleRoot.GetString decimalConv (exampleParser specTables) (Key.str "nested")
      "dflt") = Except.ok "dflt" :=
  ⟨exampleRoot_names specTables, by rfl, by rfl,
   ((getters_default_unless_coercible decimalConv exampleRoot (exampleParser specTables)
      (exampleVM specTables) 5 (Key.str "flag") 3 4 "" (LuaValue.string "true")
      (exampleRoot_names specTables) (by rfl)).1 (by decide)).1,
   ((getters_default_unless_coercible decimalConv exampleRoot (exampleParser specTables)
      (exampleVM specTables) 5 (Key.str "flag") 3 4 "" (LuaValue.string "true")
      (exampleRoot_names specTables) (by rfl)).1 (by decide)).2,
   (getters_default_unless_coercible decimalConv exampleRoot (exampleParser specTables)
      (exampleVM specTables) 5 (Key.str "nested") 0 0 "dflt" (LuaValue.table 6)
      (exampleRoot_names specTables) (by rfl)).2.1 (by decide)⟩

/-- C3 (counterexample): after loading `{ k = "5", n = 7, flag = "2" }`, the value
under `flag` is the string `"2"`, which is none of `"true"`, `"1"`, `"false"`, `"0"`,
yet `GetBool("flag", false)` returns true and not the default false: the string
converts to the number 2, and a number that is not zero reads as true. -/
theorem getBool_counterexample :
    loaded coercionTables = some (exampleRoot, exampleParser coercionTables) ∧
    rawget ((exampleVM coercionTables).tableAt 5) (keyValue (Key.str "flag")) =
      LuaValue.string "2" ∧
    returned (exampleRoot.GetBool decimalConv (exampleParser coercionTables) (Key.str "flag")
      false) = Except.ok true :=
  ⟨by rfl, by decide, by rfl⟩

/-- C3 (as amended): on a valid view, for the value the lookup of the key finds (the
stored value when there is one), `GetBool(key, d)` returns the value itself when it
is a boolean; `(float)n != 0` when it is a number `n` or a string that converts to
the number `n` (so `"1"` reads as true, `"0"` as false and `"2"` as true); for a
string that does not convert to a number, taken up to its first NUL character, true
when it equals `"true"` (or `"1"`) ignoring case, false when it equals `"false"` (or
`"0"`) ignoring case, and `d` otherwise; and `d` for every value of another kind
(nil, table, function, userdata, thread). -/
theorem getBool_cases (cv : NumConv) (t : LuaTable) (p : LuaParser) (L : lua_State) (a : Nat)
    (key : Key) (d : Bool) (v : LuaValue) (h : t.Names p L a)
    (hv : L.lookup a (keyValue key) = Except.ok v) :
    (∀ b, v = LuaValue.boolean b →
      returned (t.GetBool cv p key d) = Except.ok b) ∧
    (∀ n, tonumber cv v = some n →
      returned (t.GetBool cv p key d) = Except.ok (decide (cv.toFloat n ≠ 0))) ∧
    (∀ s, v = LuaValue.string s → cv.str2d s = none →
      ((StringToLower (cstr s) = "true" ∨ StringToLower (cstr s) = "1") →
        returned (t.GetBool cv p key d) = Except.ok true) ∧
      ((StringToLower (cstr s) = "false" ∨ StringToLower (cstr s) = "0") →
        returned (t.GetBool cv p key d) = Except.ok false) ∧
      (StringToLower (cstr s) ≠ "true" → StringToLower (cstr s) ≠ "1" →
        StringToLower (cstr s) ≠ "false" → StringToLower (cstr s) ≠ "0" →
        returned (t.GetBool cv p key d) = Except.ok d)) ∧
    ((∀ b, v ≠ LuaValue.boolean b) → (∀ n, v ≠ LuaValue.number n) →
      (∀ s, v ≠ LuaValue.string s) →
      returned (t.GetBool cv p key d) = Except.ok d) ∧
    ((rawget (L.tableAt a) (keyValue key) ≠ LuaValue.nil ∨ L.indexEvent a = LuaValue.nil) →
      v = rawget (L.tableAt a) (keyValue key)) := by
  rw [GetBool_names cv t p L a h key d, hv]
  simp only [Except.bind]
  refine ⟨fun b hb => ?_, fun n hn => ?_, fun s hs hn => ⟨fun ht => ?_, fun hf => ?_,
    fun h1 h2 h3 h4 => ?_⟩, fun hb hn hs => ?_, fun hraw => ?_⟩
  · subst hb; rfl
  · cases v <;> simp [tonumber] at hn
    · subst hn; rfl
    · simp [returned, Except.map, hn]
  · subst hs
    have : StringToLower (cstr s) = "1" ∨ StringToLower (cstr s) = "true" := ht.symm
    simp [returned, Except.map, hn, this]
  · subst hs
    have h1 : ¬ (StringToLower (cstr s) = "1" ∨ StringToLower (cstr s) = "true") := by
      rintro (e | e) <;> rcases hf with f | f <;> rw [e] at f <;> exact absurd f (by decide)
    have h2 : StringToLower (cstr s) = "0" ∨ StringToLower (cstr s) = "false" := hf.symm
    simp [returned, Except.map, hn, h1, h2]
  · subst hs
    simp [returned, Except.map, hn, h1, h2, h3, h4]
  · cases v with
    | boolean b => exact absurd rfl (hb b)
    | number n => exact absurd rfl (hn n)
    | string s => exact absurd rfl (hs s)
    | _ => rfl
  · rcases hraw with hr | hi
    · rw [lookup_hit L a _ hr] at hv; exact (Except.ok.inj hv).symm
    · rw [lookup_plain L a _ hi] at hv; exact (Except.ok.inj hv).symm

theorem getBool_cases_witness :
    exampleRoot.Names (exampleParser specTables) (exampleVM specTables) 5 ∧
    (exampleVM specTables).lookup 5 (keyValue (Key.str "flag")) =
      Except.ok (LuaValue.string "true") ∧
    returned (exampleRoot.GetBool decimalConv (exampleParser specTables) (Key.str "flag") false)
      = Except.ok true ∧
    returned (exampleRoot.GetBool decimalConv (exampleParser specTables) (Key.str "x") false)
      = Except.ok true ∧
    returned (exampleRoot.GetBool decimalConv (exampleParser specTables) (Key.str "name") true)
      = Except.ok true ∧
    returned (exampleRoot.GetBool decimalConv (exampleParser specTables) (Key.str "nested") true)
      = Except.ok true :=
  ⟨exampleRoot_names specTables, by rfl,
   ((getBool_cases decimalConv exampleRoot (exampleParser specTables) (exampleVM specTables) 5
      (Key.str "flag") false (LuaValue.string "true") (exampleRoot_names specTables)
      (by rfl)).2.2.1 "true" rfl (by decide)).1 (Or.inl (by decide)),
   (getBool_cases decimalConv exampleRoot (exampleParser specTables) (exampleVM specTables) 5
      (Key.str "x") false (LuaValue.number 5) (exampleRoot_names specTables)
      (by rfl)).2.1 5 (by decide),
   ((getBool_cases decimalConv exampleRoot (exampleParser specTables) (exampleVM specTables) 5
      (Key.str "name") true (LuaValue.string "unit") (exampleRoot_names specTables)
      (by rfl)).2.2.1 "unit" rfl (by decide)).2.2 (by decide) (by decide) (by decide)
      (by decide),
   (getBool_cases decimalConv exampleRoot (exampleParser specTables) (exampleVM specTables) 5
      (Key.str "nested") true (LuaValue.table 6) (exampleRoot_names specTables)
      (by rfl)).2.2.2.1
      (fun b e => LuaValue.noConfusion e) (fun n e => LuaValue.noConfusion e)
      (fun s e => LuaValue.noConfusion e)⟩

/-- C4 (counterexample): after loading `{ name = "x\0y", ... }`, the value under
`name` is the string of the three characters `x`, NUL, `y`, yet
`GetString("name", "")` returns `"x"`: the `std::string` is built from the
`const char*` of `lua_tostring` and ends before the first NUL character. -/
theorem getString_counterexample :
    loaded nulTables = some (exampleRoot, exampleParser nulTables) ∧
    rawget ((exampleVM nulTables).tableAt 5) (keyValue (Key.str "name")) =
      LuaValue.string "x\x00y" ∧
    returned (exampleRoot.GetString decimalConv (exampleParser nulTables) (Key.str "name") "") =
      Except.ok "x" :=
  ⟨by rfl, by decide, by rfl⟩

/-- C4 (as amended): on a valid view, a getter whose key holds a value of the
requested kind returns that value whatever the default is: `GetInt(k, d) = n` when the
value at `k` is the integer-valued number `n` within the range of `int`;
`GetString(k, d)` is the text of `s` up to its first NUL character when the value is
the string `s`, so `s` itself when it holds no NUL character; and
`SubTable(k).GetKeys(ints)` returns true and lists the array indices `1, ..., m` when
the value is a nested array table with these indices. -/
theorem getters_return_stored_value (cv : NumConv) (t : LuaTable) (p : LuaParser)
    (L : lua_State) (a : Nat) (key : Key) (h : t.Names p L a) :
    (∀ n d : Int, rawget (L.tableAt a) (keyValue key) = LuaValue.number (n : lua_Number) →
      InIntRange n → returned (t.GetInt cv p key d) = Except.ok n) ∧
    (∀ s d : String, rawget (L.tableAt a) (keyValue key) = LuaValue.string s →
      returned (t.GetString cv p key d) = Except.ok (cstr s) ∧
      (NulFree s → returned (t.GetString cv p key d) = Except.ok s)) ∧
    (∀ b self m : Nat, rawget (L.tableAt a) (keyValue key) = LuaValue.table b →
      RegistryOK cv L → ((L.tableAt b).map Prod.fst).Perm (arrayIndices m) →
      (m : Int) ≤ 2147483647 →
      ∃ sub p', t.SubTable cv p key self = Except.ok (sub, t, p') ∧
        output (sub.GetKeysInt cv p' []) = Except.ok (true, intIndices m)) := by
  have hit : ∀ w, rawget (L.tableAt a) (keyValue key) = w → w ≠ LuaValue.nil →
      L.lookup a (keyValue key) = Except.ok w := by
    intro w hw hne
    rw [lookup_hit L a _ (by rw [hw]; exact hne), hw]
  refine ⟨fun n d hv hr => ?_, fun s d hv => ?_, fun b self m hv hok hperm hm => ?_⟩
  · have hr' : InIntRange (truncate ((n : Int) : lua_Number)) := by
      rw [truncate_intCast]; exact hr
    simp [returned, GetInt_names cv t p L a h, hit _ hv (by simp), Except.bind, tonumber,
      double2int_of_range _ hr', truncate_intCast, Except.map]
  · have hg : returned (t.GetString cv p key d) = Except.ok (cstr s) := by
      simp [returned, GetString_names cv t p L a h, hit _ hv (by simp), Except.bind, tostring,
        Except.map]
    exact ⟨hg, fun hs => by rw [hg, cstr_of_nulFree s hs]⟩
  · obtain ⟨sub, p', L', hsub, hnames, -, hheap, -, -, -⟩ :=
      SubTable_table cv t p L a h key self b (hit _ hv (by simp)) hok
    have htab : L'.tableAt b = L.tableAt b := by simp [lua_State.tableAt, hheap]
    have hrange : ∀ i ∈ (L'.tableAt b).filterMap intKey, InIntRange i := by
      intro i hi
      rw [htab] at hi
      have := mem_intIndices m i ((intKeys_of_array _ m hperm).subset hi)
      constructor <;> omega
    refine ⟨sub, p', hsub, ?_⟩
    rw [GetKeysInt_names cv sub p' L' b hnames hrange, htab, List.nil_append,
      sortInts_of_array _ m hperm]
    rfl

theorem getters_return_stored_value_witness :
    exampleRoot.Names (exampleParser specTables) (exampleVM specTables) 5 ∧
    returned (exampleRoot.GetInt decimalConv (exampleParser specTables) (Key.str "x") 0) =
      Except.ok 5 ∧
    returned (exampleRoot.GetString decimalConv (exampleParser specTables) (Key.str "name") "") =
      Except.ok "unit" ∧
    (∃ sub p', exampleRoot.SubTable decimalConv (exampleParser specTables) (Key.str "nested") 2 =
        Except.ok (sub, exampleRoot, p') ∧
      output (sub.GetKeysInt decimalConv p' []) = Except.ok (true, [1, 2, 3])) ∧
    returned (exampleRoot.GetBool decimalConv (exampleParser specTables) (Key.str "flag") false) =
      Except.ok true :=
  ⟨exampleRoot_names specTables,
   (getters_return_stored_value decimalConv exampleRoot (exampleParser specTables)
      (exampleVM specTables) 5 (Key.str "x") (exampleRoot_names specTables)).1 5 0
      (by decide) ⟨by decide, by decide⟩,
   ((getters_return_stored_value decimalConv exampleRoot (exampleParser specTables)
      (exampleVM specTables) 5 (Key.str "name") (exampleRoot_names specTables)).2.1 "unit" ""
      (by decide)).2 (by decide),
   (getters_return_stored_value decimalConv exampleRoot (exampleParser specTables)
      (exampleVM specTables) 5 (Key.str "nested") (exampleRoot_names specTables)).2.2 6 2 3
      (by decide) (exampleVM_registryOK decimalConv specTables) (List.Perm.refl _) (by decide),
   by rfl⟩
/-- C5 (counterexample): a script that returns
`setmetatable({}, { __index = { x = 5, sub = {} } })` leaves a root table from which
the key `sub` is absent, yet `SubTable("sub")` returns a valid view: the lookup is
`lua_gettable`, which finds the table under `sub` in the `__index` table. -/
theorem subTable_counterexample :
    loadedWithMetatable inheritingTables =
      some (exampleRoot, metatableParser inheritingTables) ∧
    rawget ((metatableVM inheritingTables).tableAt 5) (keyValue (Key.str "sub")) =
      LuaValue.nil ∧
    (exampleRoot.SubTable decimalConv (metatableParser inheritingTables) (Key.str "sub") 2).map
      (fun r => (r.1.isValid, r.1.refnum)) = Except.ok (true, 3) ∧
    rawget ((metatableVM inheritingTables).tableAt 7) (keyValue (Key.str "sub")) =
      LuaValue.table 8 :=
  ⟨by rfl, by decide, by rfl, by decide⟩

/-- C5 (as amended): invalidity is contagious downward. For a view `t` and an integer
or string key: if `t` is invalid, or the lookup of the key finds a value that is not
a table (nothing, when the key is absent from a table without `__index`
metamethod), `SubTable` returns an invalid view; on an invalid view every typed
accessor returns its default, `KeyExists`, `GetKeys` and `GetMap` return false
(leaving the output as it was) and `SubTable` again returns an invalid view, all
without touching the parser; and when `t` is valid and the lookup finds a table (the
table stored under the key, when there is one), `SubTable` returns a valid view of
that table, the same table as before. -/
theorem subTable_validity (cv : NumConv) (t : LuaTable) (p : LuaParser) (L : lua_State)
    (a : Nat) (key : Key) (self : Nat) :
    ((t.isValid = false ∨
        (t.Names p L a ∧ ∃ v, L.lookup a (keyValue key) = Except.ok v ∧ v.isTable = false)) →
      ∃ sub p', t.SubTable cv p key self = Except.ok (sub, t, p') ∧ sub.isValid = false) ∧
    (t.isValid = false →
      (∀ (k : Key) (dI : Int) (dB : Bool) (dF : CFloat) (dF3 : float3) (dS : String),
        t.GetInt cv p k dI = Except.ok (dI, t, p) ∧
        t.GetBool cv p k dB = Except.ok (dB, t, p) ∧
        t.GetFloat cv p k dF = Except.ok (dF, t, p) ∧
        t.GetFloat3 cv p k dF3 = Except.ok (dF3, t, p) ∧
        t.GetString cv p k dS = Except.ok (dS, t, p) ∧
        t.KeyExists p k = Except.ok (false, t, p)) ∧
      (∀ data, t.GetKeysInt cv p data = Except.ok (false, data, t, p)) ∧
      (∀ data, t.GetKeysString cv p data = Except.ok (false, data, t, p)) ∧
      (∀ data, t.GetMapIntFloat cv p data = Except.ok (false, data, t, p)) ∧
      (∀ data, t.GetMapIntString cv p data = Except.ok (false, data, t, p)) ∧
      (∀ data, t.GetMapStringFloat cv p data = Except.ok (false, data, t, p)) ∧
      (∀ data, t.GetMapStringString cv p data = Except.ok (false, data, t, p)) ∧
      (∀ (k : Key) (s : Nat), ∃ sub, t.SubTable cv p k s = Except.ok (sub, t, p) ∧
        sub.isValid = false)) ∧
    (∀ b, t.Names p L a → L.lookup a (keyValue key) = Except.ok (LuaValue.table b) →
      RegistryOK cv L →
      ∃ sub p' L', t.SubTable cv p key self = Except.ok (sub, t, p') ∧
        sub.Names p' L' b ∧ L'.tableAt b = L.tableAt b) ∧
    ((rawget (L.tableAt a) (keyValue key) ≠ LuaValue.nil ∨ L.indexEvent a = LuaValue.nil) →
      L.lookup a (keyValue key) = Except.ok (rawget (L.tableAt a) (keyValue key))) := by
  refine ⟨fun h => ?_, fun h => ⟨fun k dI dB dF dF3 dS => getters_invalid cv t p k dI dB dF dF3 dS h,
    fun data => GetKeysInt_invalid cv t p data h, fun data => GetKeysString_invalid cv t p data h,
    fun data => GetMapIntFloat_invalid cv t p data h,
    fun data => GetMapIntString_invalid cv t p data h,
    fun data => GetMapStringFloat_invalid cv t p data h,
    fun data => GetMapStringString_invalid cv t p data h,
    fun k s => ⟨_, SubTable_invalid cv t p k s h, rfl⟩⟩, fun b hn hv hok => ?_, fun hraw => ?_⟩
  · rcases h with h | ⟨hn, v, hl, hv⟩
    · exact ⟨_, _, SubTable_invalid cv t p key self h, rfl⟩
    · exact ⟨_, _, SubTable_not_table cv t p L a hn key self v hl hv, rfl⟩
  · obtain ⟨sub, p', L', hsub, hnames, -, hheap, -, -, -⟩ :=
      SubTable_table cv t p L a hn key self b hv hok
    exact ⟨sub, p', L', hsub, hnames, by simp [lua_State.tableAt, hheap]⟩
  · rcases hraw with hr | hi
    · exact lookup_hit L a _ hr
    · exact lookup_plain L a _ hi

theorem subTable_validity_witness :
    (∃ sub p', exampleRoot.SubTable decimalConv (exampleParser specTables) (Key.str "name") 2 =
        Except.ok (sub, exampleRoot, p') ∧ sub.isValid = false) ∧
    (∃ sub, LuaTable.new.SubTable decimalConv (exampleParser specTables) (Key.int 1) 3 =
        Except.ok (sub, LuaTable.new, exampleParser specTables) ∧ sub.isValid = false) ∧
    LuaTable.new.GetInt decimalConv (exampleParser specTables) (Key.str "x") 9 =
      Except.ok (9, LuaTable.new, exampleParser specTables) ∧
    (∃ sub p' L', exampleRoot.SubTable decimalConv (exampleParser specTables)
        (Key.str "nested") 2 = Except.ok (sub, exampleRoot, p') ∧
      sub.Names p' L' 6 ∧ L'.tableAt 6 = (exampleVM specTables).tableAt 6) ∧
    (∃ sub p' L', exampleRoot.SubTable decimalConv (metatableParser inheritingTables)
        (Key.str "sub") 2 = Except.ok (sub, exampleRoot, p') ∧
      sub.Names p' L' 8 ∧ L'.tableAt 8 = (metatableVM inheritingTables).tableAt 8) :=
  ⟨(subTable_validity decimalConv exampleRoot (exampleParser specTables) (exampleVM specTables)
      5 (Key.str "name") 2).1
      (Or.inr ⟨exampleRoot_names specTables, LuaValue.string "unit", by rfl, by decide⟩),
   ((subTable_validity decimalConv LuaTable.new (exampleParser specTables)
      (exampleVM specTables) 5 (Key.str "x") 2).2.1 rfl).2.2.2.2.2.2.2 (Key.int 1) 3,
   (((subTable_validity decimalConv LuaTable.new (exampleParser specTables)
      (exampleVM specTables) 5 (Key.str "x") 2).2.1 rfl).1 (Key.str "x") 9 false 0 (0, 0, 0)
      "").1,
   (subTable_validity decimalConv exampleRoot (exampleParser specTables) (exampleVM specTables)
      5 (Key.str "nested") 2).2.2.1 6 (exampleRoot_names specTables) (by rfl)
      (exampleVM_registryOK decimalConv specTables),
   (subTable_validity decimalConv exampleRoot (metatableParser inheritingTables)
      (metatableVM inheritingTables) 5 (Key.str "sub") 2).2.2.1 8
      (metatableRoot_names inheritingTables) (by rfl)
      (metatableVM_registryOK decimalConv inheritingTables)⟩
/-- C6: string-key lookups do not depend on the case of the key passed. For every
view, parser state and string `k`, each string-keyed operation (`SubTable`,
`KeyExists`, `GetInt`, `GetBool`, `GetFloat`, `GetFloat3`, `GetString`) called with
`k` gives the same result, and leaves the same state, as called with the lower-cased
`k`; in particular `SubTable("Foo")` and `SubTable("foo")` are the same view. -/
theorem stringKey_case_independent (cv : NumConv) (t : LuaTable) (p : LuaParser) (k : String)
    (self : Nat) (dI : Int) (dB : Bool) (dF : CFloat) (dF3 : float3) (dS : String) :
    t.SubTable cv p (Key.str k) self = t.SubTable cv p (Key.str (StringToLower k)) self ∧
    t.KeyExists p (Key.str k) = t.KeyExists p (Key.str (StringToLower k)) ∧
    t.GetInt cv p (Key.str k) dI = t.GetInt cv p (Key.str (StringToLower k)) dI ∧
    t.GetBool cv p (Key.str k) dB = t.GetBool cv p (Key.str (StringToLower k)) dB ∧
    t.GetFloat cv p (Key.str k) dF = t.GetFloat cv p (Key.str (StringToLower k)) dF ∧
    t.GetFloat3 cv p (Key.str k) dF3 = t.GetFloat3 cv p (Key.str (StringToLower k)) dF3 ∧
    t.GetString cv p (Key.str k) dS = t.GetString cv p (Key.str (StringToLower k)) dS ∧
    t.SubTable cv p (Key.str "Foo") self = t.SubTable cv p (Key.str "foo") self := by
  have hc := stringKey_lower cv t p k self dI dB dF dF3 dS
  refine ⟨hc.1, hc.2.1, hc.2.2.1, hc.2.2.2.1, hc.2.2.2.2.1, hc.2.2.2.2.2.1, hc.2.2.2.2.2.2, ?_⟩
  · have h1 : ∀ L, pushKey L (Key.str "Foo") = pushKey L (Key.str "foo") := fun L => by
      simp only [pushKey]; rfl
    have h2 : keyPath (Key.str "Foo") = keyPath (Key.str "foo") := by
      simp only [keyPath]; rfl
    simp only [LuaTable.SubTable, h1, h2]

/-- C7 (counterexample): after loading `{ Foo = 1 }`, the table holds a value under
exactly one case variant, `"Foo"`, and the lookup keys `"Foo"` and `"foo"` equal it
ignoring case, yet `KeyExists("Foo")` and `KeyExists("foo")` are false and
`GetInt("Foo", 0)` returns the default: only the lookup key is lower-cased, the
stored key is compared as it is. -/
theorem caseInsensitive_counterexample :
    loaded mixedCaseTables = some (exampleRoot, exampleParser mixedCaseTables) ∧
    rawget ((exampleVM mixedCaseTables).tableAt 5) (LuaValue.string "Foo") =
      LuaValue.number 1 ∧
    returned (exampleRoot.KeyExists (exampleParser mixedCaseTables) (Key.str "Foo")) =
      Except.ok false ∧
    returned (exampleRoot.KeyExists (exampleParser mixedCaseTables) (Key.str "foo")) =
      Except.ok false ∧
    returned (exampleRoot.GetInt decimalConv (exampleParser mixedCaseTables) (Key.str "Foo") 0) =
      Except.ok 0 :=
  ⟨by rfl, by decide, by rfl, by rfl, by rfl⟩

/-- C7 (as amended): string keys are lower-cased at lookup time and then compared
exactly with the stored keys. On a valid view whose table holds a value that is not
nil under a lower-case string key `k'`, for every lookup key `k` that equals `k'`
ignoring case (its lower-casing is `k'`), `KeyExists(k)` is true, the lookup leaves
the value stored under `k'` on the stack, and the string-keyed getters and `SubTable`
give what they give for `k'`; a key stored with an upper-case letter is the lookup
value of no string key. -/
theorem lowerCaseKey_lookup (cv : NumConv) (t : LuaTable) (p : LuaParser) (L : lua_State)
    (a : Nat) (k k' : String) (self : Nat)
    (dI : Int) (dB : Bool) (dF : CFloat) (dF3 : float3) (dS : String)
    (h : t.Names p L a) (hk : StringToLower k = k')
    (hv : rawget (L.tableAt a) (LuaValue.string k') ≠ LuaValue.nil) :
    returned (t.KeyExists p (Key.str k)) = Except.ok true ∧
    t.PushValue p (Key.str k) = Except.ok (true, t, { p.pushed t L with
      L := some { t.materialize p L with
        stack := rawget (L.tableAt a) (LuaValue.string k') :: (t.materialize p L).stack } }) ∧
    t.SubTable cv p (Key.str k) self = t.SubTable cv p (Key.str k') self ∧
    t.GetInt cv p (Key.str k) dI = t.GetInt cv p (Key.str k') dI ∧
    t.GetBool cv p (Key.str k) dB = t.GetBool cv p (Key.str k') dB ∧
    t.GetFloat cv p (Key.str k) dF = t.GetFloat cv p (Key.str k') dF ∧
    t.GetFloat3 cv p (Key.str k) dF3 = t.GetFloat3 cv p (Key.str k') dF3 ∧
    t.GetString cv p (Key.str k) dS = t.GetString cv p (Key.str k') dS ∧
    (∀ s x : String, StringToLower s ≠ s → keyValue (Key.str x) ≠ LuaValue.string s) := by
  have hkv : keyValue (Key.str k) = LuaValue.string k' := by simp [keyValue, hk]
  have hc := stringKey_lower cv t p k self dI dB dF dF3 dS
  have hc' := stringKey_lower cv t p k' self dI dB dF dF3 dS
  have hk' : StringToLower k' = k' := by rw [← hk, StringToLower_idem]
  rw [hk] at hc
  rw [hk'] at hc'
  refine ⟨?_, ?_, hc.1, hc.2.2.1, hc.2.2.2.1, hc.2.2.2.2.1, hc.2.2.2.2.2.1, hc.2.2.2.2.2.2, ?_⟩
  · simp [returned, KeyExists_names t p L a h, hkv, lookup_hit L a _ hv, Except.bind, hv,
      Except.map]
  · rw [PushValue_raw t p L a h _ (by rw [hkv]; exact lookup_hit L a _ hv), hkv, if_neg hv]
  · intro s x hs e
    simp only [keyValue, LuaValue.string.injEq] at e
    exact hs (by rw [← e, StringToLower_idem])

theorem lowerCaseKey_lookup_witness :
    exampleRoot.Names (exampleParser specTables) (exampleVM specTables) 5 ∧
    StringToLower "NAME" = "name" ∧
    rawget ((exampleVM specTables).tableAt 5) (LuaValue.string "name") ≠ LuaValue.nil ∧
    returned (exampleRoot.KeyExists (exampleParser specTables) (Key.str "NAME")) =
      Except.ok true ∧
    exampleRoot.GetString decimalConv (exampleParser specTables) (Key.str "NAME") "" =
      exampleRoot.GetString decimalConv (exampleParser specTables) (Key.str "name") "" :=
  ⟨exampleRoot_names specTables, by decide, by decide,
   (lowerCaseKey_lookup decimalConv exampleRoot (exampleParser specTables) (exampleVM specTables)
      5 "NAME" "name" 2 0 false 0 (0, 0, 0) "" (exampleRoot_names specTables) (by decide)
      (by decide)).1,
   (lowerCaseKey_lookup decimalConv exampleRoot (exampleParser specTables) (exampleVM specTables)
      5 "NAME" "name" 2 0 false 0 (0, 0, 0) "" (exampleRoot_names specTables) (by decide)
      (by decide)).2.2.2.2.2.2.2.1⟩
/-- C8 (counterexample): after loading `{ [1] = "a", [1.5] = "b" }`, whose number keys
are 1 and 1.5, `GetKeys` on an empty `vector<int>` returns true with the output
`[1, 1]`: the key 1.5 is not in it, and 1 is in it twice. After loading
`{ name = "x\0y", ["a\0b"] = 1, ["a\0c"] = "v\0w" }`, whose string keys are `name`,
`a\0b` and `a\0c`, `GetKeys` on an empty `vector<string>` returns true with the
output `["a", "a", "name"]`: neither of the keys with a NUL character is in it, and
`"a"`, which is no key, is in it twice. -/
theorem getKeys_counterexample :
    loaded fractionalKeyTables = some (exampleRoot, exampleParser fractionalKeyTables) ∧
    ((exampleVM fractionalKeyTables).tableAt 5).map Prod.fst =
      [LuaValue.number 1, LuaValue.number (mkRat 3 2)] ∧
    output (exampleRoot.GetKeysInt decimalConv (exampleParser fractionalKeyTables) []) =
      Except.ok (true, [1, 1]) ∧
    loaded nulTables = some (exampleRoot, exampleParser nulTables) ∧
    ((exampleVM nulTables).tableAt 5).map Prod.fst =
      [LuaValue.string "name", LuaValue.string "a\x00b", LuaValue.string "a\x00c"] ∧
    output (exampleRoot.GetKeysString decimalConv (exampleParser nulTables) []) =
      Except.ok (true, ["a", "a", "name"]) :=
  ⟨by rfl, by rfl, by rfl, by rfl, by rfl, by rfl⟩

/-- C8 (as amended): on a valid view and an initially empty output, `GetKeys` returns
true and the output is sorted ascending (numeric order for the `int` overload,
lexicographic order for the string overload) and independent of the order in which
the table is iterated. The string overload lists, once for each key of raw string
kind, the text of the key up to its first NUL character: exactly the string keys,
each once, when no string key holds a NUL character. The `int` overload, when the
number keys cast to `int` within its range, lists once for each key of raw number
kind its truncation to `int`: exactly the number keys, each once, when these are
whole numbers. No key of the other kind is coerced in. -/
theorem getKeys_sorted_keys (cv : NumConv) (t : LuaTable) (p : LuaParser) (L : lua_State)
    (a : Nat) (h : t.Names p L a) :
    ((∀ i ∈ (L.tableAt a).filterMap intKey, InIntRange i) →
      output (t.GetKeysInt cv p []) =
        Except.ok (true, sortInts ((L.tableAt a).filterMap intKey)) ∧
      ((∀ e ∈ L.tableAt a, ∀ n, e.1 = LuaValue.number n →
          ((truncate n : Int) : lua_Number) = n) →
        ((sortInts ((L.tableAt a).filterMap intKey)).map
          (fun i => LuaValue.number ((i : Int) : lua_Number))).Perm
          (((L.tableAt a).map Prod.fst).filter LuaValue.isNumber))) ∧
    (sortInts ((L.tableAt a).filterMap intKey)).Sorted (· ≤ ·) ∧
    (sortInts ((L.tableAt a).filterMap intKey)).Perm ((L.tableAt a).filterMap intKey) ∧
    output (t.GetKeysString cv p []) =
      Except.ok (true, sortStrings ((L.tableAt a).filterMap stringKey)) ∧
    (sortStrings ((L.tableAt a).filterMap stringKey)).Sorted (· ≤ ·) ∧
    (sortStrings ((L.tableAt a).filterMap stringKey)).Perm
      ((L.tableAt a).filterMap stringKey) ∧
    ((∀ e ∈ L.tableAt a, ∀ s, e.1 = LuaValue.string s → NulFree s) →
      ((sortStrings ((L.tableAt a).filterMap stringKey)).map LuaValue.string).Perm
        (((L.tableAt a).map Prod.fst).filter LuaValue.isString)) ∧
    (∀ es : TableObj, es.Perm (L.tableAt a) →
      sortInts (es.filterMap intKey) = sortInts ((L.tableAt a).filterMap intKey) ∧
      sortStrings (es.filterMap stringKey) =
        sortStrings ((L.tableAt a).filterMap stringKey)) := by
  refine ⟨fun hr => ⟨?_, fun hint => ?_⟩, sortInts_sorted _, sortInts_perm _, ?_,
    sortStrings_sorted _, sortStrings_perm _, fun hnul => ?_, fun es hes => ⟨?_, ?_⟩⟩
  · rw [GetKeysInt_names cv t p L a h hr]; rfl
  · rw [← map_number_intKeys _ hint]
    exact (sortInts_perm _).map _
  · rw [GetKeysString_names cv t p L a h]; rfl
  · rw [← map_string_stringKeys _ hnul]
    exact (sortStrings_perm _).map _
  · exact sortInts_congr _ _ (hes.filterMap _)
  · exact sortStrings_congr _ _ (hes.filterMap _)

theorem getKeys_sorted_keys_witness :
    exampleRoot.Names (exampleParser unorderedTables) (exampleVM unorderedTables) 5 ∧
    (∀ i ∈ ((exampleVM unorderedTables).tableAt 5).filterMap intKey, InIntRange i) ∧
    output (exampleRoot.GetKeysInt decimalConv (exampleParser unorderedTables) []) =
      Except.ok (true, [1, 2]) ∧
    output (exampleRoot.GetKeysString decimalConv (exampleParser unorderedTables) []) =
      Except.ok (true, ["n"]) :=
  have hr : ∀ i ∈ ((exampleVM unorderedTables).tableAt 5).filterMap intKey, InIntRange i := by
    intro i hi
    rw [show ((exampleVM unorderedTables).tableAt 5).filterMap intKey = [2, 1] from rfl] at hi
    simp only [List.mem_cons, List.mem_singleton, List.not_mem_nil, or_false] at hi
    rcases hi with rfl | rfl <;> exact ⟨by decide, by decide⟩
  ⟨exampleRoot_names unorderedTables, hr,
   ((getKeys_sorted_keys decimalConv exampleRoot (exampleParser unorderedTables)
      (exampleVM unorderedTables) 5 (exampleRoot_names unorderedTables)).1 hr).1,
   (getKeys_sorted_keys decimalConv exampleRoot (exampleParser unorderedTables)
      (exampleVM unorderedTables) 5 (exampleRoot_names unorderedTables)).2.2.2.1⟩
/-- C9 (counterexample): after loading `{ a = 5, b = "7" }`, `GetMap` into an empty
`map<string, string>` returns true and maps `"a"` to `"5"` although the value under
`a` is a number where a string is requested, and `GetMap` into an empty
`map<string, float>` maps `"b"` to 7 although the value under `b` is a string where a
number is requested. After loading `{ [1] = "a", [1.5] = "b" }`, `GetMap` into an
empty `map<int, string>` maps 1 to `"b"`: the two entries collide on the map key 1.
After loading `{ name = "x\0y", ["a\0b"] = 1, ["a\0c"] = "v\0w" }`, `GetMap` into an
empty `map<string, string>` maps `"a"` to `"v"`, `"name"` to `"x"` and the key `a\0b`
to nothing: two entries collide on the map key `"a"`, which is no key of the
table. -/
theorem getMap_counterexample :
    loaded mixedValueTables = some (exampleRoot, exampleParser mixedValueTables) ∧
    (exampleVM mixedValueTables).tableAt 5 =
      [(LuaValue.string "a", LuaValue.number 5), (LuaValue.string "b", LuaValue.string "7")] ∧
    (exampleRoot.GetMapStringString decimalConv (exampleParser mixedValueTables)
      StdMap.empty).map (fun r => (r.1, r.2.1 "a")) = Except.ok (true, some "5") ∧
    (exampleRoot.GetMapStringFloat decimalConv (exampleParser mixedValueTables)
      StdMap.empty).map (fun r => (r.1, r.2.1 "b")) = Except.ok (true, some 7) ∧
    loaded fractionalKeyTables = some (exampleRoot, exampleParser fractionalKeyTables) ∧
    (exampleRoot.GetMapIntString decimalConv (exampleParser fractionalKeyTables)
      StdMap.empty).map (fun r => (r.1, r.2.1 1)) = Except.ok (true, some "b") ∧
    loaded nulTables = some (exampleRoot, exampleParser nulTables) ∧
    (exampleRoot.GetMapStringString decimalConv (exampleParser nulTables)
      StdMap.empty).map (fun r => (r.1, r.2.1 "a", r.2.1 "name", r.2.1 "a\x00b")) =
        Except.ok (true, some "v", some "x", none) :=
  ⟨by rfl, by rfl, by rfl, by rfl, by rfl, by rfl, by rfl, by rfl⟩

/-- C9 (as amended): on a valid view and an initially empty output map, each `GetMap`
overload returns true (the `int`-keyed ones when the number keys cast to `int` within
its range) and reads exactly the table entries whose key is of the requested raw
kind and whose value the Lua library coerces to the requested kind: for the
float-valued maps a number or a string that converts to a number, read as its
`float`; for the string-valued maps a string or a number, read as its text up to the
first NUL character. Entries with any other value are not read. A string key is read
as its text up to the first NUL character, a number key as its truncation to `int`,
and the map holds under each key read the value of the last entry read with it, in
the order of iteration. So the map has exactly one entry per table entry read when
the keys read are pairwise different, as they are for the string keys of a table
when none holds a NUL character and for its number keys when these are whole
numbers; two entries whose keys are read alike collide on one map key. -/
theorem getMap_entries (cv : NumConv) (t : LuaTable) (p : LuaParser) (L : lua_State)
    (a : Nat) (h : t.Names p L a) :
    (∃ m, output (t.GetMapStringFloat cv p StdMap.empty) = Except.ok (true, m) ∧
      ∀ k, m k = lastValue ((L.tableAt a).filterMap (mapEntry stringKey (floatValue cv))) k) ∧
    (∃ m, output (t.GetMapStringString cv p StdMap.empty) = Except.ok (true, m) ∧
      ∀ k, m k =
        lastValue ((L.tableAt a).filterMap (mapEntry stringKey (stringValue cv))) k) ∧
    ((∀ i ∈ (L.tableAt a).filterMap intKey, InIntRange i) →
      (∃ m, output (t.GetMapIntFloat cv p StdMap.empty) = Except.ok (true, m) ∧
        ∀ i, m i = lastValue ((L.tableAt a).filterMap (mapEntry intKey (floatValue cv))) i) ∧
      (∃ m, output (t.GetMapIntString cv p StdMap.empty) = Except.ok (true, m) ∧
        ∀ i, m i =
          lastValue ((L.tableAt a).filterMap (mapEntry intKey (stringValue cv))) i)) ∧
    (∀ (V : Type) (val : LuaValue → Option V),
      (((L.tableAt a).filterMap stringKey).Nodup → ∀ k x,
        lastValue ((L.tableAt a).filterMap (mapEntry stringKey val)) k = some x ↔
          ∃ e ∈ L.tableAt a, stringKey e = some k ∧ val e.2 = some x) ∧
      (((L.tableAt a).filterMap intKey).Nodup → ∀ i x,
        lastValue ((L.tableAt a).filterMap (mapEntry intKey val)) i = some x ↔
          ∃ e ∈ L.tableAt a, intKey e = some i ∧ val e.2 = some x)) ∧
    (((L.tableAt a).map Prod.fst).Nodup →
      ((∀ e ∈ L.tableAt a, ∀ s, e.1 = LuaValue.string s → NulFree s) →
        ((L.tableAt a).filterMap stringKey).Nodup ∧
        ∀ e ∈ L.tableAt a, ∀ k, stringKey e = some k ↔ e.1 = LuaValue.string k) ∧
      ((∀ e ∈ L.tableAt a, ∀ n, e.1 = LuaValue.number n →
          ((truncate n : Int) : lua_Number) = n) →
        ((L.tableAt a).filterMap intKey).Nodup ∧
        ∀ e ∈ L.tableAt a, ∀ i,
          intKey e = some i ↔ e.1 = LuaValue.number ((i : Int) : lua_Number))) := by
  refine ⟨⟨_, by rw [GetMapStringFloat_names cv t p L a h]; rfl,
      fun k => foldl_assign_lastValue _ k⟩,
    ⟨_, by rw [GetMapStringString_names cv t p L a h]; rfl,
      fun k => foldl_assign_lastValue _ k⟩,
    fun hr =>
      ⟨⟨_, by rw [GetMapIntFloat_names cv t p L a h hr]; rfl,
        fun i => foldl_assign_lastValue _ i⟩,
       ⟨_, by rw [GetMapIntString_names cv t p L a h hr]; rfl,
        fun i => foldl_assign_lastValue _ i⟩⟩,
    fun V val =>
      ⟨fun hnd k x => lastValue_mapEntry_iff stringKey val _ hnd k x,
       fun hnd i x => lastValue_mapEntry_iff intKey val _ hnd i x⟩,
    fun hnd =>
      ⟨fun hnul => ⟨nodup_stringKeys _ hnd hnul,
          fun e he k => stringKey_nulFree _ hnul e he k⟩,
       fun hint => ⟨nodup_intKeys _ hnd hint, fun e he i => intKey_whole _ hint e he i⟩⟩⟩

theorem getMap_entries_witness :
    exampleRoot.Names (exampleParser unorderedTables) (exampleVM unorderedTables) 5 ∧
    (∀ i ∈ ((exampleVM unorderedTables).tableAt 5).filterMap intKey, InIntRange i) ∧
    (∃ m, output (exampleRoot.GetMapStringFloat decimalConv (exampleParser unorderedTables)
        StdMap.empty) = Except.ok (true, m) ∧ m "n" = some 2) ∧
    (∃ m, output (exampleRoot.GetMapIntString decimalConv (exampleParser unorderedTables)
        StdMap.empty) = Except.ok (true, m) ∧ m 2 = some "b") :=
  have hr : ∀ i ∈ ((exampleVM unorderedTables).tableAt 5).filterMap intKey, InIntRange i := by
    intro i hi
    rw [show ((exampleVM unorderedTables).tableAt 5).filterMap intKey = [2, 1] from rfl] at hi
    simp only [List.mem_cons, List.mem_singleton, List.not_mem_nil, or_false] at hi
    rcases hi with rfl | rfl <;> exact ⟨by decide, by decide⟩
  have hw := getMap_entries decimalConv exampleRoot (exampleParser unorderedTables)
    (exampleVM unorderedTables) 5 (exampleRoot_names unorderedTables)
  ⟨exampleRoot_names unorderedTables, hr,
   hw.1.imp (fun m hm => ⟨hm.1, (hm.2 "n").trans (by rfl)⟩),
   (hw.2.2.1 hr).2.imp (fun m hm => ⟨hm.1, (hm.2 2).trans (by rfl)⟩)⟩
/-- C10 (counterexample): a script that runs without error and returns two values, a
table and the number 5, makes `Execute()` return true and leaves the runtime valid,
and the root view obtained afterwards is valid: `lua_pcall` is asked for one result
and drops the second value. -/
theorem execute_counterexample :
    ∃ p', LuaParser.Execute (exampleEnv specTables [LuaValue.table 5, LuaValue.number 5]) 0
        exampleParser0 none = Except.ok (true, p', none) ∧
      p'.valid = true ∧
      (LuaParser.GetRoot decimalConv 1 0 p').map (fun r => r.1.isValid) = Except.ok true :=
  ⟨_, by rfl, by rfl, by rfl⟩

/-- C10 (as amended): `Execute()` succeeds exactly when the first value the script
returns is a table; `lua_pcall` keeps one result, so a missing value reads as nil and
further values are dropped. For a parser that is not yet valid, with an open VM, an
empty stack and builder depth zero, whose file loads and compiles, and a script that
runs without error: if the script returns zero values, or a first value that is not a
table (such as a bare number, alone or followed by other values), `Execute()` returns
false, the VM is destroyed, the runtime stays invalid and the message is "missing
return table"; if the first returned value is a table, also when further values
follow, `Execute()` returns true, the runtime is valid, the stack is empty and the root
reference names that table. -/
theorem execute_first_result (env : Env) (this : Nat) (p : LuaParser) (L : lua_State)
    (cur : Option Nat) (code : String) (chunk : Nat)
    (hL : p.L = some L) (hs : L.stack = []) (hd : p.initDepth = 0) (hvalid : p.valid = false)
    (hok : RegistryOK env.cv L)
    (hf : env.loadStringData p.fileName p.fileModes = some code)
    (hc : env.loadbuffer code p.fileName = Except.ok chunk)
    (hrun : ∀ q, (env.run chunk (some this) q).error = none) :
    ((∀ q, ((env.run chunk (some this) q).values.head?.getD LuaValue.nil).isTable = false) →
      ∃ p', LuaParser.Execute env this p cur = Except.ok (false, p', none) ∧
        p'.valid = false ∧ p'.L = none ∧
        p'.errorLog = "missing return table from " ++ p.fileName ++ "\n") ∧
    ((∀ q, ((env.run chunk (some this) q).values.head?.getD LuaValue.nil).isTable = true) →
      ∃ p' L' a, LuaParser.Execute env this p cur = Except.ok (true, p', none) ∧
        p'.valid = true ∧ p'.L = some L' ∧ L'.stack = [] ∧
        rawget L'.registry (LuaValue.number p'.rootRef) = LuaValue.table a ∧
        p'.rootRef ≠ LUA_NOREF) := by
  refine ⟨fun hv => ?_, fun hv => Execute_table env this p L cur code chunk hL hs hd hok hf hc
    hrun hv⟩
  obtain ⟨files, hex⟩ := Execute_no_table env this p L cur code chunk hL hs hd hf hc hrun hv
  exact ⟨_, hex, hvalid, rfl, rfl⟩

theorem execute_first_result_witness :
    (∃ p', LuaParser.Execute (exampleEnv [] []) 0 exampleParser0 none =
        Except.ok (false, p', none) ∧ p'.valid = false ∧ p'.L = none ∧
        p'.errorLog = "missing return table from " ++ exampleParser0.fileName ++ "\n") ∧
    (∃ p', LuaParser.Execute (exampleEnv [] [LuaValue.number 5, LuaValue.table 5]) 0
        exampleParser0 none = Except.ok (false, p', none) ∧ p'.valid = false ∧ p'.L = none ∧
        p'.errorLog = "missing return table from " ++ exampleParser0.fileName ++ "\n") ∧
    (∃ p' L' a, LuaParser.Execute (exampleEnv specTables [LuaValue.table 5]) 0
        exampleParser0 none = Except.ok (true, p', none) ∧
        p'.valid = true ∧ p'.L = some L' ∧ L'.stack = [] ∧
        rawget L'.registry (LuaValue.number p'.rootRef) = LuaValue.table a ∧
        p'.rootRef ≠ LUA_NOREF) :=
  ⟨(execute_first_result (exampleEnv [] []) 0 exampleParser0 emptyVM none "return ..." 0
      rfl rfl rfl rfl (emptyVM_registryOK _) rfl rfl (fun _ => rfl)).1 (fun _ => rfl),
   (execute_first_result (exampleEnv [] [LuaValue.number 5, LuaValue.table 5]) 0
      exampleParser0 emptyVM none "return ..." 0
      rfl rfl rfl rfl (emptyVM_registryOK _) rfl rfl (fun _ => rfl)).1 (fun _ => rfl),
   (execute_first_result (exampleEnv specTables [LuaValue.table 5]) 0 exampleParser0 emptyVM
      none "return ..." 0
      rfl rfl rfl rfl (emptyVM_registryOK _) rfl rfl (fun _ => rfl)).2 (fun _ => rfl)⟩

/-! ### The runtime: failure of `Execute`, the sandbox and the call-outs -/

/-- C11: a script that raises an error whose error object is neither a string nor a
number, as `error({})` or `error()` does, makes `Execute()` assign the NULL that
`lua_tostring` returns to `errorLog`: the call ends in a fault before `lua_close`,
instead of returning false with the VM closed and a message recorded. With a text
as error object the call returns false, closes the VM and records the text (see
`Execute_atomic` for every path that returns). -/
theorem execute_errorObject_fault :
    LuaParser.Execute (raisingEnv (LuaValue.table 5)) 0 exampleParser0 none =
      Except.error Fault.nullPointer ∧
    LuaParser.Execute (raisingEnv LuaValue.nil) 0 exampleParser0 none =
      Except.error Fault.nullPointer ∧
    LuaParser.Execute (raisingEnv (LuaValue.string "boom")) 0 exampleParser0 none =
      Except.ok (false, { exampleParser0 with errorLog := "boom", L := none }, none) :=
  ⟨rfl, rfl, rfl⟩

/-- C12: `GetRoot()` after an `Execute()` that failed dereferences the NULL VM
handle: the constructor of the root view sets `isValid`, copies the NULL handle and
calls `PushTable`, whose `lua_settop(L, 0)` is a fault. Before any `Execute()` the VM
is open and `GetRoot()` returns a view that is not valid. -/
theorem getRoot_after_failed_execute :
    LuaParser.Execute missingFileEnv 0 exampleParser0 none =
      Except.ok (false,
        { exampleParser0 with errorLog := "could not open file: script.lua", L := none }, none) ∧
    LuaParser.GetRoot decimalConv 1 0
      { exampleParser0 with errorLog := "could not open file: script.lua", L := none } =
      Except.error Fault.nullPointer ∧
    returned (LuaParser.GetRoot decimalConv 1 0 exampleParser0) =
      Except.ok { isValid := false, path := "ROOT", parser := some 0, L := some 0,
                  refnum := LUA_NOREF } :=
  ⟨rfl, rfl, rfl⟩

/-- C13: only `DirList` tests the path. For the absolute path `/etc/passwd`
`DirList` returns nothing and asks the file system for nothing, while `LoadFile`
constructs a file handler for the path, reads the file and returns its content, and
`Include` of `/tmp/x.lua` looks the file up, reads it and runs it. -/
theorem callouts_absolute_path :
    leavesSpringDir "/etc/passwd" = true ∧ leavesSpringDir "/tmp/x.lua" = true ∧
    LuaParser.DirList exampleCallEnv (some 0) callParser
        (callFrame [LuaValue.string "/etc/passwd"]) [] =
      Except.ok ⟨CResult.values [], callFrame [LuaValue.string "/etc/passwd"], callParser, []⟩ ∧
    LuaParser.LoadFile exampleCallEnv (some 0) callParser
        (callFrame [LuaValue.string "/etc/passwd"]) [] =
      Except.ok ⟨CResult.values [LuaValue.string "root:x:0:0"],
        { emptyVM with stack := [LuaValue.string "root:x:0:0", LuaValue.string "/etc/passwd"] },
        { callParser with accessedFiles := ["/etc/passwd", "main.lua"] },
        [FsOp.read "/etc/passwd" "r", FsOp.handler "/etc/passwd" "r"]⟩ ∧
    LuaParser.Include exampleCallEnv (some 0) callParser
        (callFrame [LuaValue.string "/tmp/x.lua"]) [] =
      Except.ok ⟨CResult.values [LuaValue.number 7],
        { emptyVM with stack := [LuaValue.number 7, LuaValue.string "/tmp/x.lua"] },
        { callParser with accessedFiles := ["/tmp/x.lua", "main.lua"] },
        [FsOp.read "/tmp/x.lua" "r", FsOp.handler "/tmp/x.lua" "r"]⟩ :=
  ⟨rfl, rfl, rfl, rfl, rfl⟩

/-- C14: `Execute()` called while `currentParser` is clear returns with
`currentParser` clear, on every path; whatever `currentParser` was, it is clear
after every path that ran the script and untouched after the others; the script is
run with `currentParser` set to the parser (the result of `Execute()` does not depend
on what a run with another value would do); and with `currentParser` clear each of
`DirList`, `Include`, `LoadFile` and `FileExists` raises an error and leaves the VM,
the parser with its accessed-file set and the requests to the file system as they
were. -/
theorem guard_only_during_run (env : Env) (this : Nat) (p : LuaParser) (ce : CallEnv)
    (q : LuaParser) (L : lua_State) (log : List FsOp) :
    (∀ r, LuaParser.Execute env this p none = Except.ok r → r.2.2 = none) ∧
    (∀ cur r, LuaParser.Execute env this p cur = Except.ok r → r.2.2 = none ∨ r.2.2 = cur) ∧
    (∀ cur run, (∀ chunk q, run chunk (some this) q = env.run chunk (some this) q) →
      LuaParser.Execute { env with run := run } this p cur = LuaParser.Execute env this p cur) ∧
    LuaParser.DirList ce none q L log = Except.ok
      ⟨CResult.error (LuaValue.string "invalid call to DirList() after execution"),
        L, q, log⟩ ∧
    LuaParser.Include ce none q L log = Except.ok
      ⟨CResult.error (LuaValue.string "invalid call to Include() after execution"),
        L, q, log⟩ ∧
    LuaParser.LoadFile ce none q L log = Except.ok
      ⟨CResult.error (LuaValue.string "invalid call to LoadFile() after execution"),
        L, q, log⟩ ∧
    LuaParser.FileExists ce none q L log = Except.ok
      ⟨CResult.error (LuaValue.string "invalid call to FileExists() after execution"),
        L, q, log⟩ := by
  refine ⟨fun r h => ?_, fun cur r h => Execute_guard env this p cur r h,
    fun cur run h => Execute_run_guard env this p cur run h, guard_clear ce q L log⟩
  rcases Execute_guard env this p none r h with h1 | h1 <;> exact h1

/-- Execution of the example script and of a script that fails return with
`currentParser` clear, as C14 says. -/
theorem guard_only_during_run_witness :
    (∃ r, LuaParser.Execute (exampleEnv specTables [LuaValue.table 5]) 0 exampleParser0 none =
        Except.ok r ∧ r.1 = true ∧ r.2.2 = none) ∧
    (∃ r, LuaParser.Execute (raisingEnv (LuaValue.string "boom")) 0 exampleParser0 none =
        Except.ok r ∧ r.1 = false ∧ r.2.2 = none) :=
  ⟨⟨_, rfl, rfl,
      (guard_only_during_run (exampleEnv specTables [LuaValue.table 5]) 0 exampleParser0
        exampleCallEnv callParser emptyVM []).1 _ rfl⟩,
   ⟨_, rfl, rfl,
      (guard_only_during_run (raisingEnv (LuaValue.string "boom")) 0 exampleParser0
        exampleCallEnv callParser emptyVM []).1 _ rfl⟩⟩

/-- C18: after `SetupStdLibs` and the binding of the call-outs, that is in the state
in which `Execute()` compiles and runs the script, and for every content of the
libraries: the globals `dofile`, `loadfile`, `loadlib`, `require`, `gcinfo` and
`collectgarbage` are nil, `math` is the table opened for the math library and its
entries `random` and `randomseed` are nil, the globals `io`, `os`, `package` and
`debug` are what `luaopen_base` left them (no library was opened under these names),
and five tables were created in all: `math`, `table`, `string`, `Spring`, `VFS`. -/
theorem sandbox_before_script (libs : StdLibs) (p : LuaParser) (L : lua_State)
    (hs : L.stack = []) (hd : p.initDepth = 0) :
    ∃ L', p.setupCallOuts libs L = Except.ok { p with L := some L' } ∧
      (∀ name ∈ ["dofile", "loadfile", "loadlib", "require", "gcinfo", "collectgarbage"],
        rawget L'.globals (LuaValue.string name) = LuaValue.nil) ∧
      rawget L'.globals (LuaValue.string "math") = LuaValue.table L.heap.length ∧
      rawget (L'.tableAt L.heap.length) (LuaValue.string "random") = LuaValue.nil ∧
      rawget (L'.tableAt L.heap.length) (LuaValue.string "randomseed") = LuaValue.nil ∧
      (∀ name ∈ ["io", "os", "package", "debug"],
        rawget L'.globals (LuaValue.string name) =
          rawget (luaopen_base libs L).globals (LuaValue.string name)) ∧
      L'.heap.length = L.heap.length + 5 := by
  obtain ⟨L', h1, hg, ht, hl⟩ := setupCallOuts_state libs p L _ (SetupStdLibs_eq libs L) hs hd
  refine ⟨L', h1, ?_, ?_, ?_, ?_, ?_, ?_⟩
  · intro name hn
    rw [hg]
    exact rawget_sandbox_removed _ _ _ name hn
  · rw [hg]
    simp only
    rw [rawget_rawset_string_ne _ _ _ _ (by decide), rawget_rawset_string_ne _ _ _ _ (by decide),
      rawget_rawset_string_ne _ _ _ _ (by decide), rawget_rawset_string_ne _ _ _ _ (by decide),
      rawget_rawset_string_ne _ _ _ _ (by decide), rawget_rawset_string_ne _ _ _ _ (by decide),
      rawget_rawset_string_ne _ _ _ _ (by decide), rawget_rawset_string_ne _ _ _ _ (by decide),
      rawget_rawset_string_ne _ _ _ _ (by decide), rawget_rawset_string_ne _ _ _ _ (by decide),
      rawget_rawset_self _ _ _ (by simp)]
  · rw [ht _ (by simp)]
    simp only [lua_State.tableAt, List.get?_eq_getElem?]
    rw [List.getElem?_append_right (le_refl _)]
    simp only [Nat.sub_self, List.getElem?_cons_zero, Option.getD_some]
    rw [rawget_rawset_string_ne _ _ _ _ (by decide), rawget_rawset_nil]
  · rw [ht _ (by simp)]
    simp only [lua_State.tableAt, List.get?_eq_getElem?]
    rw [List.getElem?_append_right (le_refl _)]
    simp only [Nat.sub_self, List.getElem?_cons_zero, Option.getD_some]
    rw [rawget_rawset_nil]
  · intro name hn
    rw [hg]
    exact rawget_sandbox_other _ _ _ _ _ _ name hn
  · rw [hl]; simp

/-- The sandbox of C18 on a new VM and libraries that define `dofile`, `loadfile`,
`gcinfo`, `collectgarbage`, `math.random` and `math.randomseed`. -/
theorem sandbox_before_script_witness :
    emptyVM.stack = [] ∧ exampleParser0.initDepth = 0 ∧
    rawget (luaopen_base exampleLibs emptyVM).globals (LuaValue.string "dofile") =
      LuaValue.func 21 ∧
    rawget exampleLibs.math (LuaValue.string "random") = LuaValue.func 31 ∧
    ∃ L', exampleParser0.setupCallOuts exampleLibs emptyVM =
        Except.ok { exampleParser0 with L := some L' } ∧
      (∀ name ∈ ["dofile", "loadfile", "loadlib", "require", "gcinfo", "collectgarbage"],
        rawget L'.globals (LuaValue.string name) = LuaValue.nil) ∧
      rawget L'.globals (LuaValue.string "math") = LuaValue.table emptyVM.heap.length ∧
      rawget (L'.tableAt emptyVM.heap.length) (LuaValue.string "random") = LuaValue.nil ∧
      rawget (L'.tableAt emptyVM.heap.length) (LuaValue.string "randomseed") = LuaValue.nil ∧
      (∀ name ∈ ["io", "os", "package", "debug"],
        rawget L'.globals (LuaValue.string name) =
          rawget (luaopen_base exampleLibs emptyVM).globals (LuaValue.string name)) ∧
      L'.heap.length = emptyVM.heap.length + 5 :=
  ⟨rfl, rfl, rfl, rfl, sandbox_before_script exampleLibs exampleParser0 emptyVM rfl rfl⟩

/-! ### Views and their parser: destruction, copies and the cache slot -/

/-- C15: the destructor of a parser clears every view registered with it (every
address in its set `tables`): the view keeps its path and has no parser pointer, no
VM pointer, validity false and the reference `LUA_NOREF`. On such a view, whatever
parser `q` the program holds, every read access (typed getter, `KeyExists`,
`GetKeys`, `GetMap`) returns the default or false with the container as given and
changes nothing, `SubTable` returns a view that is not valid and changes nothing,
and the destructor and the copy constructor leave every parser as it is, the copy
being a cleared view too. -/
theorem destroyParser_clears_views (cv : NumConv) (w w' : World) (pid : Nat) (p : LuaParser)
    (hp : w.parsers pid = some p)
    (hs : w.step cv (ViewOp.destroyParser pid) = Except.ok w') :
    w'.parsers pid = none ∧
    ∀ a, a ∈ p.tables → ∃ t, w.views a = some t ∧
      w'.views a = some (LuaTable.mk false t.path none none LUA_NOREF) ∧
      (∀ (q : LuaParser) (x : Access),
        (LuaTable.mk false t.path none none LUA_NOREF).access cv q x =
          Except.ok (x.default, LuaTable.mk false t.path none none LUA_NOREF, q)) ∧
      (∀ (q : LuaParser) (key : Key) (self : Nat),
        (LuaTable.mk false t.path none none LUA_NOREF).SubTable cv q key self =
          Except.ok (LuaTable.mk false (t.path ++ keyPath key) none none LUA_NOREF,
            LuaTable.mk false t.path none none LUA_NOREF, q)) ∧
      (∀ q : LuaParser,
        LuaTable.destroy a (LuaTable.mk false t.path none none LUA_NOREF) q = Except.ok q) ∧
      (∀ (q : LuaParser) (self : Nat),
        LuaTable.copy cv self (LuaTable.mk false t.path none none LUA_NOREF) q =
          Except.ok (LuaTable.mk false t.path none none LUA_NOREF,
            LuaTable.mk false t.path none none LUA_NOREF, q)) := by
  simp only [World.step, World.destroyParser, bind, Except.bind, World.parser, hp, pure,
    Except.pure] at hs
  split at hs
  · simp at hs
  · rename_i views' hfold
    simp only [Except.ok.injEq] at hs
    subst hs
    refine ⟨by simp, ?_⟩
    intro a ha
    obtain ⟨t, ht⟩ := clearViews_live p.tables w.views views' hfold a ha
    refine ⟨t, ht, ?_, ?_, ?_, ?_, ?_⟩
    · show views' a = _
      rw [clearViews_spec p.tables w.views views' hfold a]
      simp [ha, ht]
    · intro q x; exact access_invalid cv _ q x rfl
    · intro q key self
      exact SubTable_invalid cv (LuaTable.mk false t.path none none LUA_NOREF) q key self rfl
    · intro q; exact destroy_cleared a t.path q
    · intro q self
      exact copy_invalid cv self (LuaTable.mk false t.path none none LUA_NOREF) q rfl

theorem destroyParser_clears_views_witness :
    (exampleWorldAfter exampleOps).parsers 0 = some (exampleWorldAfter exampleOps).mainParser ∧
    (exampleWorldAfter exampleOps).mainParser.tables = [2, 1] ∧
    (exampleWorldAfter exampleOps).viewAt 2 = LuaTable.mk true "ROOT.nested" (some 0) (some 0) 3 ∧
    (exampleWorldAfter exampleOps).step decimalConv (ViewOp.destroyParser 0) =
      Except.ok (exampleWorldAfter (exampleOps ++ [ViewOp.destroyParser 0])) ∧
    (exampleWorldAfter (exampleOps ++ [ViewOp.destroyParser 0])).parsers 0 = none ∧
    ∀ a, a ∈ (exampleWorldAfter exampleOps).mainParser.tables →
      ∃ t, (exampleWorldAfter exampleOps).views a = some t ∧
      (exampleWorldAfter (exampleOps ++ [ViewOp.destroyParser 0])).views a =
        some (LuaTable.mk false t.path none none LUA_NOREF) ∧
      (∀ (q : LuaParser) (x : Access),
        (LuaTable.mk false t.path none none LUA_NOREF).access decimalConv q x =
          Except.ok (x.default, LuaTable.mk false t.path none none LUA_NOREF, q)) ∧
      (∀ (q : LuaParser) (key : Key) (self : Nat),
        (LuaTable.mk false t.path none none LUA_NOREF).SubTable decimalConv q key self =
          Except.ok (LuaTable.mk false (t.path ++ keyPath key) none none LUA_NOREF,
            LuaTable.mk false t.path none none LUA_NOREF, q)) ∧
      (∀ q : LuaParser,
        LuaTable.destroy a (LuaTable.mk false t.path none none LUA_NOREF) q = Except.ok q) ∧
      (∀ (q : LuaParser) (self : Nat),
        LuaTable.copy decimalConv self (LuaTable.mk false t.path none none LUA_NOREF) q =
          Except.ok (LuaTable.mk false t.path none none LUA_NOREF,
            LuaTable.mk false t.path none none LUA_NOREF, q)) :=
  ⟨rfl, rfl, rfl, rfl,
   destroyParser_clears_views decimalConv (exampleWorldAfter exampleOps)
     (exampleWorldAfter (exampleOps ++ [ViewOp.destroyParser 0])) 0
     (exampleWorldAfter exampleOps).mainParser rfl rfl⟩

/-- C16: in a reachable program, copying the view at `src` into a new object at
`self` (copy constructor) or into another view at `self` (assignment) returns and
leaves the source as it was. The view at `self` is valid exactly when the source
is. When the source is valid, the view at `self` holds a reference of its own,
different from `LUA_NOREF` and from the reference of the source, both views name the
same table of the VM of their parser, every read access (typed getter, `KeyExists`,
`GetKeys`, `GetMap`) returns the same on the copy as on the source, and the
destructor of either one returns and leaves the other in place, valid, naming the
same table, with every read access returning what it returned before. -/
theorem copy_own_reference (cv : NumConv) (w : World) (h : World.Reachable cv w)
    (self src : Nat) (tbl : LuaTable) (hsrc : w.views src = some tbl) (hne : self ≠ src)
    (op : ViewOp)
    (hop : (op = ViewOp.copy self src ∧ w.views self = none) ∨
      (op = ViewOp.assign self src ∧ (w.views self).isSome = true)) :
    ∃ (w' : World) (nv : LuaTable), w.step cv op = Except.ok w' ∧
      w'.views self = some nv ∧ w'.views src = some tbl ∧
      (tbl.isValid = false → nv.isValid = false) ∧
      (tbl.isValid = true → nv.isValid = true ∧ nv.refnum ≠ LUA_NOREF ∧
        nv.refnum ≠ tbl.refnum ∧
        ∃ (pid : Nat) (p' : LuaParser) (L' : lua_State) (a : Nat),
          nv.parser = some pid ∧ tbl.parser = some pid ∧ w'.parsers pid = some p' ∧
          p'.L = some L' ∧ nv.Names p' L' a ∧ tbl.Names p' L' a ∧
          (∀ x, returned (nv.access cv p' x) = returned (tbl.access cv p' x)) ∧
          (∃ (w'' : World) (p'' : LuaParser) (L'' : lua_State),
            w'.step cv (ViewOp.destroy self) = Except.ok w'' ∧ w''.views src = some tbl ∧
            w''.parsers pid = some p'' ∧ p''.L = some L'' ∧ tbl.Names p'' L'' a ∧
            ∀ x, returned (tbl.access cv p'' x) = returned (tbl.access cv p' x)) ∧
          (∃ (w'' : World) (p'' : LuaParser) (L'' : lua_State),
            w'.step cv (ViewOp.destroy src) = Except.ok w'' ∧ w''.views self = some nv ∧
            w''.parsers pid = some p'' ∧ p''.L = some L'' ∧ nv.Names p'' L'' a ∧
            ∀ x, returned (nv.access cv p'' x) = returned (nv.access cv p' x))) := by
  have hinv := Reachable_inv cv w h
  have hss : src ≠ self := fun e => hne e.symm
  have hspec : ∃ (w' : World) (nv : LuaTable), w.step cv op = Except.ok w' ∧
      w'.views self = some nv ∧ w'.views src = some tbl ∧
      (tbl.isValid = false → nv.isValid = false) ∧
      (tbl.isValid = true → nv.isValid = true ∧ nv.refnum ≠ tbl.refnum ∧
        ∃ (pid : Nat) (p' : LuaParser) (L' : lua_State) (a : Nat),
          nv.parser = some pid ∧ tbl.parser = some pid ∧ w'.parsers pid = some p' ∧
          p'.L = some L' ∧
          rawget L'.registry (LuaValue.number nv.refnum) = LuaValue.table a ∧
          rawget L'.registry (LuaValue.number tbl.refnum) = LuaValue.table a) := by
    rcases hop with ⟨rfl, hself⟩ | ⟨rfl, hself⟩
    · exact copy_step_spec cv w self src tbl hinv hsrc hself
    · obtain ⟨t, ht⟩ := Option.isSome_iff_exists.1 hself
      exact assign_step_spec cv w self src t tbl hinv ht hsrc hss
  obtain ⟨w', nv, hs, h1, h2, hinvalid, hvalid⟩ := hspec
  have hinv' := Inv_step cv w w' op hinv hs
  refine ⟨w', nv, hs, h1, h2, hinvalid, fun hv => ?_⟩
  obtain ⟨hv1, hneq, pid, p', L', a, hp1, hp2, hp', hL', hr1, hr2⟩ := hvalid hv
  exact ⟨hv1, (hinv'.view self nv h1).valid hv1, hneq, pid, p', L', a, hp1, hp2, hp', hL',
    shared_table_spec cv w' hinv' self src pid nv tbl p' L' a hne h1 h2 hv1 hv hp1 hp2 hp' hL'
      hr1 hr2⟩

theorem copy_own_reference_witness :
    World.Reachable decimalConv cachedWorld ∧
    cachedWorld.views 2 = some (cachedWorld.viewAt 2) ∧
    (cachedWorld.viewAt 2).isValid = true ∧
    cachedWorld.views 3 = none ∧ (cachedWorld.views 1).isSome = true ∧
    (∃ (w' : World) (nv : LuaTable), cachedWorld.step decimalConv (ViewOp.copy 3 2) = Except.ok w' ∧
      w'.views 3 = some nv ∧ w'.views 2 = some (cachedWorld.viewAt 2) ∧
      ((cachedWorld.viewAt 2).isValid = false → nv.isValid = false) ∧
      ((cachedWorld.viewAt 2).isValid = true → nv.isValid = true ∧ nv.refnum ≠ LUA_NOREF ∧
        nv.refnum ≠ (cachedWorld.viewAt 2).refnum ∧
        ∃ (pid : Nat) (p' : LuaParser) (L' : lua_State) (a : Nat),
          nv.parser = some pid ∧ (cachedWorld.viewAt 2).parser = some pid ∧
          w'.parsers pid = some p' ∧ p'.L = some L' ∧ nv.Names p' L' a ∧
          (cachedWorld.viewAt 2).Names p' L' a ∧
          (∀ x, returned (nv.access decimalConv p' x) =
            returned ((cachedWorld.viewAt 2).access decimalConv p' x)) ∧
          (∃ (w'' : World) (p'' : LuaParser) (L'' : lua_State),
            w'.step decimalConv (ViewOp.destroy 3) = Except.ok w'' ∧
            w''.views 2 = some (cachedWorld.viewAt 2) ∧
            w''.parsers pid = some p'' ∧ p''.L = some L'' ∧
            (cachedWorld.viewAt 2).Names p'' L'' a ∧
            ∀ x, returned ((cachedWorld.viewAt 2).access decimalConv p'' x) =
              returned ((cachedWorld.viewAt 2).access decimalConv p' x)) ∧
          (∃ (w'' : World) (p'' : LuaParser) (L'' : lua_State),
            w'.step decimalConv (ViewOp.destroy 2) = Except.ok w'' ∧
            w''.views 3 = some nv ∧
            w''.parsers pid = some p'' ∧ p''.L = some L'' ∧ nv.Names p'' L'' a ∧
            ∀ x, returned (nv.access decimalConv p'' x) =
              returned (nv.access decimalConv p' x)))) ∧
    (∃ (w' : World) (nv : LuaTable), cachedWorld.step decimalConv (ViewOp.assign 1 2) = Except.ok w' ∧
      w'.views 1 = some nv ∧ w'.views 2 = some (cachedWorld.viewAt 2) ∧
      ((cachedWorld.viewAt 2).isValid = false → nv.isValid = false) ∧
      ((cachedWorld.viewAt 2).isValid = true → nv.isValid = true ∧ nv.refnum ≠ LUA_NOREF ∧
        nv.refnum ≠ (cachedWorld.viewAt 2).refnum ∧
        ∃ (pid : Nat) (p' : LuaParser) (L' : lua_State) (a : Nat),
          nv.parser = some pid ∧ (cachedWorld.viewAt 2).parser = some pid ∧
          w'.parsers pid = some p' ∧ p'.L = some L' ∧ nv.Names p' L' a ∧
          (cachedWorld.viewAt 2).Names p' L' a ∧
          (∀ x, returned (nv.access decimalConv p' x) =
            returned ((cachedWorld.viewAt 2).access decimalConv p' x)) ∧
          (∃ (w'' : World) (p'' : LuaParser) (L'' : lua_State),
            w'.step decimalConv (ViewOp.destroy 1) = Except.ok w'' ∧
            w''.views 2 = some (cachedWorld.viewAt 2) ∧
            w''.parsers pid = some p'' ∧ p''.L = some L'' ∧
            (cachedWorld.viewAt 2).Names p'' L'' a ∧
            ∀ x, returned ((cachedWorld.viewAt 2).access decimalConv p'' x) =
              returned ((cachedWorld.viewAt 2).access decimalConv p' x)) ∧
          (∃ (w'' : World) (p'' : LuaParser) (L'' : lua_State),
            w'.step decimalConv (ViewOp.destroy 2) = Except.ok w'' ∧
            w''.views 1 = some nv ∧
            w''.parsers pid = some p'' ∧ p''.L = some L'' ∧ nv.Names p'' L'' a ∧
            ∀ x, returned (nv.access decimalConv p'' x) =
              returned (nv.access decimalConv p' x)))) :=
  ⟨exampleWorldAfter_reachable exampleOps cachedWorld rfl, rfl, rfl, rfl, rfl,
   copy_own_reference decimalConv cachedWorld
     (exampleWorldAfter_reachable exampleOps cachedWorld rfl) 3 2 (cachedWorld.viewAt 2) rfl
     (by decide) (ViewOp.copy 3 2) (Or.inl ⟨rfl, rfl⟩),
   copy_own_reference decimalConv cachedWorld
     (exampleWorldAfter_reachable exampleOps cachedWorld rfl) 1 2 (cachedWorld.viewAt 2) rfl
     (by decide) (ViewOp.assign 1 2) (Or.inr ⟨rfl, rfl⟩)⟩

/-- C20: in every program reachable after successful `Execute()` calls through
operations on views (`GetRoot`, construction, copy, assignment, `SubTable`, read
accesses, destruction of views and of parsers), the VM of a parser is open and,
whenever the active marker is not `LUA_NOREF`, the stack is not empty and its top is
the table that the marker's reference names in the registry. So when the marker is
the reference of a valid view of the parser, `PushTable` of that view succeeds and
leaves the parser as it is, the top of the stack is the table the view's own
reference names, and no other valid view of the parser holds the marker's
reference. -/
theorem cache_slot_invariant (cv : NumConv) (w : World) (h : World.Reachable cv w)
    (pid : Nat) (p : LuaParser) (hp : w.parsers pid = some p) :
    ∃ L, p.L = some L ∧
      (p.currentRef ≠ LUA_NOREF → ∃ a rest, L.stack = LuaValue.table a :: rest ∧
        rawget L.registry (LuaValue.number p.currentRef) = LuaValue.table a) ∧
      (∀ v t, w.views v = some t → t.parser = some pid → t.isValid = true →
        p.currentRef = t.refnum →
          t.PushTable p = Except.ok (true, t, p) ∧
          (∃ a rest, L.stack = LuaValue.table a :: rest ∧
            rawget L.registry (LuaValue.number t.refnum) = LuaValue.table a) ∧
          ∀ u tu, w.views u = some tu → tu.parser = some pid → tu.isValid = true → u ≠ v →
            tu.refnum ≠ p.currentRef) := by
  have hinv := Reachable_inv cv w h
  have hpo := hinv.parser pid p hp
  obtain ⟨L, hL⟩ := hpo.vm
  have hc := hpo.cache L hL
  refine ⟨L, hL, hc, ?_⟩
  intro v t hv hpar hval hcur
  have hvo := hinv.view v t hv
  have hne : t.refnum ≠ LUA_NOREF := hvo.valid hval
  obtain ⟨a, rest, hst, hreg⟩ := hc (by rw [hcur]; exact hne)
  rw [hcur] at hreg
  have hn : t.Names p L a :=
    Names_of_cache t p L a hval (by rw [hpar]; simp) (by rw [hvo.vmPtr pid hpar]; simp) hL hreg hc
  refine ⟨?_, ⟨a, rest, hst, hreg⟩, ?_⟩
  · rw [PushTable_names t p L a hn, pushed_hit t p L hL hne hcur]
  · intro u tu hu hupar huval huv
    rw [hcur]
    exact hinv.distinct u v tu t hu hv huv huval hval (by rw [hupar, hpar])

theorem cache_slot_invariant_witness :
    World.Reachable decimalConv (exampleWorldAfter exampleOps) ∧
    (exampleWorldAfter exampleOps).parsers 0 = some (exampleWorldAfter exampleOps).mainParser ∧
    (exampleWorldAfter exampleOps).mainParser.currentRef = 2 ∧
    (exampleWorldAfter exampleOps).viewAt 1 = exampleRoot ∧
    ∃ L, (exampleWorldAfter exampleOps).mainParser.L = some L ∧
      ((exampleWorldAfter exampleOps).mainParser.currentRef ≠ LUA_NOREF →
        ∃ a rest, L.stack = LuaValue.table a :: rest ∧
          rawget L.registry (LuaValue.number (exampleWorldAfter exampleOps).mainParser.currentRef)
            = LuaValue.table a) ∧
      (∀ v t, (exampleWorldAfter exampleOps).views v = some t → t.parser = some 0 →
        t.isValid = true → (exampleWorldAfter exampleOps).mainParser.currentRef = t.refnum →
          t.PushTable (exampleWorldAfter exampleOps).mainParser =
            Except.ok (true, t, (exampleWorldAfter exampleOps).mainParser) ∧
          (∃ a rest, L.stack = LuaValue.table a :: rest ∧
            rawget L.registry (LuaValue.number t.refnum) = LuaValue.table a) ∧
          ∀ u tu, (exampleWorldAfter exampleOps).views u = some tu → tu.parser = some 0 →
            tu.isValid = true → u ≠ v →
            tu.refnum ≠ (exampleWorldAfter exampleOps).mainParser.currentRef) :=
  ⟨exampleWorldAfter_reachable exampleOps (exampleWorldAfter exampleOps) rfl, rfl, rfl, rfl,
   cache_slot_invariant decimalConv (exampleWorldAfter exampleOps)
     (exampleWorldAfter_reachable exampleOps (exampleWorldAfter exampleOps) rfl) 0
     (exampleWorldAfter exampleOps).mainParser rfl⟩

/-- C19, the claim as stated fails for a view that is the active one at the start:
in the program of the examples the root view A (at 1, reference 2, table 5) and the
view B of `nested` (at 2, reference 3, table 6) are valid views of different tables
of one parser, and A is active. Reading A, then B, then A resolves B once and A
once, not twice (the log `[2, 1]` becomes `[2, 3, 2, 1]`), and two consecutive reads
of A resolve nothing, not one reference. -/
theorem cache_resolutions_active_start :
    cachedWorld.views 1 = some (LuaTable.mk true "ROOT" (some 0) (some 0) 2) ∧
    cachedWorld.views 2 = some (LuaTable.mk true "ROOT.nested" (some 0) (some 0) 3) ∧
    rawget cachedWorld.mainVM.registry (LuaValue.number 2) = LuaValue.table 5 ∧
    rawget cachedWorld.mainVM.registry (LuaValue.number 3) = LuaValue.table 6 ∧
    cachedWorld.mainParser.currentRef = 2 ∧
    cachedWorld.mainVM.resolved = [2, 1] ∧
    cachedWorld.steps decimalConv [readRoot, readNested, readRoot] =
      Except.ok (exampleWorldAfter (exampleOps ++ [readRoot, readNested, readRoot])) ∧
    (exampleWorldAfter (exampleOps ++ [readRoot, readNested, readRoot])).mainVM.resolved =
      [2, 3, 2, 1] ∧
    cachedWorld.steps decimalConv [readRoot, readRoot] =
      Except.ok (exampleWorldAfter (exampleOps ++ [readRoot, readRoot])) ∧
    (exampleWorldAfter (exampleOps ++ [readRoot, readRoot])).mainVM.resolved = [2, 1] :=
  ⟨rfl, rfl, rfl, rfl, rfl, rfl, rfl, rfl, rfl, rfl⟩

/-- C19, the claim as amended: for two valid views A and B (different objects) of one
parser in a reachable program, A and B hold different references and accessing A,
then B, then A (each by a read access or `SubTable`) resolves B once and A twice
when A is not the active view at the start, and once when it is: the log of
registry resolutions gains the reference of A, that of B and, unless A was active,
that of A again. Any positive number of consecutive accesses to A resolves its
reference once in total when A is not active at the start, and not at all when it
is. -/
theorem cache_resolutions (cv : NumConv) (w : World) (h : World.Reachable cv w)
    (a b pid : Nat) (A B : LuaTable) (p : LuaParser) (L : lua_State)
    (hA : w.views a = some A) (hB : w.views b = some B) (hab : a ≠ b)
    (hAp : A.parser = some pid) (hBp : B.parser = some pid)
    (hAv : A.isValid = true) (hBv : B.isValid = true)
    (hp : w.parsers pid = some p) (hL : p.L = some L) :
    A.refnum ≠ B.refnum ∧
    (∀ (o1 o2 o3 : ViewOp) (w' : World), o1.accesses a → o2.accesses b → o3.accesses a →
      w.steps cv [o1, o2, o3] = Except.ok w' →
      ∃ (p' : LuaParser) (L' : lua_State), w'.parsers pid = some p' ∧ p'.L = some L' ∧
        L'.resolved = if p.currentRef = A.refnum then A.refnum :: B.refnum :: L.resolved
          else A.refnum :: B.refnum :: A.refnum :: L.resolved) ∧
    (∀ (ops : List ViewOp) (w' : World), ops ≠ [] → (∀ o ∈ ops, ViewOp.accesses a o) →
      w.steps cv ops = Except.ok w' →
      ∃ (p' : LuaParser) (L' : lua_State), w'.parsers pid = some p' ∧ p'.L = some L' ∧
        L'.resolved = if p.currentRef = A.refnum then L.resolved
          else A.refnum :: L.resolved) := by
  have hinv := Reachable_inv cv w h
  have hne : A.refnum ≠ B.refnum :=
    hinv.distinct a b A B hA hB hab hAv hBv (by rw [hAp, hBp])
  refine ⟨hne, ?_, ?_⟩
  · intro o1 o2 o3 w' ha1 hb2 ha3 hs
    simp only [World.steps, bind, Except.bind] at hs
    cases h1 : w.step cv o1 with
    | error e => simp [h1] at hs
    | ok w1 =>
      simp only [h1] at hs
      cases h2 : w1.step cv o2 with
      | error e => simp [h2] at hs
      | ok w2 =>
        simp only [h2] at hs
        cases h3 : w2.step cv o3 with
        | error e => simp [h3] at hs
        | ok w3 =>
          simp only [h3, pure, Except.pure, Except.ok.injEq] at hs
          subst hs
          have hinv1 := Inv_step cv w w1 o1 hinv h1
          have hinv2 := Inv_step cv w1 w2 o2 hinv1 h2
          obtain ⟨p1, L1, hp1, hL1, hcur1, hres1, _, hkeep1⟩ :=
            step_accesses cv w w1 a pid A p L o1 hinv hA hAp hAv hp hL ha1 h1
          obtain ⟨p2, L2, hp2, hL2, hcur2, hres2, _, hkeep2⟩ :=
            step_accesses cv w1 w2 b pid B p1 L1 o2 hinv1 (hkeep1 b B hB) hBp hBv hp1 hL1 hb2 h2
          obtain ⟨p3, L3, hp3, hL3, hcur3, hres3, _, _⟩ :=
            step_accesses cv w2 w3 a pid A p2 L2 o3 hinv2 (hkeep2 a A (hkeep1 a A hA)) hAp hAv
              hp2 hL2 ha3 h3
          refine ⟨p3, L3, hp3, hL3, ?_⟩
          rw [hres3, hres2, hres1, hcur2, hcur1]
          simp only [hne, hne.symm, if_false]
          split <;> rfl
  · intro ops w' hops hall hs
    obtain ⟨p', L', hp', hL', hres⟩ :=
      steps_same_view cv ops w w' a pid A p L hinv hA hAp hAv hp hL hall hs
    refine ⟨p', L', hp', hL', ?_⟩
    rw [hres]
    cases ops with
    | nil => exact absurd rfl hops
    | cons o os => simp

theorem cache_resolutions_witness :
    World.Reachable decimalConv cachedWorld ∧
    cachedWorld.views 2 = some (cachedWorld.viewAt 2) ∧
    cachedWorld.views 1 = some (cachedWorld.viewAt 1) ∧
    (cachedWorld.viewAt 2).refnum = 3 ∧ (cachedWorld.viewAt 1).refnum = 2 ∧
    cachedWorld.mainParser.currentRef = 2 ∧
    ((cachedWorld.viewAt 2).refnum ≠ (cachedWorld.viewAt 1).refnum ∧
    (∀ (o1 o2 o3 : ViewOp) (w' : World), o1.accesses 2 → o2.accesses 1 → o3.accesses 2 →
      cachedWorld.steps decimalConv [o1, o2, o3] = Except.ok w' →
      ∃ (p' : LuaParser) (L' : lua_State), w'.parsers 0 = some p' ∧ p'.L = some L' ∧
        L'.resolved =
          if cachedWorld.mainParser.currentRef = (cachedWorld.viewAt 2).refnum then
            (cachedWorld.viewAt 2).refnum :: (cachedWorld.viewAt 1).refnum ::
              cachedWorld.mainVM.resolved
          else (cachedWorld.viewAt 2).refnum :: (cachedWorld.viewAt 1).refnum ::
            (cachedWorld.viewAt 2).refnum :: cachedWorld.mainVM.resolved) ∧
    (∀ (ops : List ViewOp) (w' : World), ops ≠ [] → (∀ o ∈ ops, ViewOp.accesses 2 o) →
      cachedWorld.steps decimalConv ops = Except.ok w' →
      ∃ (p' : LuaParser) (L' : lua_State), w'.parsers 0 = some p' ∧ p'.L = some L' ∧
        L'.resolved =
          if cachedWorld.mainParser.currentRef = (cachedWorld.viewAt 2).refnum then
            cachedWorld.mainVM.resolved
          else (cachedWorld.viewAt 2).refnum :: cachedWorld.mainVM.resolved)) :=
  ⟨exampleWorldAfter_reachable exampleOps cachedWorld rfl, rfl, rfl, rfl, rfl, rfl,
   cache_resolutions decimalConv cachedWorld
     (exampleWorldAfter_reachable exampleOps cachedWorld rfl) 2 1 0
     (cachedWorld.viewAt 2) (cachedWorld.viewAt 1) cachedWorld.mainParser cachedWorld.mainVM
     rfl rfl (by decide) rfl rfl rfl rfl rfl rfl⟩


/-! ### Release of references, the builder, well-formed views and accumulated output -/

/-- C21: an assignment between two views of one parser does not release the
reference the target held. In the example the view at 2 holds the reference 3 to the
table `nested` (address 6); after `view2 = view1` it holds the new reference 4 to
the root table, and the reference 3 still names the table 6 in the registry. After
both views are destroyed no view is registered, yet the registry names two tables:
the root table under the root reference 1 and the table 6 under the reference 3.
When the views are destroyed without the assignment, only the root reference is
left. The destructor of the view that holds the active marker (the root view, with
the reference 2) clears the marker and the stack. -/
theorem assignment_keeps_old_reference :
    exampleWorld.steps decimalConv assignOps = Except.ok (exampleWorldAfter assignOps) ∧
    (exampleWorldAfter (assignOps.take 2)).views 2 =
      some (LuaTable.mk true "ROOT.nested" (some 0) (some 0) 3) ∧
    rawget (exampleWorldAfter (assignOps.take 2)).mainVM.registry (LuaValue.number 3) =
      LuaValue.table 6 ∧
    (exampleWorldAfter (assignOps.take 3)).views 2 =
      some (LuaTable.mk true "ROOT" (some 0) (some 0) 4) ∧
    rawget (exampleWorldAfter (assignOps.take 3)).mainVM.registry (LuaValue.number 3) =
      LuaValue.table 6 ∧
    (exampleWorldAfter assignOps).views 1 = none ∧
    (exampleWorldAfter assignOps).views 2 = none ∧
    (exampleWorldAfter assignOps).mainParser.tables = [] ∧
    (exampleWorldAfter assignOps).mainParser.rootRef = 1 ∧
    tableEntries (exampleWorldAfter assignOps).mainVM.registry =
      [(LuaValue.number 1, LuaValue.table 5), (LuaValue.number 3, LuaValue.table 6)] ∧
    exampleWorld.steps decimalConv destroyOps = Except.ok (exampleWorldAfter destroyOps) ∧
    (exampleWorldAfter destroyOps).mainParser.tables = [] ∧
    tableEntries (exampleWorldAfter destroyOps).mainVM.registry =
      [(LuaValue.number 1, LuaValue.table 5)] ∧
    (exampleWorldAfter (assignOps.take 3)).mainParser.currentRef = 2 ∧
    (exampleWorldAfter (assignOps.take 4)).mainParser.currentRef = LUA_NOREF ∧
    (exampleWorldAfter (assignOps.take 4)).mainVM.stack = [] :=
  ⟨rfl, rfl, rfl, rfl, rfl, rfl, rfl, rfl, rfl, rfl, rfl, rfl, rfl, rfl, rfl, rfl⟩


/-- C22, the claim as stated fails for `AddFunc` with the NULL function: on a parser
with a live VM the call returns without inserting anything, at depth zero (the
globals stay empty) and inside an open table (the table `t` is inserted empty). -/
theorem builder_addFunc_null :
    exampleParser0.L = some emptyVM ∧
    exampleParser0.call (BuildOp.addFunc (Key.str "f") none) = Except.ok exampleParser0 ∧
    emptyVM.globals = [] ∧
    exampleParser0.calls [BuildOp.newTable (Key.str "t"), BuildOp.addFunc (Key.str "f") none,
        BuildOp.endTable] =
      Except.ok { exampleParser0 with
        L := some { emptyVM with heap := [[]],
                                 globals := [(LuaValue.string "t", LuaValue.table 0)] } } ∧
    exampleParser0.calls [BuildOp.newTable (Key.str "t"),
        BuildOp.addFunc (Key.str "f") (some 9), BuildOp.endTable] =
      Except.ok { exampleParser0 with
        L := some { emptyVM with heap := [[(LuaValue.string "f", LuaValue.func 9)]],
                                 globals := [(LuaValue.string "t", LuaValue.table 0)] } } :=
  ⟨rfl, rfl, rfl, rfl, rfl⟩


/-- C22, the claim as amended: on a parser with a live VM and depth zero, every
sequence of builder calls in which no prefix has more `EndTable` than `NewTable`
calls returns, and after each prefix the depth is the number of `NewTable` calls
minus the number of `EndTable` calls, the tables and globals of the VM are those of
the builder of the specification (`AddParam`, and `AddFunc` with a function, insert
their pair into the innermost open table or into the globals when none is open;
`AddFunc` with the NULL function inserts nothing; `EndTable` inserts the finished
table under its name or index into its parent or into the globals), the stack holds
the open tables with their names above the stack the builder found, and nothing
else of the parser or the VM changes. A prefix with as many `EndTable` as `NewTable`
calls ends with depth zero and the stack it found. On a parser whose VM handle is
NULL every sequence of builder calls returns the parser unchanged. -/
theorem builder_refines_specification (p : LuaParser) (L : lua_State) (ops : List BuildOp)
    (hL : p.L = some L) (hd : p.initDepth = 0)
    (hpre : ∀ pre, pre <+: ops → pre.countP BuildOp.isEnd ≤ pre.countP BuildOp.isNew) :
    (∀ pre, pre <+: ops →
      p.calls pre = Except.ok
        { p with
          initDepth := (pre.countP BuildOp.isNew : Int) - (pre.countP BuildOp.isEnd : Int),
          L := some { L with
            stack := BuilderSpec.stack L.stack ((BuilderSpec.init L).run pre).openTables,
            heap := ((BuilderSpec.init L).run pre).heap,
            globals := ((BuilderSpec.init L).run pre).globals } } ∧
      ((BuilderSpec.init L).run pre).openTables.length + pre.countP BuildOp.isEnd =
        pre.countP BuildOp.isNew ∧
      (pre.countP BuildOp.isNew = pre.countP BuildOp.isEnd →
        p.calls pre = Except.ok
          { p with
            initDepth := 0,
            L := some { L with
              stack := L.stack,
              heap := ((BuilderSpec.init L).run pre).heap,
              globals := ((BuilderSpec.init L).run pre).globals } })) ∧
    (∀ (q : LuaParser) (calls : List BuildOp), q.L = none → q.calls calls = Except.ok q) := by
  refine ⟨fun pre hp => ?_, fun q calls hq => calls_null calls q hq⟩
  have hpre' : ∀ pre', pre' <+: pre →
      pre'.countP BuildOp.isEnd ≤
        (BuilderSpec.init L).openTables.length + pre'.countP BuildOp.isNew := by
    intro pre' hp'
    simpa [BuilderSpec.init] using hpre pre' (hp'.trans hp)
  obtain ⟨hcalls, hlen⟩ := calls_refines pre p L (BuilderSpec.init L) L.stack hL rfl rfl rfl
    (by simp [hd, BuilderSpec.init]) (by simp [BuilderSpec.init]) hpre'
  have hlen' : ((BuilderSpec.init L).run pre).openTables.length + pre.countP BuildOp.isEnd =
      pre.countP BuildOp.isNew := by
    simpa [BuilderSpec.init] using hlen
  have hdepth : (((BuilderSpec.init L).run pre).openTables.length : Int) =
      (pre.countP BuildOp.isNew : Int) - (pre.countP BuildOp.isEnd : Int) := by
    omega
  refine ⟨by rw [hcalls, hdepth], hlen', fun hbal => ?_⟩
  have hnil : ((BuilderSpec.init L).run pre).openTables = [] := by
    apply List.eq_nil_of_length_eq_zero
    omega
  rw [hcalls, hnil]
  rfl

theorem builder_refines_specification_witness :
    exampleParser0.L = some emptyVM ∧ exampleParser0.initDepth = 0 ∧
    (∀ pre, pre <+: exampleCalls →
      pre.countP BuildOp.isEnd ≤ pre.countP BuildOp.isNew) ∧
    exampleParser0.calls exampleCalls = Except.ok
      { exampleParser0 with
        L := some { emptyVM with
          heap := [[(LuaValue.string "name", LuaValue.string "unit"),
                    (LuaValue.number 1, LuaValue.table 1),
                    (LuaValue.string "on", LuaValue.boolean true)],
                   [(LuaValue.number 1, LuaValue.number 2),
                    (LuaValue.string "f", LuaValue.func 9)]],
          globals := [(LuaValue.string "Defs", LuaValue.table 0),
                      (LuaValue.string "g", LuaValue.number 3)] } } ∧
    ((∀ pre, pre <+: exampleCalls →
      exampleParser0.calls pre = Except.ok
        { exampleParser0 with
          initDepth := (pre.countP BuildOp.isNew : Int) - (pre.countP BuildOp.isEnd : Int),
          L := some { emptyVM with
            stack := BuilderSpec.stack emptyVM.stack
              ((BuilderSpec.init emptyVM).run pre).openTables,
            heap := ((BuilderSpec.init emptyVM).run pre).heap,
            globals := ((BuilderSpec.init emptyVM).run pre).globals } } ∧
      ((BuilderSpec.init emptyVM).run pre).openTables.length + pre.countP BuildOp.isEnd =
        pre.countP BuildOp.isNew ∧
      (pre.countP BuildOp.isNew = pre.countP BuildOp.isEnd →
        exampleParser0.calls pre = Except.ok
          { exampleParser0 with
            initDepth := 0,
            L := some { emptyVM with
              stack := emptyVM.stack,
              heap := ((BuilderSpec.init emptyVM).run pre).heap,
              globals := ((BuilderSpec.init emptyVM).run pre).globals } })) ∧
    (∀ (q : LuaParser) (calls : List BuildOp), q.L = none → q.calls calls = Except.ok q)) :=
  ⟨rfl, rfl, prefix_of_take exampleCalls _ (by decide), by rfl,
   builder_refines_specification exampleParser0 emptyVM exampleCalls rfl rfl
     (prefix_of_take exampleCalls _ (by decide))⟩

/-- C23, the claim as stated fails inside the constructor of the root view, which
sets the validity flag before it holds a reference and then calls `PushTable`.
Before any `Execute()` the flag is true while the reference is `LUA_NOREF`, and
`PushTable` clears the flag without a fault. After an `Execute()` that failed the
flag is true while the VM pointer is NULL, and `PushTable` dereferences it. -/
theorem root_constructor_flag_before_reference :
    (LuaTable.mk true "ROOT" (some 0) (some 0) LUA_NOREF).PushTable exampleParser0 =
      Except.ok (false, LuaTable.mk false "ROOT" (some 0) (some 0) LUA_NOREF,
        { exampleParser0 with L := some { emptyVM with resolved := [LUA_NOREF] } }) ∧
    LuaParser.Execute missingFileEnv 0 exampleParser0 none =
      Except.ok (false, failedParser, none) ∧
    failedParser.L = none ∧
    (LuaTable.mk true "ROOT" (some 0) none LUA_NOREF).PushTable failedParser =
      Except.error Fault.nullPointer ∧
    LuaTable.ofParser decimalConv 1 0 failedParser = Except.error Fault.nullPointer :=
  ⟨rfl, rfl, rfl, rfl, rfl⟩

/-- C23, the claim as amended: in every program reachable after successful
`Execute()` calls through operations on views, a view whose validity flag is true
has a parser pointer, the parser is alive with an open VM, the VM pointer of the view
is that VM, and its reference is not `LUA_NOREF` and names a table in the registry;
`PushTable` on it returns true. A view whose flag is false holds `LUA_NOREF`, and
`PushTable` on it returns false without touching any pointer. The constructor of the
root view, which calls `PushTable` on a view it has not finished, returns a valid
view for every parser of such a program. -/
theorem valid_views_wellformed (cv : NumConv) (w : World) (h : World.Reachable cv w)
    (v : Nat) (t : LuaTable) (hv : w.views v = some t) :
    (t.isValid = true →
      ∃ (pid : Nat) (p : LuaParser) (L : lua_State) (a : Nat),
        t.parser = some pid ∧ t.L = some pid ∧ w.parsers pid = some p ∧ p.L = some L ∧
        t.refnum ≠ LUA_NOREF ∧
        rawget L.registry (LuaValue.number t.refnum) = LuaValue.table a ∧
        t.PushTable p = Except.ok (true, t, p.pushed t L)) ∧
    (t.isValid = false →
      t.refnum = LUA_NOREF ∧ ∀ q : LuaParser, t.PushTable q = Except.ok (false, t, q)) ∧
    (∀ (pid self : Nat) (p : LuaParser), w.parsers pid = some p →
      ∃ r : LuaTable × LuaParser, LuaParser.GetRoot cv self pid p = Except.ok r ∧
        r.1.isValid = true ∧ r.1.parser = some pid ∧ r.1.L = some pid ∧
        r.1.refnum ≠ LUA_NOREF) := by
  have hinv := Reachable_inv cv w h
  refine ⟨fun hval => ?_, fun hval => ⟨(hinv.view v t hv).invalid hval,
    fun q => PushTable_invalid t q hval⟩, fun pid self p hp => ?_⟩
  rotate_left
  · have hpok := hinv.parser pid p hp
    obtain ⟨L, hL⟩ := hpok.vm
    obtain ⟨fl, hfl⟩ := hpok.freeList L hL
    obtain ⟨b, hb⟩ := hpok.root L hL
    obtain ⟨ref, reg, M, rest, _, _, heq, hpos, _⟩ :=
      GetRoot_names cv self pid p L fl b hL hfl (hpok.cache L hL) hb
    refine ⟨_, heq, rfl, rfl, rfl, ?_⟩
    intro e
    simp only at e
    rw [e] at hpos
    simp [LUA_NOREF] at hpos
  rcases Inv_view w hinv v t hv with ⟨_, _, hval', _⟩ |
    ⟨pid, p, L, hpar, hl, hp, hL, _, hcase⟩
  · rw [hval] at hval'; cases hval'
  · rcases hcase with ⟨hval', _⟩ | ⟨_, href, _, a, hn⟩
    · rw [hval] at hval'; cases hval'
    · exact ⟨pid, p, L, a, hpar, hl, hp, hL, href, hn.names, PushTable_names t p L a hn⟩

theorem valid_views_wellformed_witness :
    World.Reachable decimalConv cachedWorld ∧
    cachedWorld.views 2 = some (LuaTable.mk true "ROOT.nested" (some 0) (some 0) 3) ∧
    ((LuaTable.mk true "ROOT.nested" (some 0) (some 0) 3).isValid = true →
      ∃ (pid : Nat) (p : LuaParser) (L : lua_State) (a : Nat),
        (LuaTable.mk true "ROOT.nested" (some 0) (some 0) 3).parser = some pid ∧
        (LuaTable.mk true "ROOT.nested" (some 0) (some 0) 3).L = some pid ∧
        cachedWorld.parsers pid = some p ∧ p.L = some L ∧
        (LuaTable.mk true "ROOT.nested" (some 0) (some 0) 3).refnum ≠ LUA_NOREF ∧
        rawget L.registry
          (LuaValue.number (LuaTable.mk true "ROOT.nested" (some 0) (some 0) 3).refnum) =
            LuaValue.table a ∧
        (LuaTable.mk true "ROOT.nested" (some 0) (some 0) 3).PushTable p =
          Except.ok (true, LuaTable.mk true "ROOT.nested" (some 0) (some 0) 3,
            p.pushed (LuaTable.mk true "ROOT.nested" (some 0) (some 0) 3) L)) ∧
    ((LuaTable.mk true "ROOT.nested" (some 0) (some 0) 3).isValid = false →
      (LuaTable.mk true "ROOT.nested" (some 0) (some 0) 3).refnum = LUA_NOREF ∧
      ∀ q : LuaParser, (LuaTable.mk true "ROOT.nested" (some 0) (some 0) 3).PushTable q =
        Except.ok (false, LuaTable.mk true "ROOT.nested" (some 0) (some 0) 3, q)) ∧
    (∀ (pid self : Nat) (p : LuaParser), cachedWorld.parsers pid = some p →
      ∃ r : LuaTable × LuaParser, LuaParser.GetRoot decimalConv self pid p = Except.ok r ∧
        r.1.isValid = true ∧ r.1.parser = some pid ∧ r.1.L = some pid ∧
        r.1.refnum ≠ LUA_NOREF) :=
  ⟨exampleWorldAfter_reachable exampleOps cachedWorld rfl, rfl,
   valid_views_wellformed decimalConv cachedWorld
     (exampleWorldAfter_reachable exampleOps cachedWorld rfl) 2
     (LuaTable.mk true "ROOT.nested" (some 0) (some 0) 3) rfl⟩

end Spring
